import Mathlib

/-!
# evm-grid-bot: transaction execution substrate

A shallow embedding of the nonce coordinator (`internal/eth/nonce_manager.go`,
`internal/model/nonce.go`) and of the unit / ABI utilities
(`internal/utils/evm/util.go`), followed by the properties proved about them.

Conventions of the embedding:

* Go strings are lists of characters, Go byte slices are lists of `Fin 256`.
* `uint64` values are natural numbers, with `% 2 ^ 64` where Go arithmetic wraps.
* A function that can panic returns `Option`; `none` is the panic.
* A function returning `(value, error)` returns `Except`.
* The results of calls that leave the process (chain RPC, the `consume` callback, faults of
  the durable store) are inputs of the embedding.
-/

set_option autoImplicit false

namespace EvmGridBot

/-! ## Definitions -/

/-! ### Bytes, hex strings and addresses (`encoding/hex`, go-ethereum `common`) -/

/-- One byte. -/
abbrev Byte := Fin 256

/-- Keccak-256 is not modelled; the digest function is a parameter wherever the checksummed
hex form of an address is computed. -/
abbrev Keccak := List Byte → List Byte

/-- The type `common.Address`: exactly twenty bytes. -/
structure Address where
  bytes : List Byte
  size : bytes.length = 20
deriving DecidableEq

/-- The digit table of `encoding/hex`. -/
def hextable : List Char :=
  ['0', '1', '2', '3', '4', '5', '6', '7', '8', '9', 'a', 'b', 'c', 'd', 'e', 'f']

/-- The function `hex.Encode`: two lower-case digits per byte. -/
def hexEncode : List Byte → List Char
  | [] => []
  | v :: rest =>
    hextable.getD (v.val / 16) '0' :: hextable.getD (v.val % 16) '0' :: hexEncode rest

/-- The reverse table of `encoding/hex`: the value of one hex digit, `none` for any other
character. -/
def fromHexChar (c : Char) : Option Nat :=
  if '0' ≤ c ∧ c ≤ '9' then some (c.toNat - '0'.toNat)
  else if 'a' ≤ c ∧ c ≤ 'f' then some (c.toNat - 'a'.toNat + 10)
  else if 'A' ≤ c ∧ c ≤ 'F' then some (c.toNat - 'A'.toNat + 10)
  else none

/-- The function `common.Hex2Bytes`: `hex.DecodeString` with its error dropped, so the
result is the bytes decoded before the first invalid digit (or dangling digit). -/
def Hex2Bytes : List Char → List Byte
  | p :: q :: rest =>
    match fromHexChar p, fromHexChar q with
    | some a, some b => Fin.ofNat (a * 16 + b) :: Hex2Bytes rest
    | _, _ => []
  | _ => []

/-- The function `common.FromHex`: optional `0x` prefix, odd lengths padded with a zero. -/
def FromHex (s : List Char) : List Byte :=
  let s1 :=
    match s with
    | '0' :: 'x' :: rest => rest
    | '0' :: 'X' :: rest => rest
    | _ => s
  let s2 := if s1.length % 2 = 1 then '0' :: s1 else s1
  Hex2Bytes s2

/-- The function `common.BytesToAddress`: the last twenty bytes, left-padded with zeros. -/
def BytesToAddress (b : List Byte) : Address :=
  let b1 := if 20 < b.length then b.drop (b.length - 20) else b
  ⟨List.replicate (20 - b1.length) 0 ++ b1, by
    simp only [List.length_append, List.length_replicate]
    have h : b1.length ≤ 20 := by
      show (if 20 < b.length then b.drop (b.length - 20) else b).length ≤ 20
      split
      · simp only [List.length_drop]; omega
      · omega
    omega⟩

/-- The function `common.HexToAddress`. -/
def HexToAddress (s : List Char) : Address :=
  BytesToAddress (FromHex s)

/-- The loop of `Address.checksumHex` over the forty lower-case digits: digit `i` is
upper-cased when it is a letter and nibble `i` of the digest exceeds seven. -/
def checksumLoop (hash : List Byte) : Nat → List Char → List Char
  | _, [] => []
  | i, c :: cs =>
    let hashByte := (hash.getD (i / 2) 0).val
    let nibble := if i % 2 = 0 then hashByte / 16 else hashByte % 16
    (if '9' < c ∧ 7 < nibble then Char.ofNat (c.toNat - 32) else c)
      :: checksumLoop hash (i + 1) cs

/-- The method `Address.Hex`: the EIP-55 checksummed hex string. -/
def Address.Hex (keccak : Keccak) (a : Address) : List Char :=
  let buf := hexEncode a.bytes
  let hash := keccak (buf.map fun c => Fin.ofNat c.toNat)
  '0' :: 'x' :: checksumLoop hash 0 buf

/-! ### Nonce coordinator (`internal/model/nonce.go`, `internal/eth/nonce_manager.go`) -/

/-- Errors, as far as the code tells them apart. -/
inductive Err where
  /-- The error for which `ent.IsNotFound` holds. -/
  | notFound
  /-- A violated unique constraint of the store. -/
  | constraint
  /-- Any other error (RPC, store, signing, ...), identified by a tag. -/
  | other (tag : Nat)
  /-- The error `dexagg.ErrInsufficientBalance`. -/
  | insufficientBalance
  /-- The error "price too low" of `SellToken`. -/
  | priceTooLow
deriving DecidableEq, Repr

/-- The predicate `ent.IsNotFound`. -/
def Err.isNotFound : Err → Bool
  | .notFound => true
  | _ => false

/-- A row of the `nonce` table (schema `Nonce`): the unique `account` column and the
`nonce` column. The id and the time mixin columns are not modelled. -/
structure NonceRecord where
  account : List Char
  nonce : Nat
deriving DecidableEq, Repr

/-- The `nonce` table. -/
abbrev NonceTable := List NonceRecord

/-- The column value every `NonceModel` method uses: `common.HexToAddress(account).Hex()`. -/
def NonceModel.key (keccak : Keccak) (account : List Char) : List Char :=
  (HexToAddress account).Hex keccak

/-- The method `NonceModel.FindOne`: the first row of the account, `notFound` without one.
`fault` is a failure of the store itself, if any. -/
def NonceModel.FindOne (keccak : Keccak) (t : NonceTable) (fault : Option Nat)
    (account : List Char) : Except Err NonceRecord :=
  match fault with
  | some e => .error (.other e)
  | none =>
    match t.find? (fun r => r.account = NonceModel.key keccak account) with
    | some r => .ok r
    | none => .error .notFound

/-- The method `NonceModel.Save`: insert a row; the unique constraint on `account` rejects a
second row of one account. Returns the table after the call. -/
def NonceModel.Save (keccak : Keccak) (t : NonceTable) (fault : Option Nat)
    (account : List Char) (n : Nat) : Except Err NonceTable :=
  match fault with
  | some e => .error (.other e)
  | none =>
    if t.any (fun r => r.account = NonceModel.key keccak account) then .error .constraint
    else .ok (t ++ [⟨NonceModel.key keccak account, n⟩])

/-- The method `NonceModel.UpdateNonce`: set the nonce of every row of the account. Returns
the table after the call. -/
def NonceModel.UpdateNonce (keccak : Keccak) (t : NonceTable) (fault : Option Nat)
    (account : List Char) (newValue : Nat) : Except Err NonceTable :=
  match fault with
  | some e => .error (.other e)
  | none =>
    .ok (t.map fun r =>
      if r.account = NonceModel.key keccak account then { r with nonce := newValue } else r)

/-- What one call of `Request` meets outside the process. -/
structure RequestEnv where
  /-- Result of `ethClient.PendingNonceAt`. -/
  pendingNonceAt : Except Err Nat
  /-- Failure of the store on the `FindOne` query, if any. -/
  findFault : Option Nat
  /-- The callback `consume` (its hash result or its error, per nonce). -/
  consume : Nat → Except Err (List Char)
  /-- Failure of the store on `Save` / `UpdateNonce`, if any. -/
  persistFault : Option Nat

/-- What one call of `Request` does: the error it returns (`none` is `nil`), the nonces it
passed to `consume`, and the table it leaves. -/
structure RequestResult where
  err : Option Err
  consumed : List Nat
  table : NonceTable

/-- The method `NonceManager.Request`, run under the account's lock (calls of one account
are therefore sequential; the lock table itself is not modelled). -/
def NonceManager.Request (keccak : Keccak) (env : RequestEnv) (t : NonceTable)
    (account : Address) : RequestResult :=
  match env.pendingNonceAt with
  | .error err => ⟨some err, [], t⟩
  | .ok nextNonce =>
    match NonceModel.FindOne keccak t env.findFault (account.Hex keccak) with
    | .ok storedNonce =>
      let nextNonce :=
        if storedNonce.nonce ≥ nextNonce then (storedNonce.nonce + 1) % 2 ^ 64 else nextNonce
      match env.consume nextNonce with
      | .error err => ⟨some err, [nextNonce], t⟩
      | .ok _ =>
        match NonceModel.UpdateNonce keccak t env.persistFault (account.Hex keccak) nextNonce with
        | .ok t2 => ⟨none, [nextNonce], t2⟩
        | .error _ => ⟨none, [nextNonce], t⟩
    | .error findErr =>
      if !findErr.isNotFound then ⟨some findErr, [], t⟩
      else
        match env.consume nextNonce with
        | .error err => ⟨some err, [nextNonce], t⟩
        | .ok _ =>
          match NonceModel.Save keccak t env.persistFault (account.Hex keccak) nextNonce with
          | .ok t2 => ⟨none, [nextNonce], t2⟩
          | .error _ => ⟨none, [nextNonce], t⟩

/-- Successive calls of `Request` for one account, each on the table the previous call left;
the result lists what each call did. -/
def NonceManager.RequestSeq (keccak : Keccak) (account : Address) :
    List RequestEnv → NonceTable → List RequestResult
  | [], _ => []
  | env :: envs, t =>
    let r := NonceManager.Request keccak env t account
    r :: NonceManager.RequestSeq keccak account envs r.table

/-- The `lastIssuedNonce` stored for an account, if it has a row. -/
def storedNonce (keccak : Keccak) (t : NonceTable) (account : Address) : Option Nat :=
  match NonceModel.FindOne keccak t none (account.Hex keccak) with
  | .ok r => some r.nonce
  | .error _ => none

/-- The rows of all accounts but one. -/
def otherRows (keccak : Keccak) (t : NonceTable) (account : Address) : NonceTable :=
  t.filter fun r => r.account ≠ account.Hex keccak

/-- The table `UpdateNonce` leaves. -/
def updatedTable (keccak : Keccak) (t : NonceTable) (account : Address) (n : Nat) :
    NonceTable :=
  t.map fun r => if r.account = account.Hex keccak then { r with nonce := n } else r

/-- The candidate nonce of a call that found the row `r`. -/
def candidateOf (r : NonceRecord) (c : Nat) : Nat :=
  if r.nonce ≥ c then (r.nonce + 1) % 2 ^ 64 else c

/-- The nonce `Request` passes to `consume`, from the stored `lastIssuedNonce` (if a row
exists) and the chain-reported pending nonce `c`. -/
def candidateNonce (stored : Option Nat) (c : Nat) : Nat :=
  match stored with
  | some s => if s ≥ c then (s + 1) % 2 ^ 64 else c
  | none => c

/-- A digest function for worked examples; the results do not depend on the digest. -/
def sampleKeccak : Keccak := fun _ => List.replicate 32 0

/-- An account for worked examples. -/
def sampleAccount : Address := ⟨List.replicate 20 0x11, by decide⟩

/-- A second account for worked examples. -/
def otherAccount : Address := ⟨List.replicate 20 0x22, by decide⟩

/-- An environment in which the chain reports `c` and nothing fails. -/
def calmEnv (c : Nat) : RequestEnv :=
  ⟨.ok c, none, fun _ => .ok [], none⟩

/-- An environment in which the chain reports `c` and `consume` fails. -/
def rejectingEnv (c : Nat) : RequestEnv :=
  ⟨.ok c, none, fun _ => .error (.other 7), none⟩

/-- An environment in which the chain query fails. -/
def offlineEnv : RequestEnv :=
  ⟨.error (.other 3), none, fun _ => .ok [], none⟩

/-! ### Integers as decimal strings (`math/big`) -/

/-- The method `(*big.Int).String` (base ten): a minus sign for negative values, then the
decimal digits of the absolute value. -/
def bigString (x : Int) : List Char :=
  if x < 0 then '-' :: Nat.toDigits 10 x.natAbs else Nat.toDigits 10 x.natAbs

/-- The digit loop of `nat.scan` for base ten without fraction: consume decimal digits,
stop (leaving the rest unread) at the first other character. Returns the number read, the
count of digits, and the unread rest. -/
def natScan : Nat → Nat → List Char → Nat × Nat × List Char
  | acc, count, [] => (acc, count, [])
  | acc, count, c :: cs =>
    if '0' ≤ c ∧ c ≤ '9' then natScan (acc * 10 + (c.toNat - '0'.toNat)) (count + 1) cs
    else (acc, count, c :: cs)

/-- The method `(*big.Int).SetString(s, 10)` as `math/big` implements it: the receiver after
the call and the success flag. An optional sign and the leading digits are scanned into the
receiver first; only then is the rest of the input checked to be empty. So on an input such
as `1.5` the call fails while the receiver already holds `1`. (The documentation leaves the
receiver unspecified on failure; this is what the implementation does.) With no digit at all
the receiver's magnitude is reset to zero; on empty input the receiver is untouched. -/
def bigSetString (z : Int) (s : List Char) : Int × Bool :=
  match s with
  | [] => (z, false)
  | c :: cs =>
    let neg := decide (c = '-')
    let body := if c = '-' ∨ c = '+' then cs else c :: cs
    match natScan 0 0 body with
    | (abs, count, rest) =>
      if count = 0 then (0, false)
      else ((if neg then -(abs : Int) else (abs : Int)), rest.isEmpty)

/-! ### Decimals (`github.com/shopspring/decimal`) -/

/-- The type `decimal.Decimal`: the number `value * 10 ^ exp`, `exp` an `int32`. -/
structure Decimal where
  value : Int
  exp : Int
deriving DecidableEq, Repr

/-- Largest `int32`. -/
def maxInt32 : Int := 2147483647

/-- Smallest `int32`. -/
def minInt32 : Int := -2147483648

/-- An `int32` result of Go arithmetic that wraps silently. -/
def wrap32 (x : Int) : Int := (x + 2147483648) % 4294967296 - 2147483648

/-- The zero value `Decimal{}`. -/
def Decimal.zero : Decimal := ⟨0, 0⟩

/-- The function `decimal.New`. -/
def Decimal.New (value : Int) (exp : Int) : Decimal := ⟨value, exp⟩

/-- The function `decimal.NewFromInt32`. -/
def Decimal.NewFromInt32 (v : Int) : Decimal := ⟨v, 0⟩

/-- The value of `decimal.NewFromFloat(float64(10))`: the shortest decimal form of the float
is the digit `1` with the point after two places, which the library stores as `1 * 10 ^ 1`.
The float conversion itself is not modelled. -/
def Decimal.NewFromFloat10 : Decimal := ⟨1, 1⟩

/-- The function `decimal.NewFromString` on a string with neither an exponent marker nor a
decimal point: the string is parsed as an integer, with exponent zero. Other strings are
outside the modelled fragment and reported as an error (the only caller passes the decimal
rendering of an integer). -/
def Decimal.NewFromString (s : List Char) : Except Err Decimal :=
  if s.any (fun c => c = 'e' ∨ c = 'E' ∨ c = '.') then .error (.other 0)
  else
    match bigSetString 0 s with
    | (v, true) => .ok ⟨v, 0⟩
    | (_, false) => .error (.other 1)

/-- The method `Decimal.Sign`. -/
def Decimal.Sign (d : Decimal) : Int := d.value.sign

/-- The method `Decimal.Abs`. -/
def Decimal.Abs (d : Decimal) : Decimal := ⟨|d.value|, d.exp⟩

/-- The method `Decimal.Neg`. -/
def Decimal.Neg (d : Decimal) : Decimal := ⟨-d.value, d.exp⟩

/-- The method `Decimal.rescale`: the same number at another exponent, truncated toward zero
when digits are dropped. -/
def Decimal.rescale (d : Decimal) (exp : Int) : Decimal :=
  if d.exp = exp then d
  else
    let diff := (exp - d.exp).natAbs
    let expScale : Int := 10 ^ diff
    if exp > d.exp then ⟨d.value.tdiv expScale, exp⟩ else ⟨d.value * expScale, exp⟩

/-- The function `decimal.RescalePair`: both numbers at the smaller exponent. -/
def Decimal.RescalePair (d1 d2 : Decimal) : Decimal × Decimal :=
  if d1.exp < d2.exp then (d1, d2.rescale d1.exp)
  else if d1.exp > d2.exp then (d1.rescale d2.exp, d2)
  else (d1, d2)

/-- The method `(*big.Int).Cmp`. -/
def bigCmp (a b : Int) : Int := if a < b then -1 else if a = b then 0 else 1

/-- The method `Decimal.Cmp`. -/
def Decimal.Cmp (d d2 : Decimal) : Int :=
  if d.exp = d2.exp then bigCmp d.value d2.value
  else bigCmp (Decimal.RescalePair d d2).1.value (Decimal.RescalePair d d2).2.value

/-- The method `Decimal.Add`. -/
def Decimal.Add (d d2 : Decimal) : Decimal :=
  ⟨(Decimal.RescalePair d d2).1.value + (Decimal.RescalePair d d2).2.value,
    (Decimal.RescalePair d d2).1.exp⟩

/-- The method `Decimal.Sub`. -/
def Decimal.Sub (d d2 : Decimal) : Decimal :=
  ⟨(Decimal.RescalePair d d2).1.value - (Decimal.RescalePair d d2).2.value,
    (Decimal.RescalePair d d2).1.exp⟩

/-- The method `Decimal.Mul`; panics when the sum of the exponents leaves `int32`. -/
def Decimal.Mul (d d2 : Decimal) : Option Decimal :=
  let expInt64 := d.exp + d2.exp
  if expInt64 > maxInt32 ∨ expInt64 < minInt32 then none
  else some ⟨d.value * d2.value, expInt64⟩

/-- The method `Decimal.QuoRem`: quotient with `precision` fractional digits and the
remainder, both truncated toward zero; panics on a zero divisor and when the exponent
difference leaves `int32`. -/
def Decimal.QuoRem (d d2 : Decimal) (precision : Int) : Option (Decimal × Decimal) :=
  if d2.value.sign = 0 then none
  else
    let scale := wrap32 (-precision)
    let e := d.exp - d2.exp - scale
    if e > maxInt32 ∨ e < minInt32 then none
    else
      let aa : Int := if e < 0 then d.value else d.value * 10 ^ e.toNat
      let bb : Int := if e < 0 then d2.value * 10 ^ (-e).toNat else d2.value
      let scalerest := if e < 0 then d.exp else wrap32 (scale + d2.exp)
      some (⟨aa.tdiv bb, scale⟩, ⟨aa.tmod bb, scalerest⟩)

/-- The method `Decimal.DivRound`: division rounded half away from zero at `precision`
fractional digits. -/
def Decimal.DivRound (d d2 : Decimal) (precision : Int) : Option Decimal := do
  let (q, r) ← d.QuoRem d2 precision
  let rv2 : Int := |r.value| * 2
  let r2 : Decimal := ⟨rv2, wrap32 (r.exp + precision)⟩
  let c := r2.Cmp d2.Abs
  if c < 0 then pure q
  else if d.value.sign * d2.value.sign < 0 then pure (q.Sub (Decimal.New 1 (wrap32 (-precision))))
  else pure (q.Add (Decimal.New 1 (wrap32 (-precision))))

/-- The method `Decimal.Truncate`. -/
def Decimal.Truncate (d : Decimal) (precision : Int) : Decimal :=
  if precision ≥ 0 ∧ wrap32 (-precision) > d.exp then d.rescale (wrap32 (-precision)) else d

/-- The loop of `Decimal.powBigIntWithPrecision`: square-and-multiply over the bits of the
exponent `e`. `fuel` bounds the iterations; `none` is a panic of `Mul` (or exhausted
fuel). -/
def Decimal.powLoop : Nat → Nat → Decimal → Decimal → Option Decimal
  | 0, e, _, result => if e = 0 then some result else none
  | fuel + 1, e, n, result =>
    if e = 0 then some result
    else do
      let result ← if e % 2 = 1 then result.Mul n else some result
      let n ← if e / 2 > 0 then n.Mul n else some n
      Decimal.powLoop fuel (e / 2) n result

/-- The method `Decimal.PowBigInt` (precision 16 for a negative exponent). -/
def Decimal.PowBigInt (d : Decimal) (exp : Int) : Option Decimal := do
  let result ← Decimal.powLoop exp.natAbs exp.natAbs d (Decimal.New 1 0)
  if exp < 0 then (Decimal.New 1 0).DivRound result 16 else pure result

/-- The method `Decimal.Pow` for an exponent without fractional part. A zero base gives
zero (also the library's placeholder for the undefined cases); a zero exponent gives one;
otherwise the integer power. An exponent with a fractional part (computed by the library
through `Ln` and `ExpTaylor`) is outside the modelled fragment and gives `none`. -/
def Decimal.Pow (d d2 : Decimal) : Option Decimal :=
  if d.Sign = 0 then some Decimal.zero
  else if d2.Sign = 0 then some ⟨1, 0⟩
  else do
    let (expIntPart, expFracPart) ← d2.QuoRem ⟨1, 0⟩ 0
    if expFracPart.value = 0 then d.PowBigInt expIntPart.value else none

/-- The loop of `Decimal.string` that drops the trailing zeros of the fractional part. -/
def trimTrailingZeros (s : List Char) : List Char :=
  (s.reverse.dropWhile (fun c => c = '0')).reverse

/-- The method `Decimal.String`: plain (never scientific) notation, trailing zeros of the
fractional part trimmed. -/
def Decimal.String (d : Decimal) : List Char :=
  if d.exp ≥ 0 then bigString (d.rescale 0).value
  else
    let str := Nat.toDigits 10 d.value.natAbs
    let k := (-d.exp).toNat
    let intPart := if str.length > k then str.take (str.length - k) else ['0']
    let fractionalPart :=
      trimTrailingZeros
        (if str.length > k then str.drop (str.length - k)
          else List.replicate (k - str.length) '0' ++ str)
    let number := if fractionalPart.length > 0 then intPart ++ '.' :: fractionalPart else intPart
    if d.value < 0 then '-' :: number else number

/-! ### Unit conversion (`internal/utils/evm/util.go`) -/

/-- The function `ParseUnits`; `decimals` is a `uint8`. `none` is a panic of the decimal
library. -/
def ParseUnits (value : Int) (decimals : Nat) : Option Decimal := do
  let mul ← Decimal.NewFromFloat10.Pow (Decimal.NewFromInt32 decimals)
  let num :=
    match Decimal.NewFromString (bigString value) with
    | .ok d => d
    | .error _ => Decimal.zero
  let result ← num.DivRound mul decimals
  pure (result.Truncate decimals)

/-- The function `ParseETH`. -/
def ParseETH (value : Int) : Option Decimal := ParseUnits value 18

/-- The function `FormatUnits`; `decimals` is a `uint8`. The result is the receiver `wei`
after `SetString`, whose success flag the code does not look at. `none` is a panic of the
decimal library. -/
def FormatUnits (amount : Decimal) (decimals : Nat) : Option Int := do
  let mul ← Decimal.NewFromFloat10.Pow (Decimal.NewFromInt32 decimals)
  let result ← amount.Mul mul
  pure (bigSetString 0 result.String).1

/-- The function `FormatETH`. -/
def FormatETH (amount : Decimal) : Option Int := FormatUnits amount 18

/-- The number a decimal stands for. -/
def Decimal.toRat (d : Decimal) : ℚ := d.value * (10 : ℚ) ^ d.exp

/-- Truncation of a rational toward zero. -/
def truncTowardZero (q : ℚ) : Int := if 0 ≤ q then ⌊q⌋ else ⌈q⌉

/-- The number a string of decimal digits stands for (the accumulation of `natScan`). -/
def digitsValue (s : List Char) : Nat :=
  s.foldl (fun acc c => acc * 10 + (c.toNat - '0'.toNat)) 0

/-- A decimal digit. -/
def isDecDigit (c : Char) : Prop := '0' ≤ c ∧ c ≤ '9'

instance (c : Char) : Decidable (isDecDigit c) := by
  unfold isDecDigit; infer_instance

/-! ### ERC-20 `approve` call data (`internal/utils/evm/util.go`, go-ethereum `accounts/abi`) -/

/-- Errors of the two `approve` helpers. -/
inductive AbiErr where
  /-- Encoding: "spender address cannot be empty". -/
  | emptySpender
  /-- Encoding: "amount cannot be nil". -/
  | nilAmount
  /-- Decoding: "input data too short". -/
  | inputTooShort
  /-- Decoding: "input data is not for approve function". -/
  | notApprove
  /-- Decoding: "failed to unpack approve input", the arguments being empty. -/
  | unpackEmpty
  /-- Decoding: "failed to unpack approve input", the arguments being shorter than the word
  that ends at offset `required`. -/
  | unpackShort (required : Nat)
  /-- Decoding: "expected 2 parameters". -/
  | wrongCount
  /-- Decoding: "failed to parse spender address". -/
  | notAddress
  /-- Decoding: "failed to parse amount". -/
  | notAmount
deriving DecidableEq, Repr

/-- Modelled from the spec: the package variable `ERC20ABI` is declared outside the files at
hand; its method `approve` is the standard `approve(address,uint256)`, whose 4-byte selector
(the head of the Keccak-256 digest of that signature) is `0x095ea7b3`. -/
def approveMethodID : List Byte := [0x09, 0x5e, 0xa7, 0xb3]

/-- Big-endian bytes of a number at a fixed width (the low `width` bytes). -/
def bigEndian : Nat → Nat → List Byte
  | 0, _ => []
  | width + 1, n => bigEndian width (n / 256) ++ [Fin.ofNat n]

/-- The function `math.U256Bytes`: the number reduced into 256 bits (`x.And(x, 2^256 - 1)`,
two's complement for a negative `x`) as 32 big-endian bytes. -/
def U256Bytes (x : Int) : List Byte :=
  bigEndian 32 (x % 2 ^ 256).toNat

/-- The method `(*big.Int).SetBytes`: the big-endian unsigned number of a byte slice. -/
def SetBytes (b : List Byte) : Nat :=
  b.foldl (fun acc x => acc * 256 + x.val) 0

/-- The function `common.LeftPadBytes`. -/
def LeftPadBytes (slice : List Byte) (l : Nat) : List Byte :=
  if l ≤ slice.length then slice else List.replicate (l - slice.length) 0 ++ slice

/-- The call `ERC20ABI.Pack("approve", spender, amount)`: the selector, the address
left-padded to a word, the amount as a 256-bit word. With an address and a `*big.Int` as
arguments the type checks of `Pack` pass, so no error arises. -/
def packApprove (spender : Address) (amount : Int) : List Byte :=
  approveMethodID ++ (LeftPadBytes spender.bytes 32 ++ U256Bytes amount)

/-- The function `EncodeERC20ApproveInput`; `amount = none` is the `nil` pointer. -/
def EncodeERC20ApproveInput (spender : List Char) (amount : Option Int) :
    Except AbiErr (List Byte) :=
  if spender = [] then .error .emptySpender
  else
    match amount with
    | none => .error .nilAmount
    | some amount => .ok (packApprove (HexToAddress spender) amount)

/-- A value `Unpack` yields for the inputs of `approve`. -/
inductive AbiValue where
  | address (a : Address)
  | uint (n : Int)
deriving DecidableEq

/-- The function `toGoType` for a static type: the 32-byte word at `index`, or an error when
the data ends before it. -/
def abiWord (index : Nat) (output : List Byte) : Except AbiErr (List Byte) :=
  if index + 32 > output.length then .error (.unpackShort (index + 32))
  else .ok ((output.drop index).take 32)

/-- The call `ERC20ABI.Methods["approve"].Inputs.Unpack`: the address from the first word
(its last twenty bytes), the amount from the second; bytes past the second word are
ignored. -/
def unpackApproveInputs (data : List Byte) : Except AbiErr (List AbiValue) :=
  if data.length = 0 then .error .unpackEmpty
  else
    match abiWord 0 data with
    | .error e => .error e
    | .ok w0 =>
      match abiWord 32 data with
      | .error e => .error e
      | .ok w1 => .ok [.address (BytesToAddress w0), .uint (SetBytes w1)]

/-- The function `DecodeERC20ApproveInput`. -/
def DecodeERC20ApproveInput (keccak : Keccak) (input : List Byte) :
    Except AbiErr (List Char × Int) :=
  if input.length < 4 then .error .inputTooShort
  else if input.take 4 ≠ approveMethodID then .error .notApprove
  else
    match unpackApproveInputs (input.drop 4) with
    | .error e => .error e
    | .ok values =>
      match values with
      | [v0, v1] =>
        match v0 with
        | .address spenderAddr =>
          match v1 with
          | .uint amountValue => .ok (spenderAddr.Hex keccak, amountValue)
          | _ => .error .notAmount
        | _ => .error .notAddress
      | _ => .error .wrongCount

/-! ### Balance deltas from a receipt (`GetTokenBalanceChanges`, `internal/utils/evm/util.go`) -/

/-- The type `common.Hash`: exactly thirty-two bytes. -/
structure Hash where
  bytes : List Byte
  size : bytes.length = 32
deriving DecidableEq

/-- The function `common.BytesToHash`: the last thirty-two bytes, left-padded with zeros. -/
def BytesToHash (b : List Byte) : Hash :=
  let b1 := if 32 < b.length then b.drop (b.length - 32) else b
  ⟨List.replicate (32 - b1.length) 0 ++ b1, by
    simp only [List.length_append, List.length_replicate]
    have h : b1.length ≤ 32 := by
      show (if 32 < b.length then b.drop (b.length - 32) else b).length ≤ 32
      split
      · simp only [List.length_drop]; omega
      · omega
    omega⟩

/-- The function `common.HexToHash`. -/
def HexToHash (s : List Char) : Hash :=
  BytesToHash (FromHex s)

/-- A log entry of a receipt (`types.Log`), as far as the code reads it. -/
structure Log where
  /-- The emitting contract. -/
  address : Address
  topics : List Hash
  data : List Byte

/-- The signature of the ERC-20 event `Transfer(address,address,uint256)`. -/
def transferEventSig : Hash :=
  HexToHash ("0xddf252ad1be2c89b69c2b068fc378daa952ba7f163c4a11628f55a4df523b3ef").toList

/-- The map `map[common.Address]*big.Int`. -/
abbrev BalanceChanges := Address → Option Int

/-- The body of the loop of `GetTokenBalanceChanges` for one log. -/
def balanceChangeStep (ownerAddr : Address) (changes : BalanceChanges) (log : Log) :
    BalanceChanges :=
  match log.topics with
  | [] => changes
  | topic0 :: rest =>
    if topic0 = transferEventSig then
      match rest with
      | topic1 :: topic2 :: _ =>
        let sender := BytesToAddress topic1.bytes
        let recipient := BytesToAddress topic2.bytes
        if sender = ownerAddr ∨ recipient = ownerAddr then
          let amount : Int := SetBytes log.data
          let change : Int := if sender = ownerAddr then -amount else amount
          let v : Int :=
            match changes log.address with
            | none => change
            | some v => v + change
          fun a => if a = log.address then some v else changes a
        else changes
      | _ => changes
    else changes

/-- The function `GetTokenBalanceChanges` on the logs of a receipt (it reads nothing else and
its error result is always `nil`). -/
def GetTokenBalanceChanges (logs : List Log) (ownerAddress : List Char) : BalanceChanges :=
  logs.foldl (balanceChangeStep (HexToAddress ownerAddress)) (fun _ => none)

/-- The transfer a log records, if it is an ERC-20 `Transfer` log (topic 0 is the signature
and there are at least three topics): sender, recipient and value. -/
def Log.transfer (log : Log) : Option (Address × Address × Int) :=
  match log.topics with
  | topic0 :: topic1 :: topic2 :: _ =>
    if topic0 = transferEventSig then
      some (BytesToAddress topic1.bytes, BytesToAddress topic2.bytes, (SetBytes log.data : Int))
    else none
  | _ => none

/-- Whether a log is a `Transfer` log of `token` with the owner as sender or recipient. -/
def involvesOwner (owner token : Address) (log : Log) : Bool :=
  match log.transfer with
  | some (sender, recipient, _) =>
    decide (log.address = token ∧ (sender = owner ∨ recipient = owner))
  | none => false

/-- Sum of the values of the `Transfer` logs of `token` sent to the owner. -/
def receivedByOwner (owner token : Address) (logs : List Log) : Int :=
  (logs.map fun log =>
    match log.transfer with
    | some (_, recipient, value) =>
      if log.address = token ∧ recipient = owner then value else 0
    | none => 0).sum

/-- Sum of the values of the `Transfer` logs of `token` sent by the owner. -/
def sentByOwner (owner token : Address) (logs : List Log) : Int :=
  (logs.map fun log =>
    match log.transfer with
    | some (sender, _, value) => if log.address = token ∧ sender = owner then value else 0
    | none => 0).sum

/-- Whether a log is a `Transfer` log with the owner as both sender and recipient. -/
def isSelfTransfer (owner : Address) (log : Log) : Bool :=
  match log.transfer with
  | some (sender, recipient, _) => decide (sender = owner ∧ recipient = owner)
  | none => false

/-- A topic holding an address (left-padded to a word). -/
def addressTopic (a : Address) : Hash :=
  BytesToHash a.bytes

/-- A token contract for worked examples. -/
def sampleToken : Address := ⟨List.replicate 20 0xaa, by decide⟩

/-- The two logs of the worked example: the owner sends 100 units of the token, and
receives 40 units of it. -/
def sampleLogs : List Log :=
  [⟨sampleToken, [transferEventSig, addressTopic sampleAccount, addressTopic otherAccount],
      bigEndian 32 100⟩,
    ⟨sampleToken, [transferEventSig, addressTopic otherAccount, addressTopic sampleAccount],
      bigEndian 32 40⟩]

/-- The signed change one log contributes for the owner: minus the value when the owner is
the sender, plus the value otherwise. -/
def ownerChange (owner : Address) (log : Log) : Int :=
  match log.transfer with
  | some (sender, _, value) => if sender = owner then -value else value
  | none => 0

/-- Sum of the signed changes of the logs of `token` that involve the owner. -/
def netChange (owner token : Address) (logs : List Log) : Int :=
  (logs.map fun log => if involvesOwner owner token log then ownerChange owner log else 0).sum

/-! ### More of the decimal library -/

/-- The package variable `decimal.DivisionPrecision`. -/
def DivisionPrecision : Int := 16

/-- The method `Decimal.Div`: division rounded at `DivisionPrecision` fractional digits;
panics on a zero divisor. -/
def Decimal.Div (d d2 : Decimal) : Option Decimal :=
  d.DivRound d2 DivisionPrecision

/-- The method `Decimal.Equal`. -/
def Decimal.Equal (d d2 : Decimal) : Bool := decide (d.Cmp d2 = 0)

/-- The method `Decimal.GreaterThan`. -/
def Decimal.GreaterThan (d d2 : Decimal) : Bool := decide (d.Cmp d2 = 1)

/-- The method `Decimal.LessThan`. -/
def Decimal.LessThan (d d2 : Decimal) : Bool := decide (d.Cmp d2 = -1)

/-- The method `Decimal.IsZero`. -/
def Decimal.IsZero (d : Decimal) : Bool := decide (d.Sign = 0)

/-! ### Orders, grids and strategies (the `ent` entities the order keeper works on) -/

/-- The enum `order.Type`. -/
inductive OrderType where
  | Buy
  | Sell
deriving DecidableEq, Repr

/-- The enum `order.Status`. -/
inductive OrderStatus where
  | Pending
  | Closed
  | Rejected
deriving DecidableEq, Repr

/-- The enum `grid.Status`. -/
inductive GridStatus where
  | PendingBuy
  | Bought
deriving DecidableEq, Repr

/-- The entity `ent.Order`. Optional fields are the pointer fields; `createTime` counts
nanoseconds; `reason` is the text stored on rejection. -/
structure Order where
  id : Nat
  createTime : Int
  account : List Char
  token : List Char
  symbol : List Char
  strategyId : List Char
  type : OrderType
  price : Decimal
  finalPrice : Decimal
  inAmount : Decimal
  outAmount : Decimal
  status : OrderStatus
  nonce : Nat
  txHash : List Char
  gridId : Option (List Char)
  gridNumber : Option Int
  gridBuyCost : Option Decimal
  profit : Option Decimal
  reason : List Char
deriving DecidableEq, Repr

/-- The entity `ent.Grid`. -/
structure Grid where
  guid : List Char
  strategyId : List Char
  gridNumber : Int
  price : Decimal
  amount : Decimal
  status : GridStatus
deriving DecidableEq, Repr

/-- The entity `ent.Strategy`, as far as the keeper reads it. -/
structure Strategy where
  id : Nat
  guid : List Char
  userId : Int
  token : List Char
  symbol : List Char
  firstOrderId : Option Nat
deriving DecidableEq, Repr

/-- The entity `ent.Wallet`, as far as it is read here. -/
structure Wallet where
  userId : Int
  account : List Char
deriving DecidableEq, Repr

/-- The durable store the keeper works on. -/
structure Store where
  orders : List Order
  grids : List Grid
  strategies : List Strategy
deriving DecidableEq

/-- The order with a given id, if stored. -/
def Store.order (s : Store) (id : Nat) : Option Order :=
  s.orders.find? fun o => o.id = id

/-- The grid with a given guid, if stored. -/
def Store.grid (s : Store) (guid : List Char) : Option Grid :=
  s.grids.find? fun g => g.guid = guid

/-- Modelled from the spec: `OrderModel.FindPendingOrders` is declared outside the files at
hand; it loads up to `limit` orders whose status is `Pending`, oldest first. -/
def OrderModel.FindPendingOrders (orders : List Order) (limit : Nat) : List Order :=
  ((orders.filter fun o => o.status = .Pending).insertionSort
    fun a b => a.createTime ≤ b.createTime).take limit

/-- Modelled from the spec: `OrderModel.SetOrderClosedStatus` is declared outside the files at
hand; it sets the order of the given id to `Closed` with final price and output amount. -/
def OrderModel.SetOrderClosedStatus (orders : List Order) (id : Nat)
    (finalPrice outAmount : Decimal) : List Order :=
  orders.map fun o =>
    if o.id = id then
      { o with status := .Closed, finalPrice := finalPrice, outAmount := outAmount }
    else o

/-- Modelled from the spec: `OrderModel.SetOrderRejectedStatus` is declared outside the files
at hand; it sets the order of the given id to `Rejected` with a reason string. -/
def OrderModel.SetOrderRejectedStatus (orders : List Order) (id : Nat) (reason : List Char) :
    List Order :=
  orders.map fun o => if o.id = id then { o with status := .Rejected, reason := reason } else o

/-- Modelled from the spec: `OrderModel.UpdateProfit` is declared outside the files at hand; it
records the profit on the order of the given id. -/
def OrderModel.UpdateProfit (orders : List Order) (id : Nat) (profit : Decimal) : List Order :=
  orders.map fun o => if o.id = id then { o with profit := some profit } else o

/-- Modelled from the spec: `OrderModel.Save` is declared outside the files at hand; it inserts
the order as a new record, under an id no stored order has and with the creation time
`now`. -/
def OrderModel.Save (orders : List Order) (now : Int) (args : Order) : List Order :=
  orders ++ [{ args with id := (orders.map fun o => o.id).foldr max 0 + 1, createTime := now }]

/-- Modelled from the spec: `GridModel.SetBoughtStatus` is declared outside the files at hand;
it sets the grid to `Bought` with the captured price and amount. -/
def GridModel.SetBoughtStatus (grids : List Grid) (guid : List Char) (price amount : Decimal) :
    List Grid :=
  grids.map fun g =>
    if g.guid = guid then { g with status := .Bought, price := price, amount := amount } else g

/-- Modelled from the spec: `GridModel.DeleteByGuid` is declared outside the files at hand; it
deletes the grid. -/
def GridModel.DeleteByGuid (grids : List Grid) (guid : List Char) : List Grid :=
  grids.filter fun g => g.guid ≠ guid

/-- Modelled from the spec: `GridModel.UpdateStatusByGuid` is declared outside the files at
hand; it sets the status of the grid. -/
def GridModel.UpdateStatusByGuid (grids : List Grid) (guid : List Char) (status : GridStatus) :
    List Grid :=
  grids.map fun g => if g.guid = guid then { g with status := status } else g

/-- Modelled from the spec: `GridModel.FindByGuid` is declared outside the files at hand; it
reads the grid of the given guid; `fault` is a failure of the store. -/
def GridModel.FindByGuid (grids : List Grid) (fault : Bool) (guid : List Char) :
    Except Err Grid :=
  if fault then .error (.other 0)
  else
    match grids.find? fun g => g.guid = guid with
    | some g => .ok g
    | none => .error .notFound

/-- Modelled from the spec: `StrategyModel.FindByGUID` is declared outside the files at hand;
it reads the strategy of the given guid; `fault` is a failure of the store. -/
def StrategyModel.FindByGUID (strategies : List Strategy) (fault : Bool) (guid : List Char) :
    Except Err Strategy :=
  if fault then .error (.other 0)
  else
    match strategies.find? fun s => s.guid = guid with
    | some s => .ok s
    | none => .error .notFound

/-- Modelled from the spec: `StrategyModel.UpdateFirstOrderId` is declared outside the files at
hand; it records the first closed order of a strategy. -/
def StrategyModel.UpdateFirstOrderId (strategies : List Strategy) (id : Nat)
    (orderId : Nat) : List Strategy :=
  strategies.map fun s => if s.id = id then { s with firstOrderId := some orderId } else s

/-! ### The order keeper (`internal/job/order_keeper.go`) and `SellToken` -/

/-- The chain section of the configuration, as far as it is read here. -/
structure ChainConfig where
  stablecoinCA : List Char
  stablecoinDecimals : Nat

/-- Token metadata (`evm.Metadata`); `decimals` is a `uint8`. -/
structure Metadata where
  symbol : List Char
  decimals : Nat

/-- A transaction receipt, as far as it is read here. -/
structure Receipt where
  status : Nat
  logs : List Log

/-- What a quote of the swap service offers to `SellToken`: the declared output amount and
the signer. -/
structure SwapQuote where
  outAmount : Int
  signer : List Char

/-- What one tick of the keeper meets outside the process: the clock, the chain, the
aggregator, and failures of the store. -/
structure KeeperEnv where
  /-- The value of `time.Now()`, in nanoseconds. -/
  now : Int
  /-- Failure of `FindPendingOrders`. -/
  findPendingFault : Bool
  /-- Result of `EthClient.TransactionReceipt` per transaction hash (the error as its
  message). -/
  transactionReceipt : List Char → Except (List Char) Receipt
  /-- Result of `TokenMetaCache.GetTokenMeta` per token. -/
  getTokenMeta : List Char → Except Err Metadata
  /-- Result of `evm.GetTokenBalance` per token contract and owner. -/
  balanceOf : Address → Address → Except Err Int
  /-- Failure of the store on `GridModel.FindByGuid`, per guid. -/
  gridReadFault : List Char → Bool
  /-- Failure of the store on `StrategyModel.FindByGUID`, per guid. -/
  strategyReadFault : List Char → Bool
  /-- Failure of the store transaction that settles the order of a given id. -/
  txFault : Nat → Bool
  /-- Result of `WalletModel.FindByUserId`. -/
  findWallet : Int → Except Err Wallet
  /-- Result of `SwapService.Quote` for input token, output token, amount and exit flag. -/
  quote : List Char → List Char → Int → Bool → Except Err SwapQuote
  /-- Result of `SwapTransaction.Swap` for a quote: hash and nonce. -/
  swap : SwapQuote → Except Err (List Char × Nat)
  /-- Failure of the store transaction that saves a retry order. -/
  saveFault : Bool

/-- The keeper: the store it works on, its in-memory set of timed-out transaction hashes,
whether the process has panicked, and a record of what the current tick did (receipts
requested, ids handed to rejection handling, ids handed to closing handling). -/
structure Keeper where
  store : Store
  timeoutTxs : List (List Char)
  crashed : Bool
  requested : List (List Char)
  rejected : List Nat
  closed : List Nat

/-- The function `strings.Contains`. -/
def stringsContains (s substr : List Char) : Bool :=
  s.tails.any fun t => substr.isPrefixOf t

/-- The method `Time.Sub`: the difference as a `Duration`, saturating at the ends of
`int64`. -/
def timeSub (t u : Int) : Int :=
  max (-9223372036854775808) (min 9223372036854775807 (t - u))

/-- The duration `time.Minute * 2`, in nanoseconds. -/
def twoMinutes : Int := 120000000000

/-- The function `SellToken` (`internal/strategy/common.go`). The outer `Option` is `none`
when the decimal library panics. The order it returns is the record to be saved. -/
def SellToken (cfg : ChainConfig) (env : KeeperEnv) (strategyRecord : Strategy)
    (uiSellAmount minSellPrice : Option Decimal) (exit : Bool) : Option (Except Err Order) :=
  match env.findWallet strategyRecord.userId with
  | .error err => some (.error err)
  | .ok w =>
    match env.getTokenMeta strategyRecord.token with
    | .error err => some (.error err)
    | .ok tokenmeta =>
      match env.balanceOf (HexToAddress strategyRecord.token) (HexToAddress w.account) with
      | .error err => some (.error err)
      | .ok tokenBalance => do
        let uiTokenBalance ← ParseUnits tokenBalance tokenmeta.decimals
        let uiSellAmount :=
          match uiSellAmount with
          | none => uiTokenBalance
          | some a => if a.GreaterThan uiTokenBalance then uiTokenBalance else a
        let sellAmount ← FormatUnits uiSellAmount tokenmeta.decimals
        match env.quote strategyRecord.token cfg.stablecoinCA sellAmount exit with
        | .error err => pure (.error err)
        | .ok tx => do
          let uiOutAmount ← ParseUnits tx.outAmount cfg.stablecoinDecimals
          let quotePrice ← uiOutAmount.Div uiSellAmount
          let tooLow :=
            match minSellPrice with
            | some p => quotePrice.LessThan p
            | none => false
          if tooLow then pure (.error .priceTooLow)
          else
            match env.swap tx with
            | .error err => pure (.error err)
            | .ok (hash, nonce) =>
              pure (.ok
                { id := 0, createTime := 0, account := tx.signer,
                  token := strategyRecord.token, symbol := strategyRecord.symbol,
                  strategyId := strategyRecord.guid, type := .Sell, price := quotePrice,
                  finalPrice := quotePrice, inAmount := uiSellAmount,
                  outAmount := uiOutAmount, status := .Pending, nonce := nonce,
                  txHash := hash, gridId := none, gridNumber := none, gridBuyCost := none,
                  profit := none, reason := [] })

/-- The method `OrderKeeper.handleRetryExit`. Notifications are not modelled. -/
def OrderKeeper.handleRetryExit (cfg : ChainConfig) (env : KeeperEnv) (k : Keeper)
    (ord : Order) : Keeper :=
  match StrategyModel.FindByGUID k.store.strategies (env.strategyReadFault ord.strategyId)
      ord.strategyId with
  | .error _ => k
  | .ok record =>
    match SellToken cfg env record (some ord.inAmount) none true with
    | none => { k with crashed := true }
    | some (.error _) => k
    | some (.ok orderArgs) =>
      if env.saveFault then k
      else
        let saved : Order := { orderArgs with gridBuyCost := ord.gridBuyCost }
        { k with store :=
            { k.store with orders := OrderModel.Save k.store.orders env.now saved } }

/-- The body of the store transaction of `handleRejectOrder`. -/
def OrderKeeper.rejectTx (s : Store) (ord : Order) (reason : List Char) : Store :=
  { s with
    grids :=
      match ord.gridId with
      | some gridId =>
        if ord.type = .Buy then GridModel.DeleteByGuid s.grids gridId
        else GridModel.UpdateStatusByGuid s.grids gridId .Bought
      | none => s.grids
    orders := OrderModel.SetOrderRejectedStatus s.orders ord.id reason }

/-- Whether building the notification text dereferences a nil `GridNumber`: the texts for a
Buy order and for a grid Sell order format `*ord.GridNumber`. -/
def derefsNilGridNumber (ord : Order) : Bool :=
  match ord.type with
  | .Buy => ord.gridNumber.isNone
  | .Sell => ord.gridId.isSome && ord.gridNumber.isNone

/-- The method `OrderKeeper.handleRejectOrder`. The store transaction is atomic: when a step
of it fails nothing is changed and the method returns. Notifications are not modelled,
except that formatting one can panic. -/
def OrderKeeper.handleRejectOrder (cfg : ChainConfig) (env : KeeperEnv) (k : Keeper)
    (ord : Order) (reason : List Char) : Keeper :=
  let k := { k with rejected := k.rejected ++ [ord.id] }
  if env.txFault ord.id then k
  else
    let k := { k with store := OrderKeeper.rejectTx k.store ord reason }
    if derefsNilGridNumber ord then { k with crashed := true }
    else if ord.type = .Sell ∧ ord.gridId = none then OrderKeeper.handleRetryExit cfg env k ord
    else k

/-- The first part of `handleCloseOrder`: final price, output amount and cost basis. `none`
is a panic of the decimal library. -/
def OrderKeeper.closePricing (cfg : ChainConfig) (env : KeeperEnv) (s : Store) (ord : Order)
    (tokenBalanceChanges : BalanceChanges) (tokenMeta : Metadata) :
    Option (Decimal × Decimal × Decimal) :=
  match ord.type with
  | .Buy =>
    match tokenBalanceChanges (HexToAddress ord.token) with
    | some v => do
      let change ← ParseUnits v tokenMeta.decimals
      let finalPrice ←
        if !change.Equal (Decimal.New 0 1) then ord.inAmount.Div change else pure Decimal.zero
      pure (finalPrice, change, Decimal.New 0 1)
    | none => pure (Decimal.zero, Decimal.New 0 1, Decimal.New 0 1)
  | .Sell =>
    let cost :=
      match ord.gridBuyCost with
      | some c => c
      | none =>
        match ord.gridId with
        | some gridId =>
          match GridModel.FindByGuid s.grids (env.gridReadFault gridId) gridId with
          | .ok g => g.amount
          | .error _ => Decimal.New 0 1
        | none => Decimal.New 0 1
    match tokenBalanceChanges (HexToAddress cfg.stablecoinCA) with
    | some v => do
      let change ← ParseUnits v cfg.stablecoinDecimals
      let finalPrice ←
        if !ord.inAmount.Equal (Decimal.New 0 1) then change.Div ord.inAmount
        else pure Decimal.zero
      pure (finalPrice, change, cost)
    | none => pure (Decimal.zero, Decimal.New 0 1, cost)

/-- The body of the store transaction of `handleCloseOrder`; `strategy` is what the earlier
strategy lookup returned. -/
def OrderKeeper.closeTx (s : Store) (ord : Order) (finalPrice outAmount cost : Decimal)
    (strategy : Except Err Strategy) : Store :=
  { grids :=
      match ord.gridId with
      | some gridId =>
        match ord.type with
        | .Buy => GridModel.SetBoughtStatus s.grids gridId finalPrice outAmount
        | .Sell => GridModel.DeleteByGuid s.grids gridId
      | none => s.grids
    orders :=
      OrderModel.SetOrderClosedStatus
        (if !cost.IsZero then OrderModel.UpdateProfit s.orders ord.id (outAmount.Sub cost)
          else s.orders)
        ord.id finalPrice outAmount
    strategies :=
      match strategy with
      | .ok st =>
        if ord.gridId ≠ none ∧ st.firstOrderId = none then
          StrategyModel.UpdateFirstOrderId s.strategies st.id ord.id
        else s.strategies
      | .error _ => s.strategies }

/-- The method `OrderKeeper.handleCloseOrder`. The store transaction is atomic: when a step
of it fails nothing is changed and the method returns. Notifications are not modelled,
except that formatting one can panic. -/
def OrderKeeper.handleCloseOrder (cfg : ChainConfig) (env : KeeperEnv) (k : Keeper)
    (ord : Order) (tokenBalanceChanges : BalanceChanges) : Keeper :=
  let k := { k with closed := k.closed ++ [ord.id] }
  match env.getTokenMeta ord.token with
  | .error _ => k
  | .ok tokenMeta =>
    match OrderKeeper.closePricing cfg env k.store ord tokenBalanceChanges tokenMeta with
    | none => { k with crashed := true }
    | some (finalPrice, outAmount, cost) =>
      let s :=
        StrategyModel.FindByGUID k.store.strategies (env.strategyReadFault ord.strategyId)
          ord.strategyId
      match env.balanceOf (HexToAddress cfg.stablecoinCA) (HexToAddress ord.account) with
      | .error _ => k
      | .ok bal =>
        match ParseUnits bal cfg.stablecoinDecimals with
        | none => { k with crashed := true }
        | some _ =>
          if env.txFault ord.id then k
          else
            let k :=
              { k with store := OrderKeeper.closeTx k.store ord finalPrice outAmount cost s }
            if derefsNilGridNumber ord then { k with crashed := true } else k

/-- The first loop of `handlePolling` over the loaded orders: skip timed-out hashes, request
the receipt, mark or skip an order without receipt, reject a reverted order at once, and
hold the others (with their balance changes, keyed by order id) for closing. The second
component is `none` when the tick ends inside the loop (a receipt lookup failed for another
reason, or the process panicked). -/
def OrderKeeper.scan (cfg : ChainConfig) (env : KeeperEnv) :
    List Order → Keeper → List Order → (Nat → Option BalanceChanges) →
      Keeper × Option (List Order × (Nat → Option BalanceChanges))
  | [], k, openOrders, changes => (k, some (openOrders, changes))
  | item :: rest, k, openOrders, changes =>
    if item.txHash ∈ k.timeoutTxs then OrderKeeper.scan cfg env rest k openOrders changes
    else
      let k := { k with requested := k.requested ++ [item.txHash] }
      match env.transactionReceipt item.txHash with
      | .error msg =>
        if stringsContains msg ("not found").toList then
          if timeSub env.now item.createTime > twoMinutes then
            OrderKeeper.scan cfg env rest
              { k with timeoutTxs := item.txHash :: k.timeoutTxs } openOrders changes
          else OrderKeeper.scan cfg env rest k openOrders changes
        else (k, none)
      | .ok receipt =>
        if receipt.status = 0 then
          let k := OrderKeeper.handleRejectOrder cfg env k item ("execution reverted").toList
          if k.crashed then (k, none)
          else OrderKeeper.scan cfg env rest k openOrders changes
        else
          OrderKeeper.scan cfg env rest k (openOrders ++ [item])
            (fun id =>
              if id = item.id then some (GetTokenBalanceChanges receipt.logs item.account)
              else changes id)

/-- The second loop of `handlePolling`: closing handling for every held order. -/
def OrderKeeper.closeLoop (cfg : ChainConfig) (env : KeeperEnv)
    (changes : Nat → Option BalanceChanges) : List Order → Keeper → Keeper
  | [], k => k
  | item :: rest, k =>
    match changes item.id with
    | none => OrderKeeper.closeLoop cfg env changes rest k
    | some c =>
      let k := OrderKeeper.handleCloseOrder cfg env k item c
      if k.crashed then k else OrderKeeper.closeLoop cfg env changes rest k

/-- The method `OrderKeeper.handlePolling`: one tick. The record of the tick starts
empty. -/
def OrderKeeper.handlePolling (cfg : ChainConfig) (env : KeeperEnv) (k : Keeper) : Keeper :=
  let k := { k with requested := [], rejected := [], closed := [] }
  let orders :=
    if env.findPendingFault then [] else OrderModel.FindPendingOrders k.store.orders 100
  if orders.length = 0 then k
  else
    match OrderKeeper.scan cfg env orders k [] (fun _ => none) with
    | (k, none) => k
    | (k, some (openOrders, changes)) =>
      if openOrders.length = 0 then k
      else OrderKeeper.closeLoop cfg env changes openOrders k

/-! ### Worked examples for the order keeper -/

/-- The stablecoin contract of the worked examples. -/
def sampleStable : Address := ⟨List.replicate 20 0xbb, by decide⟩

/-- The chain configuration of the worked examples: a stablecoin with 6 decimals. -/
def sampleCfg : ChainConfig := ⟨sampleStable.Hex sampleKeccak, 6⟩

/-- A pending Buy order of grid `g1`: 10 stablecoin units for the sample token. -/
def sampleBuy : Order :=
  { id := 1, createTime := 0, account := sampleAccount.Hex sampleKeccak,
    token := sampleToken.Hex sampleKeccak, symbol := ("TKN").toList,
    strategyId := ("s1").toList, type := .Buy, price := ⟨1, 4⟩, finalPrice := Decimal.zero,
    inAmount := ⟨10, 0⟩, outAmount := Decimal.zero, status := .Pending, nonce := 7,
    txHash := ("0xaa").toList, gridId := some ("g1").toList, gridNumber := some 3,
    gridBuyCost := none, profit := none, reason := [] }

/-- A pending Sell order of grid `g2`: 2 tokens, with a recorded cost basis. -/
def sampleSell (cost : Option Decimal) : Order :=
  { id := 2, createTime := 0, account := sampleAccount.Hex sampleKeccak,
    token := sampleToken.Hex sampleKeccak, symbol := ("TKN").toList,
    strategyId := ("s1").toList, type := .Sell, price := ⟨1, 4⟩, finalPrice := Decimal.zero,
    inAmount := ⟨2, 0⟩, outAmount := Decimal.zero, status := .Pending, nonce := 8,
    txHash := ("0xbb").toList, gridId := some ("g2").toList, gridNumber := some 4,
    gridBuyCost := cost, profit := none, reason := [] }

/-- A pending manual liquidate-all Sell order: no strategy, no grid. -/
def sampleSellAll : Order :=
  { id := 3, createTime := 0, account := sampleAccount.Hex sampleKeccak,
    token := sampleToken.Hex sampleKeccak, symbol := ("TKN").toList,
    strategyId := [], type := .Sell, price := ⟨1, 4⟩, finalPrice := Decimal.zero,
    inAmount := ⟨2, 0⟩, outAmount := Decimal.zero, status := .Pending, nonce := 9,
    txHash := ("0xcc").toList, gridId := none, gridNumber := none,
    gridBuyCost := some ⟨15, 0⟩, profit := none, reason := [] }

/-- A receipt log crediting the sample account `amount` base units of `token`. -/
def creditLog (token : Address) (amount : Nat) : Log :=
  ⟨token, [transferEventSig, addressTopic otherAccount, addressTopic sampleAccount],
    bigEndian 32 amount⟩

/-- The strategy of the worked examples. -/
def sampleStrategy : Strategy :=
  { id := 1, guid := ("s1").toList, userId := 42, token := sampleToken.Hex sampleKeccak,
    symbol := ("TKN").toList, firstOrderId := none }

/-- The grids of the worked examples. -/
def sampleGrids : List Grid :=
  [⟨("g1").toList, ("s1").toList, 3, ⟨1, 4⟩, Decimal.zero, .PendingBuy⟩,
    ⟨("g2").toList, ("s1").toList, 4, ⟨1, 4⟩, ⟨12, 0⟩, .Bought⟩]

/-- A keeper over the given orders, with the sample grids and strategy, nothing timed out. -/
def sampleKeeper (orders : List Order) : Keeper :=
  ⟨⟨orders, sampleGrids, [sampleStrategy]⟩, [], false, [], [], []⟩

/-- An environment in which nothing fails: the clock is one minute after the creation of the
sample orders, every token has 6 decimals, every balance is 5000000 base units, and the
receipt lookup is the given one. -/
def sampleEnv (transactionReceipt : List Char → Except (List Char) Receipt) : KeeperEnv :=
  { now := 60000000000, findPendingFault := false, transactionReceipt := transactionReceipt,
    getTokenMeta := fun _ => .ok ⟨("TKN").toList, 6⟩, balanceOf := fun _ _ => .ok 5000000,
    gridReadFault := fun _ => false, strategyReadFault := fun _ => false,
    txFault := fun _ => false, findWallet := fun _ => .ok ⟨42, sampleAccount.Hex sampleKeccak⟩,
    quote := fun _ _ amount _ => .ok ⟨amount * 3, sampleAccount.Hex sampleKeccak⟩,
    swap := fun _ => .ok (("0xdd").toList, 10), saveFault := false }

/-- A receipt lookup: the Buy succeeded and credited 1000 base units of the token. -/
def buyReceipt (_ : List Char) : Except (List Char) Receipt :=
  .ok ⟨1, [creditLog sampleToken 1000]⟩

/-- A receipt lookup: the Sell succeeded and credited 30 stablecoin units. -/
def sellReceipt (_ : List Char) : Except (List Char) Receipt :=
  .ok ⟨1, [creditLog sampleStable 30000000]⟩

/-- A receipt lookup: the transaction reverted. -/
def revertedReceipt (_ : List Char) : Except (List Char) Receipt :=
  .ok ⟨0, []⟩

/-- A receipt lookup: the node does not know the transaction. -/
def notFoundReceipt (_ : List Char) : Except (List Char) Receipt :=
  .error ("not found").toList

/-- A receipt lookup: the transaction `0xaa` reverted, every other lookup fails with a
connection error. -/
def mixedReceipt (hash : List Char) : Except (List Char) Receipt :=
  if hash = ("0xaa").toList then .ok ⟨0, []⟩ else .error ("connection refused").toList

/-- The sample environment three minutes after the creation of the sample orders. -/
def lateEnv (transactionReceipt : List Char → Except (List Char) Receipt) : KeeperEnv :=
  { sampleEnv transactionReceipt with now := 180000000000 }

/-! ### The relay aggregator client (`internal/dexagg/relaylink/client.go`) -/

/-- The function `hex.DecodeString`: an error at the first invalid digit or at a dangling
digit. -/
def hexDecodeString : List Char → Except Err (List Byte)
  | [] => .ok []
  | [_] => .error (.other 23)
  | p :: q :: rest =>
    match fromHexChar p, fromHexChar q with
    | some a, some b =>
      match hexDecodeString rest with
      | .ok bs => .ok (Fin.ofNat (a * 16 + b) :: bs)
      | .error e => .error e
    | _, _ => .error (.other 22)

/-- The function `hexutil.Decode`: the string must be non-empty and begin with `0x` or `0X`;
the rest is decoded by `hex.DecodeString`. -/
def hexutilDecode (input : List Char) : Except Err (List Byte) :=
  match input with
  | [] => .error (.other 20)
  | '0' :: x :: rest =>
    if x = 'x' ∨ x = 'X' then hexDecodeString rest else .error (.other 21)
  | _ => .error (.other 21)

/-- The function `hexutil.Encode`. -/
def hexutilEncode (b : List Byte) : List Char :=
  '0' :: 'x' :: hexEncode b

/-- Modelled from the spec: the type of `item.Data` of a quote is declared outside the files at
hand; these are the fields `SendSwapTransaction` and `Quote` read, the amounts as the
integers their `BigInt()` gives. -/
structure EvmData where
  evmData : List Char
  evmTo : Address
  evmValue : Int
  evmGas : Int
  evmMaxFeePerGas : Int
  evmMaxPriorityFeePerGas : Int
deriving DecidableEq

/-- Modelled from the spec: the step type of a quote is declared outside the files at hand; a
step has an `ID` and items. -/
structure QuoteStep where
  id : List Char
  items : List EvmData
deriving DecidableEq

/-- Modelled from the spec: the type `QuoteResponse` is declared outside the files at hand;
these are the parts the code reads: the steps, `Fees.Gas.Amount`, the address and amount of
`Details.CurrencyIn`, and the amount of `Details.CurrencyOut`. -/
structure QuoteResponse where
  steps : List QuoteStep
  gasAmount : Int
  currencyInAddress : List Char
  currencyInAmount : Int
  currencyOutAmount : Int
deriving DecidableEq

/-- The type `types.DynamicFeeTx`, without the access list. -/
structure DynamicFeeTx where
  chainID : Nat
  nonce : Nat
  gasTipCap : Int
  gasFeeCap : Int
  gas : Nat
  /-- The field `To` (`to` is a keyword here). -/
  toAddr : Address
  value : Int
  data : List Byte
deriving DecidableEq

/-- What one call of `SendSwapTransaction` meets outside the process. The queries of the
`i`-th `Request` of the call are indexed by `i`. -/
structure SwapEnv where
  /-- Result of `evm.GetAddress`. -/
  getAddress : Except Err Address
  /-- Result of `evm.GetBalance` for the account. -/
  getBalance : Except Err Int
  /-- Result of `evm.GetTokenBalance` for a token and the account. -/
  getTokenBalance : List Char → Except Err Int
  /-- Result of `PendingNonceAt` in the `i`-th `Request`. -/
  pendingNonceAt : Nat → Except Err Nat
  /-- Failure of `FindOne` in the `i`-th `Request`, if any. -/
  findFault : Nat → Option Nat
  /-- Failure of `Save` / `UpdateNonce` in the `i`-th `Request`, if any. -/
  persistFault : Nat → Option Nat
  /-- Result of `types.SignTx`: the hash of the signed transaction, or an error. -/
  signTx : DynamicFeeTx → Except Err (List Char)
  /-- Result of `EthClient.SendTransaction`: `none` is `nil`. -/
  sendTransaction : DynamicFeeTx → Option Err

/-- What a call of `SendSwapTransaction` has done so far: the nonce table, the number of
`NonceManager.Request` calls made, the nonces those calls passed to `consume`, the
transactions accepted by `SendTransaction`, and the variables `lastTxHash` and
`lastTxNonce`. -/
structure SwapState where
  table : NonceTable
  requests : Nat
  issued : List Nat
  sent : List DynamicFeeTx
  lastTxHash : List Char
  lastTxNonce : Nat

/-- The transaction the callback builds for an item and a nonce. `Uint64` of the gas amount
keeps the low 64 bits of its absolute value. -/
def RelaylinkClient.buildTx (chainId : Nat) (item : EvmData) (data : List Byte) (nonce : Nat) :
    DynamicFeeTx :=
  { chainID := chainId % 2 ^ 64, nonce := nonce, gasTipCap := item.evmMaxPriorityFeePerGas,
    gasFeeCap := item.evmMaxFeePerGas, gas := item.evmGas.natAbs % 2 ^ 64, toAddr := item.evmTo,
    value := item.evmValue, data := data }

/-- The callback given to `NonceManager.Request`: sign, then send. -/
def RelaylinkClient.consume (chainId : Nat) (env : SwapEnv) (item : EvmData)
    (data : List Byte) (nonce : Nat) : Except Err (List Char) :=
  match env.signTx (RelaylinkClient.buildTx chainId item data nonce) with
  | .error err => .error err
  | .ok hash =>
    match env.sendTransaction (RelaylinkClient.buildTx chainId item data nonce) with
    | some err => .error err
    | none => .ok hash

/-- The body of the inner loop of `SendSwapTransaction` for one item: the error it returns
with, if any, and the state it leaves. -/
def RelaylinkClient.sendItem (keccak : Keccak) (chainId : Nat) (env : SwapEnv)
    (account : Address) (item : EvmData) (st : SwapState) : Option Err × SwapState :=
  match hexutilDecode item.evmData with
  | .error err => (some err, st)
  | .ok data =>
    let r :=
      NonceManager.Request keccak
        ⟨env.pendingNonceAt st.requests, env.findFault st.requests,
          RelaylinkClient.consume chainId env item data, env.persistFault st.requests⟩
        st.table account
    let st := { st with table := r.table, requests := st.requests + 1,
                        issued := st.issued ++ r.consumed }
    match r.err with
    | some err => (some err, st)
    | none =>
      match r.consumed with
      | [nonce] =>
        match env.signTx (RelaylinkClient.buildTx chainId item data nonce) with
        | .ok hash =>
          (none, { st with sent := st.sent ++ [RelaylinkClient.buildTx chainId item data nonce],
                           lastTxHash := hash, lastTxNonce := nonce })
        | .error _ => (none, st)
      | _ => (none, st)

/-- The inner loop of `SendSwapTransaction` over the items of one step. -/
def RelaylinkClient.sendItems (keccak : Keccak) (chainId : Nat) (env : SwapEnv)
    (account : Address) : List EvmData → SwapState → Option Err × SwapState
  | [], st => (none, st)
  | item :: rest, st =>
    match RelaylinkClient.sendItem keccak chainId env account item st with
    | (some err, st) => (some err, st)
    | (none, st) => RelaylinkClient.sendItems keccak chainId env account rest st

/-- The outer loop of `SendSwapTransaction` over the steps. -/
def RelaylinkClient.sendSteps (keccak : Keccak) (chainId : Nat) (env : SwapEnv)
    (account : Address) : List QuoteStep → SwapState → Option Err × SwapState
  | [], st => (none, st)
  | step :: rest, st =>
    match RelaylinkClient.sendItems keccak chainId env account step.items st with
    | (some err, st) => (some err, st)
    | (none, st) => RelaylinkClient.sendSteps keccak chainId env account rest st

/-- What `SendSwapTransaction` returns, with the state it leaves. -/
structure SwapResult where
  hash : List Char
  nonce : Nat
  err : Option Err
  state : SwapState

/-- The method `RelaylinkClient.SendSwapTransaction`, from the nonce table `t`. -/
def RelaylinkClient.SendSwapTransaction (keccak : Keccak) (chainId : Nat) (env : SwapEnv)
    (t : NonceTable) (swapResponse : QuoteResponse) : SwapResult :=
  let st : SwapState := ⟨t, 0, [], [], [], 0⟩
  match env.getAddress with
  | .error err => ⟨[], 0, some err, st⟩
  | .ok account =>
    match env.getBalance with
    | .error err => ⟨[], 0, some err, st⟩
    | .ok ethBal =>
      if bigCmp ethBal swapResponse.gasAmount ≤ 0 then ⟨[], 0, some .insufficientBalance, st⟩
      else
        match env.getTokenBalance swapResponse.currencyInAddress with
        | .error err => ⟨[], 0, some err, st⟩
        | .ok inTokenBal =>
          if bigCmp inTokenBal swapResponse.currencyInAmount < 0 then
            ⟨[], 0, some .insufficientBalance, st⟩
          else
            match RelaylinkClient.sendSteps keccak chainId env account swapResponse.steps st with
            | (some err, st) => ⟨[], 0, some err, st⟩
            | (none, st) => ⟨st.lastTxHash, st.lastTxNonce, none, st⟩

/-! ### Worked examples for the relay client -/

/-- An item of an `approve` step: `approve(spender, amount)` on the sample token. -/
def approveItem (amount : Int) : EvmData :=
  { evmData := hexutilEncode (packApprove sampleStable amount), evmTo := sampleToken,
    evmValue := 0, evmGas := 60000, evmMaxFeePerGas := 30, evmMaxPriorityFeePerGas := 2 }

/-- An item of a `swap` step. -/
def swapItem : EvmData :=
  { evmData := ("0x01020304").toList, evmTo := otherAccount, evmValue := 0, evmGas := 250000,
    evmMaxFeePerGas := 31, evmMaxPriorityFeePerGas := 3 }

/-- A quote with an `approve` step and a `swap` step: gas cost 21000, input 100 units of the
sample token, output 300. -/
def sampleQuote : QuoteResponse :=
  { steps := [⟨("approve").toList, [approveItem 100]⟩, ⟨("swap").toList, [swapItem]⟩],
    gasAmount := 21000, currencyInAddress := sampleToken.Hex sampleKeccak,
    currencyInAmount := 100, currencyOutAmount := 300 }

/-- An environment of `SendSwapTransaction` in which nothing fails: the given native and
token balances, a chain that reports the pending nonce 5, and a signer whose hash is the
nonce as a hex string. -/
def sampleSwapEnv (ethBal tokenBal : Int) : SwapEnv :=
  { getAddress := .ok sampleAccount, getBalance := .ok ethBal,
    getTokenBalance := fun _ => .ok tokenBal, pendingNonceAt := fun _ => .ok 5,
    findFault := fun _ => none, persistFault := fun _ => none,
    signTx := fun tx => .ok (hexutilEncode [Fin.ofNat tx.nonce]),
    sendTransaction := fun _ => none }

/-- A quote whose only item declares a gas amount that does not fit in 64 bits. -/
def bigGasQuote : QuoteResponse :=
  { sampleQuote with
    steps := [⟨("swap").toList, [{ swapItem with evmGas := 18446744073709551616 + 21000 }]⟩] }

/-- A quote without steps. -/
def emptyQuote : QuoteResponse :=
  { sampleQuote with steps := [] }

/-! ### Quotes (`RelaylinkClient.Quote`, `GetChainsByID`) -/

/-- Modelled from the spec: the type `Chain` is declared outside the files at hand; only its
`ID` is read. -/
structure Chain where
  id : Int
deriving DecidableEq

/-- The parameters of the quote request. -/
structure QuoteParams where
  user : List Char
  originChainId : Int
  destinationChainId : Int
  originCurrency : List Char
  destinationCurrency : List Char
  amount : List Char
  tradeType : List Char
  slippageTolerance : Int
deriving DecidableEq

/-- The errors `Quote` returns. -/
inductive QuoteErr where
  /-- The error `errors.New("unsupported chain")`. -/
  | unsupportedChain
  /-- The aggregator's error response `errRes`, identified by a tag. -/
  | errorResponse (tag : Nat)
  /-- An error passed on as it is. -/
  | passed (e : Err)
deriving DecidableEq

/-- What a call of `Quote` meets outside the process: the result of `GetChains`, and the
result of the quote request (the aggregator's error response, a transport error, or the
response). -/
structure QuoteEnv where
  getChains : Except Err (List Chain)
  fetch : QuoteParams → Except QuoteErr QuoteResponse

/-- The value of `evm.MaxUint256` after `init`. -/
def MaxUint256 : Int := 2 ^ 256 - 1

/-- The map `chainsCache` built from a list of chains, read at `chainId`: a later chain of
the same id replaces an earlier one. -/
def chainsCacheLookup (chains : List Chain) (chainId : Int) : Option Chain :=
  chains.reverse.find? fun chain => chain.id = chainId

/-- The method `GetChainsByID`: the chain, if found, and the cache afterwards (`none` is the
`nil` map). -/
def RelaylinkClient.GetChainsByID (env : QuoteEnv) (chainsCache : Option (List Chain))
    (chainId : Int) : Option Chain × Option (List Chain) :=
  match chainsCache with
  | some chains => (chainsCacheLookup chains chainId, some chains)
  | none =>
    match env.getChains with
    | .error _ => (none, none)
    | .ok chains => (chainsCacheLookup chains chainId, some chains)

/-- The body of the inner loop of the rewrite in `Quote` for one item of an `approve` step:
the item afterwards, or the error `Quote` returns with. -/
def RelaylinkClient.rewriteItem (keccak : Keccak) (item : EvmData) : Except Err EvmData :=
  match hexutilDecode item.evmData with
  | .error err => .error err
  | .ok data =>
    match DecodeERC20ApproveInput keccak data with
    | .error _ => .ok item
    | .ok (spender, _) =>
      match EncodeERC20ApproveInput spender (some MaxUint256) with
      | .ok input => .ok { item with evmData := hexutilEncode input }
      | .error _ => .ok item

/-- The inner loop of the rewrite over the items of one step. -/
def RelaylinkClient.rewriteItems (keccak : Keccak) : List EvmData → Except Err (List EvmData)
  | [] => .ok []
  | item :: rest =>
    match RelaylinkClient.rewriteItem keccak item with
    | .error err => .error err
    | .ok item2 =>
      match RelaylinkClient.rewriteItems keccak rest with
      | .error err => .error err
      | .ok rest2 => .ok (item2 :: rest2)

/-- The outer loop of the rewrite over the steps: only the steps whose `ID` is `approve` are
touched. -/
def RelaylinkClient.rewriteSteps (keccak : Keccak) : List QuoteStep → Except Err (List QuoteStep)
  | [] => .ok []
  | step :: rest =>
    match
      (if step.id ≠ ("approve").toList then .ok step.items
        else RelaylinkClient.rewriteItems keccak step.items) with
    | .error err => .error err
    | .ok items =>
      match RelaylinkClient.rewriteSteps keccak rest with
      | .error err => .error err
      | .ok rest2 => .ok ({ step with items := items } :: rest2)

/-- What a call of `Quote` does: its result, the cache afterwards, and the quote requests it
sent. -/
structure QuoteResult where
  result : Except QuoteErr QuoteResponse
  chainsCache : Option (List Chain)
  requests : List QuoteParams

/-- The method `RelaylinkClient.Quote`. -/
def RelaylinkClient.Quote (keccak : Keccak) (env : QuoteEnv) (chainsCache : Option (List Chain))
    (chainId : Int) (user inputToken outputToken : List Char) (amount : Int)
    (slippageBps : Int) (enableInfiniteApproval : Bool) : QuoteResult :=
  match RelaylinkClient.GetChainsByID env chainsCache chainId with
  | (none, cache) => ⟨.error .unsupportedChain, cache, []⟩
  | (some chain, cache) =>
    let params : QuoteParams :=
      { user := user, originChainId := chain.id, destinationChainId := chain.id,
        originCurrency := inputToken, destinationCurrency := outputToken,
        amount := bigString amount, tradeType := ("EXACT_INPUT").toList,
        slippageTolerance := slippageBps }
    match env.fetch params with
    | .error err => ⟨.error err, cache, [params]⟩
    | .ok response =>
      if enableInfiniteApproval then
        match RelaylinkClient.rewriteSteps keccak response.steps with
        | .error err => ⟨.error (.passed err), cache, [params]⟩
        | .ok steps => ⟨.ok { response with steps := steps }, cache, [params]⟩
      else ⟨.ok response, cache, [params]⟩

/-- A quote environment in which the chain list cannot be fetched. -/
def offlineQuoteEnv : QuoteEnv :=
  ⟨.error (.other 9), fun _ => .ok sampleQuote⟩

/-- A quote environment that knows chain 1 and answers every request with `response`. -/
def sampleQuoteEnv (response : QuoteResponse) : QuoteEnv :=
  ⟨.ok [⟨1⟩], fun _ => .ok response⟩

/-- A quote whose `approve` step holds an item with call data that is not a hex string. -/
def badHexQuote : QuoteResponse :=
  { sampleQuote with
    steps := [⟨("approve").toList, [{ approveItem 100 with evmData := ("approve").toList }]⟩] }

/-! ### User settings and the swap service (`internal/model/settings.go`,
`internal/swap/service.go`, `settingshandler/utils.go`) -/

/-- A row of the `settings` table (schema `Settings`), without the time columns. -/
structure Settings where
  id : Nat
  userId : Int
  slippageBps : Int
  sellSlippageBps : Option Int
  exitSlippageBps : Option Int
  dexAggregator : List Char
  enableInfiniteApproval : Option Bool
deriving DecidableEq

/-- The `settings` table. -/
abbrev SettingsTable := List Settings

/-- The method `SettingsModel.FindByUserId`: the first row of the user, `notFound` without
one. `fault` is a failure of the store itself, if any. -/
def SettingsModel.FindByUserId (t : SettingsTable) (fault : Option Nat) (userId : Int) :
    Except Err Settings :=
  match fault with
  | some e => .error (.other e)
  | none =>
    match t.find? fun r => r.userId = userId with
    | some r => .ok r
    | none => .error .notFound

/-- The method `SettingsModel.Save`: insert a row under a new id; the unique index on
`userId` rejects a second row of one user. Returns the row and the table after the call. -/
def SettingsModel.Save (t : SettingsTable) (fault : Option Nat) (args : Settings) :
    Except Err Settings × SettingsTable :=
  match fault with
  | some e => (.error (.other e), t)
  | none =>
    if t.any fun r => r.userId = args.userId then (.error .constraint, t)
    else
      (.ok { args with id := (t.map fun r => r.id).foldr max 0 + 1 },
        t ++ [{ args with id := (t.map fun r => r.id).foldr max 0 + 1 }])

/-- The method `SettingsModel.UpdateEnableInfiniteApproval`. -/
def SettingsModel.UpdateEnableInfiniteApproval (t : SettingsTable) (id : Nat)
    (newValue : Bool) : SettingsTable :=
  t.map fun r => if r.id = id then { r with enableInfiniteApproval := some newValue } else r

/-- The chain section of the configuration, as far as the swap service and the settings
handler read it. -/
structure SwapChainConfig where
  id : Int
  stablecoinCA : List Char
  slippageBps : Int
  dexAggregator : List Char

/-- The method `SwapService.getUserSettings` of a new service (no cached settings). -/
def SwapService.getUserSettings (c : SwapChainConfig) (t : SettingsTable) (fault : Option Nat)
    (userId : Int) : Except Err Settings :=
  match SettingsModel.FindByUserId t fault userId with
  | .ok v => .ok v
  | .error err =>
    if !err.isNotFound then .error err
    else
      .ok { id := 0, userId := userId, slippageBps := c.slippageBps, sellSlippageBps := none,
            exitSlippageBps := none, dexAggregator := c.dexAggregator,
            enableInfiniteApproval := none }

/-- The function `getUserSettings` of the settings handler, run when the settings menu is
opened: the user's row, created on first use. -/
def SettingsHandler.getUserSettings (c : SwapChainConfig) (t : SettingsTable)
    (findFault saveFault : Option Nat) (userId : Int) : Except Err Settings × SettingsTable :=
  match SettingsModel.FindByUserId t findFault userId with
  | .ok record => (.ok record, t)
  | .error err =>
    if !err.isNotFound then (.error err, t)
    else
      SettingsModel.Save t saveFault
        { id := 0, userId := userId, slippageBps := c.slippageBps, sellSlippageBps := none,
          exitSlippageBps := none, dexAggregator := c.dexAggregator,
          enableInfiniteApproval := some true }

/-- The method `handleEnableInfiniteApproval` of the settings menu on a button press: the
switch is flipped in the store. -/
def SettingsHandler.handleEnableInfiniteApproval (t : SettingsTable) (record : Settings) :
    SettingsTable :=
  SettingsModel.UpdateEnableInfiniteApproval t record.id
    (!(match record.enableInfiniteApproval with
      | some b => b
      | none => false))

/-- The function `strings.EqualFold` on ASCII strings (Unicode simple folding of other
characters is not modelled; addresses are ASCII). -/
def equalFold (s t : List Char) : Bool :=
  s.map Char.toLower = t.map Char.toLower

/-- The arguments with which `SwapService.Quote` calls `RelaylinkClient.Quote`. -/
structure AggregatorCall where
  chainId : Int
  user : Address
  inputToken : List Char
  outputToken : List Char
  amount : Int
  slippageBps : Int
  enableInfiniteApproval : Bool
deriving DecidableEq

/-- The method `SwapService.Quote` up to its call of the aggregator client: the arguments of
that call, or the error returned before it. `wallet` is the failure of `getUserWallet`, if
any, `getAddress` the result of `evm.GetAddress`, `exit` the variadic argument. -/
def SwapService.Quote (c : SwapChainConfig) (wallet : Option Err)
    (getAddress : Except Err Address) (t : SettingsTable) (fault : Option Nat) (userId : Int)
    (inputToken outputToken : List Char) (amount : Int) (exit : List Bool) :
    Except Err AggregatorCall :=
  match wallet with
  | some err => .error err
  | none =>
    match SwapService.getUserSettings c t fault userId with
    | .error err => .error err
    | .ok userSettings =>
      let slippageBps :=
        match userSettings.sellSlippageBps with
        | some sell =>
          if equalFold outputToken c.stablecoinCA then
            match exit.head?, userSettings.exitSlippageBps with
            | some true, some exitBps => exitBps
            | _, _ => sell
          else userSettings.slippageBps
        | none => userSettings.slippageBps
      if userSettings.dexAggregator = ("relay").toList then
        match getAddress with
        | .error err => .error err
        | .ok user =>
          .ok { chainId := c.id, user := user, inputToken := inputToken,
                outputToken := outputToken, amount := amount, slippageBps := slippageBps,
                enableInfiniteApproval :=
                  match userSettings.enableInfiniteApproval with
                  | some b => b
                  | none => false }
      else .error (.other 30)

/-- The slippage the settings menu shows for an exit trade (`displaySettingsMenu`): the exit
override if configured, else the sell override if configured, else the base slippage. -/
def displayedExitSlippage (record : Settings) : Int :=
  match record.exitSlippageBps with
  | some x => x
  | none =>
    match record.sellSlippageBps with
    | some s => s
    | none => record.slippageBps

/-- The effective slippage as the specification words it: the base slippage; the sell
override, if configured, when the output is the stablecoin; the exit override, if
configured, when the output is the stablecoin and the trade is an exit trade. -/
def specSlippage (record : Settings) (outputIsStablecoin isExit : Bool) : Int :=
  let s0 := record.slippageBps
  let s1 :=
    match outputIsStablecoin, record.sellSlippageBps with
    | true, some sell => sell
    | _, _ => s0
  match outputIsStablecoin, isExit, record.exitSlippageBps with
  | true, true, some x => x
  | _, _, _ => s1

/-- A chain configuration for worked examples: base slippage 100. -/
def sampleSwapConfig : SwapChainConfig :=
  ⟨1, sampleStable.Hex sampleKeccak, 100, ("relay").toList⟩

/-! ### Self-transfers in `GetTokenBalanceChanges` -/

/-- Sum of the values of the `Transfer` logs of `token` that the owner sent to the owner. -/
def selfTransferred (owner token : Address) (logs : List Log) : Int :=
  (logs.map fun log =>
    match log.transfer with
    | some (sender, recipient, value) =>
      if log.address = token ∧ sender = owner ∧ recipient = owner then value else 0
    | none => 0).sum

/-- A receipt with one log: the owner transfers 100 units of the token to the owner. -/
def selfTransferLogs : List Log :=
  [⟨sampleToken, [transferEventSig, addressTopic sampleAccount, addressTopic sampleAccount],
      bigEndian 32 100⟩]

/-! ### Manual liquidation (`positionhandler/sellall_handler.go`) -/

/-- The method `Decimal.LessThanOrEqual`. -/
def Decimal.LessThanOrEqual (d d2 : Decimal) : Bool :=
  decide (d.Cmp d2 = -1 ∨ d.Cmp d2 = 0)

/-- The method `SellAllHandler.handleSellAll`: quote and submit the sale of `amount` base
units and save the order, with an empty `StrategyId`. Messages to the chat are not modelled;
`none` is a panic of the decimal library. -/
def SellAllHandler.handleSellAll (cfg : ChainConfig) (env : KeeperEnv) (s : Store)
    (token symbol : List Char) (decimals : Nat) (amount : Int) : Option Store := do
  let uiAmount ← ParseUnits amount decimals
  match env.quote token cfg.stablecoinCA amount true with
  | .error _ => pure s
  | .ok tx => do
    let uiOutAmount ← ParseUnits tx.outAmount cfg.stablecoinDecimals
    let quotePrice ← uiOutAmount.Div uiAmount
    match env.swap tx with
    | .error _ => pure s
    | .ok (hash, nonce) =>
      let orderArgs : Order :=
        { id := 0, createTime := 0, account := tx.signer, token := token, symbol := symbol,
          strategyId := [], type := .Sell, price := quotePrice, finalPrice := quotePrice,
          inAmount := uiAmount, outAmount := uiOutAmount, status := .Pending, nonce := nonce,
          txHash := hash, gridId := none, gridNumber := none, gridBuyCost := none,
          profit := none, reason := [] }
      if env.saveFault then pure s
      else pure { s with orders := OrderModel.Save s.orders env.now orderArgs }

/-- The method `SellAllHandler.handle` on a message carrying the token address, after the
wallet `w` of the user was found. `running` is the result of
`StrategyModel.FindByUserIdToken`, reduced to whether the strategy found is active. -/
def SellAllHandler.handle (cfg : ChainConfig) (env : KeeperEnv) (s : Store) (w : Wallet)
    (token : List Char) (running : Except Err Bool) : Option Store :=
  if equalFold token cfg.stablecoinCA then some s
  else
    let blocked : Bool :=
      match running with
      | .ok active => active
      | .error err => !err.isNotFound
    if blocked then some s
    else
      match env.getTokenMeta token with
      | .error _ => some s
      | .ok tokenmeta =>
        match env.balanceOf (HexToAddress token) (HexToAddress w.account) with
        | .error _ => some s
        | .ok balance => do
          let uiBalance ← ParseUnits balance tokenmeta.decimals
          if uiBalance.LessThanOrEqual (Decimal.New 0 1) then pure s
          else
            SellAllHandler.handleSellAll cfg env s token tokenmeta.symbol tokenmeta.decimals
              balance

/-- The sample environment with every token balance zero. -/
def emptyWalletEnv : KeeperEnv :=
  { sampleEnv revertedReceipt with balanceOf := fun _ _ => .ok 0 }

/-- The sample wallet. -/
def sampleWallet : Wallet := ⟨42, sampleAccount.Hex sampleKeccak⟩

/-- The store after a manual liquidation of the sample token in the sample environment,
starting with no orders. -/
def storeAfterSellAll : Option Store :=
  SellAllHandler.handle sampleCfg (sampleEnv revertedReceipt) ⟨[], sampleGrids, [sampleStrategy]⟩
    sampleWallet (sampleToken.Hex sampleKeccak) (.error .notFound)

/-- A pending liquidation Sell of the sample strategy: no grid, cost basis 15. -/
def sampleExit : Order :=
  { sampleSellAll with strategyId := ("s1").toList }

/-! ### Grid trend encoding (`internal/strategy/common.go`) -/

/-- The function `strconv.Itoa` (an `int` has 64 bits): a minus sign for negative values,
then the decimal digits of the absolute value. -/
def Itoa (i : Int) : List Char :=
  if i < 0 then '-' :: Nat.toDigits 10 i.natAbs else Nat.toDigits 10 i.natAbs

/-- The function `strconv.Atoi`: an optional sign followed by at least one decimal digit and
nothing else, standing for a value of the `int64` range; a syntax error (tag 40) or a range
error (tag 41) otherwise. The fast path for short strings and `ParseInt` agree on this. -/
def Atoi (s : List Char) : Except Err Int :=
  match s with
  | [] => .error (.other 40)
  | c :: cs =>
    let neg := decide (c = '-')
    let body := if c = '-' ∨ c = '+' then cs else c :: cs
    if body.isEmpty then .error (.other 40)
    else if !body.all (fun ch => decide ('0' ≤ ch ∧ ch ≤ '9')) then .error (.other 40)
    else
      let un := digitsValue body
      if !neg ∧ un ≥ 2 ^ 63 then .error (.other 41)
      else if neg ∧ un > 2 ^ 63 then .error (.other 41)
      else .ok (if neg then -(un : Int) else (un : Int))

/-- The function `encodeGridTrend`. -/
def encodeGridTrend (trending : List Int) : List Char :=
  if trending.length = 0 then []
  else [':'].intercalate (trending.map Itoa)

/-- The function `decodeGridTrend`; the argument `none` is a nil pointer and the result
`none` a nil slice. -/
def decodeGridTrend (trending : Option (List Char)) : Option (List Int) :=
  match trending with
  | none => none
  | some s =>
    let slice := s.splitOn ':'
    if slice.length = 0 then none
    else some (slice.filterMap fun item => (Atoi item).toOption)

/-! ### Concurrent calls of `NonceManager.Request` -/

/-- Where a call of `Request` stands: before `m.mutex.Lock()` (`start`), holding a reference
to the account's mutex and waiting for it (`waiting`), holding it before the chain query
(`locked`), after the chain query (`queried`), after the record read with the candidate
computed (`found`, with whether the read was "not found"), inside `consume` (`consuming`),
after a successful `consume` and before the store write (`persisting`), before the deferred
`Unlock` (`unlocking`, with the error to return), and returned (`done`). -/
inductive Pc where
  | start
  | waiting
  | locked
  | queried (nextNonce : Nat)
  | found (nextNonce : Nat) (notFound : Bool)
  | consuming (nextNonce : Nat) (notFound : Bool)
  | persisting (nextNonce : Nat) (notFound : Bool)
  | unlocking (err : Option Err)
  | done (err : Option Err)
deriving DecidableEq, Repr

/-- Whether a call holds its account's mutex. -/
def Pc.inCriticalSection : Pc → Bool
  | .locked => true
  | .queried _ => true
  | .found _ _ => true
  | .consuming _ _ => true
  | .persisting _ _ => true
  | .unlocking _ => true
  | _ => false

/-- One call of `Request` in progress: its account, what it meets outside the process, and
where it stands. -/
structure Call where
  account : Address
  env : RequestEnv
  pc : Pc

/-- The nonce manager with calls in progress: the `nonce` table, the keys of the map
`userLocks`, the keys whose mutex is locked, the calls, and the record of the finished
`consume` invocations (key of the account, nonce passed, whether it succeeded). -/
structure Burst where
  table : NonceTable
  userLocks : List (List Char)
  held : List (List Char)
  calls : List Call
  consumed : List (List Char × Nat × Bool)

/-- The store write after a successful `consume`: `Save` when the record read was "not
found", `UpdateNonce` otherwise; a failed write is logged and leaves the table. -/
def persistTable (keccak : Keccak) (t : NonceTable) (fault : Option Nat) (key : List Char)
    (nextNonce : Nat) (notFound : Bool) : NonceTable :=
  match (if notFound then NonceModel.Save keccak t fault key nextNonce
    else NonceModel.UpdateNonce keccak t fault key nextNonce) with
  | .ok t2 => t2
  | .error _ => t

/-- One atomic step of call `i` of `Request`, in source order: look the account's mutex up in
`userLocks` (creating it) under the manager's mutex; lock it, which is possible only while
no call holds it; query the chain; read the record and compute the candidate; enter
`consume`; leave `consume`; write the store; unlock and return. A call that cannot move
(blocked on the mutex, returned, or no such call) leaves the state as it is. -/
def Burst.step (keccak : Keccak) (st : Burst) (i : Nat) : Burst :=
  match st.calls[i]? with
  | none => st
  | some call =>
    let key := call.account.Hex keccak
    let goto (pc : Pc) : List Call := st.calls.set i { call with pc := pc }
    match call.pc with
    | .start =>
      { st with
        userLocks := if key ∈ st.userLocks then st.userLocks else key :: st.userLocks
        calls := goto .waiting }
    | .waiting =>
      if key ∈ st.held then st else { st with held := key :: st.held, calls := goto .locked }
    | .locked =>
      match call.env.pendingNonceAt with
      | .error err => { st with calls := goto (.unlocking (some err)) }
      | .ok nextNonce => { st with calls := goto (.queried nextNonce) }
    | .queried nextNonce =>
      match NonceModel.FindOne keccak st.table call.env.findFault key with
      | .ok storedNonce =>
        { st with calls := goto (.found
            (if storedNonce.nonce ≥ nextNonce then (storedNonce.nonce + 1) % 2 ^ 64
              else nextNonce) false) }
      | .error findErr =>
        if !findErr.isNotFound then { st with calls := goto (.unlocking (some findErr)) }
        else { st with calls := goto (.found nextNonce true) }
    | .found nextNonce notFound => { st with calls := goto (.consuming nextNonce notFound) }
    | .consuming nextNonce notFound =>
      match call.env.consume nextNonce with
      | .error err =>
        { st with
          consumed := st.consumed ++ [(key, nextNonce, false)]
          calls := goto (.unlocking (some err)) }
      | .ok _ =>
        { st with
          consumed := st.consumed ++ [(key, nextNonce, true)]
          calls := goto (.persisting nextNonce notFound) }
    | .persisting nextNonce notFound =>
      { st with
        table := persistTable keccak st.table call.env.persistFault key nextNonce notFound
        calls := goto (.unlocking none) }
    | .unlocking err =>
      { st with held := st.held.filter (fun k => k ≠ key), calls := goto (.done err) }
    | .done _ => st

/-- A run: the calls named by the schedule take one step each, in that order. -/
def Burst.run (keccak : Keccak) (st : Burst) (schedule : List Nat) : Burst :=
  schedule.foldl (Burst.step keccak) st

/-- The state before any call has started. -/
def Burst.init (t : NonceTable) (requests : List (Address × RequestEnv)) : Burst :=
  ⟨t, [], [], requests.map fun r => ⟨r.1, r.2, .start⟩, []⟩

/-- The nonces passed to `consume` for an account by the invocations that succeeded, in the
order in which they finished. -/
def Burst.issued (keccak : Keccak) (st : Burst) (account : Address) : List Nat :=
  st.consumed.filterMap fun e =>
    if e.1 = account.Hex keccak ∧ e.2.2 = true then some e.2.1 else none

/-- Whether, along a run, every answer of the chain to a call of the account is at most `n`
plus the number of nonces issued for the account so far and, while the account has no row,
at least `n` (a failed query is allowed). -/
def Burst.chainInRange (keccak : Keccak) (account : Address) (n : Nat) :
    Burst → List Nat → Bool
  | _, [] => true
  | st, i :: schedule =>
    (match st.calls[i]? with
      | some call =>
        if call.account = account ∧ call.pc = .locked then
          match call.env.pendingNonceAt with
          | .ok c =>
            decide (c ≤ n + (st.issued keccak account).length ∧
              (storedNonce keccak st.table account = none → n ≤ c))
          | .error _ => true
        else true
      | none => true) &&
    Burst.chainInRange keccak account n (Burst.step keccak st i) schedule

/-- An environment in which the chain reports `c`, `consume` succeeds and the store write
fails. -/
def forgetfulEnv (c : Nat) : RequestEnv :=
  ⟨.ok c, none, fun _ => .ok [], some 9⟩

/-- Three calls for the sample account and one for another account; the chain reports 5 for
the first and 5, 6 and 7 for the others. -/
def sampleRequests : List (Address × RequestEnv) :=
  [(sampleAccount, calmEnv 5), (otherAccount, calmEnv 7), (sampleAccount, calmEnv 5),
    (sampleAccount, calmEnv 7)]

/-- A schedule in which the four calls take turns, thirty rounds. -/
def roundRobin : List Nat :=
  (List.replicate 30 [0, 1, 2, 3]).flatten

/-- The stored nonce after `j` nonces from `n` on were issued and stored, starting from the
stored nonce `initial` (`none` without a row). -/
def expectedStored (initial : Option Nat) (n j : Nat) : Option Nat :=
  if j = 0 then initial else some (n + j - 1)

/-- What the local values of a call of the account are, in terms of the number `j` of nonces
issued so far and the stored nonce: the chain answer lies in range, the candidate is the
next nonce, and the "not found" flag tells whether the account has a row. -/
def pcOk (n j : Nat) (stored : Option Nat) : Pc → Prop
  | .queried c => c ≤ n + j ∧ (stored = none → n ≤ c)
  | .found nextNonce notFound =>
    (nextNonce = n + j ∨ 2 ^ 64 ≤ n + j) ∧ (notFound = true ↔ stored = none)
  | .consuming nextNonce notFound =>
    (nextNonce = n + j ∨ 2 ^ 64 ≤ n + j) ∧ (notFound = true ↔ stored = none)
  | .persisting nextNonce notFound =>
    nextNonce + 1 = n + j ∧ 1 ≤ j ∧ (notFound = true ↔ stored = none)
  | _ => True

/-- Mutual exclusion for an account: at most one of its calls holds its mutex, and the mutex
is locked while one does. -/
structure Burst.Excl (keccak : Keccak) (account : Address) (st : Burst) : Prop where
  mutex : ∀ (i j : Nat) (ci cj : Call), st.calls[i]? = some ci → st.calls[j]? = some cj →
    ci.account = account → cj.account = account →
    ci.pc.inCriticalSection = true → cj.pc.inCriticalSection = true → i = j
  locked : ∀ (i : Nat) (c : Call), st.calls[i]? = some c → c.account = account →
    c.pc.inCriticalSection = true → account.Hex keccak ∈ st.held

/-- The invariant of a burst for an account whose stored nonce at the start is `initial`
and whose first nonce is `n` (the stored nonce plus one, or what the chain reports without
a row): the nonces issued are consecutive from `n`, and the stored nonce is the last one
issued (the last but one while the store write is pending). -/
structure Burst.Inv (keccak : Keccak) (account : Address) (initial : Option Nat) (n : Nat)
    (st : Burst) : Prop where
  start : ∀ s, initial = some s → s + 1 = n
  issued : st.issued keccak account = List.range' n (st.issued keccak account).length
  storedIdle : (∀ (i : Nat) (c : Call), st.calls[i]? = some c → c.account = account →
      ∀ x nf, c.pc ≠ Pc.persisting x nf) →
    storedNonce keccak st.table account
      = expectedStored initial n (st.issued keccak account).length
  storedPersisting : ∀ (i : Nat) (c : Call) (x : Nat) (nf : Bool), st.calls[i]? = some c →
    c.account = account → c.pc = Pc.persisting x nf →
    storedNonce keccak st.table account
      = expectedStored initial n ((st.issued keccak account).length - 1)
  pcs : ∀ (i : Nat) (c : Call), st.calls[i]? = some c → c.account = account →
    pcOk n (st.issued keccak account).length (storedNonce keccak st.table account) c.pc
  persistOk : ∀ (i : Nat) (c : Call), st.calls[i]? = some c → c.account = account →
    c.env.persistFault = none

/-- Two calls for the sample account, one after the other: each takes its eight steps. -/
def oneByOne : List Nat :=
  List.replicate 8 0 ++ List.replicate 8 1

/-- A table in which the sample account has a row with the given nonce. -/
def sampleRow (nonce : Nat) : NonceTable :=
  [⟨sampleAccount.Hex sampleKeccak, nonce⟩]

/-- Three calls for the sample account; the chain reports 5, 5 and 8. -/
def laggingRequests : List (Address × RequestEnv) :=
  [(sampleAccount, calmEnv 5), (sampleAccount, calmEnv 5), (sampleAccount, calmEnv 8)]

/-- Three calls, one after the other: each takes its eight steps. -/
def oneByOneThree : List Nat :=
  List.replicate 8 0 ++ List.replicate 8 1 ++ List.replicate 8 2

/-! ### The balance change closing handling works with -/

/-- The delta `GetTokenBalanceChanges` reports for a token that has a `Transfer` log involving
the owner: received minus sent, a transfer from the owner to the owner counted as sent
only. Without such a transfer in the logs it is the owner's balance change. -/
def reportedDelta (owner token : Address) (logs : List Log) : Int :=
  receivedByOwner owner token logs - sentByOwner owner token logs
    - selfTransferred owner token logs

/-- A receipt log: the sample account transfers `amount` base units of `token` to itself. -/
def selfLog (token : Address) (amount : Nat) : Log :=
  ⟨token, [transferEventSig, addressTopic sampleAccount, addressTopic sampleAccount],
    bigEndian 32 amount⟩

/-- A receipt lookup: the Buy succeeded, credited 1000 base units of the token, and the
account also transferred 400 base units of the token to itself. -/
def selfBuyReceipt (_ : List Char) : Except (List Char) Receipt :=
  .ok ⟨1, [creditLog sampleToken 1000, selfLog sampleToken 400]⟩

/-- A receipt lookup: the Sell succeeded, credited 30 stablecoin units, and the account also
transferred 10 stablecoin units to itself. -/
def selfSellReceipt (_ : List Char) : Except (List Char) Receipt :=
  .ok ⟨1, [creditLog sampleStable 30000000, selfLog sampleStable 10000000]⟩

/-- The sample environment with the token metadata unavailable. -/
def noMetaEnv (transactionReceipt : List Char → Except (List Char) Receipt) : KeeperEnv :=
  { sampleEnv transactionReceipt with getTokenMeta := fun _ => .error (.other 5) }

/-- The sample environment with the stablecoin balance unavailable. -/
def noBalanceEnv (transactionReceipt : List Char → Except (List Char) Receipt) : KeeperEnv :=
  { sampleEnv transactionReceipt with balanceOf := fun _ _ => .error (.other 6) }

/-- The sample environment with the store transaction of every order failing. -/
def noStoreEnv (transactionReceipt : List Char → Except (List Char) Receipt) : KeeperEnv :=
  { sampleEnv transactionReceipt with txFault := fun _ => true }

/-- The sample Buy with an input amount whose exponent is the largest `int32`. -/
def hugeBuy : Order :=
  { sampleBuy with inAmount := ⟨1, 2147483647⟩ }

/-- The sample Sell as the tick closes it on the sample Sell receipt: 30 stablecoin units
for 2 tokens bought for 12. -/
def closedSampleSell : Order :=
  { sampleSell none with
    status := .Closed, finalPrice := ⟨150000000000000000, -16⟩, outAmount := ⟨30000000, -6⟩,
    profit := some ⟨18000000, -6⟩ }

/-! ## Theorems -/


/-! ### Addresses and their hex form -/

theorem fromHexChar_checksum (n : Nat) (hn : n < 16) (p : Prop) [Decidable p] :
    fromHexChar
      (if '9' < hextable.getD n '0' ∧ p then Char.ofNat ((hextable.getD n '0').toNat - 32)
        else hextable.getD n '0') = some n := by
  by_cases hp : p
  · simp only [hp, and_true]
    interval_cases n <;> decide
  · simp only [hp, and_false, if_false]
    interval_cases n <;> decide

theorem length_checksumLoop (hash : List Byte) (cs : List Char) (i : Nat) :
    (checksumLoop hash i cs).length = cs.length := by
  induction cs generalizing i with
  | nil => rfl
  | cons c cs ih => simp [checksumLoop, ih]

theorem length_hexEncode (bs : List Byte) : (hexEncode bs).length = 2 * bs.length := by
  induction bs with
  | nil => rfl
  | cons b bs ih => simp [hexEncode, ih]; omega

theorem Hex2Bytes_checksumLoop (hash : List Byte) (bs : List Byte) (i : Nat) :
    Hex2Bytes (checksumLoop hash i (hexEncode bs)) = bs := by
  induction bs generalizing i with
  | nil => rfl
  | cons b bs ih =>
    have h1 : b.val / 16 < 16 := by have := b.isLt; omega
    have h2 : b.val % 16 < 16 := by omega
    simp only [hexEncode, checksumLoop, Hex2Bytes]
    rw [fromHexChar_checksum _ h1, fromHexChar_checksum _ h2]
    simp only [ih]
    congr 1
    apply Fin.ext
    show (b.val / 16 * 16 + b.val % 16) % 256 = b.val
    have := b.isLt
    omega

theorem BytesToAddress_bytes (a : Address) : BytesToAddress a.bytes = a := by
  cases a with
  | mk bytes size =>
    simp [BytesToAddress, size]

/-- Reading back the checksummed hex form of an address yields the address, whatever the
digest function. -/
theorem HexToAddress_Hex (keccak : Keccak) (a : Address) :
    HexToAddress (a.Hex keccak) = a := by
  have hlen : (checksumLoop (keccak ((hexEncode a.bytes).map fun c => Fin.ofNat c.toNat)) 0
      (hexEncode a.bytes)).length % 2 = 0 := by
    rw [length_checksumLoop, length_hexEncode]; omega
  simp only [HexToAddress, Address.Hex, FromHex]
  rw [if_neg (by omega), Hex2Bytes_checksumLoop, BytesToAddress_bytes]

theorem Hex_injective (keccak : Keccak) (a b : Address) (h : a.Hex keccak = b.Hex keccak) :
    a = b := by
  rw [← HexToAddress_Hex keccak a, ← HexToAddress_Hex keccak b, h]

theorem key_Hex (keccak : Keccak) (a : Address) :
    NonceModel.key keccak (a.Hex keccak) = a.Hex keccak := by
  simp only [NonceModel.key, HexToAddress_Hex]


/-! ### Nonce coordinator: one call of `Request` unfolded -/

/-- The row `FindOne` reads for an account. -/
theorem FindOne_Hex (keccak : Keccak) (t : NonceTable) (account : Address) :
    NonceModel.FindOne keccak t none (account.Hex keccak) =
      match t.find? (fun r => r.account = account.Hex keccak) with
      | some r => .ok r
      | none => .error .notFound := by
  simp only [NonceModel.FindOne, key_Hex]

theorem storedNonce_eq_find (keccak : Keccak) (t : NonceTable) (account : Address) :
    storedNonce keccak t account =
      (t.find? (fun r => r.account = account.Hex keccak)).map (fun r => r.nonce) := by
  simp only [storedNonce, FindOne_Hex]
  cases t.find? (fun r => r.account = account.Hex keccak) <;> rfl

theorem Request_of_found (keccak : Keccak) (env : RequestEnv) (t : NonceTable)
    (account : Address) (c : Nat) (r : NonceRecord)
    (hc : env.pendingNonceAt = .ok c) (hf : env.findFault = none)
    (hr : t.find? (fun r => r.account = account.Hex keccak) = some r) :
    NonceManager.Request keccak env t account =
      match env.consume (candidateOf r c) with
      | .error e => ⟨some e, [candidateOf r c], t⟩
      | .ok _ =>
        match env.persistFault with
        | some _ => ⟨none, [candidateOf r c], t⟩
        | none => ⟨none, [candidateOf r c], updatedTable keccak t account (candidateOf r c)⟩ := by
  simp only [NonceManager.Request, hc, hf, FindOne_Hex, hr, candidateOf]
  cases env.consume (if r.nonce ≥ c then (r.nonce + 1) % 2 ^ 64 else c) with
  | error e => rfl
  | ok h =>
    cases hp : env.persistFault with
    | some e => simp [NonceModel.UpdateNonce]
    | none => simp [NonceModel.UpdateNonce, key_Hex, updatedTable]

theorem Request_of_missing (keccak : Keccak) (env : RequestEnv) (t : NonceTable)
    (account : Address) (c : Nat)
    (hc : env.pendingNonceAt = .ok c) (hf : env.findFault = none)
    (hr : t.find? (fun r => r.account = account.Hex keccak) = none) :
    NonceManager.Request keccak env t account =
      match env.consume c with
      | .error e => ⟨some e, [c], t⟩
      | .ok _ =>
        match env.persistFault with
        | some _ => ⟨none, [c], t⟩
        | none => ⟨none, [c], t ++ [⟨account.Hex keccak, c⟩]⟩ := by
  have hany : (t.any fun r => decide (r.account = account.Hex keccak)) = false := by
    rw [List.find?_eq_none] at hr
    rw [List.any_eq_false]
    intro x hx
    exact hr x hx
  simp only [NonceManager.Request, hc, hf, FindOne_Hex, hr, Err.isNotFound]
  cases env.consume c with
  | error e => rfl
  | ok h =>
    cases hp : env.persistFault with
    | some e => simp [NonceModel.Save]
    | none => simp [NonceModel.Save, key_Hex, hany]

theorem find_updatedTable (keccak : Keccak) (t : NonceTable) (account : Address) (n : Nat)
    (r : NonceRecord) (hr : t.find? (fun r => r.account = account.Hex keccak) = some r) :
    (updatedTable keccak t account n).find? (fun r => r.account = account.Hex keccak) =
      some { r with nonce := n } := by
  induction t with
  | nil => simp at hr
  | cons x xs ih =>
    by_cases hx : x.account = account.Hex keccak
    · simp only [List.find?_cons, hx, decide_True] at hr
      cases hr
      simp [updatedTable, List.find?_cons, hx]
    · simp only [List.find?_cons, hx, decide_False] at hr
      have := ih hr
      simp only [updatedTable] at this
      simp [updatedTable, List.find?_cons, hx, this]

theorem otherRows_updatedTable (keccak : Keccak) (t : NonceTable) (account : Address)
    (n : Nat) :
    otherRows keccak (updatedTable keccak t account n) account = otherRows keccak t account := by
  induction t with
  | nil => rfl
  | cons x xs ih =>
    simp only [otherRows, updatedTable, List.map_cons, List.filter_cons] at ih ⊢
    by_cases hx : x.account = account.Hex keccak
    · simp_all
    · simp_all

theorem otherRows_append_own (keccak : Keccak) (t : NonceTable) (account : Address)
    (n : Nat) :
    otherRows keccak (t ++ [⟨account.Hex keccak, n⟩]) account = otherRows keccak t account := by
  simp [otherRows, List.filter_append, List.filter_cons]

theorem storedNonce_other_updatedTable (keccak : Keccak) (t : NonceTable)
    (account other : Address) (n : Nat) (h : other ≠ account) :
    storedNonce keccak (updatedTable keccak t account n) other = storedNonce keccak t other := by
  have hne : other.Hex keccak ≠ account.Hex keccak := fun e => h (Hex_injective keccak _ _ e)
  simp only [storedNonce_eq_find]
  induction t with
  | nil => rfl
  | cons x xs ih =>
    simp only [updatedTable, List.map_cons, List.find?_cons] at ih ⊢
    by_cases hx : x.account = account.Hex keccak
    · have hx2 : ¬ account.Hex keccak = other.Hex keccak := fun e => hne e.symm
      simp only [hx, if_true, hx2, decide_False]
      exact ih
    · by_cases hy : x.account = other.Hex keccak
      · simp only [hx, if_false]
        simp only [hy, decide_True, Option.map_some']
      · simp only [hx, if_false, hy, decide_False]
        exact ih

theorem storedNonce_other_append (keccak : Keccak) (t : NonceTable)
    (account other : Address) (n : Nat) (h : other ≠ account) :
    storedNonce keccak (t ++ [⟨account.Hex keccak, n⟩]) other = storedNonce keccak t other := by
  have hne : account.Hex keccak ≠ other.Hex keccak :=
    fun e => h (Hex_injective keccak _ _ e).symm
  simp only [storedNonce_eq_find, List.find?_append]
  cases t.find? (fun r => decide (r.account = other.Hex keccak)) with
  | some r => rfl
  | none => simp [List.find?_cons, hne]


/-! ### Nonce coordinator: what one call does -/

theorem candidateNonce_of_find (keccak : Keccak) (t : NonceTable) (account : Address)
    (c : Nat) (r : NonceRecord)
    (hr : t.find? (fun r => r.account = account.Hex keccak) = some r) :
    candidateNonce (storedNonce keccak t account) c = candidateOf r c := by
  simp only [storedNonce_eq_find, hr, Option.map_some', candidateNonce, candidateOf]

/-- With the chain query and the row query answered, `Request` calls `consume` once, on the
candidate nonce. -/
theorem Request_consumed (keccak : Keccak) (env : RequestEnv) (t : NonceTable)
    (account : Address) (c : Nat)
    (hc : env.pendingNonceAt = .ok c) (hf : env.findFault = none) :
    (NonceManager.Request keccak env t account).consumed =
      [candidateNonce (storedNonce keccak t account) c] := by
  cases hr : t.find? (fun r => r.account = account.Hex keccak) with
  | some r =>
    rw [Request_of_found keccak env t account c r hc hf hr,
      candidateNonce_of_find keccak t account c r hr]
    cases env.consume (candidateOf r c) with
    | error e => rfl
    | ok h => cases env.persistFault <;> rfl
  | none =>
    have hs : storedNonce keccak t account = none := by
      simp only [storedNonce_eq_find, hr, Option.map_none']
    rw [Request_of_missing keccak env t account c hc hf hr, hs]
    cases env.consume c with
    | error e => rfl
    | ok h => cases env.persistFault <;> rfl

/-- A failed chain query ends the call at once. -/
theorem Request_of_chain_error (keccak : Keccak) (env : RequestEnv) (t : NonceTable)
    (account : Address) (e : Err) (hc : env.pendingNonceAt = .error e) :
    NonceManager.Request keccak env t account = ⟨some e, [], t⟩ := by
  simp only [NonceManager.Request, hc]

/-- A failed row query ends the call before `consume`. -/
theorem Request_of_find_fault (keccak : Keccak) (env : RequestEnv) (t : NonceTable)
    (account : Address) (c k : Nat) (hc : env.pendingNonceAt = .ok c)
    (hf : env.findFault = some k) :
    NonceManager.Request keccak env t account = ⟨some (.other k), [], t⟩ := by
  simp [NonceManager.Request, hc, hf, NonceModel.FindOne, Err.isNotFound]

/-- When `consume` fails, its error is returned and the table is untouched. -/
theorem Request_of_consume_error (keccak : Keccak) (env : RequestEnv) (t : NonceTable)
    (account : Address) (c : Nat) (e : Err)
    (hc : env.pendingNonceAt = .ok c) (hf : env.findFault = none)
    (he : env.consume (candidateNonce (storedNonce keccak t account) c) = .error e) :
    NonceManager.Request keccak env t account =
      ⟨some e, [candidateNonce (storedNonce keccak t account) c], t⟩ := by
  cases hr : t.find? (fun r => r.account = account.Hex keccak) with
  | some r =>
    rw [candidateNonce_of_find keccak t account c r hr] at he ⊢
    rw [Request_of_found keccak env t account c r hc hf hr, he]
  | none =>
    have hs : storedNonce keccak t account = none := by
      simp only [storedNonce_eq_find, hr, Option.map_none']
    rw [hs] at he ⊢
    simp only [candidateNonce] at he ⊢
    rw [Request_of_missing keccak env t account c hc hf hr, he]

/-- When `consume` succeeds the call returns no error; the table is the old one if the
store fails, and else holds the candidate in the account's row: updated in place when the
row existed, appended otherwise. -/
theorem Request_of_consume_ok (keccak : Keccak) (env : RequestEnv) (t : NonceTable)
    (account : Address) (c : Nat) (h : List Char)
    (hc : env.pendingNonceAt = .ok c) (hf : env.findFault = none)
    (hok : env.consume (candidateNonce (storedNonce keccak t account) c) = .ok h) :
    NonceManager.Request keccak env t account =
      ⟨none, [candidateNonce (storedNonce keccak t account) c],
        match env.persistFault with
        | some _ => t
        | none =>
          match storedNonce keccak t account with
          | some _ =>
            updatedTable keccak t account (candidateNonce (storedNonce keccak t account) c)
          | none => t ++ [⟨account.Hex keccak, c⟩]⟩ := by
  cases hr : t.find? (fun r => r.account = account.Hex keccak) with
  | some r =>
    have hs : storedNonce keccak t account = some r.nonce := by
      simp only [storedNonce_eq_find, hr, Option.map_some']
    rw [candidateNonce_of_find keccak t account c r hr] at hok ⊢
    rw [Request_of_found keccak env t account c r hc hf hr, hok, hs]
    cases env.persistFault <;> rfl
  | none =>
    have hs : storedNonce keccak t account = none := by
      simp only [storedNonce_eq_find, hr, Option.map_none']
    rw [hs] at hok ⊢
    simp only [candidateNonce] at hok ⊢
    rw [Request_of_missing keccak env t account c hc hf hr, hok]
    cases env.persistFault <;> rfl

theorem storedNonce_updatedTable (keccak : Keccak) (t : NonceTable) (account : Address)
    (n s : Nat) (hs : storedNonce keccak t account = some s) :
    storedNonce keccak (updatedTable keccak t account n) account = some n := by
  rw [storedNonce_eq_find] at hs ⊢
  cases hr : t.find? (fun r => r.account = account.Hex keccak) with
  | none => rw [hr] at hs; cases hs
  | some r => rw [find_updatedTable keccak t account n r hr]; rfl

theorem storedNonce_append_own (keccak : Keccak) (t : NonceTable) (account : Address)
    (n : Nat) (hs : storedNonce keccak t account = none) :
    storedNonce keccak (t ++ [⟨account.Hex keccak, n⟩]) account = some n := by
  rw [storedNonce_eq_find] at hs ⊢
  cases hr : t.find? (fun r => r.account = account.Hex keccak) with
  | some r => rw [hr] at hs; cases hs
  | none => simp [List.find?_append, hr, List.find?_cons]

/-- Whatever reached `consume` is the candidate nonce of a call whose chain query and row
query were answered. -/
theorem consumed_mem (keccak : Keccak) (env : RequestEnv) (t : NonceTable)
    (account : Address) (x : Nat)
    (hx : x ∈ (NonceManager.Request keccak env t account).consumed) :
    ∃ c, env.pendingNonceAt = .ok c ∧ env.findFault = none ∧
      x = candidateNonce (storedNonce keccak t account) c := by
  cases hc : env.pendingNonceAt with
  | error e =>
    rw [Request_of_chain_error keccak env t account e hc] at hx
    cases hx
  | ok c =>
    cases hf : env.findFault with
    | some k =>
      rw [Request_of_find_fault keccak env t account c k hc hf] at hx
      cases hx
    | none =>
      rw [Request_consumed keccak env t account c hc hf] at hx
      exact ⟨c, rfl, rfl, List.mem_singleton.mp hx⟩

theorem candidateNonce_next (stored : Option Nat) (c m : Nat) (hm : m < 2 ^ 64)
    (hpre : (stored = none ∧ c = m) ∨ (∃ s, stored = some s ∧ s + 1 = m ∧ c ≤ m)) :
    candidateNonce stored c = m := by
  rcases hpre with ⟨hs, hcm⟩ | ⟨s, hs, hsm, hcm⟩
  · rw [hs, hcm]; rfl
  · rw [hs]
    simp only [candidateNonce]
    split
    · rw [hsm]; exact Nat.mod_eq_of_lt hm
    · omega

/-- Successive calls from a state whose next nonce is `m`. -/
theorem RequestSeq_from (keccak : Keccak) (account : Address) :
    ∀ (envs : List RequestEnv) (t : NonceTable) (m : Nat),
      ((storedNonce keccak t account = none ∧
          ∀ env c, envs.head? = some env → env.pendingNonceAt = .ok c → c = m) ∨
        ∃ s, storedNonce keccak t account = some s ∧ s + 1 = m) →
      m + envs.length ≤ 2 ^ 64 →
      (∀ i (h : i < envs.length), ∃ c, (envs.get ⟨i, h⟩).pendingNonceAt = .ok c ∧ c ≤ m + i) →
      (∀ env ∈ envs, env.findFault = none) →
      (∀ env ∈ envs, ∀ x, ∃ h, env.consume x = .ok h) →
      (∀ env ∈ envs, env.persistFault = none) →
      (NonceManager.RequestSeq keccak account envs t).map (fun r => r.consumed) =
          (List.range' m envs.length).map (fun x => [x]) ∧
        (NonceManager.RequestSeq keccak account envs t).map
            (fun r => storedNonce keccak r.table account) =
          (List.range' m envs.length).map some ∧
        ∀ r ∈ NonceManager.RequestSeq keccak account envs t, r.err = none := by
  intro envs
  induction envs with
  | nil =>
    intro t m _ _ _ _ _ _
    simp [NonceManager.RequestSeq]
  | cons env envs ih =>
    intro t m hpre hbound hchain hfind hconsume hpersist
    obtain ⟨c, hc, hcm⟩ := hchain 0 (by simp)
    simp only [List.get_eq_getElem, List.getElem_cons_zero, Nat.add_zero] at hc hcm
    have hf := hfind env (List.mem_cons_self _ _)
    have hp := hpersist env (List.mem_cons_self _ _)
    have hlen : m < 2 ^ 64 := by simp only [List.length_cons] at hbound; omega
    have hcand : candidateNonce (storedNonce keccak t account) c = m := by
      apply candidateNonce_next _ _ _ hlen
      rcases hpre with ⟨hs, hhead⟩ | ⟨s, hs, hsm⟩
      · exact Or.inl ⟨hs, hhead env c rfl hc⟩
      · exact Or.inr ⟨s, hs, hsm, hcm⟩
    obtain ⟨h, hok⟩ := hconsume env (List.mem_cons_self _ _) m
    have hreq := Request_of_consume_ok keccak env t account c h hc hf (by rw [hcand]; exact hok)
    rw [hcand, hp] at hreq
    have hstored : storedNonce keccak (NonceManager.Request keccak env t account).table account
        = some m := by
      rw [hreq]
      rcases hpre with ⟨hs, hhead⟩ | ⟨s, hs, _⟩
      · have hcm2 : c = m := hhead env c rfl hc
        simp only [hs, hcm2]
        exact storedNonce_append_own keccak t account m hs
      · simp only [hs]
        exact storedNonce_updatedTable keccak t account m s hs
    have hrest := ih (NonceManager.Request keccak env t account).table (m + 1)
      (Or.inr ⟨m, hstored, rfl⟩)
      (by simp only [List.length_cons] at hbound; omega)
      (by
        intro i hi
        obtain ⟨c2, hc2, hle⟩ := hchain (i + 1) (by simp only [List.length_cons]; omega)
        refine ⟨c2, ?_, by omega⟩
        simpa using hc2)
      (fun e he => hfind e (List.mem_cons_of_mem _ he))
      (fun e he => hconsume e (List.mem_cons_of_mem _ he))
      (fun e he => hpersist e (List.mem_cons_of_mem _ he))
    obtain ⟨h1, h2, h3⟩ := hrest
    refine ⟨?_, ?_, ?_⟩
    · simp only [NonceManager.RequestSeq, List.map_cons, List.length_cons, List.range'_succ, h1]
      rw [hreq]
    · simp only [NonceManager.RequestSeq, List.map_cons, List.length_cons, List.range'_succ, h2,
        hstored]
    · intro r hr
      simp only [NonceManager.RequestSeq, List.mem_cons] at hr
      rcases hr with hr | hr
      · rw [hr, hreq]
      · exact h3 r hr

/-! ### Nonce coordinator: the claims -/

/-- C1 (amended): when the chain reports the pending nonce `c`, the row query is answered and
the stored `lastIssuedNonce` (if any) is below `2 ^ 64 - 1`, `Request` passes to `consume`
the nonce `s + 1` when a row with `s ≥ c` exists and `c` otherwise (no row, or `s < c`);
equivalently `max c (s + 1)` with a row and `c` without one. -/
theorem Request_candidate_nonce (keccak : Keccak) (env : RequestEnv) (t : NonceTable)
    (account : Address) (c : Nat)
    (hc : env.pendingNonceAt = .ok c) (hf : env.findFault = none)
    (hs : ∀ s, storedNonce keccak t account = some s → s < 2 ^ 64 - 1) :
    (∀ s, storedNonce keccak t account = some s → s ≥ c →
        (NonceManager.Request keccak env t account).consumed = [s + 1]) ∧
      (∀ s, storedNonce keccak t account = some s → s < c →
        (NonceManager.Request keccak env t account).consumed = [c]) ∧
      (storedNonce keccak t account = none →
        (NonceManager.Request keccak env t account).consumed = [c]) ∧
      (NonceManager.Request keccak env t account).consumed =
        [match storedNonce keccak t account with
          | some s => max c (s + 1)
          | none => c] := by
  rw [Request_consumed keccak env t account c hc hf]
  refine ⟨?_, ?_, ?_, ?_⟩
  · intro s h hge
    have := hs s h
    rw [h]
    simp only [candidateNonce, hge, if_true]
    rw [Nat.mod_eq_of_lt (by omega)]
  · intro s h hlt
    rw [h]
    simp only [candidateNonce]
    rw [if_neg (by omega)]
  · intro h
    rw [h]
    rfl
  · cases h : storedNonce keccak t account with
    | none => rfl
    | some s =>
      have := hs s h
      simp only [candidateNonce]
      split
      · rw [Nat.mod_eq_of_lt (by omega), max_eq_right (by omega)]
      · rw [max_eq_left (by omega)]

theorem Request_candidate_nonce_witness :
    (NonceManager.Request sampleKeccak (calmEnv 5)
        [⟨sampleAccount.Hex sampleKeccak, 7⟩] sampleAccount).consumed = [8] ∧
      (NonceManager.Request sampleKeccak (calmEnv 9)
        [⟨sampleAccount.Hex sampleKeccak, 7⟩] sampleAccount).consumed = [9] ∧
      (NonceManager.Request sampleKeccak (calmEnv 5) [] sampleAccount).consumed = [5] := by
  have h7 : storedNonce sampleKeccak [⟨sampleAccount.Hex sampleKeccak, 7⟩] sampleAccount
      = some 7 := by
    simp [storedNonce_eq_find, List.find?_cons]
  have hb : ∀ s, storedNonce sampleKeccak [⟨sampleAccount.Hex sampleKeccak, 7⟩] sampleAccount
      = some s → s < 2 ^ 64 - 1 := by
    intro s h
    rw [h7] at h
    cases h
    decide
  have h0 : storedNonce sampleKeccak [] sampleAccount = none := by
    simp [storedNonce_eq_find]
  refine ⟨?_, ?_, ?_⟩
  · exact (Request_candidate_nonce sampleKeccak (calmEnv 5) _ sampleAccount 5 rfl rfl hb).1 7 h7
      (by decide)
  · exact (Request_candidate_nonce sampleKeccak (calmEnv 9) _ sampleAccount 9 rfl rfl hb).2.1 7 h7
      (by decide)
  · exact (Request_candidate_nonce sampleKeccak (calmEnv 5) [] sampleAccount 5 rfl rfl
      (by intro s h; rw [h0] at h; cases h)).2.2.1 h0

/-- C1 (counterexample): with the stored `lastIssuedNonce` at `2 ^ 64 - 1` and the chain
reporting `5`, a row with `s ≥ c` exists, yet `Request` passes `0` to `consume`, which is
neither `s + 1` nor `max c (s + 1)`: the `uint64` addition wraps. -/
theorem Request_candidate_nonce_wraps :
    storedNonce sampleKeccak [⟨sampleAccount.Hex sampleKeccak, 2 ^ 64 - 1⟩] sampleAccount
        = some (2 ^ 64 - 1) ∧
      2 ^ 64 - 1 ≥ 5 ∧
      (NonceManager.Request sampleKeccak (calmEnv 5)
        [⟨sampleAccount.Hex sampleKeccak, 2 ^ 64 - 1⟩] sampleAccount).consumed = [0] ∧
      (NonceManager.Request sampleKeccak (calmEnv 5)
        [⟨sampleAccount.Hex sampleKeccak, 2 ^ 64 - 1⟩] sampleAccount).consumed
          ≠ [2 ^ 64 - 1 + 1] ∧
      (NonceManager.Request sampleKeccak (calmEnv 5)
        [⟨sampleAccount.Hex sampleKeccak, 2 ^ 64 - 1⟩] sampleAccount).consumed
          ≠ [max 5 (2 ^ 64 - 1 + 1)] := by
  have hst : storedNonce sampleKeccak [⟨sampleAccount.Hex sampleKeccak, 2 ^ 64 - 1⟩]
      sampleAccount = some (2 ^ 64 - 1) := by
    simp [storedNonce_eq_find, List.find?_cons]
  have hreq := Request_consumed sampleKeccak (calmEnv 5)
    [⟨sampleAccount.Hex sampleKeccak, 2 ^ 64 - 1⟩] sampleAccount 5 rfl rfl
  rw [hst] at hreq
  have hz : candidateNonce (some (2 ^ 64 - 1)) 5 = 0 := by decide
  rw [hz] at hreq
  refine ⟨hst, by decide, hreq, ?_, ?_⟩
  · rw [hreq]; decide
  · rw [hreq]; decide

/-- C2 (amended): starting from an account with no row, if the nonces `n, ..., n + k - 1` all
fit `uint64` (`n + k ≤ 2 ^ 64`), and in `k` successive calls the chain reports at call `i` a
pending nonce between `n` and `n + i`, the row query is answered, and `consume` and the store
succeed, then the calls pass to `consume` exactly `n, n + 1, ..., n + k - 1`, one nonce per
call and in that order, every call returns no error, and the stored `lastIssuedNonce` after
call `i` is `n + i`. -/
theorem RequestSeq_consecutive (keccak : Keccak) (account : Address)
    (envs : List RequestEnv) (t : NonceTable) (n : Nat)
    (hfresh : storedNonce keccak t account = none)
    (hbound : n + envs.length ≤ 2 ^ 64)
    (hchain : ∀ i (h : i < envs.length),
      ∃ c, (envs.get ⟨i, h⟩).pendingNonceAt = .ok c ∧ n ≤ c ∧ c ≤ n + i)
    (hfind : ∀ env ∈ envs, env.findFault = none)
    (hconsume : ∀ env ∈ envs, ∀ x, ∃ h, env.consume x = .ok h)
    (hpersist : ∀ env ∈ envs, env.persistFault = none) :
    (NonceManager.RequestSeq keccak account envs t).map (fun r => r.consumed) =
        (List.range' n envs.length).map (fun x => [x]) ∧
      (NonceManager.RequestSeq keccak account envs t).map
          (fun r => storedNonce keccak r.table account) =
        (List.range' n envs.length).map some ∧
      ∀ r ∈ NonceManager.RequestSeq keccak account envs t, r.err = none := by
  apply RequestSeq_from keccak account envs t n _ hbound _ hfind hconsume hpersist
  · left
    refine ⟨hfresh, ?_⟩
    intro env c hhead hc
    cases envs with
    | nil => cases hhead
    | cons e es =>
      simp only [List.head?_cons, Option.some.injEq] at hhead
      obtain ⟨c2, hc2, hlo, hhi⟩ := hchain 0 (by simp)
      simp only [List.get_eq_getElem, List.getElem_cons_zero, hhead, hc, Except.ok.injEq]
        at hc2
      omega
  · intro i hi
    obtain ⟨c, hc, _, hle⟩ := hchain i hi
    exact ⟨c, hc, hle⟩

theorem RequestSeq_consecutive_witness :
    (NonceManager.RequestSeq sampleKeccak sampleAccount
        [calmEnv 4, calmEnv 4, calmEnv 6] []).map (fun r => r.consumed) = [[4], [5], [6]] ∧
      (NonceManager.RequestSeq sampleKeccak sampleAccount
        [calmEnv 4, calmEnv 4, calmEnv 6] []).map
          (fun r => storedNonce sampleKeccak r.table sampleAccount) = [some 4, some 5, some 6] := by
  have h := RequestSeq_consecutive sampleKeccak sampleAccount
    [calmEnv 4, calmEnv 4, calmEnv 6] [] 4
    (by simp [storedNonce_eq_find]) (by decide)
    (by
      intro i hi
      simp only [List.length_cons, List.length_nil] at hi
      interval_cases i
      · exact ⟨4, rfl, by decide, by decide⟩
      · exact ⟨4, rfl, by decide, by decide⟩
      · exact ⟨6, rfl, by decide, by decide⟩)
    (by intro env he; simp only [List.mem_cons, List.mem_nil_iff, or_false] at he
        rcases he with h | h | h <;> rw [h] <;> rfl)
    (by intro env he x; simp only [List.mem_cons, List.mem_nil_iff, or_false] at he
        rcases he with h | h | h <;> rw [h] <;> exact ⟨[], rfl⟩)
    (by intro env he; simp only [List.mem_cons, List.mem_nil_iff, or_false] at he
        rcases he with h | h | h <;> rw [h] <;> rfl)
  exact ⟨h.1, h.2.1⟩

/-- C2 (counterexample): from an empty table, two calls that each see the chain report
`n = 2 ^ 64 - 1` (within `[n, n + i]` for both) and in which nothing fails pass
`2 ^ 64 - 1` and then `0` to `consume`, not `n` and `n + 1`; the stored nonce goes from
`2 ^ 64 - 1` to `0`. -/
theorem RequestSeq_wraps :
    (NonceManager.RequestSeq sampleKeccak sampleAccount
        [calmEnv (2 ^ 64 - 1), calmEnv (2 ^ 64 - 1)] []).map (fun r => r.consumed)
        = [[2 ^ 64 - 1], [0]] ∧
      (NonceManager.RequestSeq sampleKeccak sampleAccount
        [calmEnv (2 ^ 64 - 1), calmEnv (2 ^ 64 - 1)] []).map (fun r => r.consumed)
        ≠ (List.range' (2 ^ 64 - 1) 2).map (fun x => [x]) ∧
      (NonceManager.RequestSeq sampleKeccak sampleAccount
        [calmEnv (2 ^ 64 - 1), calmEnv (2 ^ 64 - 1)] []).map
          (fun r => storedNonce sampleKeccak r.table sampleAccount)
        = [some (2 ^ 64 - 1), some 0] := by
  have h0 : storedNonce sampleKeccak [] sampleAccount = none := by
    simp [storedNonce_eq_find]
  have r1 := Request_of_consume_ok sampleKeccak (calmEnv (2 ^ 64 - 1)) [] sampleAccount
    (2 ^ 64 - 1) [] rfl rfl rfl
  rw [h0] at r1
  simp only [candidateNonce, calmEnv, List.nil_append] at r1
  have h1 : storedNonce sampleKeccak [⟨sampleAccount.Hex sampleKeccak, 2 ^ 64 - 1⟩]
      sampleAccount = some (2 ^ 64 - 1) := by
    simp [storedNonce_eq_find, List.find?_cons]
  have r2 := Request_of_consume_ok sampleKeccak (calmEnv (2 ^ 64 - 1))
    [⟨sampleAccount.Hex sampleKeccak, 2 ^ 64 - 1⟩] sampleAccount (2 ^ 64 - 1) [] rfl rfl rfl
  rw [h1] at r2
  have hz : candidateNonce (some (2 ^ 64 - 1)) (2 ^ 64 - 1) = 0 := by decide
  simp only [hz, calmEnv] at r2
  have hseq : NonceManager.RequestSeq sampleKeccak sampleAccount
      [calmEnv (2 ^ 64 - 1), calmEnv (2 ^ 64 - 1)] [] =
      [⟨none, [2 ^ 64 - 1], [⟨sampleAccount.Hex sampleKeccak, 2 ^ 64 - 1⟩]⟩,
       ⟨none, [0], updatedTable sampleKeccak [⟨sampleAccount.Hex sampleKeccak, 2 ^ 64 - 1⟩]
          sampleAccount 0⟩] := by
    simp only [NonceManager.RequestSeq, calmEnv, r1, r2]
  rw [hseq]
  refine ⟨rfl, by decide, ?_⟩
  simp only [List.map_cons, List.map_nil, h1,
    storedNonce_updatedTable sampleKeccak _ sampleAccount 0 _ h1]

/-- C3: if `consume` succeeds on the candidate nonce `x`, `Request` returns no error whether or
not persisting succeeds; and when persisting succeeds the account's row holds
`lastIssuedNonce = x` (appended if the account had no row, updated in place otherwise) while
the rows of all other accounts are unchanged. -/
theorem Request_success_postcondition (keccak : Keccak) (env : RequestEnv) (t : NonceTable)
    (account : Address) (x : Nat) (h : List Char)
    (hx : x ∈ (NonceManager.Request keccak env t account).consumed)
    (hok : env.consume x = .ok h) :
    (NonceManager.Request keccak env t account).err = none ∧
      (env.persistFault = none →
        storedNonce keccak (NonceManager.Request keccak env t account).table account = some x ∧
        otherRows keccak (NonceManager.Request keccak env t account).table account
          = otherRows keccak t account ∧
        (∀ other, other ≠ account →
          storedNonce keccak (NonceManager.Request keccak env t account).table other
            = storedNonce keccak t other) ∧
        (storedNonce keccak t account = none →
          (NonceManager.Request keccak env t account).table = t ++ [⟨account.Hex keccak, x⟩]) ∧
        (storedNonce keccak t account ≠ none →
          (NonceManager.Request keccak env t account).table
            = updatedTable keccak t account x)) := by
  obtain ⟨c, hc, hf, hcand⟩ := consumed_mem keccak env t account x hx
  rw [hcand] at hok
  have hreq := Request_of_consume_ok keccak env t account c h hc hf hok
  rw [← hcand] at hreq
  refine ⟨by rw [hreq], ?_⟩
  intro hp
  rw [hp] at hreq
  cases hs : storedNonce keccak t account with
  | none =>
    have hxc : x = c := by rw [hcand, hs]; rfl
    rw [hs] at hreq
    simp only at hreq
    rw [hreq, hxc]
    exact ⟨storedNonce_append_own keccak t account c hs,
      otherRows_append_own keccak t account c,
      fun other ho => storedNonce_other_append keccak t account other c ho,
      fun _ => rfl, fun hne => absurd rfl hne⟩
  | some s =>
    rw [hs] at hreq
    simp only at hreq
    rw [hreq]
    exact ⟨storedNonce_updatedTable keccak t account x s hs,
      otherRows_updatedTable keccak t account x,
      fun other ho => storedNonce_other_updatedTable keccak t account other x ho,
      fun hn => Option.noConfusion hn, fun _ => rfl⟩

theorem Request_success_postcondition_witness :
    (NonceManager.Request sampleKeccak (calmEnv 5)
        [⟨otherAccount.Hex sampleKeccak, 2⟩] sampleAccount).err = none ∧
      (NonceManager.Request sampleKeccak (calmEnv 5)
        [⟨otherAccount.Hex sampleKeccak, 2⟩] sampleAccount).table
        = [⟨otherAccount.Hex sampleKeccak, 2⟩, ⟨sampleAccount.Hex sampleKeccak, 5⟩] := by
  have hne : ¬ otherAccount.Hex sampleKeccak = sampleAccount.Hex sampleKeccak :=
    fun e => absurd (Hex_injective sampleKeccak _ _ e) (by decide)
  have h0 : storedNonce sampleKeccak [⟨otherAccount.Hex sampleKeccak, 2⟩] sampleAccount
      = none := by
    simp [storedNonce_eq_find, List.find?_cons, hne]
  have hx : 5 ∈ (NonceManager.Request sampleKeccak (calmEnv 5)
      [⟨otherAccount.Hex sampleKeccak, 2⟩] sampleAccount).consumed := by
    rw [Request_consumed sampleKeccak (calmEnv 5) _ sampleAccount 5 rfl rfl, h0]
    exact List.mem_singleton.mpr rfl
  have h := Request_success_postcondition sampleKeccak (calmEnv 5)
    [⟨otherAccount.Hex sampleKeccak, 2⟩] sampleAccount 5 [] hx rfl
  exact ⟨h.1, (h.2 rfl).2.2.2.1 h0⟩

/-- C4: if `consume`, called on the nonce `x`, returns the error `e`, then `Request` returns
`e` and leaves the table as it was (nothing inserted, nothing updated), so that a following
`Request` for the same account that sees the same chain-reported nonce passes the same
candidate `x` to `consume`. -/
theorem Request_consume_failure (keccak : Keccak) (env : RequestEnv) (t : NonceTable)
    (account : Address) (x : Nat) (e : Err)
    (hx : x ∈ (NonceManager.Request keccak env t account).consumed)
    (he : env.consume x = .error e) :
    (NonceManager.Request keccak env t account).err = some e ∧
      (NonceManager.Request keccak env t account).table = t ∧
      ∀ next : RequestEnv, next.pendingNonceAt = env.pendingNonceAt → next.findFault = none →
        (NonceManager.Request keccak next
          (NonceManager.Request keccak env t account).table account).consumed = [x] := by
  obtain ⟨c, hc, hf, hcand⟩ := consumed_mem keccak env t account x hx
  rw [hcand] at he
  have hreq := Request_of_consume_error keccak env t account c e hc hf he
  refine ⟨by rw [hreq], by rw [hreq], ?_⟩
  intro next hnc hnf
  rw [hreq, hcand]
  exact Request_consumed keccak next t account c (hnc.trans hc) hnf

theorem Request_consume_failure_witness :
    (NonceManager.Request sampleKeccak (rejectingEnv 5)
        [⟨sampleAccount.Hex sampleKeccak, 7⟩] sampleAccount).err = some (.other 7) ∧
      (NonceManager.Request sampleKeccak (rejectingEnv 5)
        [⟨sampleAccount.Hex sampleKeccak, 7⟩] sampleAccount).table
        = [⟨sampleAccount.Hex sampleKeccak, 7⟩] ∧
      (NonceManager.Request sampleKeccak (calmEnv 5)
        (NonceManager.Request sampleKeccak (rejectingEnv 5)
          [⟨sampleAccount.Hex sampleKeccak, 7⟩] sampleAccount).table sampleAccount).consumed
        = [8] := by
  have h7 : storedNonce sampleKeccak [⟨sampleAccount.Hex sampleKeccak, 7⟩] sampleAccount
      = some 7 := by
    simp [storedNonce_eq_find, List.find?_cons]
  have hx : 8 ∈ (NonceManager.Request sampleKeccak (rejectingEnv 5)
      [⟨sampleAccount.Hex sampleKeccak, 7⟩] sampleAccount).consumed := by
    rw [Request_consumed sampleKeccak (rejectingEnv 5) _ sampleAccount 5 rfl rfl, h7]
    decide
  have h := Request_consume_failure sampleKeccak (rejectingEnv 5)
    [⟨sampleAccount.Hex sampleKeccak, 7⟩] sampleAccount 8 (.other 7) hx rfl
  exact ⟨h.1, h.2.1, h.2.2 (calmEnv 5) rfl rfl⟩

/-- C5: if the chain query for the account's pending nonce fails with `e`, `Request` returns
`e`, never invokes `consume`, and leaves the table exactly as it was. -/
theorem Request_chain_failure (keccak : Keccak) (env : RequestEnv) (t : NonceTable)
    (account : Address) (e : Err) (hc : env.pendingNonceAt = .error e) :
    (NonceManager.Request keccak env t account).err = some e ∧
      (NonceManager.Request keccak env t account).consumed = [] ∧
      (NonceManager.Request keccak env t account).table = t := by
  rw [Request_of_chain_error keccak env t account e hc]
  exact ⟨rfl, rfl, rfl⟩

theorem Request_chain_failure_witness :
    (NonceManager.Request sampleKeccak offlineEnv
        [⟨sampleAccount.Hex sampleKeccak, 7⟩] sampleAccount).err = some (.other 3) ∧
      (NonceManager.Request sampleKeccak offlineEnv
        [⟨sampleAccount.Hex sampleKeccak, 7⟩] sampleAccount).consumed = [] ∧
      (NonceManager.Request sampleKeccak offlineEnv
        [⟨sampleAccount.Hex sampleKeccak, 7⟩] sampleAccount).table
        = [⟨sampleAccount.Hex sampleKeccak, 7⟩] :=
  Request_chain_failure sampleKeccak offlineEnv _ sampleAccount (.other 3) rfl

/-! ### Decimal strings of integers -/

theorem digitChar_spec (m : Nat) (hm : m < 10) :
    isDecDigit (Nat.digitChar m) ∧ (Nat.digitChar m).toNat - '0'.toNat = m := by
  interval_cases m <;> decide

theorem toDigitsCore_append (fuel n : Nat) (ds : List Char) :
    Nat.toDigitsCore 10 fuel n ds = Nat.toDigitsCore 10 fuel n [] ++ ds := by
  induction fuel generalizing n ds with
  | zero => rfl
  | succ fuel ih =>
    simp only [Nat.toDigitsCore]
    split
    · rfl
    · rw [ih (n / 10) (Nat.digitChar (n % 10) :: ds), ih (n / 10) [Nat.digitChar (n % 10)]]
      simp

theorem digitsValue_append_single (xs : List Char) (c : Char) :
    digitsValue (xs ++ [c]) = digitsValue xs * 10 + (c.toNat - '0'.toNat) := by
  simp [digitsValue, List.foldl_append]

theorem toDigitsCore_spec (fuel n : Nat) (h : n < fuel) :
    (∀ c ∈ Nat.toDigitsCore 10 fuel n [], isDecDigit c) ∧
      digitsValue (Nat.toDigitsCore 10 fuel n []) = n ∧
      Nat.toDigitsCore 10 fuel n [] ≠ [] := by
  induction fuel generalizing n with
  | zero => omega
  | succ fuel ih =>
    have hd := digitChar_spec (n % 10) (Nat.mod_lt _ (by decide))
    simp only [Nat.toDigitsCore]
    split
    · rename_i h0
      refine ⟨?_, ?_, by simp⟩
      · intro c hc
        rw [List.mem_singleton] at hc
        rw [hc]; exact hd.1
      · have : digitsValue [Nat.digitChar (n % 10)] = (Nat.digitChar (n % 10)).toNat - '0'.toNat := by
          simp [digitsValue]
        rw [this, hd.2]
        omega
    · rename_i h0
      have hlt : n / 10 < fuel := by omega
      obtain ⟨h1, h2, _⟩ := ih (n / 10) hlt
      rw [toDigitsCore_append]
      refine ⟨?_, ?_, by simp⟩
      · intro c hc
        rw [List.mem_append, List.mem_singleton] at hc
        rcases hc with hc | hc
        · exact h1 c hc
        · rw [hc]; exact hd.1
      · rw [digitsValue_append_single, h2, hd.2]
        omega

theorem toDigits_digits (n : Nat) : ∀ c ∈ Nat.toDigits 10 n, isDecDigit c :=
  (toDigitsCore_spec (n + 1) n (Nat.lt_succ_self n)).1

theorem toDigits_value (n : Nat) : digitsValue (Nat.toDigits 10 n) = n :=
  (toDigitsCore_spec (n + 1) n (Nat.lt_succ_self n)).2.1

theorem toDigits_ne_nil (n : Nat) : Nat.toDigits 10 n ≠ [] :=
  (toDigitsCore_spec (n + 1) n (Nat.lt_succ_self n)).2.2

/-- The scanner reads a run of digits to its end when what follows is not a digit. -/
theorem natScan_digits (xs rest : List Char) (hxs : ∀ c ∈ xs, isDecDigit c)
    (hrest : ∀ c ∈ rest.head?, ¬ isDecDigit c) (acc count : Nat) :
    natScan acc count (xs ++ rest) =
      (xs.foldl (fun acc c => acc * 10 + (c.toNat - '0'.toNat)) acc, count + xs.length, rest) := by
  induction xs generalizing acc count with
  | nil =>
    cases rest with
    | nil => rfl
    | cons c cs =>
      have hc : ¬ isDecDigit c := hrest c (by simp)
      simp only [isDecDigit] at hc
      simp [natScan, hc]
  | cons x xs ih =>
    have hx : isDecDigit x := hxs x (List.mem_cons_self _ _)
    simp only [isDecDigit] at hx
    simp only [List.cons_append, natScan, hx, and_self, if_true, List.foldl_cons,
      List.length_cons]
    have hi := ih (fun c hc => hxs c (List.mem_cons_of_mem _ hc))
      (acc * 10 + (x.toNat - '0'.toNat)) (count + 1)
    show natScan (acc * 10 + (x.toNat - '0'.toNat)) (count + 1) (xs ++ rest) = _
    rw [hi]
    congr 2
    omega

/-- The receiver after `SetString` on digits followed by a non-digit (or nothing). -/
theorem bigSetString_digits (z : Int) (xs rest : List Char) (hne : xs ≠ [])
    (hxs : ∀ c ∈ xs, isDecDigit c) (hrest : ∀ c ∈ rest.head?, ¬ isDecDigit c) :
    bigSetString z (xs ++ rest) = ((digitsValue xs : Int), rest.isEmpty) := by
  cases xs with
  | nil => exact absurd rfl hne
  | cons x xs =>
    have hx : isDecDigit x := hxs x (List.mem_cons_self _ _)
    have hm : x ≠ '-' := by rintro rfl; revert hx; decide
    have hp : x ≠ '+' := by rintro rfl; revert hx; decide
    have hscan := natScan_digits (x :: xs) rest hxs hrest 0 0
    simp only [List.cons_append] at hscan
    simp only [List.cons_append, bigSetString, hm, hp, or_self, if_false, hscan,
      List.length_cons, decide_False]
    simp [digitsValue]

/-- The receiver after `SetString` on a minus sign, digits, and then a non-digit (or
nothing). -/
theorem bigSetString_neg_digits (z : Int) (xs rest : List Char) (hne : xs ≠ [])
    (hxs : ∀ c ∈ xs, isDecDigit c) (hrest : ∀ c ∈ rest.head?, ¬ isDecDigit c) :
    bigSetString z ('-' :: (xs ++ rest)) = (-(digitsValue xs : Int), rest.isEmpty) := by
  have hscan := natScan_digits xs rest hxs hrest 0 0
  have hlen : xs.length ≠ 0 := by
    cases xs with
    | nil => exact absurd rfl hne
    | cons x xs => simp
  simp only [bigSetString, true_or, if_true, hscan, decide_True]
  simp [digitsValue, hlen]

theorem bigSetString_bigString (z : Int) (v : Int) :
    bigSetString z (bigString v) = (v, true) := by
  by_cases hv : v < 0
  · have h := bigSetString_neg_digits z (Nat.toDigits 10 v.natAbs) [] (toDigits_ne_nil _)
      (toDigits_digits _) (by simp)
    simp only [List.append_nil] at h
    simp only [bigString, hv, if_true, h, toDigits_value, List.isEmpty_nil, Prod.mk.injEq,
      and_true]
    omega
  · have h := bigSetString_digits z (Nat.toDigits 10 v.natAbs) [] (toDigits_ne_nil _)
      (toDigits_digits _) (by simp)
    simp only [List.append_nil] at h
    simp only [bigString, hv, if_false, h, toDigits_value, List.isEmpty_nil, Prod.mk.injEq,
      and_true]
    omega

/-! ### Decimal arithmetic on the path of `ParseUnits` and `FormatUnits` -/

theorem wrap32_of_range (x : Int) (h1 : -2147483648 ≤ x) (h2 : x ≤ 2147483647) :
    wrap32 x = x := by
  unfold wrap32
  omega

theorem Mul_of_range (d d2 : Decimal) (h1 : -2147483648 ≤ d.exp + d2.exp)
    (h2 : d.exp + d2.exp ≤ 2147483647) :
    d.Mul d2 = some ⟨d.value * d2.value, d.exp + d2.exp⟩ := by
  simp only [Decimal.Mul, maxInt32, minInt32]
  rw [if_neg (by omega)]

theorem Mul_of_overflow (d d2 : Decimal) (h : 2147483647 < d.exp + d2.exp) :
    d.Mul d2 = none := by
  simp only [Decimal.Mul, maxInt32, minInt32]
  rw [if_pos (Or.inl h)]

/-- Powers of ten: the square-and-multiply loop only adds exponents. -/
theorem powLoop_ten (fuel : Nat) :
    ∀ (e : Nat) (a b : Int), e ≤ fuel → 0 ≤ a → 0 ≤ b → b + a * e ≤ 2147483647 →
      Decimal.powLoop fuel e ⟨1, a⟩ ⟨1, b⟩ = some ⟨1, b + a * e⟩ := by
  induction fuel with
  | zero =>
    intro e a b he _ _ _
    have : e = 0 := by omega
    subst this
    simp [Decimal.powLoop]
  | succ fuel ih =>
    intro e a b he ha hb hbound
    by_cases h0 : e = 0
    · subst h0
      simp [Decimal.powLoop]
    · have hdm : e = 2 * (e / 2) + e % 2 := (Nat.div_add_mod e 2).symm
      have hq : e / 2 ≤ fuel := by omega
      simp only [Decimal.powLoop, h0, if_false]
      rcases Nat.mod_two_eq_zero_or_one e with hr | hr
      · -- even, so at least two
        have hpos : e / 2 > 0 := by omega
        have he2 : (e : Int) = 2 * ((e / 2 : Nat) : Int) := by
          have : e = 2 * (e / 2) := by omega
          exact_mod_cast this
        have heq : b + (a + a) * ((e / 2 : Nat) : Int) = b + a * e := by rw [he2]; ring
        have hq0 : (0 : Int) ≤ ((e / 2 : Nat) : Int) := Int.natCast_nonneg _
        have hq1 : (1 : Int) ≤ ((e / 2 : Nat) : Int) := by exact_mod_cast hpos
        have haa : a + a ≤ 2147483647 := by nlinarith
        rw [hr]
        simp only [Nat.zero_ne_one, if_false, hpos, if_true, Option.bind_eq_bind,
          Option.some_bind]
        rw [Mul_of_range ⟨1, a⟩ ⟨1, a⟩ (by simp only; omega) (by simp only; omega)]
        simp only [Option.some_bind, mul_one]
        rw [ih (e / 2) (a + a) b hq (by omega) hb (by rw [heq]; exact hbound), heq]
      · by_cases hpos : e / 2 > 0
        · have he2 : (e : Int) = 2 * ((e / 2 : Nat) : Int) + 1 := by
            have : e = 2 * (e / 2) + 1 := by omega
            exact_mod_cast this
          have heq : (b + a) + (a + a) * ((e / 2 : Nat) : Int) = b + a * e := by
            rw [he2]; ring
          have hq1 : (1 : Int) ≤ ((e / 2 : Nat) : Int) := by exact_mod_cast hpos
          have haa : a + a ≤ 2147483647 := by nlinarith
          have hba : b + a ≤ 2147483647 := by nlinarith
          rw [hr]
          simp only [if_true, hpos, Option.bind_eq_bind]
          rw [Mul_of_range ⟨1, b⟩ ⟨1, a⟩ (by simp only; omega) (by simp only; omega)]
          simp only [Option.some_bind, mul_one]
          rw [Mul_of_range ⟨1, a⟩ ⟨1, a⟩ (by simp only; omega) (by simp only; omega)]
          simp only [Option.some_bind, mul_one]
          rw [ih (e / 2) (a + a) (b + a) hq (by omega) (by omega)
            (by rw [heq]; exact hbound), heq]
        · have he1 : e = 1 := by omega
          subst he1
          have hba : b + a ≤ 2147483647 := by simpa using hbound
          simp only [Nat.reduceMod, if_true, Nat.reduceDiv, gt_iff_lt, lt_self_iff_false,
            if_false, Option.bind_eq_bind]
          rw [Mul_of_range ⟨1, b⟩ ⟨1, a⟩ (by simp only; omega) (by simp only; omega)]
          simp only [Option.some_bind, mul_one]
          rw [ih 0 a (b + a) (by omega) ha (by omega) (by simpa using hba)]
          simp

/-- The multiplier both conversions compute is `1 * 10 ^ decimals`. -/
theorem Pow_ten (d : Nat) (hd : d ≤ 2147483647) :
    Decimal.NewFromFloat10.Pow (Decimal.NewFromInt32 d) = some ⟨1, d⟩ := by
  by_cases h0 : d = 0
  · subst h0
    simp [Decimal.Pow, Decimal.NewFromFloat10, Decimal.NewFromInt32, Decimal.Sign]
  · have hpos : (0 : Int) < (d : Int) := by exact_mod_cast Nat.pos_of_ne_zero h0
    have hsign : (d : Int).sign = 1 := Int.sign_eq_one_of_pos hpos
    have hw : wrap32 0 = 0 := by decide
    have hloop := powLoop_ten d d 1 0 (le_refl _) (by decide) (by decide)
      (by simp only [zero_add, one_mul]; exact_mod_cast hd)
    simp only [zero_add, one_mul] at hloop
    simp only [Decimal.Pow, Decimal.NewFromFloat10, Decimal.NewFromInt32, Decimal.Sign,
      Decimal.QuoRem, Decimal.PowBigInt, Decimal.New, maxInt32, minInt32]
    simp [hsign, hw, hloop, Int.natAbs_ofNat]

theorem bigString_chars (v : Int) : ∀ c ∈ bigString v, c = '-' ∨ isDecDigit c := by
  intro c hc
  unfold bigString at hc
  split at hc
  · rw [List.mem_cons] at hc
    rcases hc with hc | hc
    · exact Or.inl hc
    · exact Or.inr (toDigits_digits _ c hc)
  · exact Or.inr (toDigits_digits _ c hc)

/-- Reading an integer's decimal rendering as a decimal gives the integer at exponent 0. -/
theorem NewFromString_bigString (v : Int) :
    Decimal.NewFromString (bigString v) = .ok ⟨v, 0⟩ := by
  have hany : (bigString v).any (fun c => decide (c = 'e' ∨ c = 'E' ∨ c = '.')) = false := by
    rw [List.any_eq_false]
    intro c hc
    rcases bigString_chars v c hc with h | h
    · rw [h]; decide
    · intro hcon
      simp only [decide_eq_true_eq] at hcon
      rcases hcon with h2 | h2 | h2 <;> (rw [h2] at h; revert h; decide)
  simp only [Decimal.NewFromString, hany, bigSetString_bigString]
  rfl

theorem QuoRem_ten (v : Int) (d : Nat) (hd : d < 256) :
    (Decimal.mk v 0).QuoRem ⟨1, d⟩ d = some (⟨v, -(d : Int)⟩, ⟨0, 0⟩) := by
  have hw1 : wrap32 (-(d : Int)) = -(d : Int) := wrap32_of_range _ (by omega) (by omega)
  have hw2 : wrap32 (-(d : Int) + (d : Int)) = 0 := by
    rw [wrap32_of_range _ (by omega) (by omega)]; omega
  have he : (0 : Int) - (d : Int) - -(d : Int) = 0 := by omega
  unfold Decimal.QuoRem
  simp only [hw1, he, hw2]
  rw [if_neg (by decide)]
  rw [if_neg (by decide)]
  simp

theorem Cmp_half_ten (d : Int) :
    (Decimal.mk (|0| * 2) d).Cmp (Decimal.Abs ⟨1, d⟩) = -1 := by
  unfold Decimal.Cmp Decimal.Abs
  dsimp only
  rw [if_pos rfl, abs_zero, abs_one, Int.zero_mul]
  decide

/-- Dividing an integer by `10 ^ decimals` at `decimals` fractional digits is exact. -/
theorem DivRound_ten (v : Int) (d : Nat) (hd : d < 256) :
    (Decimal.mk v 0).DivRound ⟨1, d⟩ d = some ⟨v, -(d : Int)⟩ := by
  have hw3 : wrap32 (0 + (d : Int)) = d := by
    rw [wrap32_of_range _ (by omega) (by omega)]; omega
  unfold Decimal.DivRound
  rw [QuoRem_ten v d hd, Option.bind_eq_bind, Option.some_bind]
  dsimp only
  rw [hw3, Cmp_half_ten, if_pos (by decide)]
  rfl

theorem Truncate_exact (v : Int) (d : Nat) (hd : d < 256) :
    (Decimal.mk v (-(d : Int))).Truncate d = ⟨v, -(d : Int)⟩ := by
  have hw1 : wrap32 (-(d : Int)) = -(d : Int) := wrap32_of_range _ (by omega) (by omega)
  simp [Decimal.Truncate, hw1]

/-- The value `ParseUnits` returns: the integer itself at exponent `-decimals`. -/
theorem ParseUnits_eq (v : Int) (d : Nat) (hd : d < 256) :
    ParseUnits v d = some ⟨v, -(d : Int)⟩ := by
  simp only [ParseUnits, Pow_ten d (by omega), NewFromString_bigString,
    Option.bind_eq_bind, Option.some_bind, DivRound_ten v d hd, Truncate_exact v d hd]
  rfl

/-! ### The decimal string of a `Decimal`, read back by `SetString` -/

theorem decDigit_lt (c : Char) (h : isDecDigit c) : c.toNat - '0'.toNat < 10 := by
  have h2 : c.toNat ≤ '9'.toNat := h.2
  have : '9'.toNat = 57 := by decide
  have : '0'.toNat = 48 := by decide
  omega

theorem digitsValue_lt (xs : List Char) (hxs : ∀ c ∈ xs, isDecDigit c) :
    digitsValue xs < 10 ^ xs.length := by
  induction xs using List.reverseRecOn with
  | nil => simp [digitsValue]
  | append_singleton ys d ih =>
    have hd := decDigit_lt d (hxs d (by simp))
    have hy := ih (fun c hc => hxs c (by simp [hc]))
    rw [digitsValue_append_single, List.length_append, List.length_singleton, pow_succ]
    omega

theorem digitsValue_take (xs : List Char) (hxs : ∀ c ∈ xs, isDecDigit c) (k : Nat) :
    digitsValue (xs.take (xs.length - k)) = digitsValue xs / 10 ^ k := by
  induction xs using List.reverseRecOn generalizing k with
  | nil => simp [digitsValue]
  | append_singleton ys d ih =>
    have hd := decDigit_lt d (hxs d (by simp))
    cases k with
    | zero => rw [Nat.sub_zero, List.take_length, pow_zero, Nat.div_one]
    | succ k =>
      have hlen : (ys ++ [d]).length - (k + 1) = ys.length - k := by
        simp only [List.length_append, List.length_singleton]; omega
      rw [hlen, List.take_append_of_le_length (by omega),
        ih (fun c hc => hxs c (by simp [hc])) k, digitsValue_append_single, pow_succ,
        Nat.mul_comm (10 ^ k) 10, ← Nat.div_div_eq_div_mul]
      congr 1
      omega
/-- The integer digits `Decimal.string` writes before the point, and what they stand for. -/
theorem intPart_spec (n k : Nat) :
    let str := Nat.toDigits 10 n
    let intPart := if str.length > k then str.take (str.length - k) else ['0']
    intPart ≠ [] ∧ (∀ c ∈ intPart, isDecDigit c) ∧ digitsValue intPart = n / 10 ^ k := by
  intro str intPart
  have hdig := toDigits_digits n
  have hval := toDigits_value n
  by_cases hlen : (Nat.toDigits 10 n).length > k
  · have hip : intPart = (Nat.toDigits 10 n).take ((Nat.toDigits 10 n).length - k) := by
      show (if (Nat.toDigits 10 n).length > k then _ else _) = _
      rw [if_pos hlen]
    rw [hip]
    refine ⟨?_, ?_, ?_⟩
    · intro hnil
      have := congrArg List.length hnil
      simp only [List.length_take, List.length_nil] at this
      omega
    · intro c hc
      exact hdig c (List.mem_of_mem_take hc)
    · rw [digitsValue_take _ hdig, hval]
  · have hip : intPart = ['0'] := by
      show (if (Nat.toDigits 10 n).length > k then _ else _) = _
      rw [if_neg hlen]
    rw [hip]
    refine ⟨by simp, ?_, ?_⟩
    · intro c hc
      rw [List.mem_singleton] at hc
      rw [hc]; decide
    · have hlt := digitsValue_lt _ hdig
      rw [hval] at hlt
      have hle : 10 ^ (Nat.toDigits 10 n).length ≤ 10 ^ k :=
        Nat.pow_le_pow_right (by decide) (by omega)
      rw [Nat.div_eq_of_lt (by omega)]
      decide

/-- What `SetString` leaves in the receiver on the string of a decimal: the decimal's number
truncated toward zero. -/
theorem bigSetString_String (z : Int) (r : Decimal) :
    (bigSetString z r.String).1 =
      if 0 ≤ r.exp then r.value * 10 ^ r.exp.toNat else r.value.tdiv (10 ^ (-r.exp).toNat) := by
  by_cases hexp : 0 ≤ r.exp
  · have hres : (r.rescale 0).value = r.value * 10 ^ r.exp.toNat := by
      unfold Decimal.rescale
      by_cases h0 : r.exp = 0
      · simp [h0]
      · rw [if_neg h0, if_neg (by omega)]
        have : (0 - r.exp).natAbs = r.exp.toNat := by omega
        simp only [this]
    simp only [Decimal.String, ge_iff_le, hexp, if_true, bigSetString_bigString, hres]
  · obtain ⟨hne, hdig, hval⟩ := intPart_spec r.value.natAbs (-r.exp).toNat
    simp only [Decimal.String, ge_iff_le, hexp, if_false]
    generalize hip : (if (Nat.toDigits 10 r.value.natAbs).length > (-r.exp).toNat then
      (Nat.toDigits 10 r.value.natAbs).take
        ((Nat.toDigits 10 r.value.natAbs).length - (-r.exp).toNat) else ['0']) = intPart
      at hne hdig hval ⊢
    generalize (trimTrailingZeros
      (if (Nat.toDigits 10 r.value.natAbs).length > (-r.exp).toNat then
        (Nat.toDigits 10 r.value.natAbs).drop
          ((Nat.toDigits 10 r.value.natAbs).length - (-r.exp).toNat)
        else List.replicate ((-r.exp).toNat - (Nat.toDigits 10 r.value.natAbs).length) '0' ++
          Nat.toDigits 10 r.value.natAbs)) = frac
    have hnum : (if frac.length > 0 then intPart ++ '.' :: frac else intPart) =
        intPart ++ (if frac.length > 0 then '.' :: frac else []) := by
      split <;> simp
    have hrest : ∀ c ∈ (if frac.length > 0 then '.' :: frac else []).head?, ¬ isDecDigit c := by
      intro c hc
      split at hc
      · simp only [List.head?_cons, Option.mem_def, Option.some.injEq] at hc
        rw [← hc]; decide
      · simp at hc
    rw [hnum]
    by_cases hv : r.value < 0
    · rw [if_pos hv, bigSetString_neg_digits z intPart _ hne hdig hrest, hval]
      simp only
      have hvn : r.value = -((r.value.natAbs : Nat) : Int) := by omega
      conv_rhs => rw [hvn]
      rw [Int.neg_tdiv]
      congr 1
      rw [Int.ofNat_tdiv]
      simp
    · rw [if_neg hv, bigSetString_digits z intPart _ hne hdig hrest, hval]
      simp only
      have hvn : r.value = ((r.value.natAbs : Nat) : Int) := by omega
      conv_rhs => rw [hvn]
      rw [Int.ofNat_tdiv]
      simp
/-- The value `FormatUnits` returns when the exponent stays within `int32`. -/
theorem FormatUnits_eq (a : Decimal) (d : Nat) (hd : d < 256)
    (hlo : -2147483648 ≤ a.exp + d) (hhi : a.exp + d ≤ 2147483647) :
    FormatUnits a d =
      some (if 0 ≤ a.exp + d then a.value * 10 ^ (a.exp + d).toNat
        else a.value.tdiv (10 ^ (-(a.exp + d)).toNat)) := by
  simp only [FormatUnits, Pow_ten d (by omega), Option.bind_eq_bind, Option.some_bind]
  rw [Mul_of_range a ⟨1, d⟩ hlo hhi]
  simp only [Option.some_bind, mul_one, bigSetString_String]
  rfl

theorem truncTowardZero_intCast (n : Int) : truncTowardZero (n : ℚ) = n := by
  unfold truncTowardZero
  split <;> simp

theorem truncTowardZero_div (v : Int) (k : Nat) :
    truncTowardZero ((v : ℚ) / ((10 ^ k : Nat) : ℚ)) = v.tdiv (10 ^ k) := by
  have hm : (0 : ℚ) < ((10 ^ k : Nat) : ℚ) := by positivity
  unfold truncTowardZero
  by_cases hv : 0 ≤ v
  · have hq : (0 : ℚ) ≤ (v : ℚ) / ((10 ^ k : Nat) : ℚ) :=
      div_nonneg (by exact_mod_cast hv) hm.le
    rw [if_pos hq, Rat.floor_intCast_div_natCast, Int.tdiv_eq_ediv hv (by positivity)]
    push_cast
    rfl
  · have hv' : v < 0 := by omega
    have hq : ¬ (0 : ℚ) ≤ (v : ℚ) / ((10 ^ k : Nat) : ℚ) := by
      rw [not_le]
      exact div_neg_of_neg_of_pos (by exact_mod_cast hv') hm
    rw [if_neg hq]
    have hneg : (v : ℚ) / ((10 ^ k : Nat) : ℚ) = -(((-v : Int) : ℚ) / ((10 ^ k : Nat) : ℚ)) := by
      push_cast; ring
    rw [hneg, Int.ceil_neg, Rat.floor_intCast_div_natCast]
    have h2 : v.tdiv (10 ^ k) = -((-v).tdiv (10 ^ k)) := by
      rw [Int.neg_tdiv, neg_neg]
    rw [h2, Int.tdiv_eq_ediv (by omega) (by positivity)]
    push_cast
    rfl

/-- The integer a decimal's number, scaled by `10 ^ d`, truncates to. -/
theorem truncTowardZero_scaled (a : Decimal) (d : Nat) :
    truncTowardZero (a.toRat * (10 : ℚ) ^ d) =
      if 0 ≤ a.exp + d then a.value * 10 ^ (a.exp + d).toNat
        else a.value.tdiv (10 ^ (-(a.exp + d)).toNat) := by
  have h10 : (10 : ℚ) ≠ 0 := by norm_num
  have hq : a.toRat * (10 : ℚ) ^ d = (a.value : ℚ) * (10 : ℚ) ^ (a.exp + d) := by
    rw [Decimal.toRat, mul_assoc, zpow_add₀ h10, zpow_natCast]
  rw [hq]
  by_cases he : 0 ≤ a.exp + d
  · rw [if_pos he]
    have : (a.value : ℚ) * (10 : ℚ) ^ (a.exp + d)
        = ((a.value * 10 ^ (a.exp + d).toNat : Int) : ℚ) := by
      conv_lhs => rw [← Int.toNat_of_nonneg he]
      push_cast
      rw [zpow_natCast]
    rw [this, truncTowardZero_intCast]
  · rw [if_neg he, ← truncTowardZero_div]
    congr 1
    have hk : a.exp + d = -(((-(a.exp + d)).toNat : Nat) : Int) := by omega
    conv_lhs => rw [hk]
    rw [zpow_neg, zpow_natCast]
    push_cast
    rfl
/-! ### Unit conversion: the claims -/

/-- C6: unit round trip. For every non-negative integer `x` and every `d` with
`0 ≤ d ≤ 18`, `ParseUnits x d` returns a decimal and `FormatUnits` of that decimal and `d`
returns `x`. -/
theorem FormatUnits_ParseUnits_roundtrip (x : Int) (d : Nat) (hx : 0 ≤ x) (hd : d ≤ 18) :
    (ParseUnits x d).bind (fun a => FormatUnits a d) = some x := by
  have _ := hx
  rw [ParseUnits_eq x d (by omega), Option.some_bind,
    FormatUnits_eq ⟨x, -(d : Int)⟩ d (by omega) (by simp only; omega) (by simp only; omega)]
  simp

theorem FormatUnits_ParseUnits_roundtrip_witness :
    (ParseUnits 1234567 6).bind (fun a => FormatUnits a 6) = some 1234567 :=
  FormatUnits_ParseUnits_roundtrip 1234567 6 (by decide) (by decide)

/-- C7: for every integer `v` and every `uint8` value `d`, `ParseUnits v d` returns (it does
not panic) a decimal `r` that stands for exactly `v / 10 ^ d`: its exponent is at least `-d`
(at most `d` fractional digits), `r * 10 ^ d = v` (no digit lost to rounding), and
`ParseUnits (-v) d` is the negation of `r` (the sign is preserved). -/
theorem ParseUnits_exact (v : Int) (d : Nat) (hd : d < 256) :
    ∃ r, ParseUnits v d = some r ∧ r.toRat = (v : ℚ) / (10 : ℚ) ^ d ∧ -(d : Int) ≤ r.exp ∧
      r.toRat * (10 : ℚ) ^ d = v ∧ ParseUnits (-v) d = some r.Neg := by
  have h10 : (10 : ℚ) ^ d ≠ 0 := pow_ne_zero _ (by norm_num)
  have hr : (Decimal.mk v (-(d : Int))).toRat = (v : ℚ) / (10 : ℚ) ^ d := by
    rw [Decimal.toRat, zpow_neg, zpow_natCast]
    rfl
  refine ⟨⟨v, -(d : Int)⟩, ParseUnits_eq v d hd, hr, le_refl _, ?_, ?_⟩
  · rw [hr, div_mul_cancel₀ _ h10]
  · rw [ParseUnits_eq (-v) d hd]
    rfl

theorem ParseUnits_exact_witness :
    ∃ r, ParseUnits (-1234567) 6 = some r ∧
      r.toRat = ((-1234567 : Int) : ℚ) / (10 : ℚ) ^ 6 ∧ -((6 : Nat) : Int) ≤ r.exp ∧
      r.toRat * (10 : ℚ) ^ 6 = ((-1234567 : Int) : ℚ) ∧
      ParseUnits (-(-1234567)) 6 = some r.Neg :=
  ParseUnits_exact (-1234567) 6 (by decide)

/-- C8 (amended): for every decimal `a` and every `uint8` value `d` such that the exponent of
`a` plus `d` stays within `int32`, `FormatUnits a d` returns `a * 10 ^ d` truncated toward
zero; this includes amounts with more than `d` fractional digits and negative amounts. -/
theorem FormatUnits_truncates (a : Decimal) (d : Nat) (hd : d < 256)
    (hlo : -2147483648 ≤ a.exp) (hhi : a.exp + d ≤ 2147483647) :
    FormatUnits a d = some (truncTowardZero (a.toRat * (10 : ℚ) ^ d)) := by
  rw [FormatUnits_eq a d hd (by omega) hhi, truncTowardZero_scaled]

theorem FormatUnits_truncates_witness :
    FormatUnits ⟨-15, -1⟩ 0
        = some (truncTowardZero ((Decimal.mk (-15) (-1)).toRat * (10 : ℚ) ^ 0)) ∧
      FormatUnits ⟨-15, -1⟩ 0 = some (-1) ∧
      FormatUnits ⟨123456789, -10⟩ 6 = some 12345 :=
  ⟨FormatUnits_truncates ⟨-15, -1⟩ 0 (by decide) (by decide) (by decide), by decide, by decide⟩

/-- C8 (counterexample): for the decimal `1 * 10 ^ 2147483647` and `d = 1` the library's
`Mul` rejects the exponent `2147483648`, so `FormatUnits` panics where `a * 10 ^ d`
truncated toward zero is the integer `10 ^ 2147483648`. -/
theorem FormatUnits_exponent_overflow :
    FormatUnits ⟨1, 2147483647⟩ 1 = none ∧
      FormatUnits ⟨1, 2147483647⟩ 1
        ≠ some (truncTowardZero ((Decimal.mk 1 2147483647).toRat * (10 : ℚ) ^ 1)) := by
  have h : FormatUnits ⟨1, 2147483647⟩ 1 = none := by decide
  exact ⟨h, by rw [h]; exact fun e => Option.noConfusion e⟩

/-! ### ERC-20 `approve` call data -/

theorem length_bigEndian (w n : Nat) : (bigEndian w n).length = w := by
  induction w generalizing n with
  | zero => rfl
  | succ w ih => simp [bigEndian, ih]

theorem SetBytes_append_single (xs : List Byte) (b : Byte) :
    SetBytes (xs ++ [b]) = SetBytes xs * 256 + b.val := by
  simp [SetBytes, List.foldl_append]

theorem SetBytes_bigEndian (w n : Nat) : SetBytes (bigEndian w n) = n % 256 ^ w := by
  induction w generalizing n with
  | zero =>
    show (0 : Nat) = n % 256 ^ 0
    rw [pow_zero, Nat.mod_one]
  | succ w ih =>
    rw [bigEndian, SetBytes_append_single, ih, pow_succ, Nat.mul_comm (256 ^ w) 256,
      Nat.mod_mul]
    have hv : (Fin.ofNat n : Byte).val = n % 256 := rfl
    rw [hv]
    generalize n / 256 % 256 ^ w = q
    omega

theorem LeftPadBytes_address (a : Address) :
    LeftPadBytes a.bytes 32 = List.replicate 12 0 ++ a.bytes := by
  unfold LeftPadBytes
  rw [if_neg (by rw [a.size]; decide), a.size]

theorem BytesToAddress_padded (a : Address) :
    BytesToAddress (List.replicate 12 0 ++ a.bytes) = a := by
  cases a with
  | mk bytes size =>
    have hlen : (List.replicate 12 (0 : Byte) ++ bytes).length = 32 := by
      rw [List.length_append, List.length_replicate, size]
    have hdrop : (List.replicate 12 (0 : Byte) ++ bytes).drop 12 = bytes :=
      List.drop_left' (List.length_replicate _ _)
    unfold BytesToAddress
    simp only [hlen, hdrop, size, Nat.reduceSub, Nat.reduceLT, if_true, List.replicate_zero,
      List.nil_append]

theorem toNat_emod_lt (amount : Int) : (amount % 2 ^ 256).toNat < 256 ^ 32 := by
  have hnn : 0 ≤ amount % 2 ^ 256 := Int.emod_nonneg _ (by positivity)
  have hlt : amount % 2 ^ 256 < 2 ^ 256 := Int.emod_lt_of_pos _ (by positivity)
  have hpow : ((256 ^ 32 : Nat) : Int) = 2 ^ 256 := by norm_num
  have hcast : (((amount % 2 ^ 256).toNat : Nat) : Int) < ((256 ^ 32 : Nat) : Int) := by
    rw [Int.toNat_of_nonneg hnn, hpow]
    exact hlt
  exact Int.ofNat_lt.mp hcast

theorem SetBytes_U256Bytes (amount : Int) :
    ((SetBytes (U256Bytes amount) : Nat) : Int) = amount % 2 ^ 256 := by
  have hnn : 0 ≤ amount % 2 ^ 256 := Int.emod_nonneg _ (by positivity)
  rw [U256Bytes, SetBytes_bigEndian, Nat.mod_eq_of_lt (toNat_emod_lt amount),
    Int.toNat_of_nonneg hnn]

theorem length_U256Bytes (amount : Int) : (U256Bytes amount).length = 32 := by
  unfold U256Bytes
  exact length_bigEndian _ _

theorem unpack_packed (a : Address) (amount : Int) :
    unpackApproveInputs (LeftPadBytes a.bytes 32 ++ U256Bytes amount) =
      .ok [.address a, .uint (amount % 2 ^ 256)] := by
  have hl1 : (List.replicate 12 (0 : Byte) ++ a.bytes).length = 32 := by
    rw [List.length_append, List.length_replicate, a.size]
  have hl2 : (U256Bytes amount).length = 32 := length_U256Bytes amount
  have hl : (List.replicate 12 (0 : Byte) ++ a.bytes ++ U256Bytes amount).length = 64 := by
    rw [List.length_append, hl1, hl2]
  have hw0 : abiWord 0 (List.replicate 12 (0 : Byte) ++ a.bytes ++ U256Bytes amount) =
      .ok (List.replicate 12 0 ++ a.bytes) := by
    unfold abiWord
    rw [if_neg (by rw [hl]; decide), List.drop_zero, List.take_left' hl1]
  have hw1 : abiWord 32 (List.replicate 12 (0 : Byte) ++ a.bytes ++ U256Bytes amount) =
      .ok (U256Bytes amount) := by
    unfold abiWord
    rw [if_neg (by rw [hl]; decide), List.drop_left' hl1,
      List.take_of_length_le (by rw [hl2])]
  rw [LeftPadBytes_address]
  unfold unpackApproveInputs
  rw [if_neg (by rw [hl]; decide), hw0, hw1]
  simp only [BytesToAddress_padded, SetBytes_U256Bytes]

/-- Decoding packed call data yields the spender's checksummed hex form and the amount
reduced into 256 bits. -/
theorem Decode_packApprove (keccak : Keccak) (a : Address) (amount : Int) :
    DecodeERC20ApproveInput keccak (packApprove a amount) =
      .ok (a.Hex keccak, amount % 2 ^ 256) := by
  have hid : approveMethodID.length = 4 := rfl
  unfold DecodeERC20ApproveInput packApprove
  rw [if_neg (by rw [List.length_append, hid]; omega), List.take_left' hid,
    if_neg (fun h => h rfl), List.drop_left' hid, unpack_packed]

theorem Hex_ne_nil (keccak : Keccak) (a : Address) : a.Hex keccak ≠ [] := by
  unfold Address.Hex
  exact List.cons_ne_nil _ _

theorem Encode_Hex (keccak : Keccak) (a : Address) (amount : Int) :
    EncodeERC20ApproveInput (a.Hex keccak) (some amount) = .ok (packApprove a amount) := by
  unfold EncodeERC20ApproveInput
  rw [if_neg (Hex_ne_nil keccak a), HexToAddress_Hex]

/-- C9 (amended): for every 20-byte address (given in its checksummed hex form) and every
amount with `0 ≤ amount < 2 ^ 256`, `EncodeERC20ApproveInput` succeeds and
`DecodeERC20ApproveInput` applied to its output returns exactly the spender's hex form and
the amount. -/
theorem approve_roundtrip (keccak : Keccak) (spender : Address) (amount : Int)
    (h0 : 0 ≤ amount) (h1 : amount < 2 ^ 256) :
    ∃ data, EncodeERC20ApproveInput (spender.Hex keccak) (some amount) = .ok data ∧
      DecodeERC20ApproveInput keccak data = .ok (spender.Hex keccak, amount) := by
  refine ⟨packApprove spender amount, Encode_Hex keccak spender amount, ?_⟩
  rw [Decode_packApprove, Int.emod_eq_of_lt h0 h1]

theorem approve_roundtrip_witness :
    ∃ data, EncodeERC20ApproveInput (sampleAccount.Hex sampleKeccak) (some 1000) = .ok data ∧
      DecodeERC20ApproveInput sampleKeccak data = .ok (sampleAccount.Hex sampleKeccak, 1000) :=
  approve_roundtrip sampleKeccak sampleAccount 1000 (by norm_num) (by norm_num)

/-- C9 (counterexample): for the non-negative amount `2 ^ 256` encoding succeeds, but the
amount is packed into 256 bits, so decoding the output returns the amount `0`. -/
theorem approve_roundtrip_wraps :
    EncodeERC20ApproveInput (sampleAccount.Hex sampleKeccak) (some (2 ^ 256))
        = .ok (packApprove sampleAccount (2 ^ 256)) ∧
      DecodeERC20ApproveInput sampleKeccak (packApprove sampleAccount (2 ^ 256))
        = .ok (sampleAccount.Hex sampleKeccak, 0) ∧
      ((sampleAccount.Hex sampleKeccak, (0 : Int)) ≠
        (sampleAccount.Hex sampleKeccak, (2 ^ 256 : Int))) := by
  refine ⟨Encode_Hex sampleKeccak sampleAccount (2 ^ 256), ?_, ?_⟩
  · rw [Decode_packApprove, Int.emod_self]
  · intro h
    have h2 : (0 : Int) = 2 ^ 256 := (Prod.mk.inj h).2
    exact absurd h2 (by norm_num)

/-- C10: `DecodeERC20ApproveInput` returns an error (and no spender or amount) for every
input shorter than 4 bytes and for every input whose first 4 bytes are not the selector of
`approve(address,uint256)`. -/
theorem Decode_rejects (keccak : Keccak) (input : List Byte)
    (h : input.length < 4 ∨ input.take 4 ≠ approveMethodID) :
    DecodeERC20ApproveInput keccak input = .error .inputTooShort ∨
      DecodeERC20ApproveInput keccak input = .error .notApprove := by
  unfold DecodeERC20ApproveInput
  by_cases hlen : input.length < 4
  · left
    rw [if_pos hlen]
  · right
    rcases h with h | h
    · exact absurd h hlen
    · rw [if_neg hlen, if_pos h]

theorem Decode_rejects_witness :
    (DecodeERC20ApproveInput sampleKeccak [0x09, 0x5e, 0xa7] = .error .inputTooShort ∨
        DecodeERC20ApproveInput sampleKeccak [0x09, 0x5e, 0xa7] = .error .notApprove) ∧
      (DecodeERC20ApproveInput sampleKeccak [0xa9, 0x05, 0x9c, 0xbb, 0x00]
          = .error .inputTooShort ∨
        DecodeERC20ApproveInput sampleKeccak [0xa9, 0x05, 0x9c, 0xbb, 0x00]
          = .error .notApprove) :=
  ⟨Decode_rejects sampleKeccak [0x09, 0x5e, 0xa7] (Or.inl (by decide)),
    Decode_rejects sampleKeccak [0xa9, 0x05, 0x9c, 0xbb, 0x00] (Or.inr (by decide))⟩

/-! ### Balance deltas from a receipt -/

/-- What one pass of the loop does to the entry of a token. -/
theorem balanceChangeStep_apply (owner token : Address) (m : BalanceChanges) (log : Log) :
    balanceChangeStep owner m log token =
      if involvesOwner owner token log then some ((m token).getD 0 + ownerChange owner log)
      else m token := by
  unfold balanceChangeStep involvesOwner ownerChange Log.transfer
  cases htop : log.topics with
  | nil => rfl
  | cons t0 rest =>
    by_cases hsig : t0 = transferEventSig
    · cases rest with
      | nil => simp only [hsig, if_true]; rfl
      | cons t1 rest2 =>
        cases rest2 with
        | nil => simp only [hsig, if_true]; rfl
        | cons t2 rest3 =>
          simp only [hsig, if_true]
          by_cases hown : BytesToAddress t1.bytes = owner ∨ BytesToAddress t2.bytes = owner
          · by_cases htok : log.address = token
            · subst htok
              simp only [hown, if_true, and_self, decide_True, true_and]
              cases m log.address <;> simp
            · have htok2 : ¬ token = log.address := fun e => htok e.symm
              simp only [hown, if_true, htok, htok2, false_and, decide_False, if_false]
              simp
          · simp only [hown, if_false, and_false, decide_False]
            simp
    · cases rest with
      | nil => simp only [hsig, if_false]; rfl
      | cons t1 rest2 =>
        cases rest2 with
        | nil => simp only [hsig, if_false]; rfl
        | cons t2 rest3 => simp only [hsig, if_false]; rfl

/-- The entry of a token after the loop over all logs. -/
theorem foldl_balanceChangeStep (owner token : Address) (logs : List Log) (m : BalanceChanges) :
    logs.foldl (balanceChangeStep owner) m token =
      if logs.any (involvesOwner owner token) then
        some ((m token).getD 0 + netChange owner token logs)
      else m token := by
  induction logs generalizing m with
  | nil => simp [netChange]
  | cons log logs ih =>
    rw [List.foldl_cons, ih, balanceChangeStep_apply]
    by_cases h1 : involvesOwner owner token log = true
    · simp only [h1, if_true, List.any_cons, Bool.true_or, Option.getD_some, netChange,
        List.map_cons, List.sum_cons]
      split
      · simp only [add_assoc]
      · rename_i hany
        have hz : (List.map (fun log => if involvesOwner owner token log = true then
            ownerChange owner log else 0) logs).sum = 0 := by
          apply List.sum_eq_zero
          intro x hx
          rw [List.mem_map] at hx
          obtain ⟨l, hl, rfl⟩ := hx
          have : involvesOwner owner token l = false := by
            rw [Bool.not_eq_true, List.any_eq_false] at hany
            simpa using hany l hl
          simp [this]
        rw [hz, add_zero]
    · have h1f : involvesOwner owner token log = false := by simpa using h1
      simp only [h1f, List.any_cons, Bool.false_or, netChange, List.map_cons, List.sum_cons,
        Bool.false_eq_true, if_false, zero_add]

/-- Without self-transfers the signed sum is what was received minus what was sent. -/
theorem netChange_eq (owner token : Address) (logs : List Log)
    (hno : ∀ log ∈ logs, isSelfTransfer owner log = false) :
    netChange owner token logs =
      receivedByOwner owner token logs - sentByOwner owner token logs := by
  induction logs with
  | nil => simp [netChange, receivedByOwner, sentByOwner]
  | cons log logs ih =>
    have ih2 := ih (fun l hl => hno l (List.mem_cons_of_mem _ hl))
    have hself := hno log (List.mem_cons_self _ _)
    simp only [netChange, receivedByOwner, sentByOwner, List.map_cons, List.sum_cons] at ih2 ⊢
    rw [ih2]
    have hhead : (if involvesOwner owner token log = true then ownerChange owner log else 0) =
        (match log.transfer with
          | some (_, recipient, value) =>
            if log.address = token ∧ recipient = owner then value else 0
          | none => 0) -
        (match log.transfer with
          | some (sender, _, value) => if log.address = token ∧ sender = owner then value else 0
          | none => 0) := by
      unfold involvesOwner ownerChange isSelfTransfer at *
      cases htr : log.transfer with
      | none => simp
      | some tr =>
        obtain ⟨sender, recipient, value⟩ := tr
        rw [htr] at hself
        simp only [decide_eq_false_iff_not, not_and] at hself
        by_cases htok : log.address = token
        · by_cases hs : sender = owner
          · have hr : ¬ recipient = owner := hself hs
            simp [htok, hs, hr]
          · by_cases hr : recipient = owner
            · simp [htok, hs, hr]
            · simp [htok, hs, hr]
        · simp [htok]
    rw [hhead]
    ring


/-- A log that does not involve the owner leaves the map as it is. -/
theorem balanceChangeStep_skip (owner : Address) (m : BalanceChanges) (log : Log)
    (h : involvesOwner owner log.address log = false) :
    balanceChangeStep owner m log = m := by
  funext token
  rw [balanceChangeStep_apply]
  have hf : involvesOwner owner token log = false := by
    unfold involvesOwner at h ⊢
    cases htr : log.transfer with
    | none => rfl
    | some tr =>
      obtain ⟨sender, recipient, value⟩ := tr
      rw [htr] at h
      simp only [true_and, decide_eq_false_iff_not] at h
      simp only [decide_eq_false_iff_not, not_and]
      intro _
      exact h
  rw [hf]
  rfl

theorem foldl_filter_involving (owner : Address) (logs : List Log) (m : BalanceChanges) :
    (logs.filter fun log => involvesOwner owner log.address log).foldl
        (balanceChangeStep owner) m =
      logs.foldl (balanceChangeStep owner) m := by
  induction logs generalizing m with
  | nil => rfl
  | cons log logs ih =>
    by_cases h : involvesOwner owner log.address log = true
    · rw [List.filter_cons, if_pos h, List.foldl_cons, List.foldl_cons, ih]
    · have hf : involvesOwner owner log.address log = false := by simpa using h
      rw [List.filter_cons, if_neg h, List.foldl_cons, balanceChangeStep_skip owner m log hf,
        ih]

/-- C11: for every list of logs and owner in which no `Transfer` log has the owner as both
sender and recipient, `GetTokenBalanceChanges` maps each token that emitted at least one
ERC-20 `Transfer` log (topic 0 the signature, at least three topics) with the owner as sender
or recipient to the sum of the values sent to the owner minus the sum of the values sent by
the owner; every other token is absent from the map; and the logs that are not such
transfers do not affect the result (dropping them gives the same map). -/
theorem GetTokenBalanceChanges_spec (logs : List Log) (ownerAddress : List Char)
    (hno : ∀ log ∈ logs, isSelfTransfer (HexToAddress ownerAddress) log = false) :
    (∀ token, GetTokenBalanceChanges logs ownerAddress token =
        if logs.any (involvesOwner (HexToAddress ownerAddress) token) then
          some (receivedByOwner (HexToAddress ownerAddress) token logs
            - sentByOwner (HexToAddress ownerAddress) token logs)
        else none) ∧
      GetTokenBalanceChanges
          (logs.filter fun log => involvesOwner (HexToAddress ownerAddress) log.address log)
          ownerAddress
        = GetTokenBalanceChanges logs ownerAddress := by
  refine ⟨?_, ?_⟩
  · intro token
    unfold GetTokenBalanceChanges
    rw [foldl_balanceChangeStep, netChange_eq _ _ _ hno]
    simp
  · unfold GetTokenBalanceChanges
    exact foldl_filter_involving _ _ _

theorem GetTokenBalanceChanges_spec_witness :
    GetTokenBalanceChanges sampleLogs (sampleAccount.Hex sampleKeccak) sampleToken = some (-60) ∧
      GetTokenBalanceChanges sampleLogs (sampleAccount.Hex sampleKeccak) otherAccount = none :=
  ⟨((GetTokenBalanceChanges_spec sampleLogs (sampleAccount.Hex sampleKeccak)
      (by decide)).1 sampleToken).trans (by decide),
    ((GetTokenBalanceChanges_spec sampleLogs (sampleAccount.Hex sampleKeccak)
      (by decide)).1 otherAccount).trans (by decide)⟩

/-! ### The order keeper: the store -/

set_option maxRecDepth 100000

theorem find_map_of_id (f : Order → Order) (hf : ∀ o, (f o).id = o.id) (orders : List Order)
    (id : Nat) :
    (orders.map f).find? (fun o => decide (o.id = id))
      = (orders.find? fun o => decide (o.id = id)).map f := by
  induction orders with
  | nil => rfl
  | cons o rest ih =>
    rw [List.map_cons, List.find?_cons, List.find?_cons, hf]
    by_cases h : o.id = id
    · simp [h]
    · simp [h, ih]

theorem find_append_of_some (orders : List Order) (extra : List Order) (id : Nat) (o : Order)
    (h : (orders.find? fun o => decide (o.id = id)) = some o) :
    ((orders ++ extra).find? fun o => decide (o.id = id)) = some o := by
  rw [List.find?_append, h]
  rfl

theorem order_closeTx (s : Store) (ord : Order) (finalPrice outAmount cost : Decimal)
    (strategy : Except Err Strategy) (id : Nat) :
    (OrderKeeper.closeTx s ord finalPrice outAmount cost strategy).order id
      = (s.order id).map fun o =>
          if o.id = ord.id then
            { o with
              status := .Closed, finalPrice := finalPrice, outAmount := outAmount,
              profit := if !cost.IsZero then some (outAmount.Sub cost) else o.profit }
          else o := by
  unfold Store.order OrderKeeper.closeTx OrderModel.SetOrderClosedStatus
  dsimp only
  by_cases hc : cost.IsZero = true
  · rw [find_map_of_id _ (by intro o; split <;> rfl)]
    simp [hc]
  · unfold OrderModel.UpdateProfit
    rw [find_map_of_id _ (by intro o; split <;> rfl), if_pos (by simpa using hc),
      find_map_of_id _ (by intro o; split <;> rfl), Option.map_map]
    congr 1
    funext o
    by_cases h : o.id = ord.id <;> simp [h, hc]

theorem order_rejectTx (s : Store) (ord : Order) (reason : List Char) (id : Nat) :
    (OrderKeeper.rejectTx s ord reason).order id
      = (s.order id).map fun o =>
          if o.id = ord.id then { o with status := .Rejected, reason := reason } else o := by
  unfold Store.order OrderKeeper.rejectTx OrderModel.SetOrderRejectedStatus
  dsimp only
  rw [find_map_of_id _ (by intro o; split <;> rfl)]

/-! ### The order keeper: what one handler call does -/

theorem handleCloseOrder_trace (cfg : ChainConfig) (env : KeeperEnv) (k : Keeper) (ord : Order)
    (changes : BalanceChanges) :
    (OrderKeeper.handleCloseOrder cfg env k ord changes).timeoutTxs = k.timeoutTxs ∧
      (OrderKeeper.handleCloseOrder cfg env k ord changes).requested = k.requested ∧
      (OrderKeeper.handleCloseOrder cfg env k ord changes).rejected = k.rejected ∧
      (OrderKeeper.handleCloseOrder cfg env k ord changes).closed = k.closed ++ [ord.id] := by
  unfold OrderKeeper.handleCloseOrder
  dsimp only
  split
  · exact ⟨rfl, rfl, rfl, rfl⟩
  · split
    · exact ⟨rfl, rfl, rfl, rfl⟩
    · split
      · exact ⟨rfl, rfl, rfl, rfl⟩
      · split
        · exact ⟨rfl, rfl, rfl, rfl⟩
        · split
          · exact ⟨rfl, rfl, rfl, rfl⟩
          · split <;> exact ⟨rfl, rfl, rfl, rfl⟩

theorem handleCloseOrder_store (cfg : ChainConfig) (env : KeeperEnv) (k : Keeper) (ord : Order)
    (changes : BalanceChanges) :
    (OrderKeeper.handleCloseOrder cfg env k ord changes).store = k.store ∨
      ∃ tokenMeta finalPrice outAmount cost bal stablecoinBal,
        env.getTokenMeta ord.token = .ok tokenMeta ∧
        OrderKeeper.closePricing cfg env k.store ord changes tokenMeta
          = some (finalPrice, outAmount, cost) ∧
        env.balanceOf (HexToAddress cfg.stablecoinCA) (HexToAddress ord.account) = .ok bal ∧
        ParseUnits bal cfg.stablecoinDecimals = some stablecoinBal ∧
        env.txFault ord.id = false ∧
        (OrderKeeper.handleCloseOrder cfg env k ord changes).store
          = OrderKeeper.closeTx k.store ord finalPrice outAmount cost
              (StrategyModel.FindByGUID k.store.strategies
                (env.strategyReadFault ord.strategyId) ord.strategyId) := by
  unfold OrderKeeper.handleCloseOrder
  dsimp only
  split
  · exact Or.inl rfl
  · rename_i tokenMeta hmeta
    split
    · exact Or.inl rfl
    · rename_i finalPrice outAmount cost hp
      split
      · exact Or.inl rfl
      · rename_i bal hbal
        split
        · exact Or.inl rfl
        · rename_i stablecoinBal hparse
          split
          · exact Or.inl rfl
          · rename_i htx
            refine Or.inr ⟨tokenMeta, finalPrice, outAmount, cost, bal, stablecoinBal, hmeta,
              hp, hbal, hparse, by simpa using htx, ?_⟩
            split <;> rfl

theorem handleCloseOrder_done (cfg : ChainConfig) (env : KeeperEnv) (k : Keeper) (ord : Order)
    (changes : BalanceChanges) (tokenMeta : Metadata) (finalPrice outAmount cost : Decimal)
    (bal : Int) (stablecoinBal : Decimal)
    (hmeta : env.getTokenMeta ord.token = .ok tokenMeta)
    (hp : OrderKeeper.closePricing cfg env k.store ord changes tokenMeta
      = some (finalPrice, outAmount, cost))
    (hbal : env.balanceOf (HexToAddress cfg.stablecoinCA) (HexToAddress ord.account) = .ok bal)
    (hparse : ParseUnits bal cfg.stablecoinDecimals = some stablecoinBal)
    (htx : env.txFault ord.id = false) :
    (OrderKeeper.handleCloseOrder cfg env k ord changes).store
      = OrderKeeper.closeTx k.store ord finalPrice outAmount cost
          (StrategyModel.FindByGUID k.store.strategies
            (env.strategyReadFault ord.strategyId) ord.strategyId) := by
  unfold OrderKeeper.handleCloseOrder
  simp only [hmeta, hp, hbal, hparse, htx, Bool.false_eq_true, if_false]
  split <;> rfl

theorem handleRejectOrder_trace (cfg : ChainConfig) (env : KeeperEnv) (k : Keeper) (ord : Order)
    (reason : List Char) :
    (OrderKeeper.handleRejectOrder cfg env k ord reason).timeoutTxs = k.timeoutTxs ∧
      (OrderKeeper.handleRejectOrder cfg env k ord reason).requested = k.requested ∧
      (OrderKeeper.handleRejectOrder cfg env k ord reason).rejected = k.rejected ++ [ord.id] ∧
      (OrderKeeper.handleRejectOrder cfg env k ord reason).closed = k.closed := by
  unfold OrderKeeper.handleRejectOrder
  dsimp only
  split
  · exact ⟨rfl, rfl, rfl, rfl⟩
  · split
    · exact ⟨rfl, rfl, rfl, rfl⟩
    · split
      · unfold OrderKeeper.handleRetryExit
        dsimp only
        split
        · exact ⟨rfl, rfl, rfl, rfl⟩
        · split
          · exact ⟨rfl, rfl, rfl, rfl⟩
          · exact ⟨rfl, rfl, rfl, rfl⟩
          · split <;> exact ⟨rfl, rfl, rfl, rfl⟩
      · exact ⟨rfl, rfl, rfl, rfl⟩

theorem handleRetryExit_store (cfg : ChainConfig) (env : KeeperEnv) (k : Keeper) (ord : Order) :
    (OrderKeeper.handleRetryExit cfg env k ord).store = k.store ∨
      ∃ record orderArgs,
        StrategyModel.FindByGUID k.store.strategies (env.strategyReadFault ord.strategyId)
          ord.strategyId = .ok record ∧
        SellToken cfg env record (some ord.inAmount) none true = some (.ok orderArgs) ∧
        (OrderKeeper.handleRetryExit cfg env k ord).store
          = { k.store with orders :=
                (OrderModel.Save k.store.orders env.now
                  { orderArgs with gridBuyCost := ord.gridBuyCost }) } := by
  unfold OrderKeeper.handleRetryExit
  dsimp only
  split
  · exact Or.inl rfl
  · rename_i record hrec
    split
    · exact Or.inl rfl
    · exact Or.inl rfl
    · rename_i orderArgs hsell
      split
      · exact Or.inl rfl
      · exact Or.inr ⟨record, orderArgs, hrec, hsell, rfl⟩

theorem handleRejectOrder_store (cfg : ChainConfig) (env : KeeperEnv) (k : Keeper) (ord : Order)
    (reason : List Char) :
    (OrderKeeper.handleRejectOrder cfg env k ord reason).store = k.store ∨
      (OrderKeeper.handleRejectOrder cfg env k ord reason).store
        = OrderKeeper.rejectTx k.store ord reason ∨
      (ord.type = .Sell ∧ ord.gridId = none ∧
        ∃ saved : Order,
          (OrderKeeper.handleRejectOrder cfg env k ord reason).store
            = { OrderKeeper.rejectTx k.store ord reason with orders :=
                  (OrderModel.Save (OrderKeeper.rejectTx k.store ord reason).orders env.now
                    saved) }) := by
  unfold OrderKeeper.handleRejectOrder
  dsimp only
  split
  · exact Or.inl rfl
  · split
    · exact Or.inr (Or.inl rfl)
    · split
      · rename_i hsell
        rcases handleRetryExit_store cfg env
            { k with rejected := k.rejected ++ [ord.id],
                     store := OrderKeeper.rejectTx k.store ord reason } ord with h | h
        · exact Or.inr (Or.inl h)
        · obtain ⟨record, orderArgs, -, -, h⟩ := h
          exact Or.inr (Or.inr ⟨hsell.1, hsell.2, _, h⟩)
      · exact Or.inr (Or.inl rfl)

theorem order_id_of_find (s : Store) (id : Nat) (o : Order) (h : s.order id = some o) :
    o.id = id := by
  have := List.find?_some h
  simpa using this

theorem handleCloseOrder_order (cfg : ChainConfig) (env : KeeperEnv) (k : Keeper) (ord : Order)
    (changes : BalanceChanges) (id : Nat) (o : Order) (h : k.store.order id = some o) :
    ∃ o2, (OrderKeeper.handleCloseOrder cfg env k ord changes).store.order id = some o2 ∧
      (o2 = o ∨ (id = ord.id ∧ o2.status = .Closed)) := by
  rcases handleCloseOrder_store cfg env k ord changes with
    hs | ⟨_, fp, out, cost, _, _, _, _, _, _, _, hs⟩
  · exact ⟨o, by rw [hs, h], Or.inl rfl⟩
  · rw [hs, order_closeTx, h, Option.map_some']
    have hid := order_id_of_find _ _ _ h
    by_cases hx : o.id = ord.id
    · rw [if_pos hx]
      exact ⟨_, rfl, Or.inr ⟨hid ▸ hx, rfl⟩⟩
    · rw [if_neg hx]
      exact ⟨o, rfl, Or.inl rfl⟩

theorem handleRejectOrder_order (cfg : ChainConfig) (env : KeeperEnv) (k : Keeper) (ord : Order)
    (reason : List Char) (id : Nat) (o : Order) (h : k.store.order id = some o) :
    ∃ o2, (OrderKeeper.handleRejectOrder cfg env k ord reason).store.order id = some o2 ∧
      (o2 = o ∨ (id = ord.id ∧ o2.status = .Rejected)) := by
  have hid := order_id_of_find _ _ _ h
  have hrej : ∃ o2, (OrderKeeper.rejectTx k.store ord reason).order id = some o2 ∧
      (o2 = o ∨ (id = ord.id ∧ o2.status = .Rejected)) := by
    rw [order_rejectTx, h, Option.map_some']
    by_cases hx : o.id = ord.id
    · rw [if_pos hx]
      exact ⟨_, rfl, Or.inr ⟨hid ▸ hx, rfl⟩⟩
    · rw [if_neg hx]
      exact ⟨o, rfl, Or.inl rfl⟩
  rcases handleRejectOrder_store cfg env k ord reason with hs | hs | ⟨_, _, saved, hs⟩
  · exact ⟨o, by rw [hs, h], Or.inl rfl⟩
  · rw [hs]
    exact hrej
  · obtain ⟨o2, ho2, hrest⟩ := hrej
    refine ⟨o2, ?_, hrest⟩
    rw [hs]
    exact find_append_of_some _ _ _ _ ho2

theorem find_grid_map (f : Grid → Grid) (hf : ∀ g, (f g).guid = g.guid) (grids : List Grid)
    (guid : List Char) :
    (grids.map f).find? (fun g => decide (g.guid = guid))
      = (grids.find? fun g => decide (g.guid = guid)).map f := by
  induction grids with
  | nil => rfl
  | cons g rest ih =>
    rw [List.map_cons, List.find?_cons, List.find?_cons, hf]
    by_cases h : g.guid = guid
    · simp [h]
    · simp [h, ih]

theorem find_grid_delete (grids : List Grid) (gridId guid : List Char) :
    (GridModel.DeleteByGuid grids gridId).find? (fun g => decide (g.guid = guid))
      = if gridId = guid then none else grids.find? fun g => decide (g.guid = guid) := by
  unfold GridModel.DeleteByGuid
  induction grids with
  | nil => simp
  | cons g rest ih =>
    by_cases h1 : g.guid = gridId
    · rw [List.filter_cons, if_neg (by simpa using h1), ih, List.find?_cons]
      by_cases h2 : gridId = guid
      · simp [h2]
      · have : ¬ g.guid = guid := fun e => h2 (h1 ▸ e)
        simp [h2, this]
    · rw [List.filter_cons, if_pos (by simpa using h1), List.find?_cons, List.find?_cons, ih]
      by_cases h2 : gridId = guid
      · have : ¬ g.guid = guid := fun e => h1 (e.trans h2.symm)
        simp [h2, this]
      · simp [h2]

theorem grid_closeTx (s : Store) (ord : Order) (finalPrice outAmount cost : Decimal)
    (strategy : Except Err Strategy) (guid : List Char) :
    (OrderKeeper.closeTx s ord finalPrice outAmount cost strategy).grid guid
      = if ord.gridId = some guid then
          match ord.type with
          | .Buy =>
            (s.grid guid).map fun g =>
              { g with status := .Bought, price := finalPrice, amount := outAmount }
          | .Sell => none
        else s.grid guid := by
  unfold Store.grid OrderKeeper.closeTx
  dsimp only
  cases hg : ord.gridId with
  | none => simp
  | some gridId =>
    cases ht : ord.type with
    | Buy =>
      dsimp only
      unfold GridModel.SetBoughtStatus
      rw [find_grid_map _ (by intro g; split <;> rfl)]
      by_cases h : gridId = guid
      · subst h
        rw [if_pos rfl]
        cases hf : List.find? (fun g => decide (g.guid = gridId)) s.grids with
        | none => rfl
        | some g =>
          have := List.find?_some hf
          simp only [decide_eq_true_eq] at this
          simp [this]
      · rw [if_neg (by simpa using h)]
        cases hf : List.find? (fun g => decide (g.guid = guid)) s.grids with
        | none => rfl
        | some g =>
          have := List.find?_some hf
          simp only [decide_eq_true_eq] at this
          have hne : ¬ g.guid = gridId := fun e => h (e.symm.trans this)
          simp [hne]
    | Sell =>
      dsimp only
      rw [find_grid_delete]
      by_cases h : gridId = guid <;> simp [h]

theorem grid_rejectTx (s : Store) (ord : Order) (reason : List Char) (guid : List Char) :
    (OrderKeeper.rejectTx s ord reason).grid guid
      = if ord.gridId = some guid then
          match ord.type with
          | .Buy => none
          | .Sell => (s.grid guid).map fun g => { g with status := .Bought }
        else s.grid guid := by
  unfold Store.grid OrderKeeper.rejectTx
  dsimp only
  cases hg : ord.gridId with
  | none => simp
  | some gridId =>
    cases ht : ord.type with
    | Buy =>
      dsimp only
      rw [if_pos rfl, find_grid_delete]
      by_cases h : gridId = guid <;> simp [h]
    | Sell =>
      dsimp only
      rw [if_neg (by decide)]
      unfold GridModel.UpdateStatusByGuid
      rw [find_grid_map _ (by intro g; split <;> rfl)]
      by_cases h : gridId = guid
      · subst h
        rw [if_pos rfl]
        cases hf : List.find? (fun g => decide (g.guid = gridId)) s.grids with
        | none => rfl
        | some g =>
          have := List.find?_some hf
          simp only [decide_eq_true_eq] at this
          simp [this]
      · rw [if_neg (by simpa using h)]
        cases hf : List.find? (fun g => decide (g.guid = guid)) s.grids with
        | none => rfl
        | some g =>
          have := List.find?_some hf
          simp only [decide_eq_true_eq] at this
          have hne : ¬ g.guid = gridId := fun e => h (e.symm.trans this)
          simp [hne]

theorem handleRejectOrder_done (cfg : ChainConfig) (env : KeeperEnv) (k : Keeper) (ord : Order)
    (reason : List Char) (htx : env.txFault ord.id = false) :
    (OrderKeeper.handleRejectOrder cfg env k ord reason).store
        = OrderKeeper.rejectTx k.store ord reason ∨
      (ord.type = .Sell ∧ ord.gridId = none ∧
        ∃ saved : Order,
          (OrderKeeper.handleRejectOrder cfg env k ord reason).store
            = { OrderKeeper.rejectTx k.store ord reason with orders :=
                  (OrderModel.Save (OrderKeeper.rejectTx k.store ord reason).orders env.now
                    saved) }) := by
  unfold OrderKeeper.handleRejectOrder
  simp only [htx, Bool.false_eq_true, if_false]
  split
  · exact Or.inl rfl
  · split
    · rename_i hsell
      rcases handleRetryExit_store cfg env
          { k with rejected := k.rejected ++ [ord.id],
                   store := OrderKeeper.rejectTx k.store ord reason } ord with h | h
      · exact Or.inl h
      · obtain ⟨record, orderArgs, -, -, h⟩ := h
        exact Or.inr ⟨hsell.1, hsell.2, _, h⟩
    · exact Or.inl rfl

theorem handleRejectOrder_fault (cfg : ChainConfig) (env : KeeperEnv) (k : Keeper) (ord : Order)
    (reason : List Char) (htx : env.txFault ord.id = true) :
    (OrderKeeper.handleRejectOrder cfg env k ord reason).store = k.store := by
  unfold OrderKeeper.handleRejectOrder
  simp only [htx, if_true]

theorem handleCloseOrder_grid (cfg : ChainConfig) (env : KeeperEnv) (k : Keeper) (ord : Order)
    (changes : BalanceChanges) (guid : List Char) (h : ord.gridId ≠ some guid) :
    (OrderKeeper.handleCloseOrder cfg env k ord changes).store.grid guid = k.store.grid guid := by
  rcases handleCloseOrder_store cfg env k ord changes with
    hs | ⟨_, fp, out, cost, _, _, _, _, _, _, _, hs⟩
  · rw [hs]
  · rw [hs, grid_closeTx, if_neg h]

theorem handleRejectOrder_grid (cfg : ChainConfig) (env : KeeperEnv) (k : Keeper) (ord : Order)
    (reason : List Char) (guid : List Char) (h : ord.gridId ≠ some guid) :
    (OrderKeeper.handleRejectOrder cfg env k ord reason).store.grid guid = k.store.grid guid := by
  rcases handleRejectOrder_store cfg env k ord reason with hs | hs | ⟨_, _, saved, hs⟩
  · rw [hs]
  · rw [hs, grid_rejectTx, if_neg h]
  · rw [hs]
    exact (grid_rejectTx k.store ord reason guid).trans (if_neg h)

theorem closeTx_settled (s : Store) (ord : Order) (finalPrice outAmount cost : Decimal)
    (strategy : Except Err Strategy) (s2 : Store)
    (hs : s2 = OrderKeeper.closeTx s ord finalPrice outAmount cost strategy) :
    (∀ o, s.order ord.id = some o →
      ∃ o2, s2.order ord.id = some o2 ∧ o2.status = .Closed ∧ o2.finalPrice = finalPrice ∧
        o2.outAmount = outAmount) ∧
    (∀ guid, ord.gridId = some guid → ord.type = .Buy →
      s2.grid guid = (s.grid guid).map fun g =>
        { g with status := .Bought, price := finalPrice, amount := outAmount }) ∧
    (∀ guid, ord.gridId = some guid → ord.type = .Sell → s2.grid guid = none) ∧
    (∀ guid, ord.gridId ≠ some guid → s2.grid guid = s.grid guid) ∧
    (ord.gridId = none → s2.grids = s.grids) := by
  subst hs
  refine ⟨?_, ?_, ?_, ?_, ?_⟩
  · intro o ho
    rw [order_closeTx, ho, Option.map_some', if_pos (order_id_of_find _ _ _ ho)]
    exact ⟨_, rfl, rfl, rfl, rfl⟩
  · intro guid hg ht
    rw [grid_closeTx, if_pos hg, ht]
  · intro guid hg ht
    rw [grid_closeTx, if_pos hg, ht]
  · intro guid hg
    rw [grid_closeTx, if_neg hg]
  · intro hg
    unfold OrderKeeper.closeTx
    simp only [hg]

theorem rejectTx_settled (s : Store) (ord : Order) (reason : List Char) (s2 : Store)
    (hs : s2 = OrderKeeper.rejectTx s ord reason ∨
      ∃ extra, s2 = { OrderKeeper.rejectTx s ord reason with orders :=
        (OrderKeeper.rejectTx s ord reason).orders ++ extra }) :
    (∀ o, s.order ord.id = some o →
      ∃ o2, s2.order ord.id = some o2 ∧ o2.status = .Rejected ∧ o2.reason = reason) ∧
    (∀ guid, ord.gridId = some guid → ord.type = .Buy → s2.grid guid = none) ∧
    (∀ guid, ord.gridId = some guid → ord.type = .Sell →
      s2.grid guid = (s.grid guid).map fun g => { g with status := .Bought }) ∧
    (∀ guid, ord.gridId ≠ some guid → s2.grid guid = s.grid guid) ∧
    (ord.gridId = none → s2.grids = s.grids) := by
  have hgrid : ∀ guid, s2.grid guid = (OrderKeeper.rejectTx s ord reason).grid guid := by
    intro guid
    rcases hs with hs | ⟨extra, hs⟩
    · rw [hs]
    · rw [hs]
      rfl
  have hgrids : s2.grids = (OrderKeeper.rejectTx s ord reason).grids := by
    rcases hs with hs | ⟨extra, hs⟩ <;> rw [hs]
  refine ⟨?_, ?_, ?_, ?_, ?_⟩
  · intro o ho
    have h1 : (OrderKeeper.rejectTx s ord reason).order ord.id
        = some { o with status := .Rejected, reason := reason } := by
      rw [order_rejectTx, ho, Option.map_some', if_pos (order_id_of_find _ _ _ ho)]
    rcases hs with hs | ⟨extra, hs⟩
    · rw [hs, h1]
      exact ⟨_, rfl, rfl, rfl⟩
    · rw [hs]
      exact ⟨_, find_append_of_some _ _ _ _ h1, rfl, rfl⟩
  · intro guid hg ht
    rw [hgrid, grid_rejectTx, if_pos hg, ht]
  · intro guid hg ht
    rw [hgrid, grid_rejectTx, if_pos hg, ht]
  · intro guid hg
    rw [hgrid, grid_rejectTx, if_neg hg]
  · intro hg
    rw [hgrids]
    unfold OrderKeeper.rejectTx
    simp only [hg]

/-- C13: grid settlement. Closing handling either leaves the store as it was or commits one
transaction in which the order becomes `Closed` and, for an order with a gridId, the grid of
a Buy is set to `Bought` with the final price and output amount written on the order and
the grid of a Sell is deleted; it commits whenever token metadata, pricing and the
stablecoin balance are obtained and the store transaction does not fail. Rejection handling
either leaves the store as it was or commits one transaction in which the order becomes
`Rejected` and, for an order with a gridId, the grid of a Buy is deleted and the grid of a
Sell is set to `Bought`; it commits whenever the store transaction does not fail. In both,
every other grid is untouched, and an order without a gridId changes no grid. -/
theorem grid_settlement (cfg : ChainConfig) (env : KeeperEnv) (k : Keeper) (ord : Order)
    (changes : BalanceChanges) (reason : List Char) :
    (∃ committed : Bool,
      (committed = false →
        (OrderKeeper.handleCloseOrder cfg env k ord changes).store = k.store) ∧
      (∀ tokenMeta pricing bal stablecoinBal,
        env.getTokenMeta ord.token = .ok tokenMeta →
        OrderKeeper.closePricing cfg env k.store ord changes tokenMeta = some pricing →
        env.balanceOf (HexToAddress cfg.stablecoinCA) (HexToAddress ord.account) = .ok bal →
        ParseUnits bal cfg.stablecoinDecimals = some stablecoinBal →
        env.txFault ord.id = false → committed = true) ∧
      (committed = true →
        ∃ finalPrice outAmount,
          (∀ o, k.store.order ord.id = some o →
            ∃ o2, (OrderKeeper.handleCloseOrder cfg env k ord changes).store.order ord.id
                = some o2 ∧
              o2.status = .Closed ∧ o2.finalPrice = finalPrice ∧ o2.outAmount = outAmount) ∧
          (∀ guid, ord.gridId = some guid → ord.type = .Buy →
            (OrderKeeper.handleCloseOrder cfg env k ord changes).store.grid guid
              = (k.store.grid guid).map fun g =>
                  { g with status := .Bought, price := finalPrice, amount := outAmount }) ∧
          (∀ guid, ord.gridId = some guid → ord.type = .Sell →
            (OrderKeeper.handleCloseOrder cfg env k ord changes).store.grid guid = none) ∧
          (∀ guid, ord.gridId ≠ some guid →
            (OrderKeeper.handleCloseOrder cfg env k ord changes).store.grid guid
              = k.store.grid guid) ∧
          (ord.gridId = none →
            (OrderKeeper.handleCloseOrder cfg env k ord changes).store.grids
              = k.store.grids))) ∧
    (∃ committed : Bool,
      (committed = false →
        (OrderKeeper.handleRejectOrder cfg env k ord reason).store = k.store) ∧
      (env.txFault ord.id = false → committed = true) ∧
      (committed = true →
        (∀ o, k.store.order ord.id = some o →
          ∃ o2, (OrderKeeper.handleRejectOrder cfg env k ord reason).store.order ord.id
              = some o2 ∧
            o2.status = .Rejected ∧ o2.reason = reason) ∧
        (∀ guid, ord.gridId = some guid → ord.type = .Buy →
          (OrderKeeper.handleRejectOrder cfg env k ord reason).store.grid guid = none) ∧
        (∀ guid, ord.gridId = some guid → ord.type = .Sell →
          (OrderKeeper.handleRejectOrder cfg env k ord reason).store.grid guid
            = (k.store.grid guid).map fun g => { g with status := .Bought }) ∧
        (∀ guid, ord.gridId ≠ some guid →
          (OrderKeeper.handleRejectOrder cfg env k ord reason).store.grid guid
            = k.store.grid guid) ∧
        (ord.gridId = none →
          (OrderKeeper.handleRejectOrder cfg env k ord reason).store.grids
            = k.store.grids))) := by
  constructor
  · by_cases hc : ∃ tokenMeta pricing bal stablecoinBal,
        env.getTokenMeta ord.token = .ok tokenMeta ∧
        OrderKeeper.closePricing cfg env k.store ord changes tokenMeta = some pricing ∧
        env.balanceOf (HexToAddress cfg.stablecoinCA) (HexToAddress ord.account) = .ok bal ∧
        ParseUnits bal cfg.stablecoinDecimals = some stablecoinBal ∧
        env.txFault ord.id = false
    · obtain ⟨tokenMeta, ⟨finalPrice, outAmount, cost⟩, bal, stablecoinBal, h1, h2, h3, h4, h5⟩
        := hc
      refine ⟨true, fun h => Bool.noConfusion h, fun _ _ _ _ _ _ _ _ _ => rfl, fun _ => ?_⟩
      exact ⟨finalPrice, outAmount,
        closeTx_settled _ _ _ _ _ _ _
          (handleCloseOrder_done cfg env k ord changes tokenMeta finalPrice outAmount cost bal
            stablecoinBal h1 h2 h3 h4 h5)⟩
    · refine ⟨false, fun _ => ?_, ?_, fun h => Bool.noConfusion h⟩
      · rcases handleCloseOrder_store cfg env k ord changes with
          hs | ⟨tokenMeta, fp, out, cost, bal, sb, h1, h2, h3, h4, h5, _⟩
        · exact hs
        · exact absurd ⟨tokenMeta, (fp, out, cost), bal, sb, h1, h2, h3, h4, h5⟩ hc
      · intro tokenMeta pricing bal sb h1 h2 h3 h4 h5
        exact absurd ⟨tokenMeta, pricing, bal, sb, h1, h2, h3, h4, h5⟩ hc
  · cases htx : env.txFault ord.id with
    | true =>
      exact ⟨false, fun _ => handleRejectOrder_fault cfg env k ord reason htx,
        fun h => Bool.noConfusion h, fun h => Bool.noConfusion h⟩
    | false =>
      refine ⟨true, fun h => Bool.noConfusion h, fun _ => rfl, fun _ => ?_⟩
      apply rejectTx_settled
      rcases handleRejectOrder_done cfg env k ord reason htx with h | ⟨_, _, saved, h⟩
      · exact Or.inl h
      · exact Or.inr ⟨_, h⟩

/-! ### Comparison, subtraction and division of decimals as numbers -/

theorem RescalePair_spec (d1 d2 : Decimal) :
    (Decimal.RescalePair d1 d2).1
        = ⟨d1.value * 10 ^ (d1.exp - min d1.exp d2.exp).toNat, min d1.exp d2.exp⟩ ∧
      (Decimal.RescalePair d1 d2).2
        = ⟨d2.value * 10 ^ (d2.exp - min d1.exp d2.exp).toNat, min d1.exp d2.exp⟩ := by
  obtain ⟨v1, e1⟩ := d1
  obtain ⟨v2, e2⟩ := d2
  unfold Decimal.RescalePair Decimal.rescale
  dsimp only
  rcases lt_trichotomy e1 e2 with h | h | h
  · rw [if_pos h, min_eq_left h.le, if_neg (by omega), if_neg (by omega)]
    refine ⟨by simp, ?_⟩
    have : (e1 - e2).natAbs = (e2 - e1).toNat := by omega
    rw [this]
  · subst h
    rw [if_neg (lt_irrefl _), if_neg (lt_irrefl _)]
    simp
  · rw [if_neg (by omega), if_pos h, min_eq_right h.le, if_neg (by omega), if_neg (by omega)]
    refine ⟨?_, by simp⟩
    have : (e2 - e1).natAbs = (e1 - e2).toNat := by omega
    rw [this]

theorem toRat_scaled (v e m : Int) (h : m ≤ e) :
    (Decimal.mk (v * 10 ^ (e - m).toNat) m).toRat = (Decimal.mk v e).toRat := by
  unfold Decimal.toRat
  dsimp only
  have h10 : (10 : ℚ) ≠ 0 := by norm_num
  have he : e = ((e - m).toNat : Int) + m := by
    rw [Int.toNat_of_nonneg (by omega)]
    ring
  conv_rhs => rw [he, zpow_add₀ h10, zpow_natCast]
  push_cast
  ring

theorem RescalePair_toRat (d1 d2 : Decimal) :
    (Decimal.RescalePair d1 d2).1.toRat = d1.toRat ∧
      (Decimal.RescalePair d1 d2).2.toRat = d2.toRat := by
  rw [(RescalePair_spec d1 d2).1, (RescalePair_spec d1 d2).2]
  exact ⟨toRat_scaled _ _ _ (min_le_left _ _), toRat_scaled _ _ _ (min_le_right _ _)⟩

theorem toRat_lt_iff (v1 v2 e : Int) :
    (Decimal.mk v1 e).toRat < (Decimal.mk v2 e).toRat ↔ v1 < v2 := by
  unfold Decimal.toRat
  dsimp only
  have hpos : (0 : ℚ) < (10 : ℚ) ^ e := zpow_pos (by norm_num) e
  rw [mul_lt_mul_right hpos]
  exact Int.cast_lt

theorem toRat_eq_iff (v1 v2 e : Int) :
    (Decimal.mk v1 e).toRat = (Decimal.mk v2 e).toRat ↔ v1 = v2 := by
  unfold Decimal.toRat
  dsimp only
  have hpos : (0 : ℚ) < (10 : ℚ) ^ e := zpow_pos (by norm_num) e
  rw [mul_left_inj' hpos.ne']
  exact Int.cast_inj

/-- The method `Decimal.Cmp` compares the numbers the two decimals stand for. -/
theorem Cmp_spec (d d2 : Decimal) :
    d.Cmp d2 = if d.toRat < d2.toRat then -1 else if d.toRat = d2.toRat then 0 else 1 := by
  have key : bigCmp (Decimal.RescalePair d d2).1.value (Decimal.RescalePair d d2).2.value
      = if d.toRat < d2.toRat then -1 else if d.toRat = d2.toRat then 0 else 1 := by
    have h1 := (RescalePair_toRat d d2).1
    have h2 := (RescalePair_toRat d d2).2
    have e1 := (RescalePair_spec d d2).1
    have e2 := (RescalePair_spec d d2).2
    rw [← h1, ← h2]
    rw [e1, e2]
    simp only [toRat_lt_iff, toRat_eq_iff]
    rfl
  unfold Decimal.Cmp
  split
  · rename_i he
    obtain ⟨v1, e1⟩ := d
    obtain ⟨v2, e2⟩ := d2
    dsimp only at he
    subst he
    simp only [toRat_lt_iff, toRat_eq_iff]
    rfl
  · exact key

theorem Sub_toRat (d d2 : Decimal) : (d.Sub d2).toRat = d.toRat - d2.toRat := by
  have h1 := (RescalePair_toRat d d2).1
  have h2 := (RescalePair_toRat d d2).2
  rw [← h1, ← h2]
  unfold Decimal.Sub
  have e2 : (Decimal.RescalePair d d2).2.exp = (Decimal.RescalePair d d2).1.exp := by
    rw [(RescalePair_spec d d2).1, (RescalePair_spec d d2).2]
  unfold Decimal.toRat
  dsimp only
  rw [e2]
  push_cast
  ring

theorem toRat_eq_zero_iff (d : Decimal) : d.toRat = 0 ↔ d.value = 0 := by
  unfold Decimal.toRat
  have hpos : (0 : ℚ) < (10 : ℚ) ^ d.exp := zpow_pos (by norm_num) d.exp
  rw [mul_eq_zero]
  constructor
  · rintro (h | h)
    · exact_mod_cast h
    · exact absurd h hpos.ne'
  · intro h
    left
    exact_mod_cast h

theorem Equal_Zero (d : Decimal) : d.Equal (Decimal.New 0 1) = decide (d.value = 0) := by
  unfold Decimal.Equal
  rw [Cmp_spec]
  have hz : (Decimal.New 0 1).toRat = 0 := by
    rw [toRat_eq_zero_iff]
    rfl
  rw [hz]
  by_cases h : d.value = 0
  · have : d.toRat = 0 := (toRat_eq_zero_iff d).2 h
    simp [h, this]
  · have : d.toRat ≠ 0 := fun e => h ((toRat_eq_zero_iff d).1 e)
    rcases lt_or_gt_of_ne this with h1 | h1
    · simp [h, h1]
    · simp [h, this, not_lt.2 h1.le]

theorem IsZero_iff (d : Decimal) : d.IsZero = decide (d.value = 0) := by
  unfold Decimal.IsZero Decimal.Sign
  simp [Int.sign_eq_zero_iff_zero]

theorem tmod_bounds (a b : Int) (hb : b ≠ 0) :
    |a.tmod b| < |b| ∧ (0 ≤ a → 0 ≤ a.tmod b) ∧ (a ≤ 0 → a.tmod b ≤ 0) := by
  have key : ∀ (m : Nat) (b : Int), b ≠ 0 →
      (0 : Int) ≤ (m : Int).tmod b ∧ (m : Int).tmod b < |b| := by
    intro m b hb
    refine ⟨Int.tmod_nonneg _ (Int.ofNat_nonneg m), ?_⟩
    rcases lt_or_gt_of_ne hb with h | h
    · rw [← Int.tmod_neg, abs_of_neg h]
      exact Int.tmod_lt_of_pos _ (by omega)
    · rw [abs_of_pos h]
      exact Int.tmod_lt_of_pos _ h
  have hneg : ∀ (m : Nat) (b : Int), (-(m : Int)).tmod b = -((m : Int).tmod b) := by
    intro m b
    rw [Int.tmod_def, Int.tmod_def, Int.neg_tdiv]
    ring
  rcases Int.le_total 0 a with ha | ha
  · obtain ⟨m, rfl⟩ := Int.eq_ofNat_of_zero_le ha
    obtain ⟨h1, h2⟩ := key m b hb
    refine ⟨by rw [abs_of_nonneg h1]; exact h2, fun _ => h1, fun h0 => ?_⟩
    have : (m : Int) = 0 := by omega
    rw [this, Int.zero_tmod]
  · obtain ⟨m, hm⟩ := Int.eq_ofNat_of_zero_le (by omega : 0 ≤ -a)
    have ha2 : a = -(m : Int) := by omega
    subst ha2
    obtain ⟨h1, h2⟩ := key m b hb
    rw [hneg]
    refine ⟨by rw [abs_neg, abs_of_nonneg h1]; exact h2, fun h0 => ?_, fun _ => by omega⟩
    have : (m : Int) = 0 := by omega
    rw [this, Int.zero_tmod]
    simp

/-- Rounding half away from zero, on integers: the quotient truncated toward zero, moved by
one in the direction of the sign when twice the remainder reaches the divisor, is within
half a unit of the exact quotient. -/
theorem round_half (a b : Int) (hb : b ≠ 0) :
    |2 * (a - b * (a.tdiv b +
        (if 2 * |a.tmod b| < |b| then 0 else if a.sign * b.sign < 0 then -1 else 1)))|
      ≤ |b| := by
  obtain ⟨h1, h2, h3⟩ := tmod_bounds a b hb
  have hm : a = b * a.tdiv b + a.tmod b := (Int.tdiv_add_tmod a b).symm
  generalize a.tmod b = m at h1 h2 h3 hm
  generalize a.tdiv b = t at hm
  have e0 : a - b * (t + 0) = m := by rw [hm]; ring
  have e1 : a - b * (t + -1) = m + b := by rw [hm]; ring
  have e2 : a - b * (t + 1) = m - b := by rw [hm]; ring
  by_cases hc : 2 * |m| < |b|
  · rw [if_pos hc, e0, abs_mul]
    have : |(2 : Int)| = 2 := by decide
    rw [this]
    exact hc.le
  · rw [if_neg hc]
    have hbt : b * t = a - m := by rw [hm]; ring
    rcases lt_or_gt_of_ne hb with hbn | hbp
    · have sb : b.sign = -1 := Int.sign_eq_neg_one_of_neg hbn
      rw [abs_of_neg hbn] at h1 hc ⊢
      rcases lt_trichotomy a 0 with ha | ha | ha
      · have sa : a.sign = -1 := Int.sign_eq_neg_one_of_neg ha
        have hm0 := h3 ha.le
        rw [abs_of_nonpos hm0] at h1 hc
        rw [sa, sb, if_neg (by decide), e2, abs_le]
        constructor <;> omega
      · have hm0 : m = 0 := le_antisymm (h3 ha.le) (h2 ha.ge)
        rw [hm0] at hc
        simp at hc
        omega
      · have sa : a.sign = 1 := Int.sign_eq_one_of_pos ha
        have hm0 := h2 ha.le
        rw [abs_of_nonneg hm0] at h1 hc
        rw [sa, sb, if_pos (by decide), e1, abs_le]
        constructor <;> omega
    · have sb : b.sign = 1 := Int.sign_eq_one_of_pos hbp
      rw [abs_of_pos hbp] at h1 hc ⊢
      rcases lt_trichotomy a 0 with ha | ha | ha
      · have sa : a.sign = -1 := Int.sign_eq_neg_one_of_neg ha
        have hm0 := h3 ha.le
        rw [abs_of_nonpos hm0] at h1 hc
        rw [sa, sb, if_pos (by decide), e1, abs_le]
        constructor <;> omega
      · have hm0 : m = 0 := le_antisymm (h3 ha.le) (h2 ha.ge)
        rw [hm0] at hc
        simp at hc
        omega
      · have sa : a.sign = 1 := Int.sign_eq_one_of_pos ha
        have hm0 := h2 ha.le
        rw [abs_of_nonneg hm0] at h1 hc
        rw [sa, sb, if_neg (by decide), e2, abs_le]
        constructor <;> omega

/-- The value `Decimal.Div` returns for a non-zero divisor and exponents far from the ends
of `int32`: the quotient of the two integers brought to a common scale, rounded half away
from zero, at exponent `-16`. -/
theorem Div_eq (d d2 : Decimal) (h2 : d2.value ≠ 0)
    (hd : -1000000000 ≤ d.exp ∧ d.exp ≤ 1000000000)
    (hd2 : -1000000000 ≤ d2.exp ∧ d2.exp ≤ 1000000000) :
    d.Div d2
      = some ⟨(if d.exp - d2.exp + 16 < 0 then d.value
            else d.value * 10 ^ (d.exp - d2.exp + 16).toNat).tdiv
          (if d.exp - d2.exp + 16 < 0 then d2.value * 10 ^ (-(d.exp - d2.exp + 16)).toNat
            else d2.value) +
        (if 2 * |(if d.exp - d2.exp + 16 < 0 then d.value
              else d.value * 10 ^ (d.exp - d2.exp + 16).toNat).tmod
            (if d.exp - d2.exp + 16 < 0 then d2.value * 10 ^ (-(d.exp - d2.exp + 16)).toNat
              else d2.value)|
            < |if d.exp - d2.exp + 16 < 0 then d2.value * 10 ^ (-(d.exp - d2.exp + 16)).toNat
              else d2.value| then 0
          else if d.value.sign * d2.value.sign < 0 then -1 else 1), -16⟩ := by
  obtain ⟨dv, de⟩ := d
  obtain ⟨d2v, d2e⟩ := d2
  dsimp only at h2 hd hd2 ⊢
  have hw16 : wrap32 (-DivisionPrecision) = -16 := by decide
  have hsign : ¬ d2v.sign = 0 := by
    rw [Int.sign_eq_zero_iff_zero]
    exact h2
  have he : de - d2e - -16 = de - d2e + 16 := by ring
  have hrange : ¬ (de - d2e + 16 > maxInt32 ∨ de - d2e + 16 < minInt32) := by
    unfold maxInt32 minInt32
    omega
  have hten : ∀ n : Nat, (0 : Int) < 10 ^ n := fun n => pow_pos (by decide) n
  have hnot : ∀ (p : Prop) [Decidable p], ¬ ((if p then (0 : Int) else 1) < 0) := by
    intro p _
    split <;> decide
  have hq : Decimal.QuoRem ⟨dv, de⟩ ⟨d2v, d2e⟩ DivisionPrecision
      = some (⟨(if de - d2e + 16 < 0 then dv else dv * 10 ^ (de - d2e + 16).toNat).tdiv
            (if de - d2e + 16 < 0 then d2v * 10 ^ (-(de - d2e + 16)).toNat else d2v), -16⟩,
          ⟨(if de - d2e + 16 < 0 then dv else dv * 10 ^ (de - d2e + 16).toNat).tmod
            (if de - d2e + 16 < 0 then d2v * 10 ^ (-(de - d2e + 16)).toNat else d2v),
            if de - d2e + 16 < 0 then de else wrap32 (-16 + d2e)⟩) := by
    unfold Decimal.QuoRem
    dsimp only
    rw [if_neg hsign, hw16, he, if_neg hrange]
  generalize haa : (if de - d2e + 16 < 0 then dv else dv * 10 ^ (de - d2e + 16).toNat) = aa
    at hq ⊢
  generalize hbb :
    (if de - d2e + 16 < 0 then d2v * 10 ^ (-(de - d2e + 16)).toNat else d2v) = bb at hq ⊢
  -- the comparison of twice the remainder with the divisor
  have hcmp : (Decimal.mk (|aa.tmod bb| * 2)
        (wrap32 ((if de - d2e + 16 < 0 then de else wrap32 (-16 + d2e)) + DivisionPrecision))).Cmp
        (Decimal.Abs ⟨d2v, d2e⟩) < 0 ↔ 2 * |aa.tmod bb| < |bb| := by
    rw [Cmp_spec]
    have hiff : (Decimal.mk (|aa.tmod bb| * 2)
        (wrap32 ((if de - d2e + 16 < 0 then de else wrap32 (-16 + d2e)) + DivisionPrecision))).toRat
          < (Decimal.Abs ⟨d2v, d2e⟩).toRat ↔ 2 * |aa.tmod bb| < |bb| := by
      unfold Decimal.Abs DivisionPrecision
      dsimp only
      by_cases hneg : de - d2e + 16 < 0
      · rw [if_pos hneg] at hbb ⊢
        rw [wrap32_of_range _ (by omega) (by omega)]
        rw [← toRat_scaled |d2v| d2e (de + 16) (by omega), toRat_lt_iff, ← hbb, abs_mul,
          abs_of_pos (hten _)]
        have : (d2e - (de + 16)).toNat = (-(de - d2e + 16)).toNat := by
          congr 1
          ring
        rw [this, mul_comm 2]
      · rw [if_neg hneg] at hbb ⊢
        rw [wrap32_of_range (-16 + d2e) (by omega) (by omega),
          wrap32_of_range _ (by omega) (by omega)]
        have : -16 + d2e + 16 = d2e := by ring
        rw [this, toRat_lt_iff, ← hbb, mul_comm 2]
    by_cases hlt : (Decimal.mk (|aa.tmod bb| * 2)
        (wrap32 ((if de - d2e + 16 < 0 then de else wrap32 (-16 + d2e)) + DivisionPrecision))).toRat
          < (Decimal.Abs ⟨d2v, d2e⟩).toRat
    · rw [if_pos hlt]
      exact ⟨fun _ => hiff.1 hlt, fun _ => by decide⟩
    · rw [if_neg hlt]
      constructor
      · intro h
        exact absurd h (hnot _)
      · intro h
        exact absurd (hiff.2 h) hlt
  unfold Decimal.Div Decimal.DivRound
  rw [hq, Option.bind_eq_bind, Option.some_bind]
  dsimp only
  by_cases hc : 2 * |aa.tmod bb| < |bb|
  · rw [if_pos (hcmp.2 hc), if_pos hc, add_zero]
    rfl
  · rw [if_neg (fun h => hc (hcmp.1 h)), if_neg hc, hw16]
    have hpair : ∀ (t : Int), Decimal.RescalePair ⟨t, -16⟩ (Decimal.New 1 (-16))
        = (⟨t, -16⟩, ⟨1, -16⟩) := by
      intro t
      unfold Decimal.RescalePair Decimal.New
      dsimp only
      rw [if_neg (lt_irrefl _), if_neg (lt_irrefl _)]
    by_cases hs : dv.sign * d2v.sign < 0
    · rw [if_pos hs, if_pos hs]
      unfold Decimal.Sub
      rw [hpair]
      rfl
    · rw [if_neg hs, if_neg hs]
      unfold Decimal.Add
      rw [hpair]
      rfl

theorem sign_mul_ten (v : Int) (n : Nat) : (v * 10 ^ n).sign = v.sign := by
  rw [Int.sign_mul, Int.sign_eq_one_of_pos (pow_pos (by decide) n), mul_one]

/-- The method `Decimal.Div`, for a non-zero divisor and exponents far from the ends of
`int32`, returns a decimal with 16 fractional digits within half a unit of the last digit of
the exact quotient; a zero dividend gives zero. -/
theorem Div_spec (d d2 : Decimal) (h2 : d2.value ≠ 0)
    (hd : -1000000000 ≤ d.exp ∧ d.exp ≤ 1000000000)
    (hd2 : -1000000000 ≤ d2.exp ∧ d2.exp ≤ 1000000000) :
    ∃ r, d.Div d2 = some r ∧ r.exp = -16 ∧
      |r.toRat - d.toRat / d2.toRat| ≤ 1 / (2 * 10 ^ 16) ∧ (d.value = 0 → r.value = 0) := by
  refine ⟨_, Div_eq d d2 h2 hd hd2, rfl, ?_, ?_⟩
  · obtain ⟨dv, de⟩ := d
    obtain ⟨d2v, d2e⟩ := d2
    dsimp only at h2 hd hd2 ⊢
    have h10 : (10 : ℚ) ≠ 0 := by norm_num
    have hsa : (if de - d2e + 16 < 0 then dv else dv * 10 ^ (de - d2e + 16).toNat).sign
        = dv.sign := by
      split
      · rfl
      · exact sign_mul_ten _ _
    have hsb : (if de - d2e + 16 < 0 then d2v * 10 ^ (-(de - d2e + 16)).toNat else d2v).sign
        = d2v.sign := by
      split
      · exact sign_mul_ten _ _
      · rfl
    have hratio : (Decimal.mk dv de).toRat / (Decimal.mk d2v d2e).toRat
        = ((if de - d2e + 16 < 0 then dv else dv * 10 ^ (de - d2e + 16).toNat : Int) : ℚ)
          / ((if de - d2e + 16 < 0 then d2v * 10 ^ (-(de - d2e + 16)).toNat else d2v : Int) : ℚ)
          * (10 : ℚ) ^ (-16 : Int) := by
      unfold Decimal.toRat
      dsimp only
      have hv : (d2v : ℚ) ≠ 0 := by exact_mod_cast h2
      have hA : (10 : ℚ) ^ de ≠ 0 := zpow_ne_zero _ h10
      have hB : (10 : ℚ) ^ d2e ≠ 0 := zpow_ne_zero _ h10
      have hP : (10 : ℚ) ^ (16 : Int) ≠ 0 := zpow_ne_zero _ h10
      by_cases hneg : de - d2e + 16 < 0
      · rw [if_pos hneg, if_pos hneg]
        push_cast
        rw [← zpow_natCast, Int.toNat_of_nonneg (by omega)]
        have : -(de - d2e + 16) = d2e - de - 16 := by ring
        rw [this, zpow_sub₀ h10, zpow_sub₀ h10, zpow_neg]
        field_simp
        ring
      · rw [if_neg hneg, if_neg hneg]
        push_cast
        rw [← zpow_natCast, Int.toNat_of_nonneg (by omega)]
        have : de - d2e + 16 = de - d2e + 16 := rfl
        rw [zpow_add₀ h10, zpow_sub₀ h10, zpow_neg]
        field_simp
        ring
    have hbb0 : (if de - d2e + 16 < 0 then d2v * 10 ^ (-(de - d2e + 16)).toNat else d2v) ≠ 0 := by
      split
      · exact mul_ne_zero h2 (pow_ne_zero _ (by decide))
      · exact h2
    have hround := round_half
      (if de - d2e + 16 < 0 then dv else dv * 10 ^ (de - d2e + 16).toNat)
      (if de - d2e + 16 < 0 then d2v * 10 ^ (-(de - d2e + 16)).toNat else d2v) hbb0
    rw [hsa, hsb] at hround
    rw [hratio]
    generalize (if de - d2e + 16 < 0 then dv else dv * 10 ^ (de - d2e + 16).toNat) = aa
      at hround ⊢
    generalize (if de - d2e + 16 < 0 then d2v * 10 ^ (-(de - d2e + 16)).toNat else d2v) = bb
      at hround hbb0 ⊢
    generalize aa.tdiv bb +
      (if 2 * |aa.tmod bb| < |bb| then 0 else if dv.sign * d2v.sign < 0 then -1 else 1) = rv
      at hround ⊢
    unfold Decimal.toRat
    dsimp only
    have hbq : (bb : ℚ) ≠ 0 := by exact_mod_cast hbb0
    have hbpos : (0 : ℚ) < |(bb : ℚ)| := abs_pos.2 hbq
    have hq : |2 * ((aa : ℚ) - bb * rv)| ≤ |(bb : ℚ)| := by exact_mod_cast hround
    have hP : (0 : ℚ) < (10 : ℚ) ^ (-16 : Int) := zpow_pos (by norm_num) _
    have e1 : (rv : ℚ) * (10 : ℚ) ^ (-16 : Int) - (aa : ℚ) / bb * (10 : ℚ) ^ (-16 : Int)
        = -((2 * ((aa : ℚ) - bb * rv)) / bb) * ((10 : ℚ) ^ (-16 : Int) / 2) := by
      field_simp
      ring
    rw [e1, abs_mul, abs_neg, abs_div, abs_of_pos (by positivity : (0 : ℚ) < 10 ^ (-16 : Int) / 2)]
    have e2 : (1 : ℚ) / (2 * 10 ^ 16) = 1 * ((10 : ℚ) ^ (-16 : Int) / 2) := by
      rw [zpow_neg]
      norm_num
    rw [e2]
    apply mul_le_mul_of_nonneg_right _ (by positivity)
    rw [div_le_one hbpos]
    exact hq
  · intro hz
    dsimp only
    rw [hz]
    have hbb0 : (if d.exp - d2.exp + 16 < 0 then d2.value * 10 ^ (-(d.exp - d2.exp + 16)).toNat
        else d2.value) ≠ 0 := by
      split
      · exact mul_ne_zero h2 (pow_ne_zero _ (by decide))
      · exact h2
    generalize (if d.exp - d2.exp + 16 < 0 then d2.value * 10 ^ (-(d.exp - d2.exp + 16)).toNat
        else d2.value) = bb at hbb0
    have h0 : (if d.exp - d2.exp + 16 < 0 then (0 : Int)
        else 0 * 10 ^ (d.exp - d2.exp + 16).toNat) = 0 := by
      split
      · rfl
      · exact Int.zero_mul _
    rw [h0, Int.zero_tdiv, Int.zero_tmod, abs_zero, mul_zero, if_pos (abs_pos.2 hbb0)]
    rfl

/-! ### The order keeper: pricing on close -/

theorem closePricing_buy (cfg : ChainConfig) (env : KeeperEnv) (s : Store) (ord : Order)
    (changes : BalanceChanges) (tokenMeta : Metadata) (ht : ord.type = .Buy)
    (hdec : tokenMeta.decimals < 256) :
    OrderKeeper.closePricing cfg env s ord changes tokenMeta
      = match changes (HexToAddress ord.token) with
        | some v =>
          if v = 0 then some (Decimal.zero, ⟨v, -(tokenMeta.decimals : Int)⟩, Decimal.New 0 1)
          else
            (ord.inAmount.Div ⟨v, -(tokenMeta.decimals : Int)⟩).map fun finalPrice =>
              (finalPrice, ⟨v, -(tokenMeta.decimals : Int)⟩, Decimal.New 0 1)
        | none => some (Decimal.zero, Decimal.New 0 1, Decimal.New 0 1) := by
  unfold OrderKeeper.closePricing
  rw [ht]
  dsimp only
  cases hv : changes (HexToAddress ord.token) with
  | none => rfl
  | some v =>
    dsimp only
    rw [ParseUnits_eq v _ hdec, Option.bind_eq_bind, Option.some_bind, Equal_Zero]
    dsimp only
    by_cases h0 : v = 0
    · rw [if_pos h0, decide_eq_true h0]
      rfl
    · rw [if_neg h0, decide_eq_false h0]
      cases ord.inAmount.Div ⟨v, -(tokenMeta.decimals : Int)⟩ <;> rfl

/-- The cost basis `handleCloseOrder` resolves for a Sell order. -/
theorem closePricing_sell (cfg : ChainConfig) (env : KeeperEnv) (s : Store) (ord : Order)
    (changes : BalanceChanges) (tokenMeta : Metadata) (ht : ord.type = .Sell)
    (hsd : cfg.stablecoinDecimals < 256) :
    ∃ cost,
      (∀ c, ord.gridBuyCost = some c → cost = c) ∧
      (ord.gridBuyCost = none → ∀ gridId, ord.gridId = some gridId →
        ∀ g, GridModel.FindByGuid s.grids (env.gridReadFault gridId) gridId = .ok g →
          cost = g.amount) ∧
      (ord.gridBuyCost = none → ∀ gridId, ord.gridId = some gridId →
        ∀ err, GridModel.FindByGuid s.grids (env.gridReadFault gridId) gridId = .error err →
          cost = Decimal.New 0 1) ∧
      (ord.gridBuyCost = none → ord.gridId = none → cost = Decimal.New 0 1) ∧
      OrderKeeper.closePricing cfg env s ord changes tokenMeta
        = match changes (HexToAddress cfg.stablecoinCA) with
          | some v =>
            if ord.inAmount.value = 0 then
              some (Decimal.zero, ⟨v, -(cfg.stablecoinDecimals : Int)⟩, cost)
            else
              ((Decimal.mk v (-(cfg.stablecoinDecimals : Int))).Div ord.inAmount).map
                fun finalPrice => (finalPrice, ⟨v, -(cfg.stablecoinDecimals : Int)⟩, cost)
          | none => some (Decimal.zero, Decimal.New 0 1, cost) := by
  unfold OrderKeeper.closePricing
  rw [ht]
  dsimp only
  refine ⟨(match ord.gridBuyCost with
      | some c => c
      | none =>
        match ord.gridId with
        | some gridId =>
          match GridModel.FindByGuid s.grids (env.gridReadFault gridId) gridId with
          | .ok g => g.amount
          | .error _ => Decimal.New 0 1
        | none => Decimal.New 0 1), ?_, ?_, ?_, ?_, ?_⟩
  · intro c hc
    rw [hc]
  · intro hc gridId hg g hf
    rw [hc, hg]
    dsimp only
    rw [hf]
  · intro hc gridId hg err hf
    rw [hc, hg]
    dsimp only
    rw [hf]
  · intro hc hg
    rw [hc, hg]
  · cases hv : changes (HexToAddress cfg.stablecoinCA) with
    | none => rfl
    | some v =>
      dsimp only
      rw [ParseUnits_eq v _ hsd, Option.bind_eq_bind, Option.some_bind, Equal_Zero]
      by_cases h0 : ord.inAmount.value = 0
      · rw [if_pos h0, decide_eq_true h0]
        rfl
      · rw [if_neg h0, decide_eq_false h0]
        cases (Decimal.mk v (-(cfg.stablecoinDecimals : Int))).Div ord.inAmount <;> rfl

theorem handleCloseOrder_order_done (cfg : ChainConfig) (env : KeeperEnv) (k : Keeper)
    (ord : Order) (changes : BalanceChanges) (tokenMeta : Metadata)
    (finalPrice outAmount cost : Decimal) (bal : Int) (o : Order)
    (hmeta : env.getTokenMeta ord.token = .ok tokenMeta)
    (hp : OrderKeeper.closePricing cfg env k.store ord changes tokenMeta
      = some (finalPrice, outAmount, cost))
    (hbal : env.balanceOf (HexToAddress cfg.stablecoinCA) (HexToAddress ord.account) = .ok bal)
    (hsd : cfg.stablecoinDecimals < 256) (htx : env.txFault ord.id = false)
    (ho : k.store.order ord.id = some o) :
    (OrderKeeper.handleCloseOrder cfg env k ord changes).store.order ord.id
      = some { o with
          status := .Closed, finalPrice := finalPrice, outAmount := outAmount,
          profit := if !cost.IsZero then some (outAmount.Sub cost) else o.profit } := by
  rw [handleCloseOrder_done cfg env k ord changes tokenMeta finalPrice outAmount cost bal _
    hmeta hp hbal (ParseUnits_eq bal _ hsd) htx, order_closeTx, ho, Option.map_some',
    if_pos (order_id_of_find _ _ _ ho)]

theorem toRat_zero_value (e : Int) : (Decimal.mk 0 e).toRat = 0 :=
  (toRat_eq_zero_iff _).2 rfl

theorem toRat_parsed (v : Int) (d : Nat) :
    (Decimal.mk v (-(d : Int))).toRat = (v : ℚ) / (10 : ℚ) ^ d := by
  rw [Decimal.toRat, zpow_neg, zpow_natCast]
  rfl

theorem closePricing_buy_some (cfg : ChainConfig) (env : KeeperEnv) (s : Store) (ord : Order)
    (changes : BalanceChanges) (tokenMeta : Metadata) (ht : ord.type = .Buy)
    (hdec : tokenMeta.decimals < 256)
    (hexp : -1000000000 ≤ ord.inAmount.exp ∧ ord.inAmount.exp ≤ 1000000000) :
    ∃ finalPrice outAmount,
      OrderKeeper.closePricing cfg env s ord changes tokenMeta
        = some (finalPrice, outAmount, Decimal.New 0 1) := by
  have hp := closePricing_buy cfg env s ord changes tokenMeta ht hdec
  cases hv : changes (HexToAddress ord.token) with
  | none =>
    rw [hv] at hp
    exact ⟨_, _, hp⟩
  | some v =>
    rw [hv] at hp
    dsimp only at hp
    by_cases h0 : v = 0
    · rw [if_pos h0] at hp
      exact ⟨_, _, hp⟩
    · rw [if_neg h0] at hp
      obtain ⟨r, hr, -⟩ :=
        Div_spec ord.inAmount ⟨v, -(tokenMeta.decimals : Int)⟩ h0 hexp
          ⟨by dsimp only; omega, by dsimp only; omega⟩
      rw [hr] at hp
      exact ⟨_, _, hp⟩

theorem closePricing_sell_some (cfg : ChainConfig) (env : KeeperEnv) (s : Store) (ord : Order)
    (changes : BalanceChanges) (tokenMeta : Metadata) (ht : ord.type = .Sell)
    (hsd : cfg.stablecoinDecimals < 256)
    (hexp : -1000000000 ≤ ord.inAmount.exp ∧ ord.inAmount.exp ≤ 1000000000) :
    ∃ finalPrice outAmount cost,
      (∀ c, ord.gridBuyCost = some c → cost = c) ∧
      (ord.gridBuyCost = none → ∀ gridId, ord.gridId = some gridId →
        ∀ g, GridModel.FindByGuid s.grids (env.gridReadFault gridId) gridId = .ok g →
          cost = g.amount) ∧
      (ord.gridBuyCost = none → ∀ gridId, ord.gridId = some gridId →
        ∀ err, GridModel.FindByGuid s.grids (env.gridReadFault gridId) gridId = .error err →
          cost = Decimal.New 0 1) ∧
      (ord.gridBuyCost = none → ord.gridId = none → cost = Decimal.New 0 1) ∧
      OrderKeeper.closePricing cfg env s ord changes tokenMeta
        = some (finalPrice, outAmount, cost) := by
  obtain ⟨cost, h1, h2, h3, h4, hp⟩ := closePricing_sell cfg env s ord changes tokenMeta ht hsd
  cases hv : changes (HexToAddress cfg.stablecoinCA) with
  | none =>
    rw [hv] at hp
    exact ⟨_, _, cost, h1, h2, h3, h4, hp⟩
  | some v =>
    rw [hv] at hp
    dsimp only at hp
    by_cases h0 : ord.inAmount.value = 0
    · rw [if_pos h0] at hp
      exact ⟨_, _, cost, h1, h2, h3, h4, hp⟩
    · rw [if_neg h0] at hp
      obtain ⟨r, hr, -⟩ :=
        Div_spec ⟨v, -(cfg.stablecoinDecimals : Int)⟩ ord.inAmount h0
          ⟨by dsimp only; omega, by dsimp only; omega⟩ hexp
      rw [hr] at hp
      exact ⟨_, _, cost, h1, h2, h3, h4, hp⟩

theorem profit_of_cost (cost outAmount : Decimal) (old : Option Decimal) :
    (cost.value ≠ 0 →
      (if !cost.IsZero then some (outAmount.Sub cost) else old) = some (outAmount.Sub cost)) ∧
    (cost.value = 0 → (if !cost.IsZero then some (outAmount.Sub cost) else old) = old) := by
  rw [IsZero_iff]
  constructor
  · intro h
    rw [decide_eq_false h]
    rfl
  · intro h
    rw [decide_eq_true h]
    rfl

/-- C16 (amended): profit on close. For every stored order, when token metadata and the
stablecoin balance are obtained and the store transaction does not fail, closing handling
sets the order to `Closed` and, for a Sell whose cost basis (the order's gridBuyCost if
present, otherwise the amount of the grid named by gridId if it can be read) is not zero,
records profit = outAmount - cost on the order, the order's own gridBuyCost taking
precedence; the recorded profit is left as it was for a Buy, for a Sell without a cost
basis, and for a Sell whose cost basis is zero. -/
theorem close_profit (cfg : ChainConfig) (env : KeeperEnv) (k : Keeper) (ord : Order)
    (changes : BalanceChanges) (tokenMeta : Metadata) (bal : Int) (o : Order)
    (hmeta : env.getTokenMeta ord.token = .ok tokenMeta)
    (hdec : tokenMeta.decimals < 256) (hsd : cfg.stablecoinDecimals < 256)
    (hbal : env.balanceOf (HexToAddress cfg.stablecoinCA) (HexToAddress ord.account) = .ok bal)
    (htx : env.txFault ord.id = false)
    (ho : k.store.order ord.id = some o)
    (hexp : -1000000000 ≤ ord.inAmount.exp ∧ ord.inAmount.exp ≤ 1000000000) :
    ∃ o2, (OrderKeeper.handleCloseOrder cfg env k ord changes).store.order ord.id = some o2 ∧
      o2.status = .Closed ∧
      (ord.type = .Sell → ∀ c, ord.gridBuyCost = some c →
        (c.value ≠ 0 →
          o2.profit = some (o2.outAmount.Sub c) ∧
          (o2.outAmount.Sub c).toRat = o2.outAmount.toRat - c.toRat) ∧
        (c.value = 0 → o2.profit = o.profit)) ∧
      (ord.type = .Sell → ord.gridBuyCost = none → ∀ gridId, ord.gridId = some gridId →
        (∀ g, GridModel.FindByGuid k.store.grids (env.gridReadFault gridId) gridId = .ok g →
          (g.amount.value ≠ 0 →
            o2.profit = some (o2.outAmount.Sub g.amount) ∧
            (o2.outAmount.Sub g.amount).toRat = o2.outAmount.toRat - g.amount.toRat) ∧
          (g.amount.value = 0 → o2.profit = o.profit)) ∧
        (∀ err,
          GridModel.FindByGuid k.store.grids (env.gridReadFault gridId) gridId = .error err →
          o2.profit = o.profit)) ∧
      (ord.type = .Sell → ord.gridBuyCost = none → ord.gridId = none →
        o2.profit = o.profit) ∧
      (ord.type = .Buy → o2.profit = o.profit) := by
  cases ht : ord.type with
  | Buy =>
    obtain ⟨fp, out, hp⟩ := closePricing_buy_some cfg env k.store ord changes tokenMeta ht hdec
      hexp
    exact ⟨_, handleCloseOrder_order_done cfg env k ord changes tokenMeta _ _ _ bal o hmeta hp
        hbal hsd htx ho, rfl, fun h => OrderType.noConfusion h,
      fun h => OrderType.noConfusion h, fun h => OrderType.noConfusion h, fun _ => rfl⟩
  | Sell =>
    obtain ⟨fp, out, cost, h1, h2, h3, h4, hp⟩ :=
      closePricing_sell_some cfg env k.store ord changes tokenMeta ht hsd hexp
    refine ⟨_, handleCloseOrder_order_done cfg env k ord changes tokenMeta _ _ _ bal o hmeta hp
        hbal hsd htx ho, rfl, fun _ c hc => ?_, fun _ hc gridId hg => ⟨fun g hf => ?_,
          fun err hf => ?_⟩, fun _ hc hg => ?_, fun h => OrderType.noConfusion h⟩
    · rw [h1 c hc]
      exact ⟨fun hne => ⟨(profit_of_cost c out o.profit).1 hne, Sub_toRat _ _⟩,
        fun hz => (profit_of_cost c out o.profit).2 hz⟩
    · rw [h2 hc gridId hg g hf]
      exact ⟨fun hne => ⟨(profit_of_cost g.amount out o.profit).1 hne, Sub_toRat _ _⟩,
        fun hz => (profit_of_cost g.amount out o.profit).2 hz⟩
    · rw [h3 hc gridId hg err hf]
      exact (profit_of_cost (Decimal.New 0 1) out o.profit).2 rfl
    · rw [h4 hc hg]
      exact (profit_of_cost (Decimal.New 0 1) out o.profit).2 rfl

theorem close_profit_witness :
    (∃ o2,
      (OrderKeeper.handleCloseOrder sampleCfg (sampleEnv sellReceipt)
        (sampleKeeper [sampleSell (some ⟨12, 0⟩)]) (sampleSell (some ⟨12, 0⟩))
        (GetTokenBalanceChanges [creditLog sampleStable 30000000]
          (sampleSell (some ⟨12, 0⟩)).account)).store.order (sampleSell (some ⟨12, 0⟩)).id
        = some o2 ∧
      o2.status = .Closed ∧
      ((sampleSell (some ⟨12, 0⟩)).type = .Sell → ∀ c,
        (sampleSell (some ⟨12, 0⟩)).gridBuyCost = some c →
        (c.value ≠ 0 →
          o2.profit = some (o2.outAmount.Sub c) ∧
          (o2.outAmount.Sub c).toRat = o2.outAmount.toRat - c.toRat) ∧
        (c.value = 0 → o2.profit = (sampleSell (some ⟨12, 0⟩)).profit)) ∧
      ((sampleSell (some ⟨12, 0⟩)).type = .Sell →
        (sampleSell (some ⟨12, 0⟩)).gridBuyCost = none → ∀ gridId,
        (sampleSell (some ⟨12, 0⟩)).gridId = some gridId →
        (∀ g, GridModel.FindByGuid (sampleKeeper [sampleSell (some ⟨12, 0⟩)]).store.grids
            ((sampleEnv sellReceipt).gridReadFault gridId) gridId = .ok g →
          (g.amount.value ≠ 0 →
            o2.profit = some (o2.outAmount.Sub g.amount) ∧
            (o2.outAmount.Sub g.amount).toRat = o2.outAmount.toRat - g.amount.toRat) ∧
          (g.amount.value = 0 → o2.profit = (sampleSell (some ⟨12, 0⟩)).profit)) ∧
        (∀ err, GridModel.FindByGuid (sampleKeeper [sampleSell (some ⟨12, 0⟩)]).store.grids
            ((sampleEnv sellReceipt).gridReadFault gridId) gridId = .error err →
          o2.profit = (sampleSell (some ⟨12, 0⟩)).profit)) ∧
      ((sampleSell (some ⟨12, 0⟩)).type = .Sell →
        (sampleSell (some ⟨12, 0⟩)).gridBuyCost = none →
        (sampleSell (some ⟨12, 0⟩)).gridId = none →
        o2.profit = (sampleSell (some ⟨12, 0⟩)).profit) ∧
      ((sampleSell (some ⟨12, 0⟩)).type = .Buy →
        o2.profit = (sampleSell (some ⟨12, 0⟩)).profit)) ∧
    ((OrderKeeper.handlePolling sampleCfg (sampleEnv sellReceipt)
        (sampleKeeper [sampleSell (some ⟨12, 0⟩)])).store.order 2).map
        (fun o => (o.status, o.outAmount, o.profit))
      = some (.Closed, ⟨30000000, -6⟩, some ⟨18000000, -6⟩) :=
  ⟨close_profit sampleCfg (sampleEnv sellReceipt) (sampleKeeper [sampleSell (some ⟨12, 0⟩)])
      (sampleSell (some ⟨12, 0⟩))
      (GetTokenBalanceChanges [creditLog sampleStable 30000000]
        (sampleSell (some ⟨12, 0⟩)).account)
      ⟨("TKN").toList, 6⟩ 5000000 (sampleSell (some ⟨12, 0⟩)) rfl (by decide) (by decide) rfl
      rfl (by decide) (by decide),
    by decide⟩

/-- C16 (counterexample): a Sell order whose recorded gridBuyCost is zero is closed with an
output amount of 30, and no profit is recorded on it, where profit = outAmount - cost would
be 30. -/
theorem close_profit_zero_cost :
    (sampleSell (some ⟨0, 0⟩)).gridBuyCost = some ⟨0, 0⟩ ∧
    ((OrderKeeper.handlePolling sampleCfg (sampleEnv sellReceipt)
        (sampleKeeper [sampleSell (some ⟨0, 0⟩)])).store.order 2).map
        (fun o => (o.status, o.outAmount, o.profit))
      = some (.Closed, ⟨30000000, -6⟩, none) ∧
    ((OrderKeeper.handlePolling sampleCfg (sampleEnv sellReceipt)
        (sampleKeeper [sampleSell (some ⟨0, 0⟩)])).store.order 2).map (fun o => o.profit)
      ≠ some (some ((Decimal.mk 30000000 (-6)).Sub ⟨0, 0⟩)) := by
  decide

/-! ### The order keeper: one tick -/

theorem scan_timeouts (cfg : ChainConfig) (env : KeeperEnv) (orders : List Order) :
    ∀ (k : Keeper) (openOrders : List Order) (changes : Nat → Option BalanceChanges),
      (∀ h ∈ k.timeoutTxs,
        h ∈ (OrderKeeper.scan cfg env orders k openOrders changes).1.timeoutTxs) ∧
      (∀ h ∈ (OrderKeeper.scan cfg env orders k openOrders changes).1.timeoutTxs,
        h ∈ k.timeoutTxs ∨
          ∃ x ∈ orders, x.txHash = h ∧
            (∃ msg, env.transactionReceipt h = .error msg ∧
              stringsContains msg ("not found").toList = true) ∧
            timeSub env.now x.createTime > twoMinutes) ∧
      (∀ h ∈ (OrderKeeper.scan cfg env orders k openOrders changes).1.requested,
        h ∈ k.requested ∨ (h ∉ k.timeoutTxs ∧ ∃ x ∈ orders, x.txHash = h)) := by
  induction orders with
  | nil =>
    intro k openOrders changes
    unfold OrderKeeper.scan
    exact ⟨fun h hh => hh, fun h hh => Or.inl hh, fun h hh => Or.inl hh⟩
  | cons item rest ih =>
    intro k openOrders changes
    have lift : ∀ (k2 : Keeper) (oo : List Order) (cc : Nat → Option BalanceChanges),
        k2.timeoutTxs = k.timeoutTxs →
        (∀ h ∈ k2.requested, h ∈ k.requested ∨ (h ∉ k.timeoutTxs ∧ h = item.txHash)) →
        (∀ h ∈ k.timeoutTxs, h ∈ (OrderKeeper.scan cfg env rest k2 oo cc).1.timeoutTxs) ∧
        (∀ h ∈ (OrderKeeper.scan cfg env rest k2 oo cc).1.timeoutTxs,
          h ∈ k.timeoutTxs ∨
            ∃ x ∈ item :: rest, x.txHash = h ∧
              (∃ msg, env.transactionReceipt h = .error msg ∧
                stringsContains msg ("not found").toList = true) ∧
              timeSub env.now x.createTime > twoMinutes) ∧
        (∀ h ∈ (OrderKeeper.scan cfg env rest k2 oo cc).1.requested,
          h ∈ k.requested ∨ (h ∉ k.timeoutTxs ∧ ∃ x ∈ item :: rest, x.txHash = h)) := by
      intro k2 oo cc ht hr
      obtain ⟨h1, h2, h3⟩ := ih k2 oo cc
      rw [ht] at h1 h2 h3
      refine ⟨h1, fun h hh => ?_, fun h hh => ?_⟩
      · rcases h2 h hh with hx | ⟨x, hx, hrest⟩
        · exact Or.inl hx
        · exact Or.inr ⟨x, List.mem_cons_of_mem _ hx, hrest⟩
      · rcases h3 h hh with hx | ⟨hn, x, hx, hrest⟩
        · rcases hr h hx with hy | ⟨hn, hy⟩
          · exact Or.inl hy
          · exact Or.inr ⟨hn, item, List.mem_cons_self _ _, hy.symm⟩
        · exact Or.inr ⟨hn, x, List.mem_cons_of_mem _ hx, hrest⟩
    unfold OrderKeeper.scan
    dsimp only
    split
    · exact lift k openOrders changes rfl (fun h hh => Or.inl hh)
    · rename_i hnt
      have hreq : ∀ h ∈ k.requested ++ [item.txHash],
          h ∈ k.requested ∨ (h ∉ k.timeoutTxs ∧ h = item.txHash) := by
        intro h hh
        rcases List.mem_append.1 hh with hx | hx
        · exact Or.inl hx
        · have : h = item.txHash := by simpa using hx
          exact Or.inr ⟨this ▸ hnt, this⟩
      split
      · rename_i msg hmsg
        split
        · rename_i hcontains
          split
          · rename_i hold
            obtain ⟨h1, h2, h3⟩ := ih
              { k with requested := k.requested ++ [item.txHash],
                       timeoutTxs := item.txHash :: k.timeoutTxs } openOrders changes
            dsimp only at h1 h2 h3
            refine ⟨fun h hh => h1 h (List.mem_cons_of_mem _ hh), fun h hh => ?_,
              fun h hh => ?_⟩
            · rcases h2 h hh with hx | ⟨x, hx, hrest⟩
              · rcases List.mem_cons.1 hx with hy | hy
                · exact Or.inr ⟨item, List.mem_cons_self _ _, hy.symm,
                    ⟨msg, hy ▸ hmsg, hcontains⟩, hold⟩
                · exact Or.inl hy
              · exact Or.inr ⟨x, List.mem_cons_of_mem _ hx, hrest⟩
            · rcases h3 h hh with hx | ⟨hn, x, hx, hrest⟩
              · rcases hreq h hx with hy | ⟨hn, hy⟩
                · exact Or.inl hy
                · exact Or.inr ⟨hn, item, List.mem_cons_self _ _, hy.symm⟩
              · exact Or.inr ⟨fun hm => hn (List.mem_cons_of_mem _ hm), x,
                  List.mem_cons_of_mem _ hx, hrest⟩
          · exact lift _ openOrders changes rfl hreq
        · refine ⟨fun h hh => hh, fun h hh => Or.inl hh, fun h hh => ?_⟩
          rcases hreq h hh with hy | ⟨hn, hy⟩
          · exact Or.inl hy
          · exact Or.inr ⟨hn, item, List.mem_cons_self _ _, hy.symm⟩
      · rename_i receipt hreceipt
        have htr := handleRejectOrder_trace cfg env
          { k with requested := k.requested ++ [item.txHash] } item
          ("execution reverted").toList
        split
        · split
          · refine ⟨fun h hh => ?_, fun h hh => ?_, fun h hh => ?_⟩
            · rw [htr.1]
              exact hh
            · rw [htr.1] at hh
              exact Or.inl hh
            · rw [htr.2.1] at hh
              rcases hreq h hh with hy | ⟨hn, hy⟩
              · exact Or.inl hy
              · exact Or.inr ⟨hn, item, List.mem_cons_self _ _, hy.symm⟩
          · refine lift _ openOrders changes htr.1 ?_
            rw [htr.2.1]
            exact hreq
        · exact lift _ _ _ rfl hreq

theorem scan_handled (cfg : ChainConfig) (env : KeeperEnv) (orders : List Order) :
    ∀ (k : Keeper) (openOrders : List Order) (changes : Nat → Option BalanceChanges),
      ∃ R O : List Order,
        R.Sublist orders ∧ O.Sublist orders ∧
        (∀ x ∈ R, x.txHash ∉ k.timeoutTxs ∧
          ∃ r, env.transactionReceipt x.txHash = .ok r ∧ r.status = 0) ∧
        (∀ x ∈ O, x.txHash ∉ k.timeoutTxs ∧
          ∃ r, env.transactionReceipt x.txHash = .ok r ∧ r.status ≠ 0) ∧
        (OrderKeeper.scan cfg env orders k openOrders changes).1.rejected
          = k.rejected ++ R.map (fun x => x.id) ∧
        (OrderKeeper.scan cfg env orders k openOrders changes).1.closed = k.closed ∧
        (∀ oo cc, (OrderKeeper.scan cfg env orders k openOrders changes).2 = some (oo, cc) →
          oo = openOrders ++ O) ∧
        (∀ id o, k.store.order id = some o →
          ∃ o2, (OrderKeeper.scan cfg env orders k openOrders changes).1.store.order id
              = some o2 ∧
            (o2 = o ∨ (o2.status = .Rejected ∧ ∃ x ∈ R, x.id = id))) ∧
        (∀ guid,
          (OrderKeeper.scan cfg env orders k openOrders changes).1.store.grid guid
              = k.store.grid guid ∨
            ∃ x ∈ R, x.gridId = some guid) := by
  induction orders with
  | nil =>
    intro k openOrders changes
    unfold OrderKeeper.scan
    refine ⟨[], [], List.Sublist.refl _, List.Sublist.refl _, fun x hx => ?_, fun x hx => ?_,
      by simp, rfl, fun oo cc h => ?_, fun id o ho => ⟨o, ho, Or.inl rfl⟩, fun guid => Or.inl rfl⟩
    · exact absurd hx (List.not_mem_nil _)
    · exact absurd hx (List.not_mem_nil _)
    · have := Option.some.inj h
      rw [List.append_nil]
      exact (congrArg Prod.fst this).symm
  | cons item rest ih =>
    intro k openOrders changes
    -- an order that is passed over
    have skip : ∀ (k2 : Keeper), k2.store = k.store → k2.rejected = k.rejected →
        k2.closed = k.closed → (∀ h, h ∈ k.timeoutTxs → h ∈ k2.timeoutTxs) →
        ∃ R O : List Order,
          R.Sublist (item :: rest) ∧ O.Sublist (item :: rest) ∧
          (∀ x ∈ R, x.txHash ∉ k.timeoutTxs ∧
            ∃ r, env.transactionReceipt x.txHash = .ok r ∧ r.status = 0) ∧
          (∀ x ∈ O, x.txHash ∉ k.timeoutTxs ∧
            ∃ r, env.transactionReceipt x.txHash = .ok r ∧ r.status ≠ 0) ∧
          (OrderKeeper.scan cfg env rest k2 openOrders changes).1.rejected
            = k.rejected ++ R.map (fun x => x.id) ∧
          (OrderKeeper.scan cfg env rest k2 openOrders changes).1.closed = k.closed ∧
          (∀ oo cc, (OrderKeeper.scan cfg env rest k2 openOrders changes).2 = some (oo, cc) →
            oo = openOrders ++ O) ∧
          (∀ id o, k.store.order id = some o →
            ∃ o2, (OrderKeeper.scan cfg env rest k2 openOrders changes).1.store.order id
                = some o2 ∧
              (o2 = o ∨ (o2.status = .Rejected ∧ ∃ x ∈ R, x.id = id))) ∧
          (∀ guid,
            (OrderKeeper.scan cfg env rest k2 openOrders changes).1.store.grid guid
                = k.store.grid guid ∨
              ∃ x ∈ R, x.gridId = some guid) := by
      intro k2 hs hr hc ht
      obtain ⟨R, O, h1, h2, h3, h4, h5, h6, h7, h8, h9⟩ := ih k2 openOrders changes
      rw [hs] at h8 h9
      rw [hr] at h5
      rw [hc] at h6
      exact ⟨R, O, h1.cons _, h2.cons _,
        fun x hx => ⟨fun hm => (h3 x hx).1 (ht _ hm), (h3 x hx).2⟩,
        fun x hx => ⟨fun hm => (h4 x hx).1 (ht _ hm), (h4 x hx).2⟩, h5, h6, h7, h8, h9⟩
    unfold OrderKeeper.scan
    dsimp only
    split
    · exact skip k rfl rfl rfl (fun h hh => hh)
    · rename_i hnt
      split
      · rename_i msg hmsg
        split
        · split
          · exact skip _ rfl rfl rfl (fun h hh => List.mem_cons_of_mem _ hh)
          · exact skip _ rfl rfl rfl (fun h hh => hh)
        · refine ⟨[], [], List.nil_sublist _, List.nil_sublist _, fun x hx => ?_,
            fun x hx => ?_, by simp, rfl, fun oo cc h => Option.noConfusion h,
            fun id o ho => ⟨o, ho, Or.inl rfl⟩, fun guid => Or.inl rfl⟩
          · exact absurd hx (List.not_mem_nil _)
          · exact absurd hx (List.not_mem_nil _)
      · rename_i receipt hreceipt
        split
        · rename_i hstatus
          have htr := handleRejectOrder_trace cfg env
            { k with requested := k.requested ++ [item.txHash] } item
            ("execution reverted").toList
          have hord := handleRejectOrder_order cfg env
            { k with requested := k.requested ++ [item.txHash] } item
            ("execution reverted").toList
          have hgrid := handleRejectOrder_grid cfg env
            { k with requested := k.requested ++ [item.txHash] } item
            ("execution reverted").toList
          generalize OrderKeeper.handleRejectOrder cfg env
            { k with requested := k.requested ++ [item.txHash] } item
            ("execution reverted").toList = k2 at htr hord hgrid ⊢
          dsimp only at htr hord hgrid
          have hitem : ∀ x ∈ [item], x.txHash ∉ k.timeoutTxs ∧
              ∃ r, env.transactionReceipt x.txHash = .ok r ∧ r.status = 0 := by
            intro x hx
            have : x = item := by simpa using hx
            rw [this]
            exact ⟨hnt, receipt, hreceipt, hstatus⟩
          have hstore1 : ∀ id o, k.store.order id = some o →
              ∃ o2, k2.store.order id = some o2 ∧
                (o2 = o ∨ (o2.status = .Rejected ∧ id = item.id)) := by
            intro id o ho
            obtain ⟨o2, h1, h2⟩ := hord id o ho
            exact ⟨o2, h1, h2.imp (fun h => h) fun h => ⟨h.2, h.1⟩⟩
          have hgrid1 : ∀ guid, k2.store.grid guid = k.store.grid guid ∨
              item.gridId = some guid := by
            intro guid
            by_cases hg : item.gridId = some guid
            · exact Or.inr hg
            · exact Or.inl (hgrid guid hg)
          split
          · refine ⟨[item], [], List.singleton_sublist.2 (List.mem_cons_self item rest),
              List.nil_sublist _, hitem, fun x hx => ?_, ?_, htr.2.2.2,
              fun oo cc h => Option.noConfusion h, fun n o ho => ?_, fun guid => ?_⟩
            · exact absurd hx (List.not_mem_nil _)
            · rw [htr.2.2.1]
              rfl
            · obtain ⟨o2, h1, h2⟩ := hstore1 n o ho
              exact ⟨o2, h1, h2.imp (fun h => h) fun h => ⟨h.1, item, List.mem_singleton_self _,
                h.2.symm⟩⟩
            · exact (hgrid1 guid).imp (fun h => h) fun h => ⟨item, List.mem_singleton_self _, h⟩
          · obtain ⟨R, O, h1, h2, h3, h4, h5, h6, h7, h8, h9⟩ := ih k2 openOrders changes
            rw [htr.1] at h3 h4
            refine ⟨item :: R, O, h1.cons₂ _, h2.cons _, fun x hx => ?_, h4, ?_, ?_, h7,
              fun id o ho => ?_, fun guid => ?_⟩
            · rcases List.mem_cons.1 hx with hx | hx
              · exact hitem x (by rw [hx]; exact List.mem_singleton_self _)
              · exact h3 x hx
            · rw [h5, htr.2.2.1, List.map_cons, List.append_assoc]
              rfl
            · rw [h6, htr.2.2.2]
            · obtain ⟨o1, ha, hb⟩ := hstore1 id o ho
              obtain ⟨o2, hc, hd⟩ := h8 id o1 ha
              refine ⟨o2, hc, ?_⟩
              rcases hd with hd | ⟨hd, x, hx, hxid⟩
              · rcases hb with hb | ⟨hb, hid⟩
                · exact Or.inl (hd.trans hb)
                · exact Or.inr ⟨hd ▸ hb, item, List.mem_cons_self _ _, hid.symm⟩
              · exact Or.inr ⟨hd, x, List.mem_cons_of_mem _ hx, hxid⟩
            · rcases h9 guid with h | ⟨x, hx, hg⟩
              · rcases hgrid1 guid with h2 | h2
                · exact Or.inl (h.trans h2)
                · exact Or.inr ⟨item, List.mem_cons_self _ _, h2⟩
              · exact Or.inr ⟨x, List.mem_cons_of_mem _ hx, hg⟩
        · rename_i hstatus
          obtain ⟨R, O, h1, h2, h3, h4, h5, h6, h7, h8, h9⟩ :=
            ih { k with requested := k.requested ++ [item.txHash] } (openOrders ++ [item])
              (fun id =>
                if id = item.id then some (GetTokenBalanceChanges receipt.logs item.account)
                else changes id)
          refine ⟨R, item :: O, h1.cons _, h2.cons₂ _, h3, fun x hx => ?_, h5, h6,
            fun oo cc h => ?_, h8, h9⟩
          · rcases List.mem_cons.1 hx with hx | hx
            · rw [hx]
              exact ⟨hnt, receipt, hreceipt, hstatus⟩
            · exact h4 x hx
          · rw [h7 oo cc h, List.append_assoc]
            rfl

theorem closeLoop_handled (cfg : ChainConfig) (env : KeeperEnv)
    (changes : Nat → Option BalanceChanges) (openOrders : List Order) :
    ∀ (k : Keeper),
      ∃ C : List Order,
        C.Sublist openOrders ∧
        (OrderKeeper.closeLoop cfg env changes openOrders k).closed
          = k.closed ++ C.map (fun x => x.id) ∧
        (OrderKeeper.closeLoop cfg env changes openOrders k).rejected = k.rejected ∧
        (OrderKeeper.closeLoop cfg env changes openOrders k).timeoutTxs = k.timeoutTxs ∧
        (OrderKeeper.closeLoop cfg env changes openOrders k).requested = k.requested ∧
        (∀ n o, k.store.order n = some o →
          ∃ o2, (OrderKeeper.closeLoop cfg env changes openOrders k).store.order n = some o2 ∧
            (o2 = o ∨ (o2.status = .Closed ∧ ∃ x ∈ C, x.id = n))) ∧
        (∀ guid,
          (OrderKeeper.closeLoop cfg env changes openOrders k).store.grid guid
              = k.store.grid guid ∨
            ∃ x ∈ C, x.gridId = some guid) := by
  induction openOrders with
  | nil =>
    intro k
    unfold OrderKeeper.closeLoop
    exact ⟨[], List.Sublist.refl _, by simp, rfl, rfl, rfl, fun n o ho => ⟨o, ho, Or.inl rfl⟩,
      fun guid => Or.inl rfl⟩
  | cons item rest ih =>
    intro k
    unfold OrderKeeper.closeLoop
    split
    · obtain ⟨C, h1, h2, h3, h4, h5, h6, h7⟩ := ih k
      exact ⟨C, h1.cons _, h2, h3, h4, h5, h6, h7⟩
    · rename_i c hc
      dsimp only
      have htr := handleCloseOrder_trace cfg env k item c
      have hord := handleCloseOrder_order cfg env k item c
      have hgrid := handleCloseOrder_grid cfg env k item c
      generalize OrderKeeper.handleCloseOrder cfg env k item c = k2 at htr hord hgrid ⊢
      have hstore1 : ∀ n o, k.store.order n = some o →
          ∃ o2, k2.store.order n = some o2 ∧ (o2 = o ∨ (o2.status = .Closed ∧ n = item.id)) := by
        intro n o ho
        obtain ⟨o2, h1, h2⟩ := hord n o ho
        exact ⟨o2, h1, h2.imp (fun h => h) fun h => ⟨h.2, h.1⟩⟩
      have hgrid1 : ∀ guid, k2.store.grid guid = k.store.grid guid ∨
          item.gridId = some guid := by
        intro guid
        by_cases hg : item.gridId = some guid
        · exact Or.inr hg
        · exact Or.inl (hgrid guid hg)
      split
      · refine ⟨[item], List.singleton_sublist.2 (List.mem_cons_self item rest), ?_, htr.2.2.1,
          htr.1, htr.2.1, fun n o ho => ?_, fun guid => ?_⟩
        · rw [htr.2.2.2]
          rfl
        · obtain ⟨o2, h1, h2⟩ := hstore1 n o ho
          exact ⟨o2, h1, h2.imp (fun h => h) fun h => ⟨h.1, item, List.mem_singleton_self _,
            h.2.symm⟩⟩
        · exact (hgrid1 guid).imp (fun h => h) fun h => ⟨item, List.mem_singleton_self _, h⟩
      · obtain ⟨C, h1, h2, h3, h4, h5, h6, h7⟩ := ih k2
        refine ⟨item :: C, h1.cons₂ _, ?_, ?_, ?_, ?_, fun n o ho => ?_, fun guid => ?_⟩
        · rw [h2, htr.2.2.2, List.map_cons, List.append_assoc]
          rfl
        · rw [h3, htr.2.2.1]
        · rw [h4, htr.1]
        · rw [h5, htr.2.1]
        · obtain ⟨o1, ha, hb⟩ := hstore1 n o ho
          obtain ⟨o2, hc2, hd⟩ := h6 n o1 ha
          refine ⟨o2, hc2, ?_⟩
          rcases hd with hd | ⟨hd, x, hx, hxid⟩
          · rcases hb with hb | ⟨hb, hid⟩
            · exact Or.inl (hd.trans hb)
            · exact Or.inr ⟨hd ▸ hb, item, List.mem_cons_self _ _, hid.symm⟩
          · exact Or.inr ⟨hd, x, List.mem_cons_of_mem _ hx, hxid⟩
        · rcases h7 guid with h | ⟨x, hx, hg⟩
          · rcases hgrid1 guid with h2 | h2
            · exact Or.inl (h.trans h2)
            · exact Or.inr ⟨item, List.mem_cons_self _ _, h2⟩
          · exact Or.inr ⟨x, List.mem_cons_of_mem _ hx, hg⟩

/-- What one tick handles: the orders given to rejection handling (`R`) and to closing
handling (`C`) are loaded orders whose receipt was obtained, with status 0 and with another
status; every stored order is left as it was unless it becomes `Rejected` as one of `R` or
`Closed` as one of `C`; every grid is left as it was unless one of them names it. -/
theorem handlePolling_handled (cfg : ChainConfig) (env : KeeperEnv) (k : Keeper) :
    ∃ R C : List Order,
      R.Sublist
        (if env.findPendingFault then [] else OrderModel.FindPendingOrders k.store.orders 100) ∧
      C.Sublist
        (if env.findPendingFault then [] else OrderModel.FindPendingOrders k.store.orders 100) ∧
      (∀ x ∈ R, x.txHash ∉ k.timeoutTxs ∧
        ∃ r, env.transactionReceipt x.txHash = .ok r ∧ r.status = 0) ∧
      (∀ x ∈ C, x.txHash ∉ k.timeoutTxs ∧
        ∃ r, env.transactionReceipt x.txHash = .ok r ∧ r.status ≠ 0) ∧
      (OrderKeeper.handlePolling cfg env k).rejected = R.map (fun x => x.id) ∧
      (OrderKeeper.handlePolling cfg env k).closed = C.map (fun x => x.id) ∧
      (∀ n o, k.store.order n = some o →
        ∃ o2, (OrderKeeper.handlePolling cfg env k).store.order n = some o2 ∧
          (o2 = o ∨ (o2.status = .Rejected ∧ ∃ x ∈ R, x.id = n) ∨
            (o2.status = .Closed ∧ ∃ x ∈ C, x.id = n))) ∧
      (∀ guid,
        (OrderKeeper.handlePolling cfg env k).store.grid guid = k.store.grid guid ∨
          (∃ x ∈ R, x.gridId = some guid) ∨ ∃ x ∈ C, x.gridId = some guid) := by
  unfold OrderKeeper.handlePolling
  dsimp only
  generalize (if env.findPendingFault then []
    else OrderModel.FindPendingOrders k.store.orders 100) = L
  have hnil : ∀ x ∈ ([] : List Order), x.txHash ∉ k.timeoutTxs ∧
      ∃ r, env.transactionReceipt x.txHash = .ok r ∧ r.status ≠ 0 :=
    fun x hx => absurd hx (List.not_mem_nil _)
  split
  · exact ⟨[], [], List.nil_sublist _, List.nil_sublist _,
      fun x hx => absurd hx (List.not_mem_nil _), hnil, rfl, rfl,
      fun n o ho => ⟨o, ho, Or.inl rfl⟩, fun guid => Or.inl rfl⟩
  · obtain ⟨R, O, h1, h2, h3, h4, h5, h6, h7, h8, h9⟩ :=
      scan_handled cfg env L { k with requested := [], rejected := [], closed := [] } []
        (fun _ => none)
    dsimp only at h3 h4 h5 h6 h8 h9
    rw [List.nil_append] at h5
    cases hscan : OrderKeeper.scan cfg env L
        { k with requested := [], rejected := [], closed := [] } [] (fun _ => none) with
    | mk k1 r =>
      rw [hscan] at h5 h6 h7 h8 h9
      dsimp only at h5 h6 h7 h8 h9
      have hstore : ∀ n o, k.store.order n = some o →
          ∃ o2, k1.store.order n = some o2 ∧
            (o2 = o ∨ (o2.status = .Rejected ∧ ∃ x ∈ R, x.id = n) ∨
              (o2.status = .Closed ∧ ∃ x ∈ ([] : List Order), x.id = n)) := by
        intro n o ho
        obtain ⟨o2, ha, hb⟩ := h8 n o ho
        exact ⟨o2, ha, hb.imp (fun h => h) Or.inl⟩
      have hgrid : ∀ guid, k1.store.grid guid = k.store.grid guid ∨
          (∃ x ∈ R, x.gridId = some guid) ∨ ∃ x ∈ ([] : List Order), x.gridId = some guid :=
        fun guid => (h9 guid).imp (fun h => h) Or.inl
      cases r with
      | none =>
        exact ⟨R, [], h1, List.nil_sublist _, h3, hnil, h5, h6, hstore, hgrid⟩
      | some p =>
        obtain ⟨oo, cc⟩ := p
        dsimp only
        have hoo : oo = O := by
          rw [h7 oo cc rfl, List.nil_append]
        split
        · exact ⟨R, [], h1, List.nil_sublist _, h3, hnil, h5, h6, hstore, hgrid⟩
        · obtain ⟨C, c1, c2, c3, c4, c5, c6, c7⟩ := closeLoop_handled cfg env cc oo k1
          have hCO : C.Sublist O := hoo ▸ c1
          refine ⟨R, C, h1, hCO.trans h2, h3, fun x hx => h4 x (hCO.subset hx), ?_, ?_,
            fun n o ho => ?_, fun guid => ?_⟩
          · rw [c3, h5]
          · rw [c2, h6, List.nil_append]
          · obtain ⟨o1, ha, hb⟩ := h8 n o ho
            obtain ⟨o2, hc, hd⟩ := c6 n o1 ha
            refine ⟨o2, hc, ?_⟩
            rcases hd with hd | hd
            · rcases hb with hb | hb
              · exact Or.inl (hd.trans hb)
              · exact Or.inr (Or.inl ⟨hd ▸ hb.1, hb.2⟩)
            · exact Or.inr (Or.inr hd)
          · rcases c7 guid with h | h
            · rcases h9 guid with h' | h'
              · exact Or.inl (h.trans h')
              · exact Or.inr (Or.inl h')
            · exact Or.inr (Or.inr h)

theorem handlePolling_timeouts (cfg : ChainConfig) (env : KeeperEnv) (k : Keeper) :
    (∀ h ∈ k.timeoutTxs, h ∈ (OrderKeeper.handlePolling cfg env k).timeoutTxs) ∧
    (∀ h ∈ (OrderKeeper.handlePolling cfg env k).timeoutTxs,
      h ∈ k.timeoutTxs ∨
        ∃ x ∈ (if env.findPendingFault then []
            else OrderModel.FindPendingOrders k.store.orders 100),
          x.txHash = h ∧
          (∃ msg, env.transactionReceipt h = .error msg ∧
            stringsContains msg ("not found").toList = true) ∧
          timeSub env.now x.createTime > twoMinutes) ∧
    (∀ h ∈ (OrderKeeper.handlePolling cfg env k).requested,
      h ∉ k.timeoutTxs ∧
        ∃ x ∈ (if env.findPendingFault then []
            else OrderModel.FindPendingOrders k.store.orders 100), x.txHash = h) := by
  unfold OrderKeeper.handlePolling
  dsimp only
  generalize (if env.findPendingFault then []
    else OrderModel.FindPendingOrders k.store.orders 100) = L
  split
  · exact ⟨fun h hh => hh, fun h hh => Or.inl hh, fun h hh => absurd hh (List.not_mem_nil _)⟩
  · obtain ⟨t1, t2, t3⟩ :=
      scan_timeouts cfg env L { k with requested := [], rejected := [], closed := [] } []
        (fun _ => none)
    dsimp only at t1 t2 t3
    have t3' : ∀ h ∈ (OrderKeeper.scan cfg env L
        { k with requested := [], rejected := [], closed := [] } []
        (fun _ => none)).1.requested, h ∉ k.timeoutTxs ∧ ∃ x ∈ L, x.txHash = h := by
      intro h hh
      rcases t3 h hh with hx | hx
      · exact absurd hx (List.not_mem_nil _)
      · exact hx
    cases hscan : OrderKeeper.scan cfg env L
        { k with requested := [], rejected := [], closed := [] } [] (fun _ => none) with
    | mk k1 r =>
      rw [hscan] at t1 t2 t3'
      dsimp only at t1 t2 t3'
      cases r with
      | none => exact ⟨t1, t2, t3'⟩
      | some p =>
        obtain ⟨oo, cc⟩ := p
        dsimp only
        split
        · exact ⟨t1, t2, t3'⟩
        · obtain ⟨C, c1, c2, c3, c4, c5, c6, c7⟩ := closeLoop_handled cfg env cc oo k1
          rw [c4, c5]
          exact ⟨t1, t2, t3'⟩

theorem FindPendingOrders_mem (orders : List Order) (limit : Nat) (x : Order)
    (h : x ∈ OrderModel.FindPendingOrders orders limit) : x ∈ orders ∧ x.status = .Pending := by
  unfold OrderModel.FindPendingOrders at h
  have h1 := List.mem_of_mem_take h
  have h2 := (List.perm_insertionSort _ _).mem_iff.1 h1
  have h3 := List.mem_filter.1 h2
  exact ⟨h3.1, by simpa using h3.2⟩

theorem loaded_mem (fault : Bool) (orders : List Order) (x : Order)
    (h : x ∈ (if fault then [] else OrderModel.FindPendingOrders orders 100)) :
    x ∈ OrderModel.FindPendingOrders orders 100 := by
  cases fault with
  | true => exact absurd h (List.not_mem_nil _)
  | false => exact h

theorem order_mem_of_find (s : Store) (n : Nat) (o : Order) (h : s.order n = some o) :
    o ∈ s.orders :=
  List.mem_of_find?_eq_some h

theorem order_eq_of_id (s : Store) (hids : (s.orders.map fun o => o.id).Nodup) (x y : Order)
    (hx : x ∈ s.orders) (hy : y ∈ s.orders) (h : x.id = y.id) : x = y :=
  List.inj_on_of_nodup_map hids hx hy h

theorem handled_disjoint (env : KeeperEnv) (k : Keeper)
    (hids : (k.store.orders.map fun o => o.id).Nodup) (L R C : List Order)
    (hL : ∀ x ∈ L, x ∈ k.store.orders) (hLn : (L.map fun x => x.id).Nodup)
    (hR : R.Sublist L) (hC : C.Sublist L)
    (h3 : ∀ x ∈ R, x.txHash ∉ k.timeoutTxs ∧
      ∃ r, env.transactionReceipt x.txHash = .ok r ∧ r.status = 0)
    (h4 : ∀ x ∈ C, x.txHash ∉ k.timeoutTxs ∧
      ∃ r, env.transactionReceipt x.txHash = .ok r ∧ r.status ≠ 0) :
    (R.map (fun x => x.id) ++ C.map (fun x => x.id)).Nodup := by
  rw [List.nodup_append]
  refine ⟨(hR.map _).nodup hLn, (hC.map _).nodup hLn, ?_⟩
  intro n hn1 hn2
  obtain ⟨x, hx, hxn⟩ := List.mem_map.1 hn1
  obtain ⟨y, hy, hyn⟩ := List.mem_map.1 hn2
  have hxy : x = y :=
    order_eq_of_id k.store hids x y (hL x (hR.subset hx)) (hL y (hC.subset hy))
      (hxn.trans hyn.symm)
  obtain ⟨-, r1, e1, s1⟩ := h3 x hx
  obtain ⟨-, r2, e2, s2⟩ := h4 y hy
  rw [hxy, e2] at e1
  have : r2 = r1 := Except.ok.inj e1
  exact s2 (this ▸ s1)

theorem FindPendingOrders_nodup (orders : List Order) (limit : Nat)
    (hids : (orders.map fun o => o.id).Nodup) :
    ((OrderModel.FindPendingOrders orders limit).map fun o => o.id).Nodup := by
  unfold OrderModel.FindPendingOrders
  refine ((List.take_sublist _ _).map _).nodup ?_
  rw [((List.perm_insertionSort _ _).map _).nodup_iff]
  exact ((List.filter_sublist orders).map _).nodup hids

theorem loaded_nodup (fault : Bool) (orders : List Order)
    (hids : (orders.map fun o => o.id).Nodup) :
    ((if fault then [] else OrderModel.FindPendingOrders orders 100).map
      fun o => o.id).Nodup := by
  cases fault with
  | true => exact List.nodup_nil
  | false => exact FindPendingOrders_nodup orders 100 hids

/-- C12: order status invariant of one tick. With unique order ids in the store, every
stored order is still stored after `handlePolling`, and it is left exactly as it was unless
it was `Pending`, was loaded by the tick, and ends the tick `Closed` or `Rejected`; the ids
given to rejection handling and to closing handling in the tick are ids of loaded orders and
no id occurs twice among them, so each loaded order is handled at most once and by at most
one of the two; and an order that is not `Pending` is left exactly as it was. -/
theorem handlePolling_status_invariant (cfg : ChainConfig) (env : KeeperEnv) (k : Keeper)
    (hids : (k.store.orders.map fun o => o.id).Nodup) :
    (∀ n o, k.store.order n = some o →
      ∃ o2, (OrderKeeper.handlePolling cfg env k).store.order n = some o2 ∧
        (o2 = o ∨
          (o.status = .Pending ∧ o ∈ OrderModel.FindPendingOrders k.store.orders 100 ∧
            (o2.status = .Closed ∨ o2.status = .Rejected)))) ∧
    ((OrderKeeper.handlePolling cfg env k).rejected
      ++ (OrderKeeper.handlePolling cfg env k).closed).Nodup ∧
    (∀ n ∈ (OrderKeeper.handlePolling cfg env k).rejected
        ++ (OrderKeeper.handlePolling cfg env k).closed,
      ∃ x ∈ OrderModel.FindPendingOrders k.store.orders 100, x.id = n) ∧
    (∀ n o, k.store.order n = some o → o.status ≠ .Pending →
      (OrderKeeper.handlePolling cfg env k).store.order n = some o) := by
  obtain ⟨R, C, h1, h2, h3, h4, h5, h6, h7, -⟩ := handlePolling_handled cfg env k
  have hL : ∀ x ∈ (if env.findPendingFault then []
      else OrderModel.FindPendingOrders k.store.orders 100), x ∈ k.store.orders :=
    fun x hx => (FindPendingOrders_mem _ _ x (loaded_mem _ _ x hx)).1
  have hR : ∀ x ∈ R, x ∈ OrderModel.FindPendingOrders k.store.orders 100 :=
    fun x hx => loaded_mem _ _ x (h1.subset hx)
  have hC : ∀ x ∈ C, x ∈ OrderModel.FindPendingOrders k.store.orders 100 :=
    fun x hx => loaded_mem _ _ x (h2.subset hx)
  have hsame : ∀ n o x, k.store.order n = some o →
      x ∈ OrderModel.FindPendingOrders k.store.orders 100 → x.id = n → x = o := by
    intro n o x ho hx hxn
    exact order_eq_of_id k.store hids x o (FindPendingOrders_mem _ _ x hx).1
      (order_mem_of_find _ _ _ ho) (hxn.trans (order_id_of_find _ _ _ ho).symm)
  have hfirst : ∀ n o, k.store.order n = some o →
      ∃ o2, (OrderKeeper.handlePolling cfg env k).store.order n = some o2 ∧
        (o2 = o ∨
          (o.status = .Pending ∧ o ∈ OrderModel.FindPendingOrders k.store.orders 100 ∧
            (o2.status = .Closed ∨ o2.status = .Rejected))) := by
    intro n o ho
    obtain ⟨o2, ha, hb⟩ := h7 n o ho
    refine ⟨o2, ha, ?_⟩
    rcases hb with hb | ⟨hb, x, hx, hxn⟩ | ⟨hb, x, hx, hxn⟩
    · exact Or.inl hb
    · have := hsame n o x ho (hR x hx) hxn
      subst this
      exact Or.inr ⟨(FindPendingOrders_mem _ _ x (hR x hx)).2, hR x hx, Or.inr hb⟩
    · have := hsame n o x ho (hC x hx) hxn
      subst this
      exact Or.inr ⟨(FindPendingOrders_mem _ _ x (hC x hx)).2, hC x hx, Or.inl hb⟩
  refine ⟨hfirst, ?_, ?_, ?_⟩
  · rw [h5, h6]
    exact handled_disjoint env k hids _ R C hL (loaded_nodup _ _ hids) h1 h2 h3 h4
  · intro n hn
    rw [h5, h6] at hn
    rcases List.mem_append.1 hn with hn | hn
    · obtain ⟨x, hx, hxn⟩ := List.mem_map.1 hn
      exact ⟨x, hR x hx, hxn⟩
    · obtain ⟨x, hx, hxn⟩ := List.mem_map.1 hn
      exact ⟨x, hC x hx, hxn⟩
  · intro n o ho hnp
    obtain ⟨o2, ha, hb⟩ := hfirst n o ho
    rcases hb with hb | hb
    · rw [ha, hb]
    · exact absurd hb.1 hnp

theorem handlePolling_status_invariant_witness :
    ((∀ n o, (sampleKeeper [sampleBuy, sampleSell none, sampleSellAll]).store.order n = some o →
      ∃ o2, (OrderKeeper.handlePolling sampleCfg (sampleEnv buyReceipt)
          (sampleKeeper [sampleBuy, sampleSell none, sampleSellAll])).store.order n = some o2 ∧
        (o2 = o ∨
          (o.status = .Pending ∧
            o ∈ OrderModel.FindPendingOrders
              (sampleKeeper [sampleBuy, sampleSell none, sampleSellAll]).store.orders 100 ∧
            (o2.status = .Closed ∨ o2.status = .Rejected)))) ∧
    ((OrderKeeper.handlePolling sampleCfg (sampleEnv buyReceipt)
        (sampleKeeper [sampleBuy, sampleSell none, sampleSellAll])).rejected
      ++ (OrderKeeper.handlePolling sampleCfg (sampleEnv buyReceipt)
        (sampleKeeper [sampleBuy, sampleSell none, sampleSellAll])).closed).Nodup ∧
    (∀ n ∈ (OrderKeeper.handlePolling sampleCfg (sampleEnv buyReceipt)
          (sampleKeeper [sampleBuy, sampleSell none, sampleSellAll])).rejected
        ++ (OrderKeeper.handlePolling sampleCfg (sampleEnv buyReceipt)
          (sampleKeeper [sampleBuy, sampleSell none, sampleSellAll])).closed,
      ∃ x ∈ OrderModel.FindPendingOrders
          (sampleKeeper [sampleBuy, sampleSell none, sampleSellAll]).store.orders 100,
        x.id = n) ∧
    (∀ n o, (sampleKeeper [sampleBuy, sampleSell none, sampleSellAll]).store.order n = some o →
      o.status ≠ .Pending →
      (OrderKeeper.handlePolling sampleCfg (sampleEnv buyReceipt)
        (sampleKeeper [sampleBuy, sampleSell none, sampleSellAll])).store.order n = some o)) ∧
    (OrderKeeper.handlePolling sampleCfg (sampleEnv buyReceipt)
      (sampleKeeper [sampleBuy, sampleSell none, sampleSellAll])).closed = [1, 2, 3] ∧
    (OrderKeeper.handlePolling sampleCfg (sampleEnv buyReceipt)
      (sampleKeeper [sampleBuy, sampleSell none, sampleSellAll])).rejected = [] ∧
    (OrderKeeper.handlePolling sampleCfg (sampleEnv buyReceipt)
      (sampleKeeper [sampleBuy, sampleSell none, sampleSellAll])).store.orders.map
        (fun o => o.status) = [.Closed, .Closed, .Closed] :=
  ⟨handlePolling_status_invariant sampleCfg (sampleEnv buyReceipt)
      (sampleKeeper [sampleBuy, sampleSell none, sampleSellAll]) (by decide),
    by decide, by decide, by decide⟩

theorem scan_nil (cfg : ChainConfig) (env : KeeperEnv) (k : Keeper) (openOrders : List Order)
    (changes : Nat → Option BalanceChanges) :
    OrderKeeper.scan cfg env [] k openOrders changes = (k, some (openOrders, changes)) := by
  unfold OrderKeeper.scan
  rfl

theorem scan_cons_timeout (cfg : ChainConfig) (env : KeeperEnv) (item : Order)
    (rest : List Order) (k : Keeper) (openOrders : List Order)
    (changes : Nat → Option BalanceChanges) (h : item.txHash ∈ k.timeoutTxs) :
    OrderKeeper.scan cfg env (item :: rest) k openOrders changes
      = OrderKeeper.scan cfg env rest k openOrders changes := by
  conv_lhs => unfold OrderKeeper.scan
  dsimp only
  rw [if_pos h]

theorem scan_cons_marked (cfg : ChainConfig) (env : KeeperEnv) (item : Order)
    (rest : List Order) (k : Keeper) (openOrders : List Order)
    (changes : Nat → Option BalanceChanges) (h : item.txHash ∉ k.timeoutTxs)
    (msg : List Char) (hmsg : env.transactionReceipt item.txHash = .error msg)
    (hfound : stringsContains msg ("not found").toList = true)
    (hold : timeSub env.now item.createTime > twoMinutes) :
    OrderKeeper.scan cfg env (item :: rest) k openOrders changes
      = OrderKeeper.scan cfg env rest
          { k with requested := k.requested ++ [item.txHash],
                   timeoutTxs := item.txHash :: k.timeoutTxs } openOrders changes := by
  conv_lhs => unfold OrderKeeper.scan
  dsimp only
  rw [if_neg h, hmsg]
  dsimp only
  rw [if_pos hfound, if_pos hold]

theorem scan_cons_young (cfg : ChainConfig) (env : KeeperEnv) (item : Order)
    (rest : List Order) (k : Keeper) (openOrders : List Order)
    (changes : Nat → Option BalanceChanges) (h : item.txHash ∉ k.timeoutTxs)
    (msg : List Char) (hmsg : env.transactionReceipt item.txHash = .error msg)
    (hfound : stringsContains msg ("not found").toList = true)
    (hyoung : ¬ timeSub env.now item.createTime > twoMinutes) :
    OrderKeeper.scan cfg env (item :: rest) k openOrders changes
      = OrderKeeper.scan cfg env rest { k with requested := k.requested ++ [item.txHash] }
          openOrders changes := by
  conv_lhs => unfold OrderKeeper.scan
  dsimp only
  rw [if_neg h, hmsg]
  dsimp only
  rw [if_pos hfound, if_neg hyoung]

theorem scan_cons_abort (cfg : ChainConfig) (env : KeeperEnv) (item : Order)
    (rest : List Order) (k : Keeper) (openOrders : List Order)
    (changes : Nat → Option BalanceChanges) (h : item.txHash ∉ k.timeoutTxs)
    (msg : List Char) (hmsg : env.transactionReceipt item.txHash = .error msg)
    (hother : ¬ stringsContains msg ("not found").toList = true) :
    OrderKeeper.scan cfg env (item :: rest) k openOrders changes
      = ({ k with requested := k.requested ++ [item.txHash] }, none) := by
  conv_lhs => unfold OrderKeeper.scan
  dsimp only
  rw [if_neg h, hmsg]
  dsimp only
  rw [if_neg hother]

theorem scan_cons_reverted (cfg : ChainConfig) (env : KeeperEnv) (item : Order)
    (rest : List Order) (k : Keeper) (openOrders : List Order)
    (changes : Nat → Option BalanceChanges) (h : item.txHash ∉ k.timeoutTxs)
    (receipt : Receipt) (hreceipt : env.transactionReceipt item.txHash = .ok receipt)
    (hstatus : receipt.status = 0) :
    OrderKeeper.scan cfg env (item :: rest) k openOrders changes
      = if (OrderKeeper.handleRejectOrder cfg env
            { k with requested := k.requested ++ [item.txHash] } item
            ("execution reverted").toList).crashed = true then
          (OrderKeeper.handleRejectOrder cfg env
            { k with requested := k.requested ++ [item.txHash] } item
            ("execution reverted").toList, none)
        else
          OrderKeeper.scan cfg env rest
            (OrderKeeper.handleRejectOrder cfg env
              { k with requested := k.requested ++ [item.txHash] } item
              ("execution reverted").toList) openOrders changes := by
  conv_lhs => unfold OrderKeeper.scan
  dsimp only
  rw [if_neg h, hreceipt]
  dsimp only
  rw [if_pos hstatus]

theorem scan_cons_open (cfg : ChainConfig) (env : KeeperEnv) (item : Order)
    (rest : List Order) (k : Keeper) (openOrders : List Order)
    (changes : Nat → Option BalanceChanges) (h : item.txHash ∉ k.timeoutTxs)
    (receipt : Receipt) (hreceipt : env.transactionReceipt item.txHash = .ok receipt)
    (hstatus : ¬ receipt.status = 0) :
    OrderKeeper.scan cfg env (item :: rest) k openOrders changes
      = OrderKeeper.scan cfg env rest { k with requested := k.requested ++ [item.txHash] }
          (openOrders ++ [item])
          (fun id =>
            if id = item.id then some (GetTokenBalanceChanges receipt.logs item.account)
            else changes id) := by
  conv_lhs => unfold OrderKeeper.scan
  dsimp only
  rw [if_neg h, hreceipt]
  dsimp only
  rw [if_neg hstatus]

theorem scan_append (cfg : ChainConfig) (env : KeeperEnv) (pre rest : List Order) :
    ∀ (k : Keeper) (openOrders : List Order) (changes : Nat → Option BalanceChanges),
      OrderKeeper.scan cfg env (pre ++ rest) k openOrders changes
        = match OrderKeeper.scan cfg env pre k openOrders changes with
          | (k1, some (oo, cc)) => OrderKeeper.scan cfg env rest k1 oo cc
          | (k1, none) => (k1, none) := by
  induction pre with
  | nil =>
    intro k openOrders changes
    rw [List.nil_append, scan_nil]
  | cons item pre ih =>
    intro k openOrders changes
    rw [List.cons_append]
    by_cases h : item.txHash ∈ k.timeoutTxs
    · rw [scan_cons_timeout _ _ _ _ _ _ _ h, scan_cons_timeout _ _ _ _ _ _ _ h]
      exact ih _ _ _
    · cases hrec : env.transactionReceipt item.txHash with
      | error msg =>
        by_cases hfound : stringsContains msg ("not found").toList = true
        · by_cases hold : timeSub env.now item.createTime > twoMinutes
          · rw [scan_cons_marked _ _ _ _ _ _ _ h msg hrec hfound hold,
              scan_cons_marked _ _ _ _ _ _ _ h msg hrec hfound hold]
            exact ih _ _ _
          · rw [scan_cons_young _ _ _ _ _ _ _ h msg hrec hfound hold,
              scan_cons_young _ _ _ _ _ _ _ h msg hrec hfound hold]
            exact ih _ _ _
        · rw [scan_cons_abort _ _ _ _ _ _ _ h msg hrec hfound,
            scan_cons_abort _ _ _ _ _ _ _ h msg hrec hfound]
      | ok receipt =>
        by_cases hstatus : receipt.status = 0
        · rw [scan_cons_reverted _ _ _ _ _ _ _ h receipt hrec hstatus,
            scan_cons_reverted _ _ _ _ _ _ _ h receipt hrec hstatus]
          split
          · rfl
          · exact ih _ _ _
        · rw [scan_cons_open _ _ _ _ _ _ _ h receipt hrec hstatus,
            scan_cons_open _ _ _ _ _ _ _ h receipt hrec hstatus]
          exact ih _ _ _

theorem handlePolling_timeoutTxs (cfg : ChainConfig) (env : KeeperEnv) (k : Keeper) :
    (OrderKeeper.handlePolling cfg env k).timeoutTxs
      = (OrderKeeper.scan cfg env
          (if env.findPendingFault then []
            else OrderModel.FindPendingOrders k.store.orders 100)
          { k with requested := [], rejected := [], closed := [] } []
          (fun _ => none)).1.timeoutTxs := by
  unfold OrderKeeper.handlePolling
  dsimp only
  generalize (if env.findPendingFault then []
    else OrderModel.FindPendingOrders k.store.orders 100) = L
  split
  · rename_i hlen
    have : L = [] := List.length_eq_zero.1 hlen
    rw [this, scan_nil]
  · cases hscan : OrderKeeper.scan cfg env L
        { k with requested := [], rejected := [], closed := [] } [] (fun _ => none) with
    | mk k1 r =>
      cases r with
      | none => rfl
      | some p =>
        obtain ⟨oo, cc⟩ := p
        dsimp only
        split
        · rfl
        · obtain ⟨C, c1, c2, c3, c4, c5, c6, c7⟩ := closeLoop_handled cfg env cc oo k1
          exact c4

theorem scan_marks (cfg : ChainConfig) (env : KeeperEnv) (item : Order) (post : List Order)
    (k : Keeper) (openOrders : List Order) (changes : Nat → Option BalanceChanges)
    (msg : List Char) (hmsg : env.transactionReceipt item.txHash = .error msg)
    (hfound : stringsContains msg ("not found").toList = true)
    (hold : timeSub env.now item.createTime > twoMinutes) :
    item.txHash ∈ (OrderKeeper.scan cfg env (item :: post) k openOrders changes).1.timeoutTxs := by
  by_cases h : item.txHash ∈ k.timeoutTxs
  · exact (scan_timeouts cfg env _ k openOrders changes).1 _ h
  · rw [scan_cons_marked _ _ _ _ _ _ _ h msg hmsg hfound hold]
    exact (scan_timeouts cfg env post _ openOrders changes).1 _ (List.mem_cons_self _ _)

theorem order_of_mem (s : Store) (hids : (s.orders.map fun o => o.id).Nodup) (x : Order)
    (hx : x ∈ s.orders) : s.order x.id = some x := by
  cases h : s.order x.id with
  | none =>
    have := List.find?_eq_none.1 h x hx
    simp at this
  | some o =>
    have := order_eq_of_id s hids o x (order_mem_of_find _ _ _ h) hx (order_id_of_find _ _ _ h)
    rw [this]

/-- C17: timeout. With unique order ids in the store: (1) when the loop of a tick comes to a
loaded order whose receipt lookup reports not-found and the tick is taken more than 2
minutes after the order's creation time, the order's hash is in the timed-out set after the
tick; (2) a loaded order whose receipt lookup fails is left exactly as it was and given to
no handler; (3) a hash is in the set after the tick only if it was in the set before or
belongs to a loaded order with a not-found lookup that is older than 2 minutes, so an
order not older than 2 minutes is not marked; (4) the set never loses an element; (5) for a
hash that is in the set before a tick, no receipt is requested in the tick, every stored
order with that hash is left exactly as it was and given to no handler, and its grid is
left as it was unless another loaded order, not timed out, names the same grid. -/
theorem timeout_marking (cfg : ChainConfig) (env : KeeperEnv) (k : Keeper)
    (hids : (k.store.orders.map fun o => o.id).Nodup) :
    (∀ pre item post k1 oo cc,
      (if env.findPendingFault then []
        else OrderModel.FindPendingOrders k.store.orders 100) = pre ++ item :: post →
      OrderKeeper.scan cfg env pre { k with requested := [], rejected := [], closed := [] } []
        (fun _ => none) = (k1, some (oo, cc)) →
      ∀ msg, env.transactionReceipt item.txHash = .error msg →
      stringsContains msg ("not found").toList = true →
      timeSub env.now item.createTime > twoMinutes →
      item.txHash ∈ (OrderKeeper.handlePolling cfg env k).timeoutTxs) ∧
    (∀ x ∈ OrderModel.FindPendingOrders k.store.orders 100,
      ∀ msg, env.transactionReceipt x.txHash = .error msg →
      (OrderKeeper.handlePolling cfg env k).store.order x.id = some x ∧
        x.id ∉ (OrderKeeper.handlePolling cfg env k).rejected ∧
        x.id ∉ (OrderKeeper.handlePolling cfg env k).closed) ∧
    (∀ h ∈ (OrderKeeper.handlePolling cfg env k).timeoutTxs,
      h ∈ k.timeoutTxs ∨
        ∃ x ∈ OrderModel.FindPendingOrders k.store.orders 100,
          x.txHash = h ∧
          (∃ msg, env.transactionReceipt h = .error msg ∧
            stringsContains msg ("not found").toList = true) ∧
          timeSub env.now x.createTime > twoMinutes) ∧
    (∀ h ∈ k.timeoutTxs, h ∈ (OrderKeeper.handlePolling cfg env k).timeoutTxs) ∧
    (∀ h ∈ k.timeoutTxs,
      h ∉ (OrderKeeper.handlePolling cfg env k).requested ∧
      ∀ n o, k.store.order n = some o → o.txHash = h →
        (OrderKeeper.handlePolling cfg env k).store.order n = some o ∧
        n ∉ (OrderKeeper.handlePolling cfg env k).rejected ∧
        n ∉ (OrderKeeper.handlePolling cfg env k).closed ∧
        ∀ guid, o.gridId = some guid →
          (∀ x ∈ OrderModel.FindPendingOrders k.store.orders 100,
            x.gridId = some guid → x.txHash ∈ k.timeoutTxs) →
          (OrderKeeper.handlePolling cfg env k).store.grid guid = k.store.grid guid) := by
  obtain ⟨R, C, h1, h2, h3, h4, h5, h6, h7, h8⟩ := handlePolling_handled cfg env k
  obtain ⟨t1, t2, t3⟩ := handlePolling_timeouts cfg env k
  have hR : ∀ x ∈ R, x ∈ OrderModel.FindPendingOrders k.store.orders 100 :=
    fun x hx => loaded_mem _ _ x (h1.subset hx)
  have hC : ∀ x ∈ C, x ∈ OrderModel.FindPendingOrders k.store.orders 100 :=
    fun x hx => loaded_mem _ _ x (h2.subset hx)
  have hstored : ∀ x ∈ OrderModel.FindPendingOrders k.store.orders 100, x ∈ k.store.orders :=
    fun x hx => (FindPendingOrders_mem _ _ x hx).1
  -- an order that is in neither list is left as it was
  have hkeep : ∀ n o, k.store.order n = some o →
      (∀ x ∈ R, x ≠ o) → (∀ x ∈ C, x ≠ o) →
      (OrderKeeper.handlePolling cfg env k).store.order n = some o ∧
        n ∉ (OrderKeeper.handlePolling cfg env k).rejected ∧
        n ∉ (OrderKeeper.handlePolling cfg env k).closed := by
    intro n o ho hnR hnC
    have hsame : ∀ x, x ∈ OrderModel.FindPendingOrders k.store.orders 100 → x.id = n →
        x = o := fun x hx hxn =>
      order_eq_of_id k.store hids x o (hstored x hx) (order_mem_of_find _ _ _ ho)
        (hxn.trans (order_id_of_find _ _ _ ho).symm)
    refine ⟨?_, ?_, ?_⟩
    · obtain ⟨o2, ha, hb⟩ := h7 n o ho
      rcases hb with hb | ⟨-, x, hx, hxn⟩ | ⟨-, x, hx, hxn⟩
      · rw [ha, hb]
      · exact absurd (hsame x (hR x hx) hxn) (hnR x hx)
      · exact absurd (hsame x (hC x hx) hxn) (hnC x hx)
    · rw [h5]
      intro hm
      obtain ⟨x, hx, hxn⟩ := List.mem_map.1 hm
      exact hnR x hx (hsame x (hR x hx) hxn)
    · rw [h6]
      intro hm
      obtain ⟨x, hx, hxn⟩ := List.mem_map.1 hm
      exact hnC x hx (hsame x (hC x hx) hxn)
  refine ⟨?_, ?_, ?_, t1, ?_⟩
  · intro pre item post k1 oo cc hL hpre msg hmsg hfound hold
    rw [handlePolling_timeoutTxs, hL, scan_append, hpre]
    exact scan_marks cfg env item post k1 oo cc msg hmsg hfound hold
  · intro x hx msg hmsg
    refine hkeep x.id x (order_of_mem k.store hids x (hstored x hx)) ?_ ?_
    · intro y hy hyx
      obtain ⟨-, r, hr, -⟩ := h3 y hy
      rw [hyx, hmsg] at hr
      exact Except.noConfusion hr
    · intro y hy hyx
      obtain ⟨-, r, hr, -⟩ := h4 y hy
      rw [hyx, hmsg] at hr
      exact Except.noConfusion hr
  · intro h hh
    rcases t2 h hh with hx | ⟨x, hx, hrest⟩
    · exact Or.inl hx
    · exact Or.inr ⟨x, loaded_mem _ _ x hx, hrest⟩
  · intro h hh
    refine ⟨fun hreq => (t3 h hreq).1 hh, fun n o ho hoh => ?_⟩
    have hk := hkeep n o ho
      (fun y hy hyx => (h3 y hy).1 (by rw [hyx, hoh]; exact hh))
      (fun y hy hyx => (h4 y hy).1 (by rw [hyx, hoh]; exact hh))
    refine ⟨hk.1, hk.2.1, hk.2.2, fun guid _ hothers => ?_⟩
    rcases h8 guid with hg | ⟨x, hx, hxg⟩ | ⟨x, hx, hxg⟩
    · exact hg
    · exact absurd (hothers x (hR x hx) hxg) (h3 x hx).1
    · exact absurd (hothers x (hC x hx) hxg) (h4 x hx).1

theorem timeout_marking_witness :
    ("0xaa").toList
        ∈ (OrderKeeper.handlePolling sampleCfg (lateEnv notFoundReceipt)
            (sampleKeeper [sampleBuy])).timeoutTxs ∧
      (OrderKeeper.handlePolling sampleCfg (lateEnv notFoundReceipt)
        (sampleKeeper [sampleBuy])).store = (sampleKeeper [sampleBuy]).store ∧
      (OrderKeeper.handlePolling sampleCfg (sampleEnv notFoundReceipt)
        (sampleKeeper [sampleBuy])).timeoutTxs = [] ∧
      (OrderKeeper.handlePolling sampleCfg (sampleEnv notFoundReceipt)
        (sampleKeeper [sampleBuy])).store = (sampleKeeper [sampleBuy]).store ∧
      (OrderKeeper.handlePolling sampleCfg (sampleEnv buyReceipt)
        (OrderKeeper.handlePolling sampleCfg (lateEnv notFoundReceipt)
          (sampleKeeper [sampleBuy]))).requested = [] ∧
      (OrderKeeper.handlePolling sampleCfg (sampleEnv buyReceipt)
        (OrderKeeper.handlePolling sampleCfg (lateEnv notFoundReceipt)
          (sampleKeeper [sampleBuy]))).store = (sampleKeeper [sampleBuy]).store :=
  ⟨(timeout_marking sampleCfg (lateEnv notFoundReceipt) (sampleKeeper [sampleBuy])
      (by decide)).1 [] sampleBuy []
      { sampleKeeper [sampleBuy] with requested := [], rejected := [], closed := [] } []
      (fun _ => none) (by decide) (scan_nil _ _ _ _ _) ("not found").toList rfl (by decide)
      (by decide),
    by decide, by decide, by decide, by decide, by decide⟩

theorem handlePolling_of_scan_none (cfg : ChainConfig) (env : KeeperEnv) (k k2 : Keeper)
    (h : OrderKeeper.scan cfg env
        (if env.findPendingFault then []
          else OrderModel.FindPendingOrders k.store.orders 100)
        { k with requested := [], rejected := [], closed := [] } [] (fun _ => none)
      = (k2, none)) :
    OrderKeeper.handlePolling cfg env k = k2 := by
  unfold OrderKeeper.handlePolling
  dsimp only
  generalize (if env.findPendingFault then []
    else OrderModel.FindPendingOrders k.store.orders 100) = L at h
  split
  · rename_i hlen
    have : L = [] := List.length_eq_zero.1 hlen
    rw [this, scan_nil] at h
    exact Option.noConfusion (congrArg Prod.snd h)
  · rw [h]

/-- C18 (amended): tick abort. When the loop of a tick comes to a loaded order whose receipt
lookup fails for a reason other than not-found, the tick ends there: closing handling is
given no order, every stored order is left exactly as it was unless it is one of the orders
examined before the failing one whose receipt showed a revert, which is `Rejected`, and
every grid is left as it was unless such a reverted order names it. -/
theorem tick_abort (cfg : ChainConfig) (env : KeeperEnv) (k : Keeper)
    (pre : List Order) (item : Order) (post : List Order) (k1 : Keeper) (oo : List Order)
    (cc : Nat → Option BalanceChanges) (msg : List Char)
    (hL : (if env.findPendingFault then []
        else OrderModel.FindPendingOrders k.store.orders 100) = pre ++ item :: post)
    (hpre : OrderKeeper.scan cfg env pre
        { k with requested := [], rejected := [], closed := [] } [] (fun _ => none)
      = (k1, some (oo, cc)))
    (hnt : item.txHash ∉ k1.timeoutTxs)
    (hmsg : env.transactionReceipt item.txHash = .error msg)
    (hother : ¬ stringsContains msg ("not found").toList = true) :
    OrderKeeper.handlePolling cfg env k
        = { k1 with requested := k1.requested ++ [item.txHash] } ∧
      (OrderKeeper.handlePolling cfg env k).closed = [] ∧
      (∀ n o, k.store.order n = some o →
        ∃ o2, (OrderKeeper.handlePolling cfg env k).store.order n = some o2 ∧
          (o2 = o ∨
            (o2.status = .Rejected ∧
              ∃ x ∈ pre, x.id = n ∧
                ∃ r, env.transactionReceipt x.txHash = .ok r ∧ r.status = 0))) ∧
      (∀ guid,
        (OrderKeeper.handlePolling cfg env k).store.grid guid = k.store.grid guid ∨
          ∃ x ∈ pre, x.gridId = some guid ∧
            ∃ r, env.transactionReceipt x.txHash = .ok r ∧ r.status = 0) := by
  have hres : OrderKeeper.handlePolling cfg env k
      = { k1 with requested := k1.requested ++ [item.txHash] } := by
    apply handlePolling_of_scan_none
    rw [hL, scan_append, hpre]
    exact scan_cons_abort _ _ _ _ _ _ _ hnt msg hmsg hother
  obtain ⟨R, O, h1, h2, h3, h4, h5, h6, h7, h8, h9⟩ :=
    scan_handled cfg env pre { k with requested := [], rejected := [], closed := [] } []
      (fun _ => none)
  rw [hpre] at h5 h6 h8 h9
  dsimp only at h5 h6 h8 h9
  refine ⟨hres, ?_, fun n o ho => ?_, fun guid => ?_⟩
  · rw [hres]
    exact h6
  · rw [hres]
    obtain ⟨o2, ha, hb⟩ := h8 n o ho
    refine ⟨o2, ha, hb.imp (fun h => h) fun h => ⟨h.1, ?_⟩⟩
    obtain ⟨x, hx, hxn⟩ := h.2
    exact ⟨x, h1.subset hx, hxn, (h3 x hx).2⟩
  · rw [hres]
    refine (h9 guid).imp (fun h => h) fun h => ?_
    obtain ⟨x, hx, hxg⟩ := h
    exact ⟨x, h1.subset hx, hxg, (h3 x hx).2⟩

theorem tick_abort_witness :
    OrderKeeper.handlePolling sampleCfg (sampleEnv mixedReceipt)
        (sampleKeeper [sampleSell none, sampleBuy])
        = { sampleKeeper [sampleSell none, sampleBuy] with requested := [("0xbb").toList] } ∧
      (OrderKeeper.handlePolling sampleCfg (sampleEnv mixedReceipt)
        (sampleKeeper [sampleSell none, sampleBuy])).closed = [] ∧
      (∀ n o, (sampleKeeper [sampleSell none, sampleBuy]).store.order n = some o →
        ∃ o2, (OrderKeeper.handlePolling sampleCfg (sampleEnv mixedReceipt)
            (sampleKeeper [sampleSell none, sampleBuy])).store.order n = some o2 ∧
          (o2 = o ∨
            (o2.status = .Rejected ∧
              ∃ x ∈ ([] : List Order), x.id = n ∧
                ∃ r, (sampleEnv mixedReceipt).transactionReceipt x.txHash = .ok r ∧
                  r.status = 0))) ∧
      (∀ guid,
        (OrderKeeper.handlePolling sampleCfg (sampleEnv mixedReceipt)
            (sampleKeeper [sampleSell none, sampleBuy])).store.grid guid
            = (sampleKeeper [sampleSell none, sampleBuy]).store.grid guid ∨
          ∃ x ∈ ([] : List Order), x.gridId = some guid ∧
            ∃ r, (sampleEnv mixedReceipt).transactionReceipt x.txHash = .ok r ∧
              r.status = 0) :=
  tick_abort sampleCfg (sampleEnv mixedReceipt) (sampleKeeper [sampleSell none, sampleBuy]) []
    (sampleSell none) [sampleBuy]
    (sampleKeeper [sampleSell none, sampleBuy]) [] (fun _ => none)
    ("connection refused").toList (by decide) (scan_nil _ _ _ _ _) (by decide) rfl (by decide)

/-- C18 (counterexample): the tick examines a reverted Buy order of grid `g1` and then an
order whose receipt lookup fails with a connection error. The tick stops at the second
order, yet the first order has been set to `Rejected` and its grid deleted in that tick. -/
theorem tick_abort_partial :
    mixedReceipt sampleBuy.txHash = .ok ⟨0, []⟩ ∧
      mixedReceipt (sampleSell none).txHash = .error ("connection refused").toList ∧
      stringsContains ("connection refused").toList ("not found").toList = false ∧
      (OrderKeeper.handlePolling sampleCfg (sampleEnv mixedReceipt)
        (sampleKeeper [sampleBuy, sampleSell none])).requested
        = [("0xaa").toList, ("0xbb").toList] ∧
      ((sampleKeeper [sampleBuy, sampleSell none]).store.order 1).map (fun o => o.status)
        = some .Pending ∧
      ((OrderKeeper.handlePolling sampleCfg (sampleEnv mixedReceipt)
        (sampleKeeper [sampleBuy, sampleSell none])).store.order 1).map (fun o => o.status)
        = some .Rejected ∧
      ((sampleKeeper [sampleBuy, sampleSell none]).store.grid ("g1").toList).isSome = true ∧
      (OrderKeeper.handlePolling sampleCfg (sampleEnv mixedReceipt)
        (sampleKeeper [sampleBuy, sampleSell none])).store.grid ("g1").toList = none ∧
      (OrderKeeper.handlePolling sampleCfg (sampleEnv mixedReceipt)
        (sampleKeeper [sampleBuy, sampleSell none])).store
        ≠ (sampleKeeper [sampleBuy, sampleSell none]).store :=
  ⟨rfl, rfl, by decide, by decide, by decide, by decide, by decide, by decide, by decide⟩

/-! ### The relay client: sending a swap -/

theorem bigCmp_le_zero (a b : Int) : bigCmp a b ≤ 0 ↔ a ≤ b := by
  unfold bigCmp
  split
  · exact ⟨fun _ => by omega, fun _ => by decide⟩
  · split
    · exact ⟨fun _ => by omega, fun _ => by decide⟩
    · exact ⟨fun h => absurd h (by decide), fun h => by omega⟩

theorem bigCmp_lt_zero (a b : Int) : bigCmp a b < 0 ↔ a < b := by
  unfold bigCmp
  split
  · rename_i h
    exact ⟨fun _ => h, fun _ => by decide⟩
  · rename_i h
    split
    · exact ⟨fun h2 => absurd h2 (by decide), fun h2 => absurd h2 h⟩
    · exact ⟨fun h2 => absurd h2 (by decide), fun h2 => absurd h2 h⟩

/-- C20 (as the code behaves): with the address and both balances obtained,
`SendSwapTransaction` fails with `ErrInsufficientBalance` at the checks exactly when the
native balance is less than or equal to the declared gas cost or the input-token balance is
less than the declared input amount; it then makes no `Request`, passes no nonce to a
callback, sends nothing and leaves the nonce table as it was. When both checks pass the
result is that of the submission loop. -/
theorem SendSwapTransaction_balance_check (keccak : Keccak) (chainId : Nat) (env : SwapEnv)
    (t : NonceTable) (q : QuoteResponse) (account : Address) (ethBal tokenBal : Int)
    (ha : env.getAddress = .ok account) (hb : env.getBalance = .ok ethBal)
    (ht : env.getTokenBalance q.currencyInAddress = .ok tokenBal) :
    ((ethBal ≤ q.gasAmount ∨ tokenBal < q.currencyInAmount) →
      (RelaylinkClient.SendSwapTransaction keccak chainId env t q).err
          = some .insufficientBalance ∧
        (RelaylinkClient.SendSwapTransaction keccak chainId env t q).hash = [] ∧
        (RelaylinkClient.SendSwapTransaction keccak chainId env t q).nonce = 0 ∧
        (RelaylinkClient.SendSwapTransaction keccak chainId env t q).state.requests = 0 ∧
        (RelaylinkClient.SendSwapTransaction keccak chainId env t q).state.issued = [] ∧
        (RelaylinkClient.SendSwapTransaction keccak chainId env t q).state.sent = [] ∧
        (RelaylinkClient.SendSwapTransaction keccak chainId env t q).state.table = t) ∧
    (¬ (ethBal ≤ q.gasAmount ∨ tokenBal < q.currencyInAmount) →
      (RelaylinkClient.SendSwapTransaction keccak chainId env t q).err
          = (RelaylinkClient.sendSteps keccak chainId env account q.steps
              ⟨t, 0, [], [], [], 0⟩).1 ∧
        (RelaylinkClient.SendSwapTransaction keccak chainId env t q).state
          = (RelaylinkClient.sendSteps keccak chainId env account q.steps
              ⟨t, 0, [], [], [], 0⟩).2) := by
  unfold RelaylinkClient.SendSwapTransaction
  simp only [ha, hb, ht, bigCmp_le_zero, bigCmp_lt_zero]
  constructor
  · rintro (h | h)
    · rw [if_pos h]
      exact ⟨rfl, rfl, rfl, rfl, rfl, rfl, rfl⟩
    · by_cases h1 : ethBal ≤ q.gasAmount
      · rw [if_pos h1]
        exact ⟨rfl, rfl, rfl, rfl, rfl, rfl, rfl⟩
      · rw [if_neg h1, if_pos h]
        exact ⟨rfl, rfl, rfl, rfl, rfl, rfl, rfl⟩
  · intro h
    rw [if_neg (fun h1 => h (Or.inl h1)), if_neg (fun h1 => h (Or.inr h1))]
    cases hs : RelaylinkClient.sendSteps keccak chainId env account q.steps
        ⟨t, 0, [], [], [], 0⟩ with
    | mk e st =>
      cases e <;> exact ⟨rfl, rfl⟩

theorem SendSwapTransaction_balance_check_witness :
    (((20000 : Int) ≤ sampleQuote.gasAmount ∨ (100 : Int) < sampleQuote.currencyInAmount) →
      (RelaylinkClient.SendSwapTransaction sampleKeccak 1 (sampleSwapEnv 20000 100) []
          sampleQuote).err = some .insufficientBalance ∧
        (RelaylinkClient.SendSwapTransaction sampleKeccak 1 (sampleSwapEnv 20000 100) []
          sampleQuote).hash = [] ∧
        (RelaylinkClient.SendSwapTransaction sampleKeccak 1 (sampleSwapEnv 20000 100) []
          sampleQuote).nonce = 0 ∧
        (RelaylinkClient.SendSwapTransaction sampleKeccak 1 (sampleSwapEnv 20000 100) []
          sampleQuote).state.requests = 0 ∧
        (RelaylinkClient.SendSwapTransaction sampleKeccak 1 (sampleSwapEnv 20000 100) []
          sampleQuote).state.issued = [] ∧
        (RelaylinkClient.SendSwapTransaction sampleKeccak 1 (sampleSwapEnv 20000 100) []
          sampleQuote).state.sent = [] ∧
        (RelaylinkClient.SendSwapTransaction sampleKeccak 1 (sampleSwapEnv 20000 100) []
          sampleQuote).state.table = []) ∧
    (RelaylinkClient.SendSwapTransaction sampleKeccak 1 (sampleSwapEnv 30000 100) []
      sampleQuote).err = none ∧
    (RelaylinkClient.SendSwapTransaction sampleKeccak 1 (sampleSwapEnv 30000 100) []
      sampleQuote).state.issued = [5, 6] :=
  ⟨(SendSwapTransaction_balance_check sampleKeccak 1 (sampleSwapEnv 20000 100) [] sampleQuote
      sampleAccount 20000 100 rfl rfl rfl).1,
    by decide, by decide⟩

/-- C20 (counterexample): the native balance equals the quote's declared gas cost, 21000, and
the token balance equals the declared input amount, so neither balance is less than what is
required; `SendSwapTransaction` fails with `ErrInsufficientBalance`. With one unit more of
native balance the same call goes through. -/
theorem SendSwapTransaction_equal_gas_rejected :
    sampleQuote.gasAmount = 21000 ∧ sampleQuote.currencyInAmount = 100 ∧
    (RelaylinkClient.SendSwapTransaction sampleKeccak 1 (sampleSwapEnv 21000 100) []
      sampleQuote).err = some .insufficientBalance ∧
    (RelaylinkClient.SendSwapTransaction sampleKeccak 1 (sampleSwapEnv 21001 100) []
      sampleQuote).err = none := by
  decide

/-- The three ways a call of `Request` ends: before `consume`, with the failure of
`consume`, or after a successful `consume`. -/
theorem Request_outcome (keccak : Keccak) (env : RequestEnv) (t : NonceTable)
    (account : Address) :
    (∃ e, (NonceManager.Request keccak env t account).err = some e ∧
        (NonceManager.Request keccak env t account).consumed = [] ∧
        (NonceManager.Request keccak env t account).table = t) ∨
      (∃ n e, (NonceManager.Request keccak env t account).err = some e ∧
        (NonceManager.Request keccak env t account).consumed = [n] ∧
        env.consume n = .error e ∧
        (NonceManager.Request keccak env t account).table = t) ∨
      (∃ n h, (NonceManager.Request keccak env t account).err = none ∧
        (NonceManager.Request keccak env t account).consumed = [n] ∧
        env.consume n = .ok h) := by
  cases hc : env.pendingNonceAt with
  | error e =>
    rw [Request_of_chain_error keccak env t account e hc]
    exact Or.inl ⟨e, rfl, rfl, rfl⟩
  | ok c =>
    cases hf : env.findFault with
    | some k =>
      rw [Request_of_find_fault keccak env t account c k hc hf]
      exact Or.inl ⟨_, rfl, rfl, rfl⟩
    | none =>
      cases hk : env.consume (candidateNonce (storedNonce keccak t account) c) with
      | error e =>
        rw [Request_of_consume_error keccak env t account c e hc hf hk]
        exact Or.inr (Or.inl ⟨_, e, rfl, rfl, hk, rfl⟩)
      | ok h =>
        rw [Request_of_consume_ok keccak env t account c h hc hf hk]
        exact Or.inr (Or.inr ⟨_, h, rfl, rfl, hk⟩)

theorem consume_ok (chainId : Nat) (env : SwapEnv) (item : EvmData) (data : List Byte)
    (nonce : Nat) (h : List Char)
    (hk : RelaylinkClient.consume chainId env item data nonce = .ok h) :
    env.signTx (RelaylinkClient.buildTx chainId item data nonce) = .ok h ∧
      env.sendTransaction (RelaylinkClient.buildTx chainId item data nonce) = none := by
  unfold RelaylinkClient.consume at hk
  cases hs : env.signTx (RelaylinkClient.buildTx chainId item data nonce) with
  | error e =>
    rw [hs] at hk
    exact Except.noConfusion hk
  | ok hash =>
    rw [hs] at hk
    dsimp only at hk
    cases hse : env.sendTransaction (RelaylinkClient.buildTx chainId item data nonce) with
    | some e =>
      rw [hse] at hk
      exact Except.noConfusion hk
    | none =>
      rw [hse] at hk
      exact ⟨by rw [Except.ok.inj hk], rfl⟩

/-- What the loop body does for one item: it either returns an error, having sent nothing
and made at most one `Request`, or it made one `Request` and sent the item's transaction
with the nonce handed out. -/
theorem sendItem_outcome (keccak : Keccak) (chainId : Nat) (env : SwapEnv) (account : Address)
    (item : EvmData) (st : SwapState) :
    (∃ e, (RelaylinkClient.sendItem keccak chainId env account item st).1 = some e ∧
        (RelaylinkClient.sendItem keccak chainId env account item st).2.sent = st.sent ∧
        (RelaylinkClient.sendItem keccak chainId env account item st).2.requests
          ≤ st.requests + 1 ∧
        st.requests ≤ (RelaylinkClient.sendItem keccak chainId env account item st).2.requests)
      ∨
      (∃ data nonce hash,
        (RelaylinkClient.sendItem keccak chainId env account item st).1 = none ∧
        hexutilDecode item.evmData = .ok data ∧
        env.signTx (RelaylinkClient.buildTx chainId item data nonce) = .ok hash ∧
        env.sendTransaction (RelaylinkClient.buildTx chainId item data nonce) = none ∧
        (RelaylinkClient.sendItem keccak chainId env account item st).2.sent
          = st.sent ++ [RelaylinkClient.buildTx chainId item data nonce] ∧
        (RelaylinkClient.sendItem keccak chainId env account item st).2.issued
          = st.issued ++ [nonce] ∧
        (RelaylinkClient.sendItem keccak chainId env account item st).2.requests
          = st.requests + 1 ∧
        (RelaylinkClient.sendItem keccak chainId env account item st).2.lastTxHash = hash ∧
        (RelaylinkClient.sendItem keccak chainId env account item st).2.lastTxNonce = nonce) := by
  unfold RelaylinkClient.sendItem
  cases hd : hexutilDecode item.evmData with
  | error e => exact Or.inl ⟨e, rfl, rfl, Nat.le_succ _, le_refl _⟩
  | ok data =>
    dsimp only
    rcases Request_outcome keccak
        ⟨env.pendingNonceAt st.requests, env.findFault st.requests,
          RelaylinkClient.consume chainId env item data, env.persistFault st.requests⟩
        st.table account with
      ⟨e, h1, h2, h3⟩ | ⟨n, e, h1, h2, h3, h4⟩ | ⟨n, h, h1, h2, h3⟩
    · rw [h1]
      exact Or.inl ⟨e, rfl, rfl, le_refl _, Nat.le_succ _⟩
    · rw [h1]
      exact Or.inl ⟨e, rfl, rfl, le_refl _, Nat.le_succ _⟩
    · obtain ⟨hs, hse⟩ := consume_ok chainId env item data n h h3
      rw [h1, h2]
      dsimp only
      rw [hs]
      exact Or.inr ⟨data, n, h, rfl, rfl, hs, hse, rfl, rfl, rfl, rfl, rfl⟩

theorem sendItems_cons (keccak : Keccak) (chainId : Nat) (env : SwapEnv) (account : Address)
    (item : EvmData) (rest : List EvmData) (st : SwapState) :
    RelaylinkClient.sendItems keccak chainId env account (item :: rest) st
      = match RelaylinkClient.sendItem keccak chainId env account item st with
        | (some err, st2) => (some err, st2)
        | (none, st2) => RelaylinkClient.sendItems keccak chainId env account rest st2 :=
  rfl

theorem sendSteps_cons (keccak : Keccak) (chainId : Nat) (env : SwapEnv) (account : Address)
    (step : QuoteStep) (rest : List QuoteStep) (st : SwapState) :
    RelaylinkClient.sendSteps keccak chainId env account (step :: rest) st
      = match RelaylinkClient.sendItems keccak chainId env account step.items st with
        | (some err, st2) => (some err, st2)
        | (none, st2) => RelaylinkClient.sendSteps keccak chainId env account rest st2 :=
  rfl

theorem sendItems_append (keccak : Keccak) (chainId : Nat) (env : SwapEnv) (account : Address)
    (xs ys : List EvmData) :
    ∀ st, RelaylinkClient.sendItems keccak chainId env account (xs ++ ys) st
      = match RelaylinkClient.sendItems keccak chainId env account xs st with
        | (some err, st2) => (some err, st2)
        | (none, st2) => RelaylinkClient.sendItems keccak chainId env account ys st2 := by
  induction xs with
  | nil =>
    intro st
    rfl
  | cons x xs ih =>
    intro st
    rw [List.cons_append, sendItems_cons, sendItems_cons]
    cases RelaylinkClient.sendItem keccak chainId env account x st with
    | mk e st2 =>
      cases e with
      | some err => rfl
      | none => exact ih st2

/-- The nested loops of `SendSwapTransaction` visit the items in step order and then item
order: they are one loop over the items of all steps. -/
theorem sendSteps_flat (keccak : Keccak) (chainId : Nat) (env : SwapEnv) (account : Address)
    (steps : List QuoteStep) :
    ∀ st, RelaylinkClient.sendSteps keccak chainId env account steps st
      = RelaylinkClient.sendItems keccak chainId env account
          (steps.flatMap fun step => step.items) st := by
  induction steps with
  | nil =>
    intro st
    rfl
  | cons step rest ih =>
    intro st
    rw [List.flatMap_cons, sendItems_append, sendSteps_cons]
    cases RelaylinkClient.sendItems keccak chainId env account step.items st with
    | mk e st2 =>
      cases e with
      | some err => rfl
      | none => exact ih st2

theorem sendItems_spec (keccak : Keccak) (chainId : Nat) (env : SwapEnv) (account : Address)
    (items : List EvmData) :
    ∀ st, ∃ txs : List DynamicFeeTx,
      (RelaylinkClient.sendItems keccak chainId env account items st).2.sent = st.sent ++ txs ∧
      List.Forall₂
        (fun item tx =>
          ∃ data, hexutilDecode item.evmData = .ok data ∧
            tx = RelaylinkClient.buildTx chainId item data tx.nonce ∧
            (∃ hash, env.signTx tx = .ok hash) ∧ env.sendTransaction tx = none)
        (items.take txs.length) txs ∧
      txs.length ≤ items.length ∧
      st.requests + txs.length
        ≤ (RelaylinkClient.sendItems keccak chainId env account items st).2.requests ∧
      (RelaylinkClient.sendItems keccak chainId env account items st).2.requests
        ≤ st.requests + txs.length + 1 ∧
      ((RelaylinkClient.sendItems keccak chainId env account items st).1 = none →
        txs.length = items.length ∧
        (RelaylinkClient.sendItems keccak chainId env account items st).2.requests
          = st.requests + items.length ∧
        (RelaylinkClient.sendItems keccak chainId env account items st).2.issued
          = st.issued ++ txs.map fun tx => tx.nonce) ∧
      (∀ e, (RelaylinkClient.sendItems keccak chainId env account items st).1 = some e →
        txs.length < items.length) := by
  induction items with
  | nil =>
    intro st
    refine ⟨[], ?_, ?_, le_refl _, le_refl _, Nat.le_succ _, fun _ => ⟨rfl, rfl, ?_⟩,
      fun e h => ?_⟩
    · unfold RelaylinkClient.sendItems
      simp
    · exact List.Forall₂.nil
    · unfold RelaylinkClient.sendItems
      simp
    · unfold RelaylinkClient.sendItems at h
      exact Option.noConfusion h
  | cons item rest ih =>
    intro st
    rw [sendItems_cons]
    rcases sendItem_outcome keccak chainId env account item st with
      ⟨e, h1, h2, h3, h4⟩ | ⟨data, nonce, hash, h1, hd, hs, hse, h2, h3, h4, h5, h6⟩
    · cases hres : RelaylinkClient.sendItem keccak chainId env account item st with
      | mk e2 st2 =>
        rw [hres] at h1 h2 h3 h4
        dsimp only at h1 h2 h3 h4
        subst h1
        dsimp only
        refine ⟨[], by rw [h2, List.append_nil], List.Forall₂.nil, Nat.zero_le _, h4, h3,
          fun h => Option.noConfusion h, fun _ _ => Nat.succ_pos _⟩
    · cases hres : RelaylinkClient.sendItem keccak chainId env account item st with
      | mk e2 st2 =>
        rw [hres] at h1 h2 h3 h4 h5 h6
        dsimp only at h1 h2 h3 h4 h5 h6
        subst h1
        dsimp only
        obtain ⟨txs, i1, i2, i3, i4, i5, i6, i7⟩ := ih st2
        refine ⟨RelaylinkClient.buildTx chainId item data nonce :: txs, ?_, ?_, ?_, ?_, ?_,
          fun h => ?_, fun e h => ?_⟩
        · rw [i1, h2, List.append_assoc]
          rfl
        · rw [List.length_cons, List.take_succ_cons]
          exact List.Forall₂.cons ⟨data, hd, rfl, ⟨hash, hs⟩, hse⟩ i2
        · rw [List.length_cons, List.length_cons]
          omega
        · rw [List.length_cons]
          omega
        · rw [List.length_cons]
          omega
        · obtain ⟨j1, j2, j3⟩ := i6 h
          refine ⟨by rw [List.length_cons, List.length_cons, j1], ?_, ?_⟩
          · rw [j2, h4, List.length_cons]
            omega
          · rw [j3, h3, List.map_cons, List.append_assoc]
            rfl
        · rw [List.length_cons, List.length_cons]
          exact Nat.succ_lt_succ (i7 e h)

theorem sendItems_last (keccak : Keccak) (chainId : Nat) (env : SwapEnv) (account : Address)
    (items : List EvmData) :
    ∀ st, (RelaylinkClient.sendItems keccak chainId env account items st).1 = none →
      (items = [] ∧ RelaylinkClient.sendItems keccak chainId env account items st = (none, st))
        ∨
      ∃ tx, (RelaylinkClient.sendItems keccak chainId env account items st).2.sent.getLast?
          = some tx ∧
        (RelaylinkClient.sendItems keccak chainId env account items st).2.lastTxNonce
          = tx.nonce ∧
        env.signTx tx
          = .ok (RelaylinkClient.sendItems keccak chainId env account items st).2.lastTxHash := by
  induction items with
  | nil =>
    intro st _
    exact Or.inl ⟨rfl, rfl⟩
  | cons item rest ih =>
    intro st hnone
    right
    rw [sendItems_cons] at hnone ⊢
    rcases sendItem_outcome keccak chainId env account item st with
      ⟨e, h1, -⟩ | ⟨data, nonce, hash, h1, hd, hs, hse, h2, h3, h4, h5, h6⟩
    · cases hres : RelaylinkClient.sendItem keccak chainId env account item st with
      | mk e2 st2 =>
        rw [hres] at h1 hnone
        dsimp only at h1
        subst h1
        exact Option.noConfusion hnone
    · cases hres : RelaylinkClient.sendItem keccak chainId env account item st with
      | mk e2 st2 =>
        rw [hres] at h1 h2 h5 h6 hnone
        dsimp only at h1 h2 h5 h6
        subst h1
        dsimp only at hnone ⊢
        rcases ih st2 hnone with ⟨-, hr⟩ | hr
        · rw [hr]
          refine ⟨RelaylinkClient.buildTx chainId item data nonce, ?_, h6, ?_⟩
          · dsimp only
            rw [h2, List.getLast?_append]
            rfl
          · dsimp only
            rw [h5]
            exact hs
        · exact hr

theorem sendItem_issued_mono (keccak : Keccak) (chainId : Nat) (env : SwapEnv)
    (account : Address) (item : EvmData) (st : SwapState) (x : Nat) (hx : x ∈ st.issued) :
    x ∈ (RelaylinkClient.sendItem keccak chainId env account item st).2.issued := by
  unfold RelaylinkClient.sendItem
  split
  · exact hx
  · dsimp only
    split
    · exact List.mem_append_left _ hx
    · split
      · split
        · exact List.mem_append_left _ hx
        · exact List.mem_append_left _ hx
      · exact List.mem_append_left _ hx

theorem sendItems_sent_issued (keccak : Keccak) (chainId : Nat) (env : SwapEnv)
    (account : Address) (items : List EvmData) :
    ∀ st,
      (∀ x ∈ st.issued,
        x ∈ (RelaylinkClient.sendItems keccak chainId env account items st).2.issued) ∧
      (∀ tx ∈ (RelaylinkClient.sendItems keccak chainId env account items st).2.sent,
        tx ∈ st.sent ∨
          tx.nonce ∈ (RelaylinkClient.sendItems keccak chainId env account items st).2.issued)
      := by
  induction items with
  | nil =>
    intro st
    exact ⟨fun x hx => hx, fun tx htx => Or.inl htx⟩
  | cons item rest ih =>
    intro st
    rw [sendItems_cons]
    have hmono := sendItem_issued_mono keccak chainId env account item st
    rcases sendItem_outcome keccak chainId env account item st with
      ⟨e, h1, h2, -⟩ | ⟨data, nonce, hash, h1, hd, hs, hse, h2, h3, h4, h5, h6⟩
    · cases hres : RelaylinkClient.sendItem keccak chainId env account item st with
      | mk e2 st2 =>
        rw [hres] at h1 h2 hmono
        dsimp only at h1 h2 hmono
        subst h1
        dsimp only
        exact ⟨hmono, fun tx htx => Or.inl (h2 ▸ htx)⟩
    · cases hres : RelaylinkClient.sendItem keccak chainId env account item st with
      | mk e2 st2 =>
        rw [hres] at h1 h2 h3 hmono
        dsimp only at h1 h2 h3 hmono
        subst h1
        dsimp only
        obtain ⟨i1, i2⟩ := ih st2
        refine ⟨fun x hx => i1 x (hmono x hx), fun tx htx => ?_⟩
        rcases i2 tx htx with h | h
        · rw [h2] at h
          rcases List.mem_append.1 h with h | h
          · exact Or.inl h
          · have : tx = RelaylinkClient.buildTx chainId item data nonce := by simpa using h
            right
            apply i1
            rw [h3, this]
            exact List.mem_append_right _ (List.mem_singleton_self _)
        · exact Or.inr h

/-- A call of `SendSwapTransaction` that passes both balance checks is the submission loop
over the items of all steps, from the empty record. -/
theorem SendSwapTransaction_pass (keccak : Keccak) (chainId : Nat) (env : SwapEnv)
    (t : NonceTable) (q : QuoteResponse) (account : Address) (ethBal tokenBal : Int)
    (ha : env.getAddress = .ok account) (hb : env.getBalance = .ok ethBal)
    (ht : env.getTokenBalance q.currencyInAddress = .ok tokenBal)
    (hgas : q.gasAmount < ethBal) (hin : q.currencyInAmount ≤ tokenBal) :
    (RelaylinkClient.SendSwapTransaction keccak chainId env t q).err
        = (RelaylinkClient.sendItems keccak chainId env account
            (q.steps.flatMap fun step => step.items) ⟨t, 0, [], [], [], 0⟩).1 ∧
      (RelaylinkClient.SendSwapTransaction keccak chainId env t q).state
        = (RelaylinkClient.sendItems keccak chainId env account
            (q.steps.flatMap fun step => step.items) ⟨t, 0, [], [], [], 0⟩).2 ∧
      ((RelaylinkClient.SendSwapTransaction keccak chainId env t q).err = none →
        (RelaylinkClient.SendSwapTransaction keccak chainId env t q).hash
            = (RelaylinkClient.SendSwapTransaction keccak chainId env t q).state.lastTxHash ∧
          (RelaylinkClient.SendSwapTransaction keccak chainId env t q).nonce
            = (RelaylinkClient.SendSwapTransaction keccak chainId env t q).state.lastTxNonce) ∧
      (∀ e, (RelaylinkClient.SendSwapTransaction keccak chainId env t q).err = some e →
        (RelaylinkClient.SendSwapTransaction keccak chainId env t q).hash = [] ∧
          (RelaylinkClient.SendSwapTransaction keccak chainId env t q).nonce = 0) := by
  unfold RelaylinkClient.SendSwapTransaction
  simp only [ha, hb, ht, bigCmp_le_zero, bigCmp_lt_zero]
  rw [if_neg (by omega), if_neg (by omega), sendSteps_flat]
  cases hs : RelaylinkClient.sendItems keccak chainId env account
      (q.steps.flatMap fun step => step.items) ⟨t, 0, [], [], [], 0⟩ with
  | mk e st =>
    cases e with
    | some err =>
      exact ⟨rfl, rfl, fun h => Option.noConfusion h, fun _ _ => ⟨rfl, rfl⟩⟩
    | none =>
      exact ⟨rfl, rfl, fun _ => ⟨rfl, rfl⟩, fun _ h => Option.noConfusion h⟩

/-- A call of `SendSwapTransaction` that returns no error passed the balance checks and ran
the submission loop to its end. -/
theorem SendSwapTransaction_ok (keccak : Keccak) (chainId : Nat) (env : SwapEnv)
    (t : NonceTable) (q : QuoteResponse)
    (h : (RelaylinkClient.SendSwapTransaction keccak chainId env t q).err = none) :
    ∃ account ethBal tokenBal,
      env.getAddress = .ok account ∧ env.getBalance = .ok ethBal ∧
      env.getTokenBalance q.currencyInAddress = .ok tokenBal ∧
      q.gasAmount < ethBal ∧ q.currencyInAmount ≤ tokenBal := by
  unfold RelaylinkClient.SendSwapTransaction at h
  cases ha : env.getAddress with
  | error e =>
    rw [ha] at h
    exact Option.noConfusion h
  | ok account =>
    cases hb : env.getBalance with
    | error e =>
      rw [ha, hb] at h
      exact Option.noConfusion h
    | ok ethBal =>
      rw [ha, hb] at h
      dsimp only at h
      by_cases hg : bigCmp ethBal q.gasAmount ≤ 0
      · rw [if_pos hg] at h
        exact Option.noConfusion h
      · rw [if_neg hg] at h
        cases ht : env.getTokenBalance q.currencyInAddress with
        | error e =>
          rw [ht] at h
          exact Option.noConfusion h
        | ok tokenBal =>
          rw [ht] at h
          dsimp only at h
          by_cases hi : bigCmp tokenBal q.currencyInAmount < 0
          · rw [if_pos hi] at h
            exact Option.noConfusion h
          · rw [bigCmp_le_zero] at hg
            rw [bigCmp_lt_zero] at hi
            exact ⟨account, ethBal, tokenBal, rfl, rfl, rfl, by omega, by omega⟩

theorem forall₂_and_right {α β : Type} (R : α → β → Prop) (P : β → Prop) :
    ∀ (l1 : List α) (l2 : List β), List.Forall₂ R l1 l2 → (∀ b ∈ l2, P b) →
      List.Forall₂ (fun a b => R a b ∧ P b) l1 l2
  | _, _, .nil, _ => .nil
  | _, _, .cons h t, hp =>
    .cons ⟨h, hp _ (List.mem_cons_self _ _)⟩
      (forall₂_and_right R P _ _ t fun b hb => hp b (List.mem_cons_of_mem _ hb))

theorem forall₂_exists_left {α β : Type} (R : α → β → Prop) :
    ∀ (l1 : List α) (l2 : List β), List.Forall₂ R l1 l2 → ∀ b ∈ l2, ∃ a ∈ l1, R a b
  | _, _, .nil, b, hb => absurd hb (List.not_mem_nil _)
  | _, _, .cons (a := a) h t, b, hb => by
    rcases List.mem_cons.1 hb with hb | hb
    · exact ⟨a, List.mem_cons_self _ _, hb ▸ h⟩
    · obtain ⟨a2, ha2, hr⟩ := forall₂_exists_left R _ _ t b hb
      exact ⟨a2, List.mem_cons_of_mem _ ha2, hr⟩

/-- C21 (amended): submission order. When the address and the balances are obtained and the
balance checks pass, the transactions sent are, in order, those of the first items of the
quote in step order and then item order: each carries the item's fee cap, priority fee,
destination, value and decoded call data, the item's gas amount reduced to 64 bits (the gas
amount itself when it is a `uint64`), and a nonce handed out by the coordinator; at most one
`Request` is made beyond the transactions sent. When no error is returned every item was
sent with one `Request` each, and the hash and nonce returned are those of the last item's
transaction. When an error is returned, hash and nonce are empty and zero, and the items
after the failing one were neither requested nor sent. -/
theorem SendSwapTransaction_order (keccak : Keccak) (chainId : Nat) (env : SwapEnv)
    (t : NonceTable) (q : QuoteResponse) (account : Address) (ethBal tokenBal : Int)
    (ha : env.getAddress = .ok account) (hb : env.getBalance = .ok ethBal)
    (ht : env.getTokenBalance q.currencyInAddress = .ok tokenBal)
    (hgas : q.gasAmount < ethBal) (hin : q.currencyInAmount ≤ tokenBal) :
    List.Forall₂
        (fun item tx =>
          hexutilDecode item.evmData = .ok tx.data ∧
          tx.gasFeeCap = item.evmMaxFeePerGas ∧
          tx.gasTipCap = item.evmMaxPriorityFeePerGas ∧
          tx.gas = item.evmGas.natAbs % 2 ^ 64 ∧
          (0 ≤ item.evmGas → item.evmGas < 2 ^ 64 → (tx.gas : Int) = item.evmGas) ∧
          tx.toAddr = item.evmTo ∧ tx.value = item.evmValue ∧
          tx.nonce ∈ (RelaylinkClient.SendSwapTransaction keccak chainId env t q).state.issued ∧
          env.sendTransaction tx = none)
        ((q.steps.flatMap fun step => step.items).take
          (RelaylinkClient.SendSwapTransaction keccak chainId env t q).state.sent.length)
        (RelaylinkClient.SendSwapTransaction keccak chainId env t q).state.sent ∧
      (RelaylinkClient.SendSwapTransaction keccak chainId env t q).state.sent.length
        ≤ (RelaylinkClient.SendSwapTransaction keccak chainId env t q).state.requests ∧
      (RelaylinkClient.SendSwapTransaction keccak chainId env t q).state.requests
        ≤ (RelaylinkClient.SendSwapTransaction keccak chainId env t q).state.sent.length + 1 ∧
      ((RelaylinkClient.SendSwapTransaction keccak chainId env t q).err = none →
        (RelaylinkClient.SendSwapTransaction keccak chainId env t q).state.sent.length
          = (q.steps.flatMap fun step => step.items).length ∧
        (RelaylinkClient.SendSwapTransaction keccak chainId env t q).state.requests
          = (q.steps.flatMap fun step => step.items).length ∧
        (RelaylinkClient.SendSwapTransaction keccak chainId env t q).state.issued
          = (RelaylinkClient.SendSwapTransaction keccak chainId env t q).state.sent.map
              (fun tx => tx.nonce) ∧
        ((q.steps.flatMap fun step => step.items) ≠ [] →
          ∃ tx,
            (RelaylinkClient.SendSwapTransaction keccak chainId env t q).state.sent.getLast?
              = some tx ∧
            (RelaylinkClient.SendSwapTransaction keccak chainId env t q).nonce = tx.nonce ∧
            env.signTx tx
              = .ok (RelaylinkClient.SendSwapTransaction keccak chainId env t q).hash)) ∧
      (∀ e, (RelaylinkClient.SendSwapTransaction keccak chainId env t q).err = some e →
        (RelaylinkClient.SendSwapTransaction keccak chainId env t q).hash = [] ∧
        (RelaylinkClient.SendSwapTransaction keccak chainId env t q).nonce = 0 ∧
        (RelaylinkClient.SendSwapTransaction keccak chainId env t q).state.sent.length
          < (q.steps.flatMap fun step => step.items).length) := by
  obtain ⟨p1, p2, p3, p4⟩ :=
    SendSwapTransaction_pass keccak chainId env t q account ethBal tokenBal ha hb ht hgas hin
  obtain ⟨txs, s1, s2, s3, s4, s5, s6, s7⟩ :=
    sendItems_spec keccak chainId env account (q.steps.flatMap fun step => step.items)
      ⟨t, 0, [], [], [], 0⟩
  obtain ⟨-, m2⟩ :=
    sendItems_sent_issued keccak chainId env account (q.steps.flatMap fun step => step.items)
      ⟨t, 0, [], [], [], 0⟩
  have hlast := sendItems_last keccak chainId env account
    (q.steps.flatMap fun step => step.items) ⟨t, 0, [], [], [], 0⟩
  rw [← p1] at s6 s7 hlast
  rw [← p2] at s1 s4 s5 s6 m2 hlast
  dsimp only at s1 s4 s5 s6 m2
  rw [List.nil_append] at s1 s6
  rw [Nat.zero_add] at s4 s5 s6
  rw [← s1] at s2 s3 s4 s5 s6 s7
  refine ⟨?_, s4, s5, fun h => ⟨(s6 h).1, (s6 h).2.1, (s6 h).2.2, fun hne => ?_⟩,
    fun e h => ⟨(p4 e h).1, (p4 e h).2, s7 e h⟩⟩
  · have hmem : ∀ tx ∈ (RelaylinkClient.SendSwapTransaction keccak chainId env t q).state.sent,
        tx.nonce ∈ (RelaylinkClient.SendSwapTransaction keccak chainId env t q).state.issued := by
      intro tx htx
      rcases m2 tx htx with h | h
      · exact absurd h (List.not_mem_nil _)
      · exact h
    refine (forall₂_and_right _ _ _ _ s2 hmem).imp ?_
    intro item tx hrel
    obtain ⟨⟨data, hd, htx, -, hse⟩, hiss⟩ := hrel
    have hdata : tx.data = data := by rw [htx]; rfl
    have hg : tx.gas = item.evmGas.natAbs % 2 ^ 64 := by rw [htx]; rfl
    refine ⟨by rw [hdata]; exact hd, by rw [htx]; rfl, by rw [htx]; rfl, hg,
      ?_, by rw [htx]; rfl, by rw [htx]; rfl, hiss, hse⟩
    intro h0 h64
    rw [hg]
    have hlt : item.evmGas.natAbs < 2 ^ 64 := by omega
    rw [Nat.mod_eq_of_lt hlt]
    omega
  · rcases hlast h with ⟨hnil, -⟩ | ⟨tx, l1, l2, l3⟩
    · exact absurd hnil hne
    · exact ⟨tx, l1, by rw [(p3 h).2]; exact l2, by rw [(p3 h).1]; exact l3⟩

theorem SendSwapTransaction_order_witness :
    (RelaylinkClient.SendSwapTransaction sampleKeccak 1 (sampleSwapEnv 30000 100) []
        sampleQuote).state.sent
      = [RelaylinkClient.buildTx 1 (approveItem 100) (packApprove sampleStable 100) 5,
          RelaylinkClient.buildTx 1 swapItem [1, 2, 3, 4] 6] ∧
    (RelaylinkClient.SendSwapTransaction sampleKeccak 1 (sampleSwapEnv 30000 100) []
        sampleQuote).state.requests = 2 ∧
    (RelaylinkClient.SendSwapTransaction sampleKeccak 1 (sampleSwapEnv 30000 100) []
        sampleQuote).nonce = 6 ∧
    (RelaylinkClient.SendSwapTransaction sampleKeccak 1 (sampleSwapEnv 30000 100) []
        sampleQuote).hash = ("0x06").toList ∧
    ((RelaylinkClient.SendSwapTransaction sampleKeccak 1 (sampleSwapEnv 30000 100) []
        sampleQuote).err = none →
      (RelaylinkClient.SendSwapTransaction sampleKeccak 1 (sampleSwapEnv 30000 100) []
          sampleQuote).state.sent.length
        = (sampleQuote.steps.flatMap fun step => step.items).length ∧
      (RelaylinkClient.SendSwapTransaction sampleKeccak 1 (sampleSwapEnv 30000 100) []
          sampleQuote).state.requests
        = (sampleQuote.steps.flatMap fun step => step.items).length ∧
      (RelaylinkClient.SendSwapTransaction sampleKeccak 1 (sampleSwapEnv 30000 100) []
          sampleQuote).state.issued
        = (RelaylinkClient.SendSwapTransaction sampleKeccak 1 (sampleSwapEnv 30000 100) []
            sampleQuote).state.sent.map (fun tx => tx.nonce) ∧
      ((sampleQuote.steps.flatMap fun step => step.items) ≠ [] →
        ∃ tx,
          (RelaylinkClient.SendSwapTransaction sampleKeccak 1 (sampleSwapEnv 30000 100) []
              sampleQuote).state.sent.getLast? = some tx ∧
          (RelaylinkClient.SendSwapTransaction sampleKeccak 1 (sampleSwapEnv 30000 100) []
              sampleQuote).nonce = tx.nonce ∧
          (sampleSwapEnv 30000 100).signTx tx
            = .ok (RelaylinkClient.SendSwapTransaction sampleKeccak 1 (sampleSwapEnv 30000 100)
                [] sampleQuote).hash)) :=
  ⟨by decide, by decide, by decide, by decide,
    (SendSwapTransaction_order sampleKeccak 1 (sampleSwapEnv 30000 100) [] sampleQuote
      sampleAccount 30000 100 rfl rfl rfl (by decide) (by decide)).2.2.2.1⟩

/-- C21 (counterexample): the only item of the quote declares the gas amount
`2 ^ 64 + 21000`; the call succeeds and the transaction sent carries the gas limit 21000,
which is not the item's. -/
theorem SendSwapTransaction_gas_wraps :
    (bigGasQuote.steps.flatMap fun step => step.items).map (fun item => item.evmGas)
      = [18446744073709551616 + 21000] ∧
    (RelaylinkClient.SendSwapTransaction sampleKeccak 1 (sampleSwapEnv 30000 100) []
      bigGasQuote).err = none ∧
    (RelaylinkClient.SendSwapTransaction sampleKeccak 1 (sampleSwapEnv 30000 100) []
      bigGasQuote).state.sent.map (fun tx => tx.gas) = [21000] := by
  decide

/-- C28 (for a quote with at least one item): when `SendSwapTransaction` returns no error and
the quote has an item, the returned nonce and hash are those of a transaction that was
accepted by `SendTransaction` during the call, under a nonce handed out by the coordinator:
the transaction of the last item. -/
theorem SendSwapTransaction_returns_submitted (keccak : Keccak) (chainId : Nat) (env : SwapEnv)
    (t : NonceTable) (q : QuoteResponse)
    (hok : (RelaylinkClient.SendSwapTransaction keccak chainId env t q).err = none)
    (hne : (q.steps.flatMap fun step => step.items) ≠ []) :
    ∃ tx, tx ∈ (RelaylinkClient.SendSwapTransaction keccak chainId env t q).state.sent ∧
      (RelaylinkClient.SendSwapTransaction keccak chainId env t q).nonce = tx.nonce ∧
      env.signTx tx = .ok (RelaylinkClient.SendSwapTransaction keccak chainId env t q).hash ∧
      env.sendTransaction tx = none ∧
      tx.nonce ∈ (RelaylinkClient.SendSwapTransaction keccak chainId env t q).state.issued := by
  obtain ⟨account, ethBal, tokenBal, ha, hb, ht, hgas, hin⟩ :=
    SendSwapTransaction_ok keccak chainId env t q hok
  obtain ⟨p1, p2, p3, -⟩ :=
    SendSwapTransaction_pass keccak chainId env t q account ethBal tokenBal ha hb ht hgas hin
  obtain ⟨txs, s1, s2, -, -, -, s6, -⟩ :=
    sendItems_spec keccak chainId env account (q.steps.flatMap fun step => step.items)
      ⟨t, 0, [], [], [], 0⟩
  obtain ⟨-, m2⟩ :=
    sendItems_sent_issued keccak chainId env account (q.steps.flatMap fun step => step.items)
      ⟨t, 0, [], [], [], 0⟩
  have hlast := sendItems_last keccak chainId env account
    (q.steps.flatMap fun step => step.items) ⟨t, 0, [], [], [], 0⟩
  rw [← p1] at hlast
  rw [← p2] at s1 m2 hlast
  dsimp only at s1 m2
  rw [List.nil_append] at s1
  rcases hlast hok with ⟨hnil, -⟩ | ⟨tx, l1, l2, l3⟩
  · exact absurd hnil hne
  · have hmem : tx ∈ (RelaylinkClient.SendSwapTransaction keccak chainId env t q).state.sent :=
      List.mem_of_getLast?_eq_some l1
    have hsend : env.sendTransaction tx = none := by
      obtain ⟨item, -, data, -, -, -, hse⟩ := forall₂_exists_left _ _ _ s2 tx (s1 ▸ hmem)
      exact hse
    refine ⟨tx, hmem, by rw [(p3 hok).2]; exact l2, by rw [(p3 hok).1]; exact l3, hsend, ?_⟩
    rcases m2 tx hmem with h | h
    · exact absurd h (List.not_mem_nil _)
    · exact h

theorem SendSwapTransaction_returns_submitted_witness :
    ∃ tx,
      tx ∈ (RelaylinkClient.SendSwapTransaction sampleKeccak 1 (sampleSwapEnv 30000 100) []
        sampleQuote).state.sent ∧
      (RelaylinkClient.SendSwapTransaction sampleKeccak 1 (sampleSwapEnv 30000 100) []
        sampleQuote).nonce = tx.nonce ∧
      (sampleSwapEnv 30000 100).signTx tx
        = .ok (RelaylinkClient.SendSwapTransaction sampleKeccak 1 (sampleSwapEnv 30000 100) []
            sampleQuote).hash ∧
      (sampleSwapEnv 30000 100).sendTransaction tx = none ∧
      tx.nonce ∈ (RelaylinkClient.SendSwapTransaction sampleKeccak 1 (sampleSwapEnv 30000 100)
        [] sampleQuote).state.issued :=
  SendSwapTransaction_returns_submitted sampleKeccak 1 (sampleSwapEnv 30000 100) [] sampleQuote
    (by decide) (by decide)

/-- C28 (counterexample): for a quote without steps and sufficient balances,
`SendSwapTransaction` returns no error, the empty hash and the nonce 0, having made no
`Request` and sent no transaction. -/
theorem SendSwapTransaction_empty_quote :
    emptyQuote.steps = [] ∧
    (RelaylinkClient.SendSwapTransaction sampleKeccak 1 (sampleSwapEnv 30000 100) []
      emptyQuote).err = none ∧
    (RelaylinkClient.SendSwapTransaction sampleKeccak 1 (sampleSwapEnv 30000 100) []
      emptyQuote).hash = [] ∧
    (RelaylinkClient.SendSwapTransaction sampleKeccak 1 (sampleSwapEnv 30000 100) []
      emptyQuote).nonce = 0 ∧
    (RelaylinkClient.SendSwapTransaction sampleKeccak 1 (sampleSwapEnv 30000 100) []
      emptyQuote).state.requests = 0 ∧
    (RelaylinkClient.SendSwapTransaction sampleKeccak 1 (sampleSwapEnv 30000 100) []
      emptyQuote).state.sent = [] := by
  decide

/-! ### Quotes: the infinite-approval rewrite -/

theorem Decode_spender (keccak : Keccak) (data : List Byte) (spender : List Char) (a : Int)
    (h : DecodeERC20ApproveInput keccak data = .ok (spender, a)) :
    ∃ addr : Address, spender = addr.Hex keccak := by
  unfold DecodeERC20ApproveInput at h
  split at h
  · exact Except.noConfusion h
  · split at h
    · exact Except.noConfusion h
    · split at h
      · exact Except.noConfusion h
      · split at h
        · split at h
          · split at h
            · rename_i spenderAddr _ _ _
              have := Except.ok.inj h
              exact ⟨spenderAddr, (congrArg Prod.fst this).symm⟩
            · exact Except.noConfusion h
          · exact Except.noConfusion h
        · exact Except.noConfusion h

theorem MaxUint256_word : MaxUint256 % 2 ^ 256 = MaxUint256 := by
  unfold MaxUint256
  exact Int.emod_eq_of_lt (by norm_num) (by norm_num)

/-- What the rewrite does to one item of an `approve` step: it fails when the call data is
not a hex string; it leaves the item as it is when the data does not decode as an
`approve`; otherwise it replaces the data by the encoding of `approve(spender, 2^256 - 1)`
for the same spender. -/
theorem rewriteItem_spec (keccak : Keccak) (item : EvmData) :
    (∀ e, hexutilDecode item.evmData = .error e →
      RelaylinkClient.rewriteItem keccak item = .error e) ∧
    (∀ data, hexutilDecode item.evmData = .ok data →
      (∀ e, DecodeERC20ApproveInput keccak data = .error e →
        RelaylinkClient.rewriteItem keccak item = .ok item) ∧
      (∀ spender a, DecodeERC20ApproveInput keccak data = .ok (spender, a) →
        RelaylinkClient.rewriteItem keccak item
          = .ok { item with
              evmData := hexutilEncode (packApprove (HexToAddress spender) MaxUint256) } ∧
        DecodeERC20ApproveInput keccak (packApprove (HexToAddress spender) MaxUint256)
          = .ok (spender, MaxUint256))) := by
  refine ⟨fun e he => ?_, fun data hd => ⟨fun e he => ?_, fun spender a hs => ?_⟩⟩
  · unfold RelaylinkClient.rewriteItem
    rw [he]
  · unfold RelaylinkClient.rewriteItem
    rw [hd]
    dsimp only
    rw [he]
  · obtain ⟨addr, rfl⟩ := Decode_spender keccak data spender a hs
    unfold RelaylinkClient.rewriteItem
    rw [hd]
    dsimp only
    rw [hs]
    dsimp only
    rw [Encode_Hex, HexToAddress_Hex, Decode_packApprove, MaxUint256_word]
    exact ⟨rfl, rfl⟩

theorem rewriteItems_spec (keccak : Keccak) (items : List EvmData) :
    (∀ items2, RelaylinkClient.rewriteItems keccak items = .ok items2 →
      List.Forall₂ (fun item item2 => RelaylinkClient.rewriteItem keccak item = .ok item2)
        items items2) ∧
    (∀ e, RelaylinkClient.rewriteItems keccak items = .error e →
      ∃ item ∈ items, hexutilDecode item.evmData = .error e) ∧
    ((∀ item ∈ items, ∃ data, hexutilDecode item.evmData = .ok data) →
      ∃ items2, RelaylinkClient.rewriteItems keccak items = .ok items2) := by
  induction items with
  | nil =>
    refine ⟨fun items2 h => ?_, fun e h => ?_, fun _ => ⟨[], rfl⟩⟩
    · have := Except.ok.inj h
      rw [← this]
      exact List.Forall₂.nil
    · exact Except.noConfusion h
  | cons item rest ih =>
    obtain ⟨ih1, ih2, ih3⟩ := ih
    have hstep : RelaylinkClient.rewriteItems keccak (item :: rest)
        = match RelaylinkClient.rewriteItem keccak item with
          | .error err => .error err
          | .ok item2 =>
            match RelaylinkClient.rewriteItems keccak rest with
            | .error err => .error err
            | .ok rest2 => .ok (item2 :: rest2) := rfl
    rw [hstep]
    have hitem_err : ∀ e, RelaylinkClient.rewriteItem keccak item = .error e →
        hexutilDecode item.evmData = .error e := by
      intro e he
      cases hd : hexutilDecode item.evmData with
      | error e2 =>
        rw [(rewriteItem_spec keccak item).1 e2 hd] at he
        rw [Except.error.inj he]
      | ok data =>
        cases hdec : DecodeERC20ApproveInput keccak data with
        | error e2 =>
          rw [((rewriteItem_spec keccak item).2 data hd).1 e2 hdec] at he
          exact Except.noConfusion he
        | ok p =>
          obtain ⟨spender, a⟩ := p
          rw [(((rewriteItem_spec keccak item).2 data hd).2 spender a hdec).1] at he
          exact Except.noConfusion he
    cases hi : RelaylinkClient.rewriteItem keccak item with
    | error e =>
      refine ⟨fun items2 h => Except.noConfusion h, fun e2 h => ?_, fun hall => ?_⟩
      · have : e = e2 := Except.error.inj h
        exact ⟨item, List.mem_cons_self _ _, this ▸ hitem_err e hi⟩
      · obtain ⟨data, hd⟩ := hall item (List.mem_cons_self _ _)
        rw [hitem_err e hi] at hd
        exact Except.noConfusion hd
    | ok item2 =>
      dsimp only
      cases hr : RelaylinkClient.rewriteItems keccak rest with
      | error e =>
        refine ⟨fun items2 h => Except.noConfusion h, fun e2 h => ?_, fun hall => ?_⟩
        · have : e = e2 := Except.error.inj h
          obtain ⟨x, hx, hxe⟩ := ih2 e hr
          exact ⟨x, List.mem_cons_of_mem _ hx, this ▸ hxe⟩
        · obtain ⟨items2, h2⟩ := ih3 fun x hx => hall x (List.mem_cons_of_mem _ hx)
          rw [hr] at h2
          exact Except.noConfusion h2
      | ok rest2 =>
        refine ⟨fun items2 h => ?_, fun e h => Except.noConfusion h, fun _ => ⟨_, rfl⟩⟩
        have := Except.ok.inj h
        rw [← this]
        exact List.Forall₂.cons hi (ih1 rest2 hr)

theorem forall₂_exists_right_of_left {α β : Type} (R : α → β → Prop) :
    ∀ (l1 : List α) (l2 : List β), List.Forall₂ R l1 l2 → ∀ a ∈ l1, ∃ b ∈ l2, R a b
  | _, _, .nil, a, ha => absurd ha (List.not_mem_nil _)
  | _, _, .cons (b := b) h t, a, ha => by
    rcases List.mem_cons.1 ha with ha | ha
    · exact ⟨b, List.mem_cons_self _ _, ha ▸ h⟩
    · obtain ⟨b2, hb2, hr⟩ := forall₂_exists_right_of_left R _ _ t a ha
      exact ⟨b2, List.mem_cons_of_mem _ hb2, hr⟩

theorem rewriteSteps_spec (keccak : Keccak) (steps : List QuoteStep) :
    (∀ steps2, RelaylinkClient.rewriteSteps keccak steps = .ok steps2 →
      List.Forall₂
        (fun step step2 =>
          step2.id = step.id ∧
          (step.id ≠ ("approve").toList → step2.items = step.items) ∧
          (step.id = ("approve").toList →
            List.Forall₂ (fun item item2 => RelaylinkClient.rewriteItem keccak item = .ok item2)
              step.items step2.items))
        steps steps2) ∧
    (∀ e, RelaylinkClient.rewriteSteps keccak steps = .error e →
      ∃ step ∈ steps, step.id = ("approve").toList ∧
        ∃ item ∈ step.items, hexutilDecode item.evmData = .error e) ∧
    ((∀ step ∈ steps, step.id = ("approve").toList →
        ∀ item ∈ step.items, ∃ data, hexutilDecode item.evmData = .ok data) →
      ∃ steps2, RelaylinkClient.rewriteSteps keccak steps = .ok steps2) := by
  induction steps with
  | nil =>
    refine ⟨fun steps2 h => ?_, fun e h => Except.noConfusion h, fun _ => ⟨[], rfl⟩⟩
    have := Except.ok.inj h
    rw [← this]
    exact List.Forall₂.nil
  | cons step rest ih =>
    obtain ⟨ih1, ih2, ih3⟩ := ih
    have hstep : RelaylinkClient.rewriteSteps keccak (step :: rest)
        = match
            (if step.id ≠ ("approve").toList then .ok step.items
              else RelaylinkClient.rewriteItems keccak step.items) with
          | .error err => .error err
          | .ok items =>
            match RelaylinkClient.rewriteSteps keccak rest with
            | .error err => .error err
            | .ok rest2 => .ok ({ step with items := items } :: rest2) := rfl
    rw [hstep]
    obtain ⟨r1, r2, r3⟩ := rewriteItems_spec keccak step.items
    by_cases hid : step.id = ("approve").toList
    · rw [if_neg (not_not.2 hid)]
      cases hi : RelaylinkClient.rewriteItems keccak step.items with
      | error e =>
        refine ⟨fun steps2 h => Except.noConfusion h, fun e2 h => ?_, fun hall => ?_⟩
        · have : e = e2 := Except.error.inj h
          obtain ⟨x, hx, hxe⟩ := r2 e hi
          exact ⟨step, List.mem_cons_self _ _, hid, x, hx, this ▸ hxe⟩
        · obtain ⟨items2, h2⟩ := r3 (hall step (List.mem_cons_self _ _) hid)
          rw [hi] at h2
          exact Except.noConfusion h2
      | ok items2 =>
        dsimp only
        cases hr : RelaylinkClient.rewriteSteps keccak rest with
        | error e =>
          refine ⟨fun steps2 h => Except.noConfusion h, fun e2 h => ?_, fun hall => ?_⟩
          · have : e = e2 := Except.error.inj h
            obtain ⟨s, hs, hsid, x, hx, hxe⟩ := ih2 e hr
            exact ⟨s, List.mem_cons_of_mem _ hs, hsid, x, hx, this ▸ hxe⟩
          · obtain ⟨steps2, h2⟩ := ih3 fun s hs => hall s (List.mem_cons_of_mem _ hs)
            rw [hr] at h2
            exact Except.noConfusion h2
        | ok rest2 =>
          refine ⟨fun steps2 h => ?_, fun e h => Except.noConfusion h, fun _ => ⟨_, rfl⟩⟩
          have := Except.ok.inj h
          rw [← this]
          exact List.Forall₂.cons ⟨rfl, fun hne => absurd hid hne, fun _ => r1 items2 hi⟩
            (ih1 rest2 hr)
    · rw [if_pos hid]
      dsimp only
      cases hr : RelaylinkClient.rewriteSteps keccak rest with
      | error e =>
        refine ⟨fun steps2 h => Except.noConfusion h, fun e2 h => ?_, fun hall => ?_⟩
        · have : e = e2 := Except.error.inj h
          obtain ⟨s, hs, hsid, x, hx, hxe⟩ := ih2 e hr
          exact ⟨s, List.mem_cons_of_mem _ hs, hsid, x, hx, this ▸ hxe⟩
        · obtain ⟨steps2, h2⟩ := ih3 fun s hs => hall s (List.mem_cons_of_mem _ hs)
          rw [hr] at h2
          exact Except.noConfusion h2
      | ok rest2 =>
        refine ⟨fun steps2 h => ?_, fun e h => Except.noConfusion h, fun _ => ⟨_, rfl⟩⟩
        have := Except.ok.inj h
        rw [← this]
        exact List.Forall₂.cons ⟨rfl, fun _ => rfl, fun h => absurd h hid⟩ (ih1 rest2 hr)

/-- C22 (amended): infinite-approval rewrite. For a response the aggregator returned: when
`enableInfiniteApproval` is not set, `Quote` returns the response as it is; when it is set
and the call data of every item of every step with ID `approve` is a hex string, `Quote`
returns the response with the same fields and the same steps, in which an item of an
`approve` step whose call data decodes as `approve(spender, a)` carries the encoding of
`approve(spender, 2^256 - 1)` for the same spender, and every other item is unchanged; when
it is set and such a call data is not a hex string, `Quote` returns the decoding error
instead of the response. -/
theorem Quote_infinite_approval (keccak : Keccak) (env : QuoteEnv)
    (chainsCache cache2 : Option (List Chain)) (chainId : Int)
    (user inputToken outputToken : List Char) (amount slippageBps : Int) (chain : Chain)
    (response : QuoteResponse)
    (hchain : RelaylinkClient.GetChainsByID env chainsCache chainId = (some chain, cache2))
    (hfetch : env.fetch
        { user := user, originChainId := chain.id, destinationChainId := chain.id,
          originCurrency := inputToken, destinationCurrency := outputToken,
          amount := bigString amount, tradeType := ("EXACT_INPUT").toList,
          slippageTolerance := slippageBps } = .ok response) :
    (RelaylinkClient.Quote keccak env chainsCache chainId user inputToken outputToken amount
        slippageBps false).result = .ok response ∧
    ((∀ step ∈ response.steps, step.id = ("approve").toList →
        ∀ item ∈ step.items, ∃ data, hexutilDecode item.evmData = .ok data) →
      ∃ steps2,
        (RelaylinkClient.Quote keccak env chainsCache chainId user inputToken outputToken amount
          slippageBps true).result = .ok { response with steps := steps2 } ∧
        List.Forall₂
          (fun step step2 =>
            step2.id = step.id ∧
            (step.id ≠ ("approve").toList → step2.items = step.items) ∧
            (step.id = ("approve").toList →
              List.Forall₂
                (fun item item2 =>
                  ∃ data, hexutilDecode item.evmData = .ok data ∧
                    (∀ e, DecodeERC20ApproveInput keccak data = .error e → item2 = item) ∧
                    (∀ spender a, DecodeERC20ApproveInput keccak data = .ok (spender, a) →
                      item2 = { item with
                        evmData :=
                          hexutilEncode (packApprove (HexToAddress spender) (2 ^ 256 - 1)) } ∧
                      DecodeERC20ApproveInput keccak
                          (packApprove (HexToAddress spender) (2 ^ 256 - 1))
                        = .ok (spender, 2 ^ 256 - 1)))
                step.items step2.items))
          response.steps steps2) ∧
    (∀ step ∈ response.steps, step.id = ("approve").toList →
      ∀ item ∈ step.items, ∀ e, hexutilDecode item.evmData = .error e →
        ∃ e2, (RelaylinkClient.Quote keccak env chainsCache chainId user inputToken outputToken
          amount slippageBps true).result = .error (.passed e2)) := by
  obtain ⟨s1, s2, s3⟩ := rewriteSteps_spec keccak response.steps
  refine ⟨?_, fun hall => ?_, fun step hstep hid item hitem e he => ?_⟩
  · unfold RelaylinkClient.Quote
    rw [hchain]
    dsimp only
    rw [hfetch]
    rfl
  · obtain ⟨steps2, h2⟩ := s3 hall
    refine ⟨steps2, ?_, ?_⟩
    · unfold RelaylinkClient.Quote
      rw [hchain]
      dsimp only
      rw [hfetch]
      dsimp only
      rw [if_pos rfl, h2]
    · refine (s1 steps2 h2).imp ?_
      intro step step2 ⟨r1, r2, r3⟩
      refine ⟨r1, r2, fun hid => (r3 hid).imp ?_⟩
      intro item item2 hrw
      cases hd : hexutilDecode item.evmData with
      | error e =>
        rw [(rewriteItem_spec keccak item).1 e hd] at hrw
        exact Except.noConfusion hrw
      | ok data =>
        obtain ⟨q1, q2⟩ := (rewriteItem_spec keccak item).2 data hd
        refine ⟨data, rfl, fun e he => ?_, fun spender a hs => ?_⟩
        · rw [q1 e he] at hrw
          exact (Except.ok.inj hrw).symm
        · obtain ⟨q3, q4⟩ := q2 spender a hs
          rw [q3] at hrw
          exact ⟨(Except.ok.inj hrw).symm, q4⟩
  · cases hr : RelaylinkClient.rewriteSteps keccak response.steps with
    | error e2 =>
      refine ⟨e2, ?_⟩
      unfold RelaylinkClient.Quote
      rw [hchain]
      dsimp only
      rw [hfetch]
      dsimp only
      rw [if_pos rfl, hr]
    | ok steps2 =>
      exfalso
      obtain ⟨step2, -, hrel⟩ := forall₂_exists_right_of_left _ _ _ (s1 steps2 hr) step hstep
      obtain ⟨item2, -, hrw⟩ :=
        forall₂_exists_right_of_left _ _ _ (hrel.2.2 hid) item hitem
      rw [(rewriteItem_spec keccak item).1 e he] at hrw
      exact Except.noConfusion hrw

theorem Quote_infinite_approval_witness :
    (RelaylinkClient.Quote sampleKeccak (sampleQuoteEnv sampleQuote) none 1
        (sampleAccount.Hex sampleKeccak) (sampleToken.Hex sampleKeccak)
        (sampleStable.Hex sampleKeccak) 100 50 false).result = .ok sampleQuote ∧
    ((RelaylinkClient.Quote sampleKeccak (sampleQuoteEnv sampleQuote) none 1
        (sampleAccount.Hex sampleKeccak) (sampleToken.Hex sampleKeccak)
        (sampleStable.Hex sampleKeccak) 100 50 true).result.toOption.map fun r => r.steps)
      = some [⟨("approve").toList, [approveItem (2 ^ 256 - 1)]⟩,
          ⟨("swap").toList, [swapItem]⟩] :=
  ⟨(Quote_infinite_approval sampleKeccak (sampleQuoteEnv sampleQuote) none (some [⟨1⟩]) 1
      (sampleAccount.Hex sampleKeccak) (sampleToken.Hex sampleKeccak)
      (sampleStable.Hex sampleKeccak) 100 50 ⟨1⟩ sampleQuote rfl rfl).1,
    by decide⟩

/-- C22 (counterexample): the response holds an `approve` step with an item whose call data
is not a hex string. With `enableInfiniteApproval` set, `Quote` returns an error and no
response; without it the same response is returned. -/
theorem Quote_rewrite_rejects :
    (RelaylinkClient.Quote sampleKeccak (sampleQuoteEnv badHexQuote) none 1
        (sampleAccount.Hex sampleKeccak) (sampleToken.Hex sampleKeccak)
        (sampleStable.Hex sampleKeccak) 100 50 true).result = .error (.passed (.other 21)) ∧
    (RelaylinkClient.Quote sampleKeccak (sampleQuoteEnv badHexQuote) none 1
        (sampleAccount.Hex sampleKeccak) (sampleToken.Hex sampleKeccak)
        (sampleStable.Hex sampleKeccak) 100 50 false).result = .ok badHexQuote :=
  ⟨rfl, rfl⟩

/-! ### Error propagation -/

/-- C25 (as the code behaves): when the chain list is not cached and fetching it fails with
an error `e`, `Quote` returns the error "unsupported chain", which is not `e`, and sends no
quote request. When the native balance query of `SendSwapTransaction` fails with `e`, or the
native check passes and the token balance query fails with `e`, the call returns `e` itself,
makes no `Request` and sends nothing. -/
theorem error_propagation (keccak : Keccak) (qenv : QuoteEnv) (chainId : Int)
    (user inputToken outputToken : List Char) (amount slippageBps : Int)
    (enableInfiniteApproval : Bool) (chainNo : Nat) (env : SwapEnv) (t : NonceTable)
    (q : QuoteResponse) (e : Err) :
    (qenv.getChains = .error e →
      (RelaylinkClient.Quote keccak qenv none chainId user inputToken outputToken amount
          slippageBps enableInfiniteApproval).result = .error .unsupportedChain ∧
        (RelaylinkClient.Quote keccak qenv none chainId user inputToken outputToken amount
          slippageBps enableInfiniteApproval).result ≠ .error (.passed e) ∧
        (RelaylinkClient.Quote keccak qenv none chainId user inputToken outputToken amount
          slippageBps enableInfiniteApproval).requests = []) ∧
    (∀ account, env.getAddress = .ok account → env.getBalance = .error e →
      (RelaylinkClient.SendSwapTransaction keccak chainNo env t q).err = some e ∧
        (RelaylinkClient.SendSwapTransaction keccak chainNo env t q).state.requests = 0 ∧
        (RelaylinkClient.SendSwapTransaction keccak chainNo env t q).state.sent = []) ∧
    (∀ account ethBal, env.getAddress = .ok account → env.getBalance = .ok ethBal →
      q.gasAmount < ethBal → env.getTokenBalance q.currencyInAddress = .error e →
      (RelaylinkClient.SendSwapTransaction keccak chainNo env t q).err = some e ∧
        (RelaylinkClient.SendSwapTransaction keccak chainNo env t q).state.requests = 0 ∧
        (RelaylinkClient.SendSwapTransaction keccak chainNo env t q).state.sent = []) := by
  refine ⟨fun h => ?_, fun account ha hb => ?_, fun account ethBal ha hb hgas ht => ?_⟩
  · have hq : RelaylinkClient.Quote keccak qenv none chainId user inputToken outputToken amount
        slippageBps enableInfiniteApproval = ⟨.error .unsupportedChain, none, []⟩ := by
      unfold RelaylinkClient.Quote RelaylinkClient.GetChainsByID
      rw [h]
    rw [hq]
    exact ⟨rfl, fun h2 => QuoteErr.noConfusion (Except.error.inj h2), rfl⟩
  · unfold RelaylinkClient.SendSwapTransaction
    rw [ha, hb]
    exact ⟨rfl, rfl, rfl⟩
  · unfold RelaylinkClient.SendSwapTransaction
    rw [ha, hb]
    dsimp only
    rw [if_neg (by rw [bigCmp_le_zero]; omega), ht]
    exact ⟨rfl, rfl, rfl⟩

/-- C25 (counterexample): fetching the chain list fails with the error tagged 9; `Quote`
returns "unsupported chain" in its place. -/
theorem Quote_replaces_chain_error :
    offlineQuoteEnv.getChains = .error (.other 9) ∧
    (RelaylinkClient.Quote sampleKeccak offlineQuoteEnv none 1
        (sampleAccount.Hex sampleKeccak) (sampleToken.Hex sampleKeccak)
        (sampleStable.Hex sampleKeccak) 100 50 false).result = .error .unsupportedChain ∧
    (RelaylinkClient.Quote sampleKeccak offlineQuoteEnv none 1
        (sampleAccount.Hex sampleKeccak) (sampleToken.Hex sampleKeccak)
        (sampleStable.Hex sampleKeccak) 100 50 false).result ≠ .error (.passed (.other 9)) :=
  ⟨rfl, rfl, fun h => QuoteErr.noConfusion (Except.error.inj h)⟩
/-! ### The swap service: infinite approval and slippage -/

theorem getUserSettings_cases (c : SwapChainConfig) (t : SettingsTable) (fault : Option Nat)
    (userId : Int) (s : Settings)
    (h : SwapService.getUserSettings c t fault userId = .ok s) :
    SettingsModel.FindByUserId t fault userId = .ok s ∨
      (SettingsModel.FindByUserId t fault userId = .error .notFound ∧
        s = { id := 0, userId := userId, slippageBps := c.slippageBps,
              sellSlippageBps := none, exitSlippageBps := none,
              dexAggregator := c.dexAggregator, enableInfiniteApproval := none }) := by
  unfold SwapService.getUserSettings at h
  split at h
  · rename_i v hv
    injection h with h
    subst h
    exact Or.inl hv
  · rename_i err herr
    split at h
    · exact absurd h (by simp)
    · rename_i hnf
      injection h with h
      refine Or.inr ⟨?_, h.symm⟩
      rw [herr]
      cases err <;> first | rfl | exact absurd rfl hnf

theorem Quote_settings (c : SwapChainConfig) (wallet : Option Err)
    (getAddress : Except Err Address) (t : SettingsTable) (fault : Option Nat) (userId : Int)
    (inputToken outputToken : List Char) (amount : Int) (exit : List Bool)
    (call : AggregatorCall)
    (h : SwapService.Quote c wallet getAddress t fault userId inputToken outputToken amount
      exit = .ok call) :
    ∃ s, SwapService.getUserSettings c t fault userId = .ok s ∧
      call.enableInfiniteApproval = (s.enableInfiniteApproval = some true) ∧
      call.slippageBps =
        (match s.sellSlippageBps with
        | some sell =>
          if equalFold outputToken c.stablecoinCA then
            match exit.head?, s.exitSlippageBps with
            | some true, some exitBps => exitBps
            | _, _ => sell
          else s.slippageBps
        | none => s.slippageBps) := by
  unfold SwapService.Quote at h
  split at h
  · exact absurd h (by simp)
  · split at h
    · exact absurd h (by simp)
    · rename_i s hs
      refine ⟨s, hs, ?_⟩
      dsimp only at h
      split at h
      · split at h
        · exact absurd h (by simp)
        · injection h with h
          subst h
          refine ⟨?_, rfl⟩
          dsimp only
          cases s.enableInfiniteApproval with
          | none => simp
          | some b => cases b <;> simp
      · exact absurd h (by simp)

/-- C23. Infinite approval as `SwapService.Quote` passes it to the aggregator: the call
carries `enableInfiniteApproval = true` exactly when the user has a settings record whose
switch is set and on; a user without a record gets `false`. A first opening of the settings
menu with no record present stores a record whose switch is already on. -/
theorem infinite_approval_flag (c : SwapChainConfig) (wallet : Option Err)
    (getAddress : Except Err Address) (t : SettingsTable) (fault : Option Nat) (userId : Int)
    (inputToken outputToken : List Char) (amount : Int) (exit : List Bool)
    (call : AggregatorCall)
    (h : SwapService.Quote c wallet getAddress t fault userId inputToken outputToken amount
      exit = .ok call) :
    (call.enableInfiniteApproval = true ↔
      ∃ record, SettingsModel.FindByUserId t fault userId = .ok record ∧
        record.enableInfiniteApproval = some true) ∧
    (SettingsModel.FindByUserId t fault userId = .error .notFound →
      call.enableInfiniteApproval = false) ∧
    (SettingsModel.FindByUserId t fault userId = .error .notFound →
      ∀ record t1, SettingsHandler.getUserSettings c t fault none userId = (.ok record, t1) →
        record.enableInfiniteApproval = some true ∧
        SettingsModel.FindByUserId t1 none userId = .ok record) := by
  obtain ⟨s, hs, hflag, -⟩ := Quote_settings c wallet getAddress t fault userId inputToken
    outputToken amount exit call h
  have hiff : call.enableInfiniteApproval = true ↔
      ∃ record, SettingsModel.FindByUserId t fault userId = .ok record ∧
        record.enableInfiniteApproval = some true := by
    constructor
    · intro hc
      have hs1 : s.enableInfiniteApproval = some true := by
        rw [hflag] at hc
        simpa using hc
      rcases getUserSettings_cases c t fault userId s hs with hf | ⟨-, hdef⟩
      · exact ⟨s, hf, hs1⟩
      · rw [hdef] at hs1
        exact absurd hs1 (by simp)
    · rintro ⟨record, hf, hr⟩
      rcases getUserSettings_cases c t fault userId s hs with hf2 | ⟨hnf, -⟩
      · rw [hf] at hf2
        injection hf2 with hf2
        subst hf2
        rw [hflag]
        simpa using hr
      · rw [hf] at hnf
        exact absurd hnf (by simp)
  refine ⟨hiff, ?_, ?_⟩
  · intro hnf
    cases hc : call.enableInfiniteApproval with
    | false => rfl
    | true =>
      obtain ⟨record, hf, -⟩ := hiff.1 hc
      rw [hf] at hnf
      exact absurd hnf (by simp)
  · intro hnf record t1 hget
    unfold SettingsHandler.getUserSettings at hget
    rw [hnf] at hget
    have hfault : fault = none := by
      cases fault with
      | none => rfl
      | some e => simp [SettingsModel.FindByUserId] at hnf
    subst hfault
    have hfind : t.find? (fun r => decide (r.userId = userId)) = none := by
      unfold SettingsModel.FindByUserId at hnf
      dsimp only at hnf
      split at hnf
      · exact absurd hnf (by simp)
      · assumption
    have hany : (t.any fun r => decide (r.userId = userId)) = false := by
      rw [List.find?_eq_none] at hfind
      rw [List.any_eq_false]
      exact hfind
    simp only [Err.isNotFound, Bool.not_true, Bool.false_eq_true, if_false,
      SettingsModel.Save, hany] at hget
    injection hget with h1 h2
    injection h1 with h1
    subst h1
    subst h2
    refine ⟨rfl, ?_⟩
    unfold SettingsModel.FindByUserId
    dsimp only
    rw [List.find?_append, hfind]
    simp

/-- Witness for C23: a user whose record has the switch off. -/
theorem infinite_approval_flag_witness :
    SwapService.Quote sampleSwapConfig none (.ok sampleStable)
        [⟨1, 42, 100, none, none, ("relay").toList, some false⟩] none 42 ("0xaa").toList
        ("0xbb").toList 7 [] =
      .ok ⟨1, sampleStable, ("0xaa").toList, ("0xbb").toList, 7, 100, false⟩ ∧
    ((false = true ↔
      ∃ record, SettingsModel.FindByUserId
          [⟨1, 42, 100, none, none, ("relay").toList, some false⟩] none 42 = .ok record ∧
        record.enableInfiniteApproval = some true)) :=
  ⟨rfl, (infinite_approval_flag sampleSwapConfig none (.ok sampleStable)
    [⟨1, 42, 100, none, none, ("relay").toList, some false⟩] none 42 ("0xaa").toList
    ("0xbb").toList 7 [] _ rfl).1⟩

/-- C23, failing input: user 42 has no settings record and opens the settings menu, which
stores a record with the switch on; the next quote of that user, who never pressed the
switch, calls the aggregator with `enableInfiniteApproval = true`. Without the menu having
been opened the same quote passes `false`. -/
theorem infinite_approval_after_menu :
    (SettingsHandler.getUserSettings sampleSwapConfig [] none none 42).2 =
      [⟨1, 42, 100, none, none, ("relay").toList, some true⟩] ∧
    (SwapService.Quote sampleSwapConfig none (.ok sampleStable)
        (SettingsHandler.getUserSettings sampleSwapConfig [] none none 42).2 none 42
        ("0xaa").toList ("0xbb").toList 7 []).toOption.map
        (fun call => call.enableInfiniteApproval) = some true ∧
    (SwapService.Quote sampleSwapConfig none (.ok sampleStable) [] none 42
        ("0xaa").toList ("0xbb").toList 7 []).toOption.map
        (fun call => call.enableInfiniteApproval) = some false := by
  decide

/-- C24. Effective slippage of `SwapService.Quote`: the base slippage, unless the output
token is the stablecoin and a sell override is configured; then the sell override, or the
exit override when the trade is an exit trade and an exit override is configured. This is
the function of the specification whenever a sell override is configured or the exit
override does not apply. -/
theorem effective_slippage (c : SwapChainConfig) (wallet : Option Err)
    (getAddress : Except Err Address) (t : SettingsTable) (fault : Option Nat) (userId : Int)
    (inputToken outputToken : List Char) (amount : Int) (exit : List Bool)
    (call : AggregatorCall)
    (h : SwapService.Quote c wallet getAddress t fault userId inputToken outputToken amount
      exit = .ok call) :
    ∃ s, SwapService.getUserSettings c t fault userId = .ok s ∧
      call.slippageBps =
        (match s.sellSlippageBps with
        | some sell =>
          if equalFold outputToken c.stablecoinCA then
            match exit.head?, s.exitSlippageBps with
            | some true, some exitBps => exitBps
            | _, _ => sell
          else s.slippageBps
        | none => s.slippageBps) ∧
      (s.sellSlippageBps ≠ none ∨ equalFold outputToken c.stablecoinCA = false ∨
          exit.head? ≠ some true ∨ s.exitSlippageBps = none →
        call.slippageBps =
          specSlippage s (equalFold outputToken c.stablecoinCA) (exit.head? = some true)) ∧
      (s.sellSlippageBps = none → call.slippageBps = s.slippageBps) := by
  obtain ⟨s, hs, -, hslip⟩ := Quote_settings c wallet getAddress t fault userId inputToken
    outputToken amount exit call h
  refine ⟨s, hs, hslip, ?_, ?_⟩
  · intro hcase
    rw [hslip]
    unfold specSlippage
    cases hsell : s.sellSlippageBps with
    | some sell =>
      cases hst : equalFold outputToken c.stablecoinCA with
      | false => simp
      | true =>
        cases hx : s.exitSlippageBps with
        | none => simp
        | some x =>
          rcases hh : exit.head? with _ | b
          · simp
          · cases b <;> simp
    | none =>
      cases hst : equalFold outputToken c.stablecoinCA with
      | false => simp
      | true =>
        cases hx : s.exitSlippageBps with
        | none => simp
        | some x =>
          rcases hh : exit.head? with _ | b
          · simp
          · cases b
            · simp
            · rw [hsell, hst, hx, hh] at hcase
              simp at hcase
  · intro hnone
    rw [hslip, hnone]

/-- Witness for C24: sell and exit overrides both configured, exit trade into the
stablecoin. -/
theorem effective_slippage_witness :
    ∃ s, SwapService.getUserSettings sampleSwapConfig
        [⟨1, 42, 100, some 300, some 500, ("relay").toList, none⟩] none 42 = .ok s ∧
      (500 : Int) =
        (match s.sellSlippageBps with
        | some sell =>
          if equalFold sampleSwapConfig.stablecoinCA sampleSwapConfig.stablecoinCA then
            match [true].head?, s.exitSlippageBps with
            | some true, some exitBps => exitBps
            | _, _ => sell
          else s.slippageBps
        | none => s.slippageBps) ∧
      (s.sellSlippageBps ≠ none ∨
          equalFold sampleSwapConfig.stablecoinCA sampleSwapConfig.stablecoinCA = false ∨
          [true].head? ≠ some true ∨ s.exitSlippageBps = none →
        (500 : Int) =
          specSlippage s (equalFold sampleSwapConfig.stablecoinCA
            sampleSwapConfig.stablecoinCA) ([true].head? = some true)) ∧
      (s.sellSlippageBps = none → (500 : Int) = s.slippageBps) :=
  effective_slippage sampleSwapConfig none (.ok sampleStable)
    [⟨1, 42, 100, some 300, some 500, ("relay").toList, none⟩] none 42 ("0xaa").toList
    sampleSwapConfig.stablecoinCA 7 [true]
    ⟨1, sampleStable, ("0xaa").toList, sampleSwapConfig.stablecoinCA, 7, 500, false⟩
    (by rfl)

/-- C24, failing input: base slippage 100, no sell override, exit override 500, an exit
trade into the stablecoin. The call carries slippage 100; the function of the specification
and the settings menu both give 500. -/
theorem exit_slippage_ignored :
    (SwapService.Quote sampleSwapConfig none (.ok sampleStable)
        [⟨1, 42, 100, none, some 500, ("relay").toList, none⟩] none 42 ("0xaa").toList
        sampleSwapConfig.stablecoinCA 7 [true]).toOption.map
        (fun call => call.slippageBps) = some 100 ∧
    specSlippage ⟨1, 42, 100, none, some 500, ("relay").toList, none⟩
      (equalFold sampleSwapConfig.stablecoinCA sampleSwapConfig.stablecoinCA) true = 500 ∧
    displayedExitSlippage ⟨1, 42, 100, none, some 500, ("relay").toList, none⟩ = 500 := by
  decide

/-! ### Self-transfers -/

theorem netChange_self (owner token : Address) (logs : List Log) :
    netChange owner token logs =
      receivedByOwner owner token logs - sentByOwner owner token logs
        - selfTransferred owner token logs := by
  induction logs with
  | nil => simp [netChange, receivedByOwner, sentByOwner, selfTransferred]
  | cons log logs ih =>
    simp only [netChange, receivedByOwner, sentByOwner, selfTransferred, List.map_cons,
      List.sum_cons] at ih ⊢
    rw [ih]
    have hhead : (if involvesOwner owner token log = true then ownerChange owner log else 0) =
        (match log.transfer with
          | some (_, recipient, value) =>
            if log.address = token ∧ recipient = owner then value else 0
          | none => 0) -
        (match log.transfer with
          | some (sender, _, value) => if log.address = token ∧ sender = owner then value else 0
          | none => 0) -
        (match log.transfer with
          | some (sender, recipient, value) =>
            if log.address = token ∧ sender = owner ∧ recipient = owner then value else 0
          | none => 0) := by
      unfold involvesOwner ownerChange
      cases htr : log.transfer with
      | none => simp
      | some tr =>
        obtain ⟨sender, recipient, value⟩ := tr
        by_cases htok : log.address = token
        · by_cases hs : sender = owner
          · by_cases hr : recipient = owner
            · simp [htok, hs, hr]
            · simp [htok, hs, hr]
          · by_cases hr : recipient = owner
            · simp [htok, hs, hr]
            · simp [htok, hs, hr]
        · simp [htok]
    rw [hhead]
    ring

/-- C27. The delta `GetTokenBalanceChanges` reports for a token with a `Transfer` log
involving the owner is received minus sent minus the total the owner transferred to the
owner: a self-transfer counts as sent only, so it contributes minus its value, and the
delta is the net balance change exactly when the self-transfers of the token sum to zero. -/
theorem GetTokenBalanceChanges_self_transfer (logs : List Log) (ownerAddress : List Char)
    (token : Address) :
    GetTokenBalanceChanges logs ownerAddress token =
        (if logs.any (involvesOwner (HexToAddress ownerAddress) token) then
          some (receivedByOwner (HexToAddress ownerAddress) token logs
            - sentByOwner (HexToAddress ownerAddress) token logs
            - selfTransferred (HexToAddress ownerAddress) token logs)
        else none) ∧
      (logs.any (involvesOwner (HexToAddress ownerAddress) token) = true →
        (GetTokenBalanceChanges logs ownerAddress token =
            some (receivedByOwner (HexToAddress ownerAddress) token logs
              - sentByOwner (HexToAddress ownerAddress) token logs) ↔
          selfTransferred (HexToAddress ownerAddress) token logs = 0)) := by
  have h1 : GetTokenBalanceChanges logs ownerAddress token =
        (if logs.any (involvesOwner (HexToAddress ownerAddress) token) then
          some (receivedByOwner (HexToAddress ownerAddress) token logs
            - sentByOwner (HexToAddress ownerAddress) token logs
            - selfTransferred (HexToAddress ownerAddress) token logs)
        else none) := by
    unfold GetTokenBalanceChanges
    rw [foldl_balanceChangeStep, netChange_self]
    simp
  refine ⟨h1, ?_⟩
  intro hany
  rw [h1, if_pos hany]
  constructor
  · intro h
    injection h with h
    omega
  · intro h
    rw [h, sub_zero]

/-- C27, failing input: a receipt whose only log is a transfer of 100 units from the owner
to the owner. The owner's balance does not change (received 100, sent 100), and the
reported delta is -100. -/
theorem self_transfer_not_neutral :
    GetTokenBalanceChanges selfTransferLogs (sampleAccount.Hex sampleKeccak) sampleToken =
      some (-100) ∧
    receivedByOwner (HexToAddress (sampleAccount.Hex sampleKeccak)) sampleToken
        selfTransferLogs
      - sentByOwner (HexToAddress (sampleAccount.Hex sampleKeccak)) sampleToken
        selfTransferLogs = 0 ∧
    (selfTransferLogs.all fun log =>
      isSelfTransfer (HexToAddress (sampleAccount.Hex sampleKeccak)) log) = true := by
  decide

/-! ### Division by the sell amount -/

theorem Div_zero_divisor (d d2 : Decimal) (h : d2.value = 0) : d.Div d2 = none := by
  unfold Decimal.Div Decimal.DivRound Decimal.QuoRem
  simp [h]

theorem LessThanOrEqual_Zero (d : Decimal) :
    d.LessThanOrEqual (Decimal.New 0 1) = decide (d.value ≤ 0) := by
  unfold Decimal.LessThanOrEqual
  rw [Cmp_spec]
  have hz : (Decimal.New 0 1).toRat = 0 := by
    rw [toRat_eq_zero_iff]
    rfl
  rw [hz]
  have hpos : (0 : ℚ) < (10 : ℚ) ^ d.exp := zpow_pos (by norm_num) _
  have hlt : d.toRat < 0 ↔ d.value < 0 := by
    unfold Decimal.toRat
    constructor
    · intro h
      by_contra hn
      have : (0 : ℚ) ≤ (d.value : ℚ) := by exact_mod_cast (not_lt.1 hn)
      have := mul_nonneg this hpos.le
      linarith
    · intro h
      have : (d.value : ℚ) < 0 := by exact_mod_cast h
      exact mul_neg_of_neg_of_pos this hpos
  have heq : d.toRat = 0 ↔ d.value = 0 := toRat_eq_zero_iff d
  by_cases h1 : d.value < 0
  · have := hlt.2 h1
    simp [this, h1.le]
  · by_cases h2 : d.value = 0
    · have h3 := heq.2 h2
      simp [h3, h2]
    · have h3 : ¬ d.toRat < 0 := fun e => h1 (hlt.1 e)
      have h4 : ¬ d.toRat = 0 := fun e => h2 (heq.1 e)
      have h5 : ¬ d.value ≤ 0 := by omega
      simp [h3, h4, h5]

theorem handleSellAll_total (cfg : ChainConfig) (env : KeeperEnv) (s : Store)
    (token symbol : List Char) (decimals : Nat) (amount : Int) (hd : decimals < 256)
    (hsd : cfg.stablecoinDecimals < 256) (ha : amount ≠ 0) :
    ∃ s2, SellAllHandler.handleSellAll cfg env s token symbol decimals amount = some s2 := by
  unfold SellAllHandler.handleSellAll
  rw [ParseUnits_eq amount decimals hd]
  simp only [Option.bind_eq_bind, Option.some_bind, Option.pure_def]
  split
  · exact ⟨_, rfl⟩
  · rename_i tx htx
    rw [ParseUnits_eq _ _ hsd]
    simp only [Option.some_bind]
    rw [Div_eq _ ⟨amount, -(decimals : Int)⟩ ha (by dsimp only; omega) (by dsimp only; omega)]
    simp only [Option.some_bind]
    split
    · exact ⟨_, rfl⟩
    · split
      · exact ⟨_, rfl⟩
      · exact ⟨_, rfl⟩

theorem handle_total (cfg : ChainConfig) (env : KeeperEnv) (s : Store) (w : Wallet)
    (token : List Char) (running : Except Err Bool)
    (hdec : ∀ m, env.getTokenMeta token = .ok m → m.decimals < 256)
    (hsd : cfg.stablecoinDecimals < 256) :
    ∃ s2, SellAllHandler.handle cfg env s w token running = some s2 := by
  unfold SellAllHandler.handle
  split
  · exact ⟨_, rfl⟩
  · dsimp only
    split
    · exact ⟨_, rfl⟩
    · split
      · exact ⟨_, rfl⟩
      · rename_i m hm
        split
        · exact ⟨_, rfl⟩
        · rename_i bal hbal
          rw [ParseUnits_eq bal m.decimals (hdec m hm)]
          simp only [Option.bind_eq_bind, Option.some_bind, Option.pure_def,
            LessThanOrEqual_Zero]
          split
          · exact ⟨_, rfl⟩
          · rename_i hpos
            exact handleSellAll_total cfg env s token m.symbol m.decimals bal (hdec m hm) hsd
              (by simp at hpos; omega)

theorem SellToken_panics_iff (cfg : ChainConfig) (env : KeeperEnv) (record : Strategy)
    (requested minSellPrice : Option Decimal) (exit : Bool) (w : Wallet) (meta : Metadata)
    (bal : Int)
    (hw : env.findWallet record.userId = .ok w)
    (hm : env.getTokenMeta record.token = .ok meta)
    (hb : env.balanceOf (HexToAddress record.token) (HexToAddress w.account) = .ok bal)
    (hd : meta.decimals < 256) (hsd : cfg.stablecoinDecimals < 256)
    (hq : ∀ amount, ∃ tx, env.quote record.token cfg.stablecoinCA amount exit = .ok tx)
    (hr : ∀ a, requested = some a → -1000000000 ≤ a.exp ∧ a.exp ≤ 1000000000) :
    SellToken cfg env record requested minSellPrice exit = none ↔
      (match requested with
        | none => (Decimal.mk bal (-(meta.decimals : Int)))
        | some a =>
          if a.GreaterThan ⟨bal, -(meta.decimals : Int)⟩ then ⟨bal, -(meta.decimals : Int)⟩
          else a).value = 0 := by
  generalize heff : (match requested with
        | none => (Decimal.mk bal (-(meta.decimals : Int)))
        | some a =>
          if a.GreaterThan ⟨bal, -(meta.decimals : Int)⟩ then ⟨bal, -(meta.decimals : Int)⟩
          else a) = eff
  have hexp : -1000000000 ≤ eff.exp ∧ eff.exp ≤ 1000000000 := by
    rw [← heff]
    cases requested with
    | none => dsimp only; omega
    | some a =>
      dsimp only
      split
      · dsimp only; omega
      · exact hr a rfl
  unfold SellToken
  rw [hw, hm]
  dsimp only
  rw [hb]
  simp only [ParseUnits_eq bal meta.decimals hd, Option.bind_eq_bind, Option.some_bind,
    Option.pure_def, heff]
  rw [FormatUnits_eq eff meta.decimals hd (by omega) (by omega)]
  simp only [Option.some_bind]
  obtain ⟨tx, htx⟩ := hq (if 0 ≤ eff.exp + (meta.decimals : Int) then
      eff.value * 10 ^ (eff.exp + (meta.decimals : Int)).toNat
    else eff.value.tdiv (10 ^ (-(eff.exp + (meta.decimals : Int))).toNat))
  rw [htx]
  simp only [ParseUnits_eq _ _ hsd, Option.some_bind]
  by_cases hz : eff.value = 0
  · rw [Div_zero_divisor _ eff hz]
    simp [hz]
  · obtain ⟨r, hdiv, -⟩ := Div_spec ⟨tx.outAmount, -(cfg.stablecoinDecimals : Int)⟩ eff hz
      (by dsimp only; omega) hexp
    rw [hdiv]
    simp only [Option.some_bind]
    constructor
    · intro h
      exfalso
      revert h
      split
      · simp
      · split <;> simp
    · intro h
      exact absurd h hz

theorem GreaterThan_zero_value (a : Decimal) (e : Int) :
    a.GreaterThan ⟨0, e⟩ = decide (0 < a.value) := by
  unfold Decimal.GreaterThan
  rw [Cmp_spec, toRat_zero_value]
  have hpos : (0 : ℚ) < (10 : ℚ) ^ a.exp := zpow_pos (by norm_num) _
  by_cases h1 : 0 < a.value
  · have h2 : (0 : ℚ) < a.toRat := by
      unfold Decimal.toRat
      exact mul_pos (by exact_mod_cast h1) hpos
    have h3 : ¬ a.toRat < 0 := not_lt.2 h2.le
    have h4 : ¬ a.toRat = 0 := ne_of_gt h2
    simp [h1, h3, h4]
  · have h2 : a.toRat ≤ 0 := by
      unfold Decimal.toRat
      exact mul_nonpos_of_nonpos_of_nonneg (by exact_mod_cast (not_lt.1 h1)) hpos.le
    rcases lt_or_eq_of_le h2 with h3 | h3
    · simp [h1, h3]
    · simp [h1, h3]

/-- C29. Division by the sell amount. In `SellAllHandler.handle` the division never panics
(the handler returns in every case). In `SellToken`, when wallet, metadata and balance are
obtained and the aggregator returns a quote for every amount, the call panics exactly when
the amount to sell (the requested amount capped at the balance) is zero; with a zero balance
and a requested amount that is absent or not negative it panics. -/
theorem quote_price_division (cfg : ChainConfig) (env : KeeperEnv) (s : Store) (w : Wallet)
    (token : List Char) (running : Except Err Bool) (record : Strategy)
    (requested minSellPrice : Option Decimal) (exit : Bool) (wallet : Wallet)
    (tokenmeta : Metadata) (bal : Int)
    (hdec : ∀ t m, env.getTokenMeta t = .ok m → m.decimals < 256)
    (hsd : cfg.stablecoinDecimals < 256)
    (hw : env.findWallet record.userId = .ok wallet)
    (hm : env.getTokenMeta record.token = .ok tokenmeta)
    (hb : env.balanceOf (HexToAddress record.token) (HexToAddress wallet.account) = .ok bal)
    (hq : ∀ amount, ∃ tx, env.quote record.token cfg.stablecoinCA amount exit = .ok tx)
    (hr : ∀ a, requested = some a → -1000000000 ≤ a.exp ∧ a.exp ≤ 1000000000) :
    (∃ s2, SellAllHandler.handle cfg env s w token running = some s2) ∧
    (SellToken cfg env record requested minSellPrice exit = none ↔
      (match requested with
        | none => (Decimal.mk bal (-(tokenmeta.decimals : Int)))
        | some a =>
          if a.GreaterThan ⟨bal, -(tokenmeta.decimals : Int)⟩ then
            ⟨bal, -(tokenmeta.decimals : Int)⟩
          else a).value = 0) ∧
    (bal = 0 → (∀ a, requested = some a → 0 ≤ a.value) →
      SellToken cfg env record requested minSellPrice exit = none) := by
  have hiff := SellToken_panics_iff cfg env record requested minSellPrice exit wallet tokenmeta
    bal hw hm hb (hdec _ _ hm) hsd hq hr
  refine ⟨handle_total cfg env s w token running (hdec token) hsd, hiff, ?_⟩
  intro hbal hnn
  rw [hiff]
  subst hbal
  cases requested with
  | none => rfl
  | some a =>
    dsimp only
    rw [GreaterThan_zero_value]
    by_cases hpos : 0 < a.value
    · simp [hpos]
    · have := hnn a rfl
      simp only [hpos, decide_False, Bool.false_eq_true, if_false]
      omega

/-- Witness for C29: the sample environment (balance 5000000 base units, requested 2). -/
theorem quote_price_division_witness :
    (∃ s2, SellAllHandler.handle sampleCfg (sampleEnv revertedReceipt)
        ⟨[], sampleGrids, [sampleStrategy]⟩ sampleWallet (sampleToken.Hex sampleKeccak)
        (.error .notFound) = some s2) ∧
    (SellToken sampleCfg (sampleEnv revertedReceipt) sampleStrategy (some ⟨2, 0⟩) none true
        = none ↔
      (match (some ⟨2, 0⟩ : Option Decimal) with
        | none => (Decimal.mk 5000000 (-((6 : Nat) : Int)))
        | some a =>
          if a.GreaterThan ⟨5000000, -((6 : Nat) : Int)⟩ then ⟨5000000, -((6 : Nat) : Int)⟩
          else a).value = 0) ∧
    ((5000000 : Int) = 0 → (∀ a, (some ⟨2, 0⟩ : Option Decimal) = some a → 0 ≤ a.value) →
      SellToken sampleCfg (sampleEnv revertedReceipt) sampleStrategy (some ⟨2, 0⟩) none true
        = none) :=
  quote_price_division sampleCfg (sampleEnv revertedReceipt)
    ⟨[], sampleGrids, [sampleStrategy]⟩ sampleWallet (sampleToken.Hex sampleKeccak)
    (.error .notFound) sampleStrategy (some ⟨2, 0⟩) none true sampleWallet
    ⟨("TKN").toList, 6⟩ 5000000
    (by intro t m h; injection h with h; subst h; decide) (by decide) rfl rfl rfl
    (by intro amount; exact ⟨_, rfl⟩)
    (by intro a h; injection h with h; subst h; decide)

/-- C29, failing input: the account holds none of the token when the keeper retries a
reverted liquidation of 2 tokens. `SellToken` caps the amount at the balance 0, the
aggregator returns a quote for amount 0, and the division by the sell amount panics, in
`SellToken` and so in `handleRetryExit`. `SellAllHandler.handle` returns before
`handleSellAll` on the same balance. -/
theorem SellToken_zero_balance_panics :
    SellToken sampleCfg emptyWalletEnv sampleStrategy (some ⟨2, 0⟩) none true = none ∧
    (emptyWalletEnv.quote sampleStrategy.token sampleCfg.stablecoinCA 0 true).toOption.isSome
      = true ∧
    (OrderKeeper.handleRetryExit sampleCfg emptyWalletEnv (sampleKeeper [sampleExit])
      sampleExit).crashed = true ∧
    SellAllHandler.handle sampleCfg emptyWalletEnv ⟨[], sampleGrids, [sampleStrategy]⟩
      sampleWallet (sampleToken.Hex sampleKeccak) (.error .notFound)
      = some ⟨[], sampleGrids, [sampleStrategy]⟩ :=
  ⟨rfl, by decide, by decide, by decide⟩

/-! ### Liquidation retry -/

theorem SellToken_ok (cfg : ChainConfig) (env : KeeperEnv) (record : Strategy)
    (requested minSellPrice : Option Decimal) (exit : Bool) (o : Order) :
    SellToken cfg env record requested minSellPrice exit = some (.ok o) →
    o.status = .Pending ∧ o.type = .Sell ∧ o.gridId = none ∧
      ∃ w tokenmeta bal uiBal,
        env.findWallet record.userId = .ok w ∧ env.getTokenMeta record.token = .ok tokenmeta ∧
        env.balanceOf (HexToAddress record.token) (HexToAddress w.account) = .ok bal ∧
        ParseUnits bal tokenmeta.decimals = some uiBal ∧
        o.inAmount =
          (match requested with
          | none => uiBal
          | some a => if a.GreaterThan uiBal then uiBal else a) := by
  intro h
  unfold SellToken at h
  split at h
  · simp at h
  · rename_i w hw
    split at h
    · simp at h
    · rename_i tokenmeta hm
      split at h
      · simp at h
      · rename_i bal hb
        cases hp : ParseUnits bal tokenmeta.decimals with
        | none => rw [hp] at h; simp at h
        | some uiBal =>
          rw [hp] at h
          simp only [Option.bind_eq_bind, Option.some_bind, Option.pure_def] at h
          generalize heff : (match requested with
            | none => uiBal
            | some a => if a.GreaterThan uiBal then uiBal else a) = eff at h
          cases hf : FormatUnits eff tokenmeta.decimals with
          | none => rw [hf] at h; simp at h
          | some sellAmount =>
            rw [hf] at h
            simp only [Option.some_bind] at h
            split at h
            · simp at h
            · rename_i tx htx
              cases hp2 : ParseUnits tx.outAmount cfg.stablecoinDecimals with
              | none => rw [hp2] at h; simp at h
              | some uiOut =>
                rw [hp2] at h
                simp only [Option.some_bind] at h
                cases hdiv : uiOut.Div eff with
                | none => rw [hdiv] at h; simp at h
                | some price =>
                  rw [hdiv] at h
                  simp only [Option.some_bind] at h
                  split at h
                  · simp at h
                  · split at h
                    · simp at h
                    · injection h with h
                      injection h with h
                      subst h
                      exact ⟨rfl, rfl, rfl, w, tokenmeta, bal, uiBal, hw, hm, hb, hp, heff.symm⟩

theorem rejectTx_strategies (s : Store) (ord : Order) (reason : List Char) :
    (OrderKeeper.rejectTx s ord reason).strategies = s.strategies := rfl

/-- C19. Rejection handling of an order whose store transaction does not fail. The order,
if stored, ends `Rejected`. For a Sell without grid whose strategy record is found by its
`strategyId`, when `SellToken` succeeds and the save does not fail, exactly one order is
appended: a `Pending` Sell whose input amount is the original input amount capped at the
current token balance and whose `gridBuyCost` is the original order's. A Buy or a
grid-linked Sell appends no order, and neither does a Sell without grid whose strategy
record is not found. -/
theorem liquidation_retry (cfg : ChainConfig) (env : KeeperEnv) (k : Keeper) (ord : Order)
    (reason : List Char) (htx : env.txFault ord.id = false) :
    (∀ o, k.store.order ord.id = some o →
      ∃ o2, (OrderKeeper.handleRejectOrder cfg env k ord reason).store.order ord.id = some o2 ∧
        o2.status = .Rejected) ∧
    (ord.type = .Buy ∨ ord.gridId ≠ none →
      (OrderKeeper.handleRejectOrder cfg env k ord reason).store.orders
        = OrderModel.SetOrderRejectedStatus k.store.orders ord.id reason) ∧
    (ord.type = .Sell → ord.gridId = none →
      ∀ record orderArgs,
        StrategyModel.FindByGUID k.store.strategies (env.strategyReadFault ord.strategyId)
          ord.strategyId = .ok record →
        SellToken cfg env record (some ord.inAmount) none true = some (.ok orderArgs) →
        env.saveFault = false →
        ∃ saved w tokenmeta bal uiBal,
          (OrderKeeper.handleRejectOrder cfg env k ord reason).store.orders
            = OrderModel.SetOrderRejectedStatus k.store.orders ord.id reason ++ [saved] ∧
          saved.status = .Pending ∧ saved.type = .Sell ∧
          saved.gridBuyCost = ord.gridBuyCost ∧
          env.findWallet record.userId = .ok w ∧
          env.getTokenMeta record.token = .ok tokenmeta ∧
          env.balanceOf (HexToAddress record.token) (HexToAddress w.account) = .ok bal ∧
          ParseUnits bal tokenmeta.decimals = some uiBal ∧
          saved.inAmount = (if ord.inAmount.GreaterThan uiBal then uiBal else ord.inAmount)) ∧
    (ord.type = .Sell → ord.gridId = none →
      ∀ err, StrategyModel.FindByGUID k.store.strategies (env.strategyReadFault ord.strategyId)
          ord.strategyId = .error err →
        (OrderKeeper.handleRejectOrder cfg env k ord reason).store.orders
          = OrderModel.SetOrderRejectedStatus k.store.orders ord.id reason) := by
  refine ⟨?_, ?_, ?_, ?_⟩
  · intro o ho
    have hrej : ∃ o2, (OrderKeeper.rejectTx k.store ord reason).order ord.id = some o2 ∧
        o2.status = .Rejected := by
      rw [order_rejectTx, ho, Option.map_some']
      have hid := order_id_of_find _ _ _ ho
      rw [if_pos hid]
      exact ⟨_, rfl, rfl⟩
    rcases handleRejectOrder_done cfg env k ord reason htx with hs | ⟨_, _, saved, hs⟩
    · rw [hs]
      exact hrej
    · obtain ⟨o2, ho2, hst⟩ := hrej
      refine ⟨o2, ?_, hst⟩
      rw [hs]
      exact find_append_of_some _ _ _ _ ho2
  · intro hcase
    unfold OrderKeeper.handleRejectOrder
    simp only [htx, Bool.false_eq_true, if_false]
    split
    · rfl
    · split
      · rename_i hsell
        rcases hcase with hb | hg
        · rw [hb] at hsell
          exact absurd hsell.1 (by decide)
        · exact absurd hsell.2 hg
      · rfl
  · intro hsell hgrid record orderArgs hrec hst hsave
    obtain ⟨h1, h2, -, w, tokenmeta, bal, uiBal, hw, hm, hb, hp, hin⟩ :=
      SellToken_ok cfg env record (some ord.inAmount) none true orderArgs hst
    have hd : derefsNilGridNumber ord = false := by
      unfold derefsNilGridNumber
      rw [hsell, hgrid]
      rfl
    refine ⟨{ orderArgs with
        gridBuyCost := ord.gridBuyCost,
        id := ((OrderModel.SetOrderRejectedStatus k.store.orders ord.id reason).map
          fun o => o.id).foldr max 0 + 1,
        createTime := env.now }, w, tokenmeta, bal, uiBal, ?_, h1, h2, rfl, hw, hm, hb, hp,
      hin⟩
    unfold OrderKeeper.handleRejectOrder
    simp only [htx, Bool.false_eq_true, if_false, hd, hsell, hgrid, and_self, if_true]
    unfold OrderKeeper.handleRetryExit
    simp only [rejectTx_strategies, hrec, hst, hsave, Bool.false_eq_true, if_false]
    rfl
  · intro hsell hgrid err herr
    have hd : derefsNilGridNumber ord = false := by
      unfold derefsNilGridNumber
      rw [hsell, hgrid]
      rfl
    unfold OrderKeeper.handleRejectOrder
    simp only [htx, Bool.false_eq_true, if_false, hd, hsell, hgrid, and_self, if_true]
    unfold OrderKeeper.handleRetryExit
    simp only [rejectTx_strategies, herr]
    rfl

/-- Witness for C19: the reverted liquidation Sell of the sample strategy (2 tokens, cost
basis 15) is rejected and one `Pending` Sell of 2 tokens with cost basis 15 is appended. -/
theorem liquidation_retry_witness :
    ((OrderKeeper.handleRejectOrder sampleCfg (sampleEnv revertedReceipt)
        (sampleKeeper [sampleExit]) sampleExit ("reverted").toList).store.orders.map
      fun o => (o.id, o.type, o.status, o.inAmount, o.gridBuyCost)) =
      [(3, .Sell, .Rejected, ⟨2, 0⟩, some ⟨15, 0⟩), (4, .Sell, .Pending, ⟨2, 0⟩, some ⟨15, 0⟩)] ∧
    (∀ o, (sampleKeeper [sampleExit]).store.order sampleExit.id = some o →
      ∃ o2, (OrderKeeper.handleRejectOrder sampleCfg (sampleEnv revertedReceipt)
          (sampleKeeper [sampleExit]) sampleExit ("reverted").toList).store.order
          sampleExit.id = some o2 ∧
        o2.status = .Rejected) :=
  ⟨by decide,
    (liquidation_retry sampleCfg (sampleEnv revertedReceipt) (sampleKeeper [sampleExit])
      sampleExit ("reverted").toList (by decide)).1⟩

/-- C19, failing input: a manual liquidation saved by `handleSellAll` (empty `strategyId`)
whose transaction reverts. The keeper sets the order to `Rejected` and creates no new order:
no strategy has the guid `""`, so the retry returns before the re-quote, although
`SellToken` for the token's strategy would succeed. The same order owned by the strategy is
retried. -/
theorem sell_all_not_retried :
    (storeAfterSellAll.map fun st =>
      st.orders.map fun o => (o.id, o.strategyId, o.gridId)) = some [(1, [], none)] ∧
    (storeAfterSellAll.map fun st =>
      st.orders.map fun o => (o.id, o.type, o.status)) = some [(1, .Sell, .Pending)] ∧
    (storeAfterSellAll.map fun st =>
      (OrderKeeper.handlePolling sampleCfg (sampleEnv revertedReceipt)
        ⟨st, [], false, [], [], []⟩).store.orders.map fun o => (o.id, o.status)) =
      some [(1, .Rejected)] ∧
    ((SellToken sampleCfg (sampleEnv revertedReceipt) sampleStrategy (some ⟨5, 0⟩) none
      true).map fun r => r.toOption.isSome) = some true ∧
    ((OrderKeeper.handlePolling sampleCfg (sampleEnv revertedReceipt)
      (sampleKeeper [sampleExit])).store.orders.map fun o => (o.id, o.status)) =
      [(3, .Rejected), (4, .Pending)] :=
  ⟨by decide, by decide, by decide, by decide, by decide⟩

/-! ### Grid trend encoding -/

theorem Itoa_chars (x : Int) : ∀ c ∈ Itoa x, c = '-' ∨ isDecDigit c := by
  intro c hc
  unfold Itoa at hc
  split at hc
  · rw [List.mem_cons] at hc
    rcases hc with hc | hc
    · exact Or.inl hc
    · exact Or.inr (toDigits_digits _ c hc)
  · exact Or.inr (toDigits_digits _ c hc)

theorem colon_not_mem_Itoa (x : Int) : ':' ∉ Itoa x := by
  intro h
  rcases Itoa_chars x ':' h with h1 | h1
  · exact absurd h1 (by decide)
  · exact absurd h1 (by unfold isDecDigit; decide)

theorem all_digits (xs : List Char) (h : ∀ c ∈ xs, isDecDigit c) :
    xs.all (fun ch => decide ('0' ≤ ch ∧ ch ≤ '9')) = true := by
  rw [List.all_eq_true]
  intro c hc
  exact decide_eq_true (h c hc)

theorem Atoi_Itoa (x : Int) (hlo : -2 ^ 63 ≤ x) (hhi : x < 2 ^ 63) : Atoi (Itoa x) = .ok x := by
  have hne := toDigits_ne_nil x.natAbs
  have hdig := toDigits_digits x.natAbs
  have hval := toDigits_value x.natAbs
  unfold Itoa
  by_cases hx : x < 0
  · rw [if_pos hx]
    unfold Atoi
    have hempty : (Nat.toDigits 10 x.natAbs).isEmpty = false := by
      cases h : Nat.toDigits 10 x.natAbs with
      | nil => exact absurd h hne
      | cons a b => rfl
    simp only [true_or, if_true, hempty, Bool.false_eq_true, if_false, all_digits _ hdig,
      Bool.not_true, hval, decide_True, Bool.not_true, false_and, true_and]
    rw [if_neg (by omega)]
    congr 1
    omega
  · rw [if_neg hx]
    cases h : Nat.toDigits 10 x.natAbs with
    | nil => exact absurd h hne
    | cons a b =>
      have ha : isDecDigit a := hdig a (by rw [h]; exact List.mem_cons_self _ _)
      have ha1 : a ≠ '-' := by
        intro e
        rw [e] at ha
        exact absurd ha (by unfold isDecDigit; decide)
      have ha2 : a ≠ '+' := by
        intro e
        rw [e] at ha
        exact absurd ha (by unfold isDecDigit; decide)
      have hall := all_digits _ hdig
      rw [h] at hall hval
      unfold Atoi
      simp only [ha1, ha2, or_self, if_false, List.isEmpty_cons, Bool.false_eq_true, hall,
        Bool.not_true, hval, decide_False, Bool.not_false, true_and, false_and]
      rw [if_neg (by omega)]
      congr 1
      omega

theorem filterMap_Atoi_Itoa (t : List Int) (h : ∀ x ∈ t, -2 ^ 63 ≤ x ∧ x < 2 ^ 63) :
    (t.map Itoa).filterMap (fun item => (Atoi item).toOption) = t := by
  induction t with
  | nil => rfl
  | cons x t ih =>
    have hx := h x (List.mem_cons_self _ _)
    rw [List.map_cons, List.filterMap_cons, Atoi_Itoa x hx.1 hx.2]
    have ih2 := ih (fun y hy => h y (List.mem_cons_of_mem _ hy))
    simp only [Except.toOption] at ih2 ⊢
    rw [ih2]

/-- C30. Grid-trend round trip: for every list of `int` values, decoding the encoding of
the list gives the list back, same elements in the same order; the empty list is encoded as
the empty string, which decodes to an empty list. -/
theorem gridTrend_roundtrip (t : List Int) (h : ∀ x ∈ t, -2 ^ 63 ≤ x ∧ x < 2 ^ 63) :
    decodeGridTrend (some (encodeGridTrend t)) = some t ∧
      encodeGridTrend [] = [] ∧ decodeGridTrend (some []) = some [] := by
  refine ⟨?_, rfl, by decide⟩
  cases t with
  | nil => decide
  | cons x t =>
    unfold encodeGridTrend decodeGridTrend
    rw [if_neg (by simp)]
    dsimp only
    rw [List.splitOn_intercalate _ ':' (by
        intro l hl
        rw [List.mem_map] at hl
        obtain ⟨y, -, rfl⟩ := hl
        exact colon_not_mem_Itoa y) (by simp)]
    rw [if_neg (by simp), filterMap_Atoi_Itoa _ h]

/-- Witness for C30: a trend with a negative, a zero and a positive grid number. -/
theorem gridTrend_roundtrip_witness :
    encodeGridTrend [-12, 0, 7] = ("-12:0:7").toList ∧
    (decodeGridTrend (some (encodeGridTrend [-12, 0, 7])) = some [-12, 0, 7] ∧
      encodeGridTrend [] = [] ∧ decodeGridTrend (some []) = some []) :=
  ⟨by decide, gridTrend_roundtrip [-12, 0, 7] (by decide)⟩

/-! ### The order keeper: what closing handling is called with -/

theorem scan_changes (cfg : ChainConfig) (env : KeeperEnv) (orders : List Order) :
    ∀ (k : Keeper) (oo : List Order) (cc : Nat → Option BalanceChanges) (k1 : Keeper)
      (oo2 : List Order) (cc2 : Nat → Option BalanceChanges),
      (orders.map fun o => o.id).Nodup →
      OrderKeeper.scan cfg env orders k oo cc = (k1, some (oo2, cc2)) →
      (∀ id, (∀ y ∈ orders, y.id ≠ id) → cc2 id = cc id) ∧
      (∀ x ∈ orders, x.txHash ∉ k.timeoutTxs →
        ∀ r, env.transactionReceipt x.txHash = .ok r → r.status ≠ 0 →
          cc2 x.id = some (GetTokenBalanceChanges r.logs x.account)) := by
  induction orders with
  | nil =>
    intro k oo cc k1 oo2 cc2 _ h
    rw [scan_nil] at h
    injection h with h1 h2
    injection h2 with h2
    injection h2 with h3 h4
    subst h4
    exact ⟨fun _ _ => rfl, fun x hx => absurd hx (List.not_mem_nil _)⟩
  | cons item rest ih =>
    intro k oo cc k1 oo2 cc2 hnd h
    rw [List.map_cons, List.nodup_cons] at hnd
    obtain ⟨hfresh, hnd2⟩ := hnd
    have hrestA : ∀ id, (∀ y ∈ item :: rest, y.id ≠ id) → ∀ y ∈ rest, y.id ≠ id :=
      fun id hid y hy => hid y (List.mem_cons_of_mem _ hy)
    by_cases ht : item.txHash ∈ k.timeoutTxs
    · rw [scan_cons_timeout cfg env item rest k oo cc ht] at h
      obtain ⟨hA, hB⟩ := ih k oo cc k1 oo2 cc2 hnd2 h
      refine ⟨fun id hid => hA id (hrestA id hid), ?_⟩
      intro x hx hxt r hr hs
      rcases List.mem_cons.1 hx with e | e
      · subst e
        exact absurd ht hxt
      · exact hB x e hxt r hr hs
    · cases hrec : env.transactionReceipt item.txHash with
      | error msg =>
        by_cases hfound : stringsContains msg ("not found").toList = true
        · by_cases hold : timeSub env.now item.createTime > twoMinutes
          · rw [scan_cons_marked cfg env item rest k oo cc ht msg hrec hfound hold] at h
            obtain ⟨hA, hB⟩ := ih _ oo cc k1 oo2 cc2 hnd2 h
            refine ⟨fun id hid => hA id (hrestA id hid), ?_⟩
            intro x hx hxt r hr hs
            rcases List.mem_cons.1 hx with e | e
            · subst e
              rw [hrec] at hr
              cases hr
            · refine hB x e ?_ r hr hs
              intro hmem
              rcases List.mem_cons.1 hmem with e2 | e2
              · rw [e2, hrec] at hr
                cases hr
              · exact hxt e2
          · rw [scan_cons_young cfg env item rest k oo cc ht msg hrec hfound hold] at h
            obtain ⟨hA, hB⟩ := ih _ oo cc k1 oo2 cc2 hnd2 h
            refine ⟨fun id hid => hA id (hrestA id hid), ?_⟩
            intro x hx hxt r hr hs
            rcases List.mem_cons.1 hx with e | e
            · subst e
              rw [hrec] at hr
              cases hr
            · exact hB x e hxt r hr hs
        · rw [scan_cons_abort cfg env item rest k oo cc ht msg hrec hfound] at h
          injection h with h1 h2
          cases h2
      | ok receipt =>
        by_cases hst : receipt.status = 0
        · rw [scan_cons_reverted cfg env item rest k oo cc ht receipt hrec hst] at h
          split at h
          · injection h with h1 h2
            cases h2
          · obtain ⟨hA, hB⟩ := ih _ oo cc k1 oo2 cc2 hnd2 h
            refine ⟨fun id hid => hA id (hrestA id hid), ?_⟩
            intro x hx hxt r hr hs
            rcases List.mem_cons.1 hx with e | e
            · subst e
              rw [hrec] at hr
              injection hr with hr
              subst hr
              exact absurd hst hs
            · refine hB x e ?_ r hr hs
              rw [(handleRejectOrder_trace cfg env _ item _).1]
              exact hxt
        · rw [scan_cons_open cfg env item rest k oo cc ht receipt hrec hst] at h
          obtain ⟨hA, hB⟩ := ih _ _ _ k1 oo2 cc2 hnd2 h
          refine ⟨?_, ?_⟩
          · intro id hid
            rw [hA id (hrestA id hid)]
            have hne : id ≠ item.id := fun e => hid item (List.mem_cons_self _ _) e.symm
            simp only [hne, if_false]
          · intro x hx hxt r hr hs
            rcases List.mem_cons.1 hx with e | e
            · subst e
              rw [hrec] at hr
              injection hr with hr
              subst hr
              rw [hA x.id (fun y hy e2 => hfresh (List.mem_map.2 ⟨y, hy, e2⟩))]
              simp only [if_true]
            · exact hB x e hxt r hr hs

theorem closeLoop_cons (cfg : ChainConfig) (env : KeeperEnv)
    (changes : Nat → Option BalanceChanges) (item : Order) (rest : List Order) (k : Keeper) :
    OrderKeeper.closeLoop cfg env changes (item :: rest) k
      = match changes item.id with
        | none => OrderKeeper.closeLoop cfg env changes rest k
        | some c =>
          if (OrderKeeper.handleCloseOrder cfg env k item c).crashed = true then
            OrderKeeper.handleCloseOrder cfg env k item c
          else
            OrderKeeper.closeLoop cfg env changes rest
              (OrderKeeper.handleCloseOrder cfg env k item c) := rfl

theorem closeLoop_at (cfg : ChainConfig) (env : KeeperEnv)
    (changes : Nat → Option BalanceChanges) (openOrders : List Order) :
    ∀ (k : Keeper), (openOrders.map fun o => o.id).Nodup →
      ∀ x ∈ openOrders, ∀ o, k.store.order x.id = some o → x.id ∉ k.closed →
        x.id ∈ (OrderKeeper.closeLoop cfg env changes openOrders k).closed →
        ∃ kj c, changes x.id = some c ∧ kj.store.order x.id = some o ∧
          (OrderKeeper.closeLoop cfg env changes openOrders k).store.order x.id
            = (OrderKeeper.handleCloseOrder cfg env kj x c).store.order x.id := by
  induction openOrders with
  | nil => exact fun k _ x hx => absurd hx (List.not_mem_nil _)
  | cons item rest ih =>
    intro k hnd x hx o ho hnew hin
    rw [List.map_cons, List.nodup_cons] at hnd
    obtain ⟨hfresh, hnd2⟩ := hnd
    have hrest_ne : ∀ y ∈ rest, y.id ≠ item.id :=
      fun y hy e => hfresh (List.mem_map.2 ⟨y, hy, e⟩)
    rw [closeLoop_cons] at hin ⊢
    cases hch : changes item.id with
    | none =>
      rw [hch] at hin
      dsimp only at hin ⊢
      rcases List.mem_cons.1 hx with e | e
      · subst e
        obtain ⟨C, c1, c2, -⟩ := closeLoop_handled cfg env changes rest k
        rw [c2, List.mem_append] at hin
        rcases hin with hin | hin
        · exact absurd hin hnew
        · obtain ⟨y, hy, hye⟩ := List.mem_map.1 hin
          exact absurd hye (hrest_ne y (c1.subset hy))
      · exact ih k hnd2 x e o ho hnew hin
    | some c =>
      rw [hch] at hin
      dsimp only at hin ⊢
      have htrace := (handleCloseOrder_trace cfg env k item c).2.2.2
      by_cases hcr : (OrderKeeper.handleCloseOrder cfg env k item c).crashed = true
      · rw [if_pos hcr] at hin ⊢
        rcases List.mem_cons.1 hx with e | e
        · subst e
          exact ⟨k, c, hch, ho, rfl⟩
        · rw [htrace, List.mem_append] at hin
          rcases hin with hin | hin
          · exact absurd hin hnew
          · rw [List.mem_singleton] at hin
            exact absurd hin (hrest_ne x e)
      · rw [if_neg hcr] at hin ⊢
        rcases List.mem_cons.1 hx with e | e
        · subst e
          refine ⟨k, c, hch, ho, ?_⟩
          obtain ⟨o1, ho1, -⟩ := handleCloseOrder_order cfg env k x c x.id o ho
          obtain ⟨C, c1, -, -, -, -, c6, -⟩ := closeLoop_handled cfg env changes rest
            (OrderKeeper.handleCloseOrder cfg env k x c)
          obtain ⟨o2, ho2, hcase⟩ := c6 x.id o1 ho1
          rcases hcase with hcase | ⟨-, y, hy, hye⟩
          · rw [ho2, ho1, hcase]
          · exact absurd hye (hrest_ne y (c1.subset hy))
        · have hne : x.id ≠ item.id := hrest_ne x e
          obtain ⟨o1, ho1, hcase⟩ := handleCloseOrder_order cfg env k item c x.id o ho
          have ho1' : (OrderKeeper.handleCloseOrder cfg env k item c).store.order x.id
              = some o := by
            rcases hcase with hcase | ⟨hcase, -⟩
            · rw [ho1, hcase]
            · exact absurd hcase hne
          refine ih _ hnd2 x e o ho1' ?_ hin
          rw [htrace, List.mem_append, List.mem_singleton]
          exact fun h => h.elim hnew hne

theorem tick_closing (cfg : ChainConfig) (env : KeeperEnv) (k : Keeper)
    (hids : (k.store.orders.map fun o => o.id).Nodup) (x : Order)
    (hx : x ∈ (if env.findPendingFault then []
      else OrderModel.FindPendingOrders k.store.orders 100))
    (hin : x.id ∈ (OrderKeeper.handlePolling cfg env k).closed) :
    ∃ r kj, env.transactionReceipt x.txHash = .ok r ∧ r.status ≠ 0 ∧
      kj.store.order x.id = some x ∧
      (OrderKeeper.handlePolling cfg env k).store.order x.id
        = (OrderKeeper.handleCloseOrder cfg env kj x
            (GetTokenBalanceChanges r.logs x.account)).store.order x.id := by
  have hLmem : ∀ y ∈ (if env.findPendingFault then []
      else OrderModel.FindPendingOrders k.store.orders 100), y ∈ k.store.orders :=
    fun y hy => (FindPendingOrders_mem _ _ y (loaded_mem _ _ y hy)).1
  have hLn := loaded_nodup env.findPendingFault k.store.orders hids
  revert hin
  unfold OrderKeeper.handlePolling
  dsimp only
  revert hx hLmem hLn
  generalize (if env.findPendingFault then []
    else OrderModel.FindPendingOrders k.store.orders 100) = L
  intro hx hLmem hLn
  split
  · intro hin
    exact absurd hin (List.not_mem_nil _)
  · obtain ⟨R, O, h1, h2, h3, h4, h5, h6, h7, h8, -⟩ :=
      scan_handled cfg env L { k with requested := [], rejected := [], closed := [] } []
        (fun _ => none)
    dsimp only at h3 h4 h5 h6 h8
    cases hscan : OrderKeeper.scan cfg env L
        { k with requested := [], rejected := [], closed := [] } [] (fun _ => none) with
    | mk k1 res =>
      rw [hscan] at h5 h6 h7 h8
      dsimp only at h5 h6 h7 h8
      cases res with
      | none =>
        dsimp only
        intro hin
        rw [h6] at hin
        exact absurd hin (List.not_mem_nil _)
      | some p =>
        obtain ⟨oo, cc⟩ := p
        dsimp only
        have hoo : oo = O := by rw [h7 oo cc rfl, List.nil_append]
        split
        · intro hin
          rw [h6] at hin
          exact absurd hin (List.not_mem_nil _)
        · intro hin
          obtain ⟨C, c1, c2, -⟩ := closeLoop_handled cfg env cc oo k1
          have hin2 := hin
          rw [c2, h6, List.nil_append] at hin2
          obtain ⟨y, hy, hye⟩ := List.mem_map.1 hin2
          have hyO : y ∈ O := hoo ▸ c1.subset hy
          have hyx : y = x := List.inj_on_of_nodup_map hLn (h2.subset hyO) hx hye
          subst hyx
          obtain ⟨hnt, r, hr, hs⟩ := h4 y hyO
          have hcc := (scan_changes cfg env L _ [] (fun _ => none) k1 oo cc hLn hscan).2 y hx
            hnt r hr hs
          have hk : k.store.order y.id = some y := order_of_mem k.store hids y (hLmem y hx)
          obtain ⟨o1, ho1, hcase⟩ := h8 y.id y hk
          have hk1 : k1.store.order y.id = some y := by
            rcases hcase with hcase | ⟨-, z, hz, hze⟩
            · rw [ho1, hcase]
            · have hzy : z = y := List.inj_on_of_nodup_map hLn (h1.subset hz) hx hze
              subst hzy
              obtain ⟨-, r2, hr2, hs2⟩ := h3 z hz
              rw [hr] at hr2
              injection hr2 with hr2
              subst hr2
              exact absurd hs2 hs
          have hoon : (oo.map fun o => o.id).Nodup :=
            List.Nodup.sublist ((hoo ▸ h2 : oo.Sublist L).map _) hLn
          obtain ⟨kj, c, hc, hkj, hfin⟩ := closeLoop_at cfg env cc oo k1 hoon y (c1.subset hy) y
            hk1 (by rw [h6]; exact List.not_mem_nil _) hin
          rw [hcc] at hc
          injection hc with hc
          subst hc
          exact ⟨r, kj, hr, hs, hkj, hfin⟩

theorem Div_zero_dividend (d d2 r : Decimal) (h0 : d.value = 0) (h : d.Div d2 = some r) :
    r.value = 0 := by
  obtain ⟨dv, de⟩ := d
  obtain ⟨d2v, d2e⟩ := d2
  dsimp only at h0
  subst h0
  unfold Decimal.Div Decimal.DivRound Decimal.QuoRem at h
  dsimp only at h
  by_cases hsign : d2v.sign = 0
  · rw [if_pos hsign] at h
    simp at h
  · rw [if_neg hsign] at h
    split at h
    · simp at h
    · have haa : ∀ e : Int, (if e < 0 then (0 : Int) else 0 * 10 ^ e.toNat) = 0 := by
        intro e
        split <;> simp
      simp only [Option.bind_eq_bind, Option.some_bind, haa, zero_mul, ite_self,
        Int.zero_tdiv, Int.zero_tmod, abs_zero] at h
      have hpos : (0 : ℚ) < (Decimal.Abs ⟨d2v, d2e⟩).toRat := by
        unfold Decimal.Abs Decimal.toRat
        dsimp only
        have h1 : (0 : ℚ) < ((|d2v| : Int) : ℚ) := by
          have : d2v ≠ 0 := fun e => hsign (by rw [e]; rfl)
          exact_mod_cast abs_pos.2 this
        exact mul_pos h1 (zpow_pos (by norm_num) _)
      rw [Cmp_spec, toRat_zero_value, if_pos hpos] at h
      simp only [Option.pure_def] at h
      rw [if_pos (by decide)] at h
      injection h with h
      rw [← h]

theorem GetTokenBalanceChanges_net (logs : List Log) (ownerAddress : List Char)
    (token : Address) :
    GetTokenBalanceChanges logs ownerAddress token =
      if logs.any (involvesOwner (HexToAddress ownerAddress) token) then
        some (reportedDelta (HexToAddress ownerAddress) token logs)
      else none := by
  unfold GetTokenBalanceChanges reportedDelta
  rw [foldl_balanceChangeStep, netChange_self]
  simp

theorem closePricing_buy_isSome (cfg : ChainConfig) (env : KeeperEnv) (s : Store) (ord : Order)
    (changes : BalanceChanges) (tokenMeta : Metadata) (ht : ord.type = .Buy)
    (hdec : tokenMeta.decimals < 256) :
    (∃ pricing, OrderKeeper.closePricing cfg env s ord changes tokenMeta = some pricing) ↔
      ∀ v, changes (HexToAddress ord.token) = some v → v ≠ 0 →
        (ord.inAmount.Div ⟨v, -(tokenMeta.decimals : Int)⟩).isSome = true := by
  rw [closePricing_buy cfg env s ord changes tokenMeta ht hdec]
  cases hv : changes (HexToAddress ord.token) with
  | none => exact ⟨fun _ v h => Option.noConfusion h, fun _ => ⟨_, rfl⟩⟩
  | some v =>
    dsimp only
    by_cases h0 : v = 0
    · rw [if_pos h0]
      refine ⟨fun _ w hw hne => ?_, fun _ => ⟨_, rfl⟩⟩
      obtain rfl : v = w := Option.some.inj hw
      exact absurd h0 hne
    · rw [if_neg h0]
      constructor
      · rintro ⟨pricing, hp⟩ w hw _
        obtain rfl : v = w := Option.some.inj hw
        cases hd : ord.inAmount.Div ⟨v, -(tokenMeta.decimals : Int)⟩ with
        | none => rw [hd] at hp; cases hp
        | some p => rfl
      · intro h
        cases hd : ord.inAmount.Div ⟨v, -(tokenMeta.decimals : Int)⟩ with
        | none =>
          have := h v rfl h0
          rw [hd] at this
          cases this
        | some p => exact ⟨_, rfl⟩

/-- What closing handling leaves of a stored order: the order closed with the values of
`closePricing` when the metadata and the balance are read, pricing does not panic and the
store transaction does not fail; the order as it was otherwise. -/
theorem handleCloseOrder_result (cfg : ChainConfig) (env : KeeperEnv) (kj : Keeper)
    (ord : Order) (changes : BalanceChanges) (hsd : cfg.stablecoinDecimals < 256)
    (ho : kj.store.order ord.id = some ord) :
    (∃ tokenMeta finalPrice outAmount cost bal,
      env.getTokenMeta ord.token = .ok tokenMeta ∧
      OrderKeeper.closePricing cfg env kj.store ord changes tokenMeta
        = some (finalPrice, outAmount, cost) ∧
      env.balanceOf (HexToAddress cfg.stablecoinCA) (HexToAddress ord.account) = .ok bal ∧
      env.txFault ord.id = false ∧
      (OrderKeeper.handleCloseOrder cfg env kj ord changes).store.order ord.id
        = some { ord with
            status := .Closed, finalPrice := finalPrice, outAmount := outAmount,
            profit := if !cost.IsZero then some (outAmount.Sub cost) else ord.profit }) ∨
    ((¬ ∃ tokenMeta pricing bal,
        env.getTokenMeta ord.token = .ok tokenMeta ∧
        OrderKeeper.closePricing cfg env kj.store ord changes tokenMeta = some pricing ∧
        env.balanceOf (HexToAddress cfg.stablecoinCA) (HexToAddress ord.account) = .ok bal ∧
        env.txFault ord.id = false) ∧
      (OrderKeeper.handleCloseOrder cfg env kj ord changes).store.order ord.id = some ord) := by
  by_cases hcond : ∃ tokenMeta pricing bal,
      env.getTokenMeta ord.token = .ok tokenMeta ∧
      OrderKeeper.closePricing cfg env kj.store ord changes tokenMeta = some pricing ∧
      env.balanceOf (HexToAddress cfg.stablecoinCA) (HexToAddress ord.account) = .ok bal ∧
      env.txFault ord.id = false
  · obtain ⟨tokenMeta, ⟨fp, out, cost⟩, bal, hmeta, hp, hbal, htx⟩ := hcond
    exact Or.inl ⟨tokenMeta, fp, out, cost, bal, hmeta, hp, hbal, htx,
      handleCloseOrder_order_done cfg env kj ord changes tokenMeta fp out cost bal ord hmeta hp
        hbal hsd htx ho⟩
  · refine Or.inr ⟨hcond, ?_⟩
    rcases handleCloseOrder_store cfg env kj ord changes with
      hs | ⟨tokenMeta, fp, out, cost, bal, sb, hmeta, hp, hbal, -, htx, -⟩
    · rw [hs]
      exact ho
    · exact absurd ⟨tokenMeta, (fp, out, cost), bal, hmeta, hp, hbal, htx⟩ hcond

/-- C14 (amended). Closing a Buy, within a tick. For every stored Buy order that a tick
loaded as `Pending` and handed to closing handling, the receipt of the order was obtained
with a status other than 0. Closing handling sets the order to `Closed` exactly when the
token metadata and the owner's stablecoin balance are read, the store transaction does not
fail and the division of the price does not panic; otherwise the order is left as it was.
When the order is closed, `outAmount` is `ParseUnits` of the delta that
`GetTokenBalanceChanges` reports for the purchased token from the logs of that receipt
(received minus sent, a transfer from the owner to the owner counted as sent only), and
`finalPrice` is `inAmount.Div outAmount` for a non-zero delta (within half a unit of the
16th fractional digit of the quotient when the exponent of `inAmount` is at most `10 ^ 9` in
absolute value) and zero for a zero delta; without a transfer of the token involving the
owner both are zero. -/
theorem close_buy (cfg : ChainConfig) (env : KeeperEnv) (k : Keeper) (ord : Order)
    (hids : (k.store.orders.map fun o => o.id).Nodup)
    (hload : ord ∈ (if env.findPendingFault then []
      else OrderModel.FindPendingOrders k.store.orders 100))
    (ht : ord.type = .Buy)
    (hinvoked : ord.id ∈ (OrderKeeper.handlePolling cfg env k).closed)
    (hdec : ∀ m, env.getTokenMeta ord.token = .ok m → m.decimals < 256)
    (hsd : cfg.stablecoinDecimals < 256) :
    ∃ receipt o2,
      env.transactionReceipt ord.txHash = .ok receipt ∧ receipt.status ≠ 0 ∧
      (OrderKeeper.handlePolling cfg env k).store.order ord.id = some o2 ∧
      (o2.status = .Closed ↔
        ∃ tokenMeta bal,
          env.getTokenMeta ord.token = .ok tokenMeta ∧
          env.balanceOf (HexToAddress cfg.stablecoinCA) (HexToAddress ord.account) = .ok bal ∧
          env.txFault ord.id = false ∧
          (receipt.logs.any
              (involvesOwner (HexToAddress ord.account) (HexToAddress ord.token)) = true →
            reportedDelta (HexToAddress ord.account) (HexToAddress ord.token) receipt.logs
              ≠ 0 →
            (ord.inAmount.Div
              ⟨reportedDelta (HexToAddress ord.account) (HexToAddress ord.token) receipt.logs,
                -(tokenMeta.decimals : Int)⟩).isSome = true)) ∧
      (o2.status ≠ .Closed → o2 = ord) ∧
      (o2.status = .Closed → ∀ tokenMeta, env.getTokenMeta ord.token = .ok tokenMeta →
        (receipt.logs.any
            (involvesOwner (HexToAddress ord.account) (HexToAddress ord.token)) = true →
          ParseUnits
              (reportedDelta (HexToAddress ord.account) (HexToAddress ord.token) receipt.logs)
              tokenMeta.decimals = some o2.outAmount ∧
          o2.outAmount.toRat
            = (reportedDelta (HexToAddress ord.account) (HexToAddress ord.token)
                receipt.logs : ℚ) / (10 : ℚ) ^ tokenMeta.decimals ∧
          (reportedDelta (HexToAddress ord.account) (HexToAddress ord.token) receipt.logs
              ≠ 0 →
            ord.inAmount.Div o2.outAmount = some o2.finalPrice ∧
            (-1000000000 ≤ ord.inAmount.exp ∧ ord.inAmount.exp ≤ 1000000000 →
              |o2.finalPrice.toRat - ord.inAmount.toRat / o2.outAmount.toRat|
                ≤ 1 / (2 * 10 ^ 16))) ∧
          (reportedDelta (HexToAddress ord.account) (HexToAddress ord.token) receipt.logs
              = 0 → o2.finalPrice.toRat = 0)) ∧
        (receipt.logs.any
            (involvesOwner (HexToAddress ord.account) (HexToAddress ord.token)) = false →
          o2.outAmount.toRat = 0 ∧ o2.finalPrice.toRat = 0)) := by
  obtain ⟨receipt, kj, hr, hs, hkj, hfin⟩ := tick_closing cfg env k hids ord hload hinvoked
  have hpend : ord.status = .Pending :=
    (FindPendingOrders_mem _ _ ord (loaded_mem _ _ ord hload)).2
  have hnet := GetTokenBalanceChanges_net receipt.logs ord.account (HexToAddress ord.token)
  refine ⟨receipt, ?_⟩
  generalize hδ : reportedDelta (HexToAddress ord.account) (HexToAddress ord.token)
    receipt.logs = δ at hnet ⊢
  generalize hany : receipt.logs.any
    (involvesOwner (HexToAddress ord.account) (HexToAddress ord.token)) = any at hnet ⊢
  generalize hch : GetTokenBalanceChanges receipt.logs ord.account = changes at hnet hfin
  rcases handleCloseOrder_result cfg env kj ord changes hsd hkj with
    ⟨tokenMeta, fp, out, cost, bal, hmeta, hp, hbal, htx, hord⟩ | ⟨hncond, hord⟩
  · have hd := hdec tokenMeta hmeta
    have hsome := (closePricing_buy_isSome cfg env kj.store ord changes tokenMeta ht hd).1
      ⟨_, hp⟩
    rw [closePricing_buy cfg env kj.store ord changes tokenMeta ht hd] at hp
    refine ⟨_, hr, hs, hfin.trans hord, ⟨fun _ => ⟨tokenMeta, bal, hmeta, hbal, htx, ?_⟩,
      fun _ => rfl⟩, fun h => absurd rfl h, fun _ tokenMeta2 hmeta2 => ?_⟩
    · intro ha hne
      rw [ha] at hnet
      exact hsome δ hnet hne
    · rw [hmeta] at hmeta2
      injection hmeta2 with hmeta2
      subst hmeta2
      dsimp only
      cases any with
      | true =>
        simp only [if_true] at hnet
        rw [hnet] at hp
        dsimp only at hp
        refine ⟨fun _ => ?_, fun h => Bool.noConfusion h⟩
        by_cases h0 : δ = 0
        · rw [if_pos h0] at hp
          injection hp with hp
          injection hp with hp1 hp2
          injection hp2 with hp2 hp3
          subst hp1
          subst hp2
          exact ⟨ParseUnits_eq δ _ hd, toRat_parsed δ _, fun hne => absurd h0 hne,
            fun _ => toRat_zero_value 0⟩
        · rw [if_neg h0] at hp
          cases hdiv : ord.inAmount.Div ⟨δ, -(tokenMeta.decimals : Int)⟩ with
          | none => rw [hdiv] at hp; cases hp
          | some p =>
            rw [hdiv] at hp
            injection hp with hp
            injection hp with hp1 hp2
            injection hp2 with hp2 hp3
            subst hp1
            subst hp2
            refine ⟨ParseUnits_eq δ _ hd, toRat_parsed δ _, fun _ => ⟨hdiv, fun hexp => ?_⟩,
              fun hz => absurd hz h0⟩
            obtain ⟨r, hr2, -, hbound, -⟩ :=
              Div_spec ord.inAmount ⟨δ, -(tokenMeta.decimals : Int)⟩ h0 hexp
                ⟨by dsimp only; omega, by dsimp only; omega⟩
            rw [hdiv] at hr2
            injection hr2 with hr2
            subst hr2
            exact hbound
      | false =>
        simp only [Bool.false_eq_true, if_false] at hnet
        rw [hnet] at hp
        injection hp with hp
        injection hp with hp1 hp2
        injection hp2 with hp2 hp3
        subst hp1
        subst hp2
        exact ⟨fun h => Bool.noConfusion h, fun _ => ⟨toRat_zero_value 1, toRat_zero_value 0⟩⟩
  · have hnc : ord.status ≠ .Closed := by
      rw [hpend]
      exact fun e => OrderStatus.noConfusion e
    refine ⟨ord, hr, hs, hfin.trans hord, ⟨fun h => absurd h hnc, ?_⟩, fun _ => rfl,
      fun h => absurd h hnc⟩
    rintro ⟨tokenMeta, bal, hmeta, hbal, htx, hdiv⟩
    exfalso
    refine hncond ?_
    obtain ⟨pricing, hp⟩ :=
      (closePricing_buy_isSome cfg env kj.store ord changes tokenMeta ht
        (hdec tokenMeta hmeta)).2 (by
          intro v hv hne
          cases any with
          | true =>
            simp only [if_true] at hnet
            rw [hnet] at hv
            injection hv with hv
            subst hv
            exact hdiv rfl hne
          | false =>
            simp only [Bool.false_eq_true, if_false] at hnet
            rw [hnet] at hv
            cases hv)
    exact ⟨tokenMeta, pricing, bal, hmeta, hp, hbal, htx⟩

/-- Witness for C14: the tick closes the sample Buy on a receipt crediting 1000 base units of
the 6-decimal token: `outAmount` 0.001 and `finalPrice` 10000 for `inAmount` 10, and the
grid is `Bought`. -/
theorem close_buy_witness :
    (((OrderKeeper.handlePolling sampleCfg (sampleEnv buyReceipt)
        (sampleKeeper [sampleBuy])).store.order 1).map
        (fun o => (o.status, o.outAmount, o.finalPrice))
      = some (.Closed, ⟨1000, -6⟩, ⟨100000000000000000000, -16⟩) ∧
    (OrderKeeper.handlePolling sampleCfg (sampleEnv buyReceipt)
        (sampleKeeper [sampleBuy])).store.grid ("g1").toList
      = some ⟨("g1").toList, ("s1").toList, 3, ⟨100000000000000000000, -16⟩, ⟨1000, -6⟩,
          .Bought⟩) ∧
    (∃ receipt o2,
      (sampleEnv buyReceipt).transactionReceipt sampleBuy.txHash = .ok receipt ∧ receipt.status ≠ 0 ∧
      (OrderKeeper.handlePolling sampleCfg (sampleEnv buyReceipt) (sampleKeeper [sampleBuy])).store.order sampleBuy.id = some o2 ∧
      (o2.status = .Closed ↔
        ∃ tokenMeta bal,
          (sampleEnv buyReceipt).getTokenMeta sampleBuy.token = .ok tokenMeta ∧
          (sampleEnv buyReceipt).balanceOf (HexToAddress sampleCfg.stablecoinCA) (HexToAddress sampleBuy.account) = .ok bal ∧
          (sampleEnv buyReceipt).txFault sampleBuy.id = false ∧
          (receipt.logs.any
              (involvesOwner (HexToAddress sampleBuy.account) (HexToAddress sampleBuy.token)) = true →
            reportedDelta (HexToAddress sampleBuy.account) (HexToAddress sampleBuy.token) receipt.logs
              ≠ 0 →
            (sampleBuy.inAmount.Div
              ⟨reportedDelta (HexToAddress sampleBuy.account) (HexToAddress sampleBuy.token) receipt.logs,
                -(tokenMeta.decimals : Int)⟩).isSome = true)) ∧
      (o2.status ≠ .Closed → o2 = sampleBuy) ∧
      (o2.status = .Closed → ∀ tokenMeta, (sampleEnv buyReceipt).getTokenMeta sampleBuy.token = .ok tokenMeta →
        (receipt.logs.any
            (involvesOwner (HexToAddress sampleBuy.account) (HexToAddress sampleBuy.token)) = true →
          ParseUnits
              (reportedDelta (HexToAddress sampleBuy.account) (HexToAddress sampleBuy.token) receipt.logs)
              tokenMeta.decimals = some o2.outAmount ∧
          o2.outAmount.toRat
            = (reportedDelta (HexToAddress sampleBuy.account) (HexToAddress sampleBuy.token)
                receipt.logs : ℚ) / (10 : ℚ) ^ tokenMeta.decimals ∧
          (reportedDelta (HexToAddress sampleBuy.account) (HexToAddress sampleBuy.token) receipt.logs
              ≠ 0 →
            sampleBuy.inAmount.Div o2.outAmount = some o2.finalPrice ∧
            (-1000000000 ≤ sampleBuy.inAmount.exp ∧ sampleBuy.inAmount.exp ≤ 1000000000 →
              |o2.finalPrice.toRat - sampleBuy.inAmount.toRat / o2.outAmount.toRat|
                ≤ 1 / (2 * 10 ^ 16))) ∧
          (reportedDelta (HexToAddress sampleBuy.account) (HexToAddress sampleBuy.token) receipt.logs
              = 0 → o2.finalPrice.toRat = 0)) ∧
        (receipt.logs.any
            (involvesOwner (HexToAddress sampleBuy.account) (HexToAddress sampleBuy.token)) = false →
          o2.outAmount.toRat = 0 ∧ o2.finalPrice.toRat = 0))) :=
  ⟨⟨by decide, by decide⟩,
    close_buy sampleCfg (sampleEnv buyReceipt) (sampleKeeper [sampleBuy]) sampleBuy
      (by decide) (by decide) rfl (by decide)
      (by intro m h; injection h with h; subst h; decide) (by decide)⟩

/-- C14, failing inputs: the sample Buy, loaded by the tick with a receipt of status 1 and
handed to closing handling. (1) The token metadata cannot be read, (2) the stablecoin
balance cannot be read, (3) the store transaction fails: the order stays `Pending`. (4) The
input amount has the exponent `2147483647`: the division panics and the order stays
`Pending`. (5) The receipt also holds a transfer of 400 base units of the token from the
owner to the owner: the order is closed with `outAmount` 0.0006, where the owner received
1000 base units more than it sent. -/
theorem close_buy_stays_pending :
    (((OrderKeeper.handlePolling sampleCfg (noMetaEnv buyReceipt)
        (sampleKeeper [sampleBuy])).store.order 1).map (fun o => o.status) = some .Pending ∧
      (OrderKeeper.handlePolling sampleCfg (noMetaEnv buyReceipt)
        (sampleKeeper [sampleBuy])).closed = [1] ∧
      ((noMetaEnv buyReceipt).transactionReceipt sampleBuy.txHash).toOption.map
        (fun r => r.status) = some 1) ∧
    ((OrderKeeper.handlePolling sampleCfg (noBalanceEnv buyReceipt)
        (sampleKeeper [sampleBuy])).store.order 1).map (fun o => o.status) = some .Pending ∧
    ((OrderKeeper.handlePolling sampleCfg (noStoreEnv buyReceipt)
        (sampleKeeper [sampleBuy])).store.order 1).map (fun o => o.status) = some .Pending ∧
    (((OrderKeeper.handlePolling sampleCfg (sampleEnv buyReceipt)
        (sampleKeeper [hugeBuy])).store.order 1).map (fun o => o.status) = some .Pending ∧
      (OrderKeeper.handlePolling sampleCfg (sampleEnv buyReceipt)
        (sampleKeeper [hugeBuy])).crashed = true) ∧
    (((OrderKeeper.handlePolling sampleCfg (sampleEnv selfBuyReceipt)
        (sampleKeeper [sampleBuy])).store.order 1).map (fun o => (o.status, o.outAmount))
        = some (.Closed, ⟨600, -6⟩) ∧
      receivedByOwner (HexToAddress sampleBuy.account) (HexToAddress sampleBuy.token)
          [creditLog sampleToken 1000, selfLog sampleToken 400]
        - sentByOwner (HexToAddress sampleBuy.account) (HexToAddress sampleBuy.token)
          [creditLog sampleToken 1000, selfLog sampleToken 400] = 1000 ∧
      ParseUnits 1000 6 = some ⟨1000, -6⟩) := by
  decide

theorem closed_in_trace (cfg : ChainConfig) (env : KeeperEnv) (k : Keeper) (ord o2 : Order)
    (hids : (k.store.orders.map fun o => o.id).Nodup)
    (hload : ord ∈ (if env.findPendingFault then []
      else OrderModel.FindPendingOrders k.store.orders 100))
    (hfinal : (OrderKeeper.handlePolling cfg env k).store.order ord.id = some o2)
    (hclosed : o2.status = .Closed) :
    ord.id ∈ (OrderKeeper.handlePolling cfg env k).closed := by
  obtain ⟨hmem, hpend⟩ := FindPendingOrders_mem _ _ ord (loaded_mem _ _ ord hload)
  have hk : k.store.order ord.id = some ord := order_of_mem k.store hids ord hmem
  obtain ⟨R, C, -, -, -, -, -, hC, hst, -⟩ := handlePolling_handled cfg env k
  obtain ⟨o3, ho3, hcase⟩ := hst ord.id ord hk
  rw [hfinal] at ho3
  injection ho3 with ho3
  subst ho3
  rcases hcase with h | ⟨h, -⟩ | ⟨-, x, hx, hxe⟩
  · rw [h, hpend] at hclosed
    cases hclosed
  · rw [hclosed] at h
    cases h
  · rw [hC]
    exact List.mem_map.2 ⟨x, hx, hxe⟩

/-- C15. Closing price and zero guard, within a tick. For every stored order that a tick
loaded as `Pending` and closed, the receipt of the order was obtained with a status other
than 0 and pricing did not panic. For a Sell, `outAmount` is `ParseUnits` of the delta that
`GetTokenBalanceChanges` reports for the stablecoin from the logs of that receipt (received
minus sent, a transfer from the owner to the owner counted as sent only), zero without a
stablecoin transfer involving the owner, and for a non-zero `inAmount` the final price is
`outAmount.Div inAmount` (within half a unit of the 16th fractional digit of the quotient
when the exponent of `inAmount` is at most `10 ^ 9` in absolute value). For a Buy or a Sell
whose `inAmount` is zero the final price is zero. -/
theorem close_price_zero_guard (cfg : ChainConfig) (env : KeeperEnv) (k : Keeper)
    (ord o2 : Order)
    (hids : (k.store.orders.map fun o => o.id).Nodup)
    (hload : ord ∈ (if env.findPendingFault then []
      else OrderModel.FindPendingOrders k.store.orders 100))
    (hdec : ∀ m, env.getTokenMeta ord.token = .ok m → m.decimals < 256)
    (hsd : cfg.stablecoinDecimals < 256)
    (hfinal : (OrderKeeper.handlePolling cfg env k).store.order ord.id = some o2)
    (hclosed : o2.status = .Closed) :
    ∃ receipt,
      env.transactionReceipt ord.txHash = .ok receipt ∧ receipt.status ≠ 0 ∧
      (∃ (kj : Keeper) (tokenMeta : Metadata) (pricing : Decimal × Decimal × Decimal),
        env.getTokenMeta ord.token = .ok tokenMeta ∧
        OrderKeeper.closePricing cfg env kj.store ord
          (GetTokenBalanceChanges receipt.logs ord.account) tokenMeta = some pricing ∧
        pricing.1 = o2.finalPrice ∧ pricing.2.1 = o2.outAmount) ∧
      (ord.type = .Sell →
        (receipt.logs.any
            (involvesOwner (HexToAddress ord.account) (HexToAddress cfg.stablecoinCA))
            = true →
          ParseUnits
              (reportedDelta (HexToAddress ord.account) (HexToAddress cfg.stablecoinCA)
                receipt.logs)
              cfg.stablecoinDecimals = some o2.outAmount ∧
          o2.outAmount.toRat
            = (reportedDelta (HexToAddress ord.account) (HexToAddress cfg.stablecoinCA)
                receipt.logs : ℚ) / (10 : ℚ) ^ cfg.stablecoinDecimals ∧
          (ord.inAmount.value ≠ 0 →
            o2.outAmount.Div ord.inAmount = some o2.finalPrice ∧
            (-1000000000 ≤ ord.inAmount.exp ∧ ord.inAmount.exp ≤ 1000000000 →
              |o2.finalPrice.toRat - o2.outAmount.toRat / ord.inAmount.toRat|
                ≤ 1 / (2 * 10 ^ 16)))) ∧
        (receipt.logs.any
            (involvesOwner (HexToAddress ord.account) (HexToAddress cfg.stablecoinCA))
            = false →
          o2.outAmount.toRat = 0 ∧ o2.finalPrice.toRat = 0)) ∧
      (ord.inAmount.value = 0 → o2.finalPrice.toRat = 0) := by
  have hinvoked := closed_in_trace cfg env k ord o2 hids hload hfinal hclosed
  obtain ⟨receipt, kj, hr, hs, hkj, hfin⟩ := tick_closing cfg env k hids ord hload hinvoked
  have hpend : ord.status = .Pending :=
    (FindPendingOrders_mem _ _ ord (loaded_mem _ _ ord hload)).2
  have hnet := GetTokenBalanceChanges_net receipt.logs ord.account
    (HexToAddress cfg.stablecoinCA)
  refine ⟨receipt, hr, hs, ?_⟩
  generalize hδ : reportedDelta (HexToAddress ord.account) (HexToAddress cfg.stablecoinCA)
    receipt.logs = δ at hnet ⊢
  generalize hany : receipt.logs.any
    (involvesOwner (HexToAddress ord.account) (HexToAddress cfg.stablecoinCA)) = any
    at hnet ⊢
  generalize hch : GetTokenBalanceChanges receipt.logs ord.account = changes at hnet hfin ⊢
  rcases handleCloseOrder_result cfg env kj ord changes hsd hkj with
    ⟨tokenMeta, fp, out, cost, bal, hmeta, hp, hbal, htx, hord⟩ | ⟨-, hord⟩
  · have ho2 := hfinal.symm.trans (hfin.trans hord)
    injection ho2 with ho2
    subst ho2
    dsimp only
    refine ⟨⟨kj, tokenMeta, (fp, out, cost), hmeta, hp, rfl, rfl⟩, ?_, ?_⟩
    · intro ht
      obtain ⟨cost2, -, -, -, -, hp2⟩ :=
        closePricing_sell cfg env kj.store ord changes tokenMeta ht hsd
      rw [hp2] at hp
      cases any with
      | true =>
        simp only [if_true] at hnet
        rw [hnet] at hp
        dsimp only at hp
        refine ⟨fun _ => ?_, fun h => Bool.noConfusion h⟩
        by_cases h0 : ord.inAmount.value = 0
        · rw [if_pos h0] at hp
          injection hp with hp
          injection hp with hp1 hp2
          injection hp2 with hp2 hp3
          subst hp1
          subst hp2
          exact ⟨ParseUnits_eq δ _ hsd, toRat_parsed δ _, fun hne => absurd h0 hne⟩
        · rw [if_neg h0] at hp
          cases hdiv : (Decimal.mk δ (-(cfg.stablecoinDecimals : Int))).Div ord.inAmount with
          | none => rw [hdiv] at hp; cases hp
          | some p =>
            rw [hdiv] at hp
            injection hp with hp
            injection hp with hp1 hp2
            injection hp2 with hp2 hp3
            subst hp1
            subst hp2
            refine ⟨ParseUnits_eq δ _ hsd, toRat_parsed δ _, fun _ => ⟨hdiv, fun hexp => ?_⟩⟩
            obtain ⟨r, hr2, -, hbound, -⟩ :=
              Div_spec ⟨δ, -(cfg.stablecoinDecimals : Int)⟩ ord.inAmount h0
                ⟨by dsimp only; omega, by dsimp only; omega⟩ hexp
            rw [hdiv] at hr2
            injection hr2 with hr2
            subst hr2
            exact hbound
      | false =>
        simp only [Bool.false_eq_true, if_false] at hnet
        rw [hnet] at hp
        injection hp with hp
        injection hp with hp1 hp2
        injection hp2 with hp2 hp3
        subst hp1
        subst hp2
        exact ⟨fun h => Bool.noConfusion h, fun _ => ⟨toRat_zero_value 1, toRat_zero_value 0⟩⟩
    · intro hz
      cases ht : ord.type with
      | Buy =>
        rw [closePricing_buy cfg env kj.store ord changes tokenMeta ht (hdec tokenMeta hmeta)]
          at hp
        cases hv : changes (HexToAddress ord.token) with
        | none =>
          rw [hv] at hp
          injection hp with hp
          injection hp with hp1 hp2
          subst hp1
          exact toRat_zero_value 0
        | some v =>
          rw [hv] at hp
          dsimp only at hp
          by_cases h0 : v = 0
          · rw [if_pos h0] at hp
            injection hp with hp
            injection hp with hp1 hp2
            subst hp1
            exact toRat_zero_value 0
          · rw [if_neg h0] at hp
            cases hdiv : ord.inAmount.Div ⟨v, -(tokenMeta.decimals : Int)⟩ with
            | none => rw [hdiv] at hp; cases hp
            | some p =>
              rw [hdiv] at hp
              injection hp with hp
              injection hp with hp1 hp2
              subst hp1
              exact (toRat_eq_zero_iff p).2 (Div_zero_dividend _ _ p hz hdiv)
      | Sell =>
        obtain ⟨cost2, -, -, -, -, hp2⟩ :=
          closePricing_sell cfg env kj.store ord changes tokenMeta ht hsd
        rw [hp2] at hp
        cases hv : changes (HexToAddress cfg.stablecoinCA) with
        | none =>
          rw [hv] at hp
          injection hp with hp
          injection hp with hp1 hp2
          subst hp1
          exact toRat_zero_value 0
        | some v =>
          rw [hv] at hp
          dsimp only at hp
          rw [if_pos hz] at hp
          injection hp with hp
          injection hp with hp1 hp2
          subst hp1
          exact toRat_zero_value 0
  · have ho2 := hfinal.symm.trans (hfin.trans hord)
    injection ho2 with ho2
    subst ho2
    rw [hpend] at hclosed
    cases hclosed

/-- Witness for C15: the tick closes the sample Sell of 2 tokens on a receipt crediting 30
stablecoin units: `outAmount` 30 and `finalPrice` 15; with a zero input amount the final
price is zero. -/
theorem close_price_zero_guard_witness :
    (((OrderKeeper.handlePolling sampleCfg (sampleEnv sellReceipt)
        (sampleKeeper [sampleSell none])).store.order 2).map
        (fun o => (o.status, o.outAmount, o.finalPrice))
      = some (.Closed, ⟨30000000, -6⟩, ⟨150000000000000000, -16⟩) ∧
    ((OrderKeeper.handlePolling sampleCfg (sampleEnv sellReceipt)
        (sampleKeeper [{ sampleSell none with inAmount := ⟨0, 0⟩ }])).store.order 2).map
        (fun o => (o.status, o.outAmount, o.finalPrice))
      = some (.Closed, ⟨30000000, -6⟩, Decimal.zero)) ∧
    (∃ receipt,
      (sampleEnv sellReceipt).transactionReceipt (sampleSell none).txHash = .ok receipt ∧ receipt.status ≠ 0 ∧
      (∃ (kj : Keeper) (tokenMeta : Metadata) (pricing : Decimal × Decimal × Decimal),
        (sampleEnv sellReceipt).getTokenMeta (sampleSell none).token = .ok tokenMeta ∧
        OrderKeeper.closePricing sampleCfg (sampleEnv sellReceipt) kj.store (sampleSell none)
          (GetTokenBalanceChanges receipt.logs (sampleSell none).account) tokenMeta = some pricing ∧
        pricing.1 = closedSampleSell.finalPrice ∧ pricing.2.1 = closedSampleSell.outAmount) ∧
      ((sampleSell none).type = .Sell →
        (receipt.logs.any
            (involvesOwner (HexToAddress (sampleSell none).account) (HexToAddress sampleCfg.stablecoinCA))
            = true →
          ParseUnits
              (reportedDelta (HexToAddress (sampleSell none).account) (HexToAddress sampleCfg.stablecoinCA)
                receipt.logs)
              sampleCfg.stablecoinDecimals = some closedSampleSell.outAmount ∧
          closedSampleSell.outAmount.toRat
            = (reportedDelta (HexToAddress (sampleSell none).account) (HexToAddress sampleCfg.stablecoinCA)
                receipt.logs : ℚ) / (10 : ℚ) ^ sampleCfg.stablecoinDecimals ∧
          ((sampleSell none).inAmount.value ≠ 0 →
            closedSampleSell.outAmount.Div (sampleSell none).inAmount = some closedSampleSell.finalPrice ∧
            (-1000000000 ≤ (sampleSell none).inAmount.exp ∧ (sampleSell none).inAmount.exp ≤ 1000000000 →
              |closedSampleSell.finalPrice.toRat - closedSampleSell.outAmount.toRat / (sampleSell none).inAmount.toRat|
                ≤ 1 / (2 * 10 ^ 16)))) ∧
        (receipt.logs.any
            (involvesOwner (HexToAddress (sampleSell none).account) (HexToAddress sampleCfg.stablecoinCA))
            = false →
          closedSampleSell.outAmount.toRat = 0 ∧ closedSampleSell.finalPrice.toRat = 0)) ∧
      ((sampleSell none).inAmount.value = 0 → closedSampleSell.finalPrice.toRat = 0)) :=
  ⟨⟨by decide, by decide⟩,
    close_price_zero_guard sampleCfg (sampleEnv sellReceipt) (sampleKeeper [sampleSell none])
      (sampleSell none) closedSampleSell (by decide) (by decide)
      (by intro m h; injection h with h; subst h; decide) (by decide) (by decide) rfl⟩

/-- C15, failing input: the sample Sell, closed by the tick on a receipt that credits the
owner 30 stablecoin units and also holds a transfer of 10 stablecoin units from the owner to
the owner. The owner's stablecoin balance increases by 30 (received 40, sent 10); the order
is closed with `outAmount` 20 and `finalPrice` 10. -/
theorem close_sell_self_transfer :
    ((OrderKeeper.handlePolling sampleCfg (sampleEnv selfSellReceipt)
        (sampleKeeper [sampleSell none])).store.order 2).map
        (fun o => (o.status, o.outAmount, o.finalPrice))
      = some (.Closed, ⟨20000000, -6⟩, ⟨100000000000000000, -16⟩) ∧
    receivedByOwner (HexToAddress (sampleSell none).account)
        (HexToAddress sampleCfg.stablecoinCA)
        [creditLog sampleStable 30000000, selfLog sampleStable 10000000]
      - sentByOwner (HexToAddress (sampleSell none).account)
        (HexToAddress sampleCfg.stablecoinCA)
        [creditLog sampleStable 30000000, selfLog sampleStable 10000000] = 30000000 ∧
    ParseUnits 30000000 6 = some ⟨30000000, -6⟩ := by
  decide

/-! ### Concurrent calls of `Request` -/

theorem lookup_set (calls : List Call) (i : Nat) (call c2 : Call)
    (hc : calls[i]? = some call) (j : Nat) (c : Call)
    (h : (calls.set i c2)[j]? = some c) :
    (j = i ∧ c = c2) ∨ (j ≠ i ∧ calls[j]? = some c) := by
  rw [List.getElem?_set] at h
  by_cases hij : i = j
  · subst hij
    rw [if_pos rfl] at h
    have hlt : i < calls.length := by
      rcases Nat.lt_or_ge i calls.length with h1 | h1
      · exact h1
      · rw [List.getElem?_eq_none h1] at hc
        cases hc
    rw [if_pos hlt] at h
    injection h with h
    exact Or.inl ⟨rfl, h.symm⟩
  · rw [if_neg hij] at h
    exact Or.inr ⟨fun e => hij e.symm, h⟩

theorem issued_append (keccak : Keccak) (st : Burst) (account : Address) (key : List Char)
    (x : Nat) (ok : Bool) (st2 : Burst) (h : st2.consumed = st.consumed ++ [(key, x, ok)]) :
    st2.issued keccak account =
      st.issued keccak account ++
        (if key = account.Hex keccak ∧ ok = true then [x] else []) := by
  unfold Burst.issued
  rw [h, List.filterMap_append]
  congr 1
  by_cases hk : key = account.Hex keccak ∧ ok = true
  · simp [List.filterMap_cons, hk]
  · simp only [List.filterMap_cons, List.filterMap_nil, hk, if_false]

theorem pcOk_outside (n j : Nat) (stored : Option Nat) (pc : Pc)
    (h : pc.inCriticalSection = false) : pcOk n j stored pc := by
  cases pc <;> simp_all [Pc.inCriticalSection, pcOk]

theorem Excl_update (keccak : Keccak) (account : Address) (st st2 : Burst) (i : Nat)
    (call : Call) (pc2 : Pc) (hE : st.Excl keccak account)
    (hc : st.calls[i]? = some call)
    (hcalls : st2.calls = st.calls.set i { call with pc := pc2 })
    (hheld : account.Hex keccak ∈ st.held →
      account.Hex keccak ∈ st2.held ∨
        (call.account = account ∧ call.pc.inCriticalSection = true))
    (hself : call.account = account →
      (pc2.inCriticalSection = true → account.Hex keccak ∈ st2.held) ∧
      (pc2.inCriticalSection = true →
        call.pc.inCriticalSection = true ∨ account.Hex keccak ∉ st.held)) :
    st2.Excl keccak account := by
  have look := lookup_set st.calls i call { call with pc := pc2 } hc
  refine ⟨?_, ?_⟩
  · intro i1 i2 c1 c2 h1 h2 a1 a2 s1 s2
    rw [hcalls] at h1 h2
    rcases look i1 c1 h1 with ⟨e1, rfl⟩ | ⟨e1, g1⟩ <;>
      rcases look i2 c2 h2 with ⟨e2, rfl⟩ | ⟨e2, g2⟩
    · rw [e1, e2]
    · rcases (hself a1).2 s1 with hin | hout
      · rw [e1]
        exact hE.mutex i i2 call c2 hc g2 a1 a2 hin s2
      · exact absurd (hE.locked i2 c2 g2 a2 s2) hout
    · rcases (hself a2).2 s2 with hin | hout
      · rw [e2]
        exact hE.mutex i1 i c1 call g1 hc a1 a2 s1 hin
      · exact absurd (hE.locked i1 c1 g1 a1 s1) hout
    · exact hE.mutex i1 i2 c1 c2 g1 g2 a1 a2 s1 s2
  · intro j c hj ha hs
    rw [hcalls] at hj
    rcases look j c hj with ⟨e, rfl⟩ | ⟨e, g⟩
    · exact (hself ha).1 hs
    · rcases hheld (hE.locked j c g ha hs) with h | ⟨h1, h2⟩
      · exact h
      · exact absurd (hE.mutex j i c call g hc ha h1 hs h2) e

theorem Excl_step (keccak : Keccak) (account : Address) (st : Burst) (i : Nat)
    (hE : st.Excl keccak account) : (Burst.step keccak st i).Excl keccak account := by
  unfold Burst.step
  cases hc : st.calls[i]? with
  | none => exact hE
  | some call =>
    dsimp only
    cases hpc : call.pc with
    | start =>
      dsimp only
      exact Excl_update keccak account st _ i call .waiting hE hc rfl (fun h => Or.inl h)
        (fun _ => ⟨fun h => absurd h (by decide), fun h => absurd h (by decide)⟩)
    | waiting =>
      dsimp only
      split
      · exact hE
      · rename_i hfree
        refine Excl_update keccak account st _ i call .locked hE hc rfl
          (fun h => Or.inl (List.mem_cons_of_mem _ h)) ?_
        intro ha
        rw [ha] at hfree
        exact ⟨fun _ => by rw [ha]; exact List.mem_cons_self _ _, fun _ => Or.inr hfree⟩
    | locked =>
      dsimp only
      have hin : call.pc.inCriticalSection = true := by rw [hpc]; rfl
      split
      · exact Excl_update keccak account st _ i call _ hE hc rfl (fun h => Or.inl h)
          (fun ha => ⟨fun _ => hE.locked i call hc ha hin, fun _ => Or.inl hin⟩)
      · exact Excl_update keccak account st _ i call _ hE hc rfl (fun h => Or.inl h)
          (fun ha => ⟨fun _ => hE.locked i call hc ha hin, fun _ => Or.inl hin⟩)
    | queried c =>
      dsimp only
      have hin : call.pc.inCriticalSection = true := by rw [hpc]; rfl
      split
      · exact Excl_update keccak account st _ i call _ hE hc rfl (fun h => Or.inl h)
          (fun ha => ⟨fun _ => hE.locked i call hc ha hin, fun _ => Or.inl hin⟩)
      · split
        · exact Excl_update keccak account st _ i call _ hE hc rfl (fun h => Or.inl h)
            (fun ha => ⟨fun _ => hE.locked i call hc ha hin, fun _ => Or.inl hin⟩)
        · exact Excl_update keccak account st _ i call _ hE hc rfl (fun h => Or.inl h)
            (fun ha => ⟨fun _ => hE.locked i call hc ha hin, fun _ => Or.inl hin⟩)
    | found x nf =>
      dsimp only
      have hin : call.pc.inCriticalSection = true := by rw [hpc]; rfl
      exact Excl_update keccak account st _ i call _ hE hc rfl (fun h => Or.inl h)
        (fun ha => ⟨fun _ => hE.locked i call hc ha hin, fun _ => Or.inl hin⟩)
    | consuming x nf =>
      dsimp only
      have hin : call.pc.inCriticalSection = true := by rw [hpc]; rfl
      split
      · exact Excl_update keccak account st _ i call _ hE hc rfl (fun h => Or.inl h)
          (fun ha => ⟨fun _ => hE.locked i call hc ha hin, fun _ => Or.inl hin⟩)
      · exact Excl_update keccak account st _ i call _ hE hc rfl (fun h => Or.inl h)
          (fun ha => ⟨fun _ => hE.locked i call hc ha hin, fun _ => Or.inl hin⟩)
    | persisting x nf =>
      dsimp only
      have hin : call.pc.inCriticalSection = true := by rw [hpc]; rfl
      exact Excl_update keccak account st _ i call _ hE hc rfl (fun h => Or.inl h)
        (fun ha => ⟨fun _ => hE.locked i call hc ha hin, fun _ => Or.inl hin⟩)
    | unlocking err =>
      dsimp only
      have hin : call.pc.inCriticalSection = true := by rw [hpc]; rfl
      refine Excl_update keccak account st _ i call (.done err) hE hc rfl ?_
        (fun _ => ⟨fun h => absurd h (by simp [Pc.inCriticalSection]),
          fun h => absurd h (by simp [Pc.inCriticalSection])⟩)
      intro hk
      by_cases hkey : account.Hex keccak = call.account.Hex keccak
      · exact Or.inr ⟨(Hex_injective keccak _ _ hkey).symm, hin⟩
      · refine Or.inl ?_
        rw [List.mem_filter]
        exact ⟨hk, by simpa using hkey⟩
    | done err => exact hE

theorem Inv_quiet (keccak : Keccak) (account : Address) (n : Nat) (st st2 : Burst) (i : Nat)
    (call : Call) (pc2 : Pc) (initial : Option Nat) (hI : st.Inv keccak account initial n)
    (hc : st.calls[i]? = some call)
    (hcalls : st2.calls = st.calls.set i { call with pc := pc2 })
    (hstored : storedNonce keccak st2.table account = storedNonce keccak st.table account)
    (hissued : st2.issued keccak account = st.issued keccak account)
    (hself : call.account = account →
      (∀ x nf, call.pc ≠ .persisting x nf) ∧ (∀ x nf, pc2 ≠ .persisting x nf) ∧
      pcOk n (st.issued keccak account).length (storedNonce keccak st.table account) pc2) :
    st2.Inv keccak account initial n := by
  have look := lookup_set st.calls i call { call with pc := pc2 } hc
  refine ⟨hI.start, ?_, ?_, ?_, ?_, ?_⟩
  · rw [hissued]
    exact hI.issued
  · intro hno
    rw [hstored, hissued]
    apply hI.storedIdle
    intro j c hj ha x nf hp
    by_cases e : j = i
    · subst e
      rw [hc] at hj
      injection hj with hj
      subst hj
      exact (hself ha).1 x nf hp
    · have : st2.calls[j]? = some c := by
        rw [hcalls, List.getElem?_set, if_neg (fun h => e h.symm)]
        exact hj
      exact hno j c this ha x nf hp
  · intro j c x nf hj ha hp
    rw [hcalls] at hj
    rw [hstored, hissued]
    rcases look j c hj with ⟨e, rfl⟩ | ⟨e, g⟩
    · exact absurd hp ((hself ha).2.1 x nf)
    · exact hI.storedPersisting j c x nf g ha hp
  · intro j c hj ha
    rw [hcalls] at hj
    rw [hstored, hissued]
    rcases look j c hj with ⟨e, rfl⟩ | ⟨e, g⟩
    · exact (hself ha).2.2
    · exact hI.pcs j c g ha
  · intro j c hj ha
    rw [hcalls] at hj
    rcases look j c hj with ⟨e, rfl⟩ | ⟨e, g⟩
    · exact hI.persistOk i call hc ha
    · exact hI.persistOk j c g ha

theorem persistTable_other (keccak : Keccak) (t : NonceTable) (fault : Option Nat)
    (b account : Address) (x : Nat) (nf : Bool) (h : b ≠ account) :
    storedNonce keccak (persistTable keccak t fault (b.Hex keccak) x nf) account
      = storedNonce keccak t account := by
  unfold persistTable NonceModel.Save NonceModel.UpdateNonce
  cases fault with
  | some e => cases nf <;> rfl
  | none =>
    cases nf with
    | true =>
      simp only [if_true, key_Hex]
      by_cases hany : (t.any fun r => decide (r.account = b.Hex keccak)) = true
      · rw [if_pos hany]
      · rw [if_neg hany]
        exact storedNonce_other_append keccak t b account x (fun e => h e.symm)
    | false =>
      simp only [Bool.false_eq_true, if_false, key_Hex]
      exact storedNonce_other_updatedTable keccak t b account x (fun e => h e.symm)

theorem persistTable_own (keccak : Keccak) (t : NonceTable) (account : Address) (x : Nat)
    (nf : Bool) (h : nf = true ↔ storedNonce keccak t account = none) :
    storedNonce keccak (persistTable keccak t none (account.Hex keccak) x nf) account
      = some x := by
  unfold persistTable NonceModel.Save NonceModel.UpdateNonce
  cases nf with
  | true =>
    have hs := h.1 rfl
    have hany : (t.any fun r => decide (r.account = account.Hex keccak)) = false := by
      rw [storedNonce_eq_find] at hs
      rw [List.any_eq_false]
      intro r hr
      cases hf : t.find? (fun r => decide (r.account = account.Hex keccak)) with
      | some r2 => rw [hf] at hs; cases hs
      | none =>
        rw [List.find?_eq_none] at hf
        exact hf r hr
    simp only [if_true, key_Hex, hany, Bool.false_eq_true, if_false]
    exact storedNonce_append_own keccak t account x hs
  | false =>
    simp only [Bool.false_eq_true, if_false, key_Hex]
    cases hs : storedNonce keccak t account with
    | none => exact absurd (h.2 hs) (by decide)
    | some s => exact storedNonce_updatedTable keccak t account x s hs

theorem others_outside (keccak : Keccak) (account : Address) (st : Burst) (i : Nat)
    (call : Call) (hE : st.Excl keccak account) (hc : st.calls[i]? = some call)
    (ha : call.account = account) (hin : call.pc.inCriticalSection = true) (j : Nat)
    (c : Call) (hj : st.calls[j]? = some c) (hca : c.account = account) (hne : j ≠ i) :
    c.pc.inCriticalSection = false := by
  cases hs : c.pc.inCriticalSection with
  | false => rfl
  | true => exact absurd (hE.mutex j i c call hj hc hca ha hs hin) hne

theorem nobody_persisting (keccak : Keccak) (account : Address) (st : Burst) (i : Nat)
    (call : Call) (hE : st.Excl keccak account) (hc : st.calls[i]? = some call)
    (ha : call.account = account) (hin : call.pc.inCriticalSection = true)
    (hp : ∀ x nf, call.pc ≠ .persisting x nf) :
    ∀ (j : Nat) (c : Call), st.calls[j]? = some c → c.account = account →
      ∀ x nf, c.pc ≠ Pc.persisting x nf := by
  intro j c hj hca x nf hpc
  by_cases e : j = i
  · subst e
    rw [hc] at hj
    injection hj with hj
    subst hj
    exact hp x nf hpc
  · have := others_outside keccak account st i call hE hc ha hin j c hj hca e
    rw [hpc] at this
    exact absurd this (by simp [Pc.inCriticalSection])

theorem Inv_consume (keccak : Keccak) (account : Address) (n : Nat) (st st2 : Burst) (i : Nat)
    (call : Call) (x : Nat) (nf : Bool) (initial : Option Nat)
    (hE : st.Excl keccak account) (hI : st.Inv keccak account initial n) (hc : st.calls[i]? = some call)
    (ha : call.account = account) (hpc : call.pc = .consuming x nf)
    (hcalls : st2.calls = st.calls.set i { call with pc := .persisting x nf })
    (htable : st2.table = st.table)
    (hissued : st2.issued keccak account = st.issued keccak account ++ [x])
    (hwrap : n + (st2.issued keccak account).length ≤ 2 ^ 64) :
    st2.Inv keccak account initial n := by
  have look := lookup_set st.calls i call { call with pc := .persisting x nf } hc
  have hin : call.pc.inCriticalSection = true := by rw [hpc]; rfl
  have hlen : (st2.issued keccak account).length = (st.issued keccak account).length + 1 := by
    rw [hissued, List.length_append]
    rfl
  have hpcs := hI.pcs i call hc ha
  rw [hpc] at hpcs
  obtain ⟨hx, hnf⟩ := hpcs
  have hx2 : x = n + (st.issued keccak account).length := by
    rcases hx with hx | hx
    · exact hx
    · omega
  have hidle := hI.storedIdle (nobody_persisting keccak account st i call hE hc ha hin
    (by intro a b; rw [hpc]; exact fun e => Pc.noConfusion e))
  have hout := others_outside keccak account st i call hE hc ha hin
  refine ⟨hI.start, ?_, ?_, ?_, ?_, ?_⟩
  · rw [hlen, List.range'_concat, ← hI.issued, hissued, hx2]
    simp
  · intro hno
    exact absurd rfl (hno i { call with pc := .persisting x nf }
      (by rw [hcalls, List.getElem?_set, if_pos rfl]
          have hlt : i < st.calls.length := by
            rcases Nat.lt_or_ge i st.calls.length with h1 | h1
            · exact h1
            · rw [List.getElem?_eq_none h1] at hc
              cases hc
          rw [if_pos hlt]) ha x nf)
  · intro j c y nf2 hj hca hp
    rw [hcalls] at hj
    rw [htable, hlen, Nat.add_sub_cancel]
    rcases look j c hj with ⟨e, rfl⟩ | ⟨e, g⟩
    · exact hidle
    · have := hout j c g hca e
      rw [hp] at this
      exact absurd this (by simp [Pc.inCriticalSection])
  · intro j c hj hca
    rw [hcalls] at hj
    rw [htable, hlen]
    rcases look j c hj with ⟨e, rfl⟩ | ⟨e, g⟩
    · exact ⟨by omega, by omega, hnf⟩
    · exact pcOk_outside _ _ _ _ (hout j c g hca e)
  · intro j c hj hca
    rw [hcalls] at hj
    rcases look j c hj with ⟨e, rfl⟩ | ⟨e, g⟩
    · exact hI.persistOk i call hc ha
    · exact hI.persistOk j c g hca

theorem Inv_persist (keccak : Keccak) (account : Address) (n : Nat) (st st2 : Burst) (i : Nat)
    (call : Call) (x : Nat) (nf : Bool) (initial : Option Nat)
    (hE : st.Excl keccak account) (hI : st.Inv keccak account initial n) (hc : st.calls[i]? = some call)
    (ha : call.account = account) (hpc : call.pc = .persisting x nf)
    (hcalls : st2.calls = st.calls.set i { call with pc := .unlocking none })
    (htable : st2.table
      = persistTable keccak st.table call.env.persistFault (call.account.Hex keccak) x nf)
    (hissued : st2.issued keccak account = st.issued keccak account) :
    st2.Inv keccak account initial n := by
  have look := lookup_set st.calls i call { call with pc := .unlocking none } hc
  have hin : call.pc.inCriticalSection = true := by rw [hpc]; rfl
  have hpcs := hI.pcs i call hc ha
  rw [hpc] at hpcs
  obtain ⟨hx, hj1, hnf⟩ := hpcs
  have hout := others_outside keccak account st i call hE hc ha hin
  have hstored : storedNonce keccak st2.table account
      = expectedStored initial n (st.issued keccak account).length := by
    rw [htable, hI.persistOk i call hc ha, ha, persistTable_own keccak st.table account x nf hnf]
    unfold expectedStored
    rw [if_neg (by omega)]
    congr 1
    omega
  refine ⟨hI.start, ?_, ?_, ?_, ?_, ?_⟩
  · rw [hissued]
    exact hI.issued
  · intro _
    rw [hissued]
    exact hstored
  · intro j c y nf2 hj hca hp
    rw [hcalls] at hj
    rcases look j c hj with ⟨e, rfl⟩ | ⟨e, g⟩
    · exact absurd hp (fun e => Pc.noConfusion e)
    · have := hout j c g hca e
      rw [hp] at this
      exact absurd this (by simp [Pc.inCriticalSection])
  · intro j c hj hca
    rw [hcalls] at hj
    rcases look j c hj with ⟨e, rfl⟩ | ⟨e, g⟩
    · trivial
    · exact pcOk_outside _ _ _ _ (hout j c g hca e)
  · intro j c hj hca
    rw [hcalls] at hj
    rcases look j c hj with ⟨e, rfl⟩ | ⟨e, g⟩
    · exact hI.persistOk i call hc ha
    · exact hI.persistOk j c g hca

theorem FindOne_cases (keccak : Keccak) (t : NonceTable) (fault : Option Nat)
    (account : Address) :
    (∃ e, NonceModel.FindOne keccak t fault (account.Hex keccak) = .error (.other e)) ∨
    (∃ r, NonceModel.FindOne keccak t fault (account.Hex keccak) = .ok r ∧
      storedNonce keccak t account = some r.nonce) ∨
    (NonceModel.FindOne keccak t fault (account.Hex keccak) = .error .notFound ∧
      storedNonce keccak t account = none) := by
  cases fault with
  | some e => exact Or.inl ⟨e, rfl⟩
  | none =>
    rw [FindOne_Hex, storedNonce_eq_find]
    cases t.find? (fun r => decide (r.account = account.Hex keccak)) with
    | some r => exact Or.inr (Or.inl ⟨r, rfl, rfl⟩)
    | none => exact Or.inr (Or.inr ⟨rfl, rfl⟩)

theorem expectedStored_some (initial : Option Nat) (n j s : Nat)
    (hstart : ∀ s, initial = some s → s + 1 = n)
    (h : expectedStored initial n j = some s) : s + 1 = n + j := by
  unfold expectedStored at h
  split at h
  · rename_i hj
    rw [hj, hstart s h]
    rfl
  · injection h with h
    omega

theorem expectedStored_none (initial : Option Nat) (n j : Nat)
    (h : expectedStored initial n j = none) : j = 0 := by
  unfold expectedStored at h
  split at h
  · assumption
  · cases h

theorem Inv_step (keccak : Keccak) (account : Address) (n : Nat) (st : Burst) (i : Nat)
    (initial : Option Nat) (hE : st.Excl keccak account)
    (hI : st.Inv keccak account initial n)
    (hchain : ∀ call c, st.calls[i]? = some call → call.account = account →
      call.pc = .locked → call.env.pendingNonceAt = .ok c →
      c ≤ n + (st.issued keccak account).length ∧
        (storedNonce keccak st.table account = none → n ≤ c))
    (hwrap : n + ((Burst.step keccak st i).issued keccak account).length ≤ 2 ^ 64) :
    (Burst.step keccak st i).Inv keccak account initial n := by
  revert hwrap
  unfold Burst.step
  cases hc : st.calls[i]? with
  | none => exact fun _ => hI
  | some call =>
    dsimp only
    cases hpc : call.pc with
    | start =>
      dsimp only
      intro _
      exact Inv_quiet keccak account n st _ i call .waiting initial hI hc rfl rfl rfl
        (fun _ => ⟨by intro x nf; rw [hpc]; exact fun e => Pc.noConfusion e,
          fun x nf e => Pc.noConfusion e, trivial⟩)
    | waiting =>
      dsimp only
      split
      · exact fun _ => hI
      · intro _
        exact Inv_quiet keccak account n st _ i call .locked initial hI hc rfl rfl rfl
          (fun _ => ⟨by intro x nf; rw [hpc]; exact fun e => Pc.noConfusion e,
            fun x nf e => Pc.noConfusion e, trivial⟩)
    | locked =>
      dsimp only
      split
      · intro _
        exact Inv_quiet keccak account n st _ i call _ initial hI hc rfl rfl rfl
          (fun _ => ⟨by intro x nf; rw [hpc]; exact fun e => Pc.noConfusion e,
            fun x nf e => Pc.noConfusion e, trivial⟩)
      · rename_i c hq
        intro _
        exact Inv_quiet keccak account n st _ i call _ initial hI hc rfl rfl rfl
          (fun ha => ⟨by intro x nf; rw [hpc]; exact fun e => Pc.noConfusion e,
            fun x nf e => Pc.noConfusion e, hchain call c hc ha hpc hq⟩)
    | queried c =>
      dsimp only
      have hin : call.pc.inCriticalSection = true := by rw [hpc]; rfl
      have hnp : ∀ x nf, call.pc ≠ .persisting x nf := by
        intro x nf
        rw [hpc]
        exact fun e => Pc.noConfusion e
      split
      · rename_i r hr
        intro _
        refine Inv_quiet keccak account n st _ i call _ initial hI hc rfl rfl rfl ?_
        intro ha
        refine ⟨hnp, fun x nf e => Pc.noConfusion e, ?_⟩
        have hidle := hI.storedIdle (nobody_persisting keccak account st i call hE hc ha hin hnp)
        have hq := hI.pcs i call hc ha
        rw [hpc] at hq
        rw [ha] at hr
        rcases FindOne_cases keccak st.table call.env.findFault account with
          ⟨e, h1⟩ | ⟨r2, h1, h2⟩ | ⟨h1, h2⟩
        · rw [h1] at hr
          cases hr
        · rw [h1] at hr
          injection hr with hr
          subst hr
          rw [h2] at hidle
          have hs := expectedStored_some initial n _ _ hI.start hidle.symm
          obtain ⟨hq1, hq2⟩ := hq
          refine ⟨?_, by rw [h2]; simp⟩
          by_cases hbig : 2 ^ 64 ≤ n + (st.issued keccak account).length
          · exact Or.inr hbig
          · refine Or.inl ?_
            split
            · rw [hs]
              exact Nat.mod_eq_of_lt (by omega)
            · omega
        · rw [h1] at hr
          cases hr
      · rename_i findErr hr
        split
        · intro _
          exact Inv_quiet keccak account n st _ i call _ initial hI hc rfl rfl rfl
            (fun _ => ⟨hnp, fun x nf e => Pc.noConfusion e, trivial⟩)
        · rename_i hnf
          intro _
          refine Inv_quiet keccak account n st _ i call _ initial hI hc rfl rfl rfl ?_
          intro ha
          refine ⟨hnp, fun x nf e => Pc.noConfusion e, ?_⟩
          have hidle := hI.storedIdle
            (nobody_persisting keccak account st i call hE hc ha hin hnp)
          have hq := hI.pcs i call hc ha
          rw [hpc] at hq
          rw [ha] at hr
          rcases FindOne_cases keccak st.table call.env.findFault account with
            ⟨e, h1⟩ | ⟨r2, h1, h2⟩ | ⟨h1, h2⟩
          · rw [h1] at hr
            injection hr with hr
            subst hr
            exact absurd rfl hnf
          · rw [h1] at hr
            cases hr
          · have hlow := hq.2 h2
            rw [h2] at hidle
            have hj0 := expectedStored_none initial n _ hidle.symm
            have hq1 := hq.1
            exact ⟨Or.inl (by omega), by rw [h2]; simp⟩
    | found x nf =>
      dsimp only
      intro _
      refine Inv_quiet keccak account n st _ i call _ initial hI hc rfl rfl rfl ?_
      intro ha
      have hq := hI.pcs i call hc ha
      rw [hpc] at hq
      exact ⟨by intro x nf; rw [hpc]; exact fun e => Pc.noConfusion e,
        fun x nf e => Pc.noConfusion e, hq⟩
    | consuming x nf =>
      dsimp only
      split
      · intro _
        refine Inv_quiet keccak account n st _ i call _ initial hI hc rfl rfl ?_
          (fun _ => ⟨by intro x nf; rw [hpc]; exact fun e => Pc.noConfusion e,
            fun x nf e => Pc.noConfusion e, trivial⟩)
        rw [issued_append keccak st account (call.account.Hex keccak) x false _ rfl]
        simp
      · intro hwrap
        by_cases ha : call.account = account
        · refine Inv_consume keccak account n st _ i call x nf initial hE hI hc ha hpc rfl rfl ?_ hwrap
          rw [issued_append keccak st account (call.account.Hex keccak) x true _ rfl, ha]
          simp
        · refine Inv_quiet keccak account n st _ i call _ initial hI hc rfl rfl ?_
            (fun h => absurd h ha)
          rw [issued_append keccak st account (call.account.Hex keccak) x true _ rfl]
          have hk : ¬ call.account.Hex keccak = account.Hex keccak :=
            fun e => ha (Hex_injective keccak _ _ e)
          simp [hk]
    | persisting x nf =>
      dsimp only
      intro _
      by_cases ha : call.account = account
      · exact Inv_persist keccak account n st _ i call x nf initial hE hI hc ha hpc rfl rfl rfl
      · exact Inv_quiet keccak account n st _ i call _ initial hI hc rfl
          (persistTable_other keccak st.table call.env.persistFault call.account account x nf
            ha) rfl (fun h => absurd h ha)
    | unlocking err =>
      dsimp only
      intro _
      exact Inv_quiet keccak account n st _ i call _ initial hI hc rfl rfl rfl
        (fun _ => ⟨by intro x nf; rw [hpc]; exact fun e => Pc.noConfusion e,
          fun x nf e => Pc.noConfusion e, trivial⟩)
    | done err => exact fun _ => hI

theorem issued_step (keccak : Keccak) (account : Address) (st : Burst) (i : Nat) :
    ∃ l, (Burst.step keccak st i).issued keccak account = st.issued keccak account ++ l := by
  unfold Burst.step
  cases hc : st.calls[i]? with
  | none => exact ⟨[], by simp⟩
  | some call =>
    dsimp only
    cases hpc : call.pc with
    | start => exact ⟨[], by simp [Burst.issued]⟩
    | waiting =>
      dsimp only
      split
      · exact ⟨[], by simp⟩
      · exact ⟨[], by simp [Burst.issued]⟩
    | locked =>
      dsimp only
      split
      · exact ⟨[], by simp [Burst.issued]⟩
      · exact ⟨[], by simp [Burst.issued]⟩
    | queried c =>
      dsimp only
      split
      · exact ⟨[], by simp [Burst.issued]⟩
      · split
        · exact ⟨[], by simp [Burst.issued]⟩
        · exact ⟨[], by simp [Burst.issued]⟩
    | found x nf => exact ⟨[], by simp [Burst.issued]⟩
    | consuming x nf =>
      dsimp only
      split
      · exact ⟨_, issued_append keccak st account _ x false _ rfl⟩
      · exact ⟨_, issued_append keccak st account _ x true _ rfl⟩
    | persisting x nf => exact ⟨[], by simp [Burst.issued]⟩
    | unlocking err => exact ⟨[], by simp [Burst.issued]⟩
    | done err => exact ⟨[], by simp⟩

theorem issued_run (keccak : Keccak) (account : Address) (schedule : List Nat) (st : Burst) :
    (st.issued keccak account).length
      ≤ ((Burst.run keccak st schedule).issued keccak account).length := by
  induction schedule generalizing st with
  | nil => exact le_refl _
  | cons i rest ih =>
    obtain ⟨l, hl⟩ := issued_step keccak account st i
    have h1 : (st.issued keccak account).length
        ≤ ((Burst.step keccak st i).issued keccak account).length := by
      rw [hl, List.length_append]
      omega
    exact le_trans h1 (ih (Burst.step keccak st i))

theorem Excl_run (keccak : Keccak) (account : Address) (schedule : List Nat) (st : Burst)
    (hE : st.Excl keccak account) : (Burst.run keccak st schedule).Excl keccak account := by
  induction schedule generalizing st with
  | nil => exact hE
  | cons i rest ih => exact ih (Burst.step keccak st i) (Excl_step keccak account st i hE)

theorem Inv_run (keccak : Keccak) (account : Address) (n : Nat) (schedule : List Nat)
    (st : Burst) (initial : Option Nat) (hE : st.Excl keccak account)
    (hI : st.Inv keccak account initial n)
    (hchain : Burst.chainInRange keccak account n st schedule = true)
    (hwrap : n + ((Burst.run keccak st schedule).issued keccak account).length ≤ 2 ^ 64) :
    (Burst.run keccak st schedule).Inv keccak account initial n := by
  induction schedule generalizing st with
  | nil => exact hI
  | cons i rest ih =>
    unfold Burst.chainInRange at hchain
    rw [Bool.and_eq_true] at hchain
    obtain ⟨hhead, htail⟩ := hchain
    have hmono := issued_run keccak account rest (Burst.step keccak st i)
    have hrun : Burst.run keccak st (i :: rest)
        = Burst.run keccak (Burst.step keccak st i) rest := rfl
    rw [hrun] at hwrap ⊢
    refine ih (Burst.step keccak st i) (Excl_step keccak account st i hE) ?_ htail hwrap
    refine Inv_step keccak account n st i initial hE hI ?_ (by omega)
    intro call c hc ha hpc hq
    rw [hc] at hhead
    simp only [ha, hpc, and_self, if_true, hq, decide_eq_true_eq] at hhead
    exact hhead

theorem lookup_init (t : NonceTable) (requests : List (Address × RequestEnv)) (i : Nat)
    (c : Call) (h : (Burst.init t requests).calls[i]? = some c) :
    c.pc = .start ∧ (c.account, c.env) ∈ requests := by
  unfold Burst.init at h
  simp only [List.getElem?_map] at h
  cases hr : requests[i]? with
  | none => rw [hr] at h; cases h
  | some r =>
    rw [hr] at h
    simp only [Option.map_some'] at h
    injection h with h
    subst h
    refine ⟨rfl, ?_⟩
    obtain ⟨hlt, he⟩ := List.getElem?_eq_some.1 hr
    rw [← he]
    apply List.getElem_mem

theorem Excl_init (keccak : Keccak) (account : Address) (t : NonceTable)
    (requests : List (Address × RequestEnv)) : (Burst.init t requests).Excl keccak account := by
  refine ⟨?_, ?_⟩
  · intro i j ci cj hi hj _ _ si _
    rw [(lookup_init t requests i ci hi).1] at si
    exact absurd si (by decide)
  · intro i c hi _ si
    rw [(lookup_init t requests i c hi).1] at si
    exact absurd si (by decide)

theorem Inv_init (keccak : Keccak) (account : Address) (n : Nat) (t : NonceTable)
    (requests : List (Address × RequestEnv))
    (h0 : ∀ s, storedNonce keccak t account = some s → s + 1 = n)
    (hp : ∀ r ∈ requests, r.1 = account → r.2.persistFault = none) :
    (Burst.init t requests).Inv keccak account (storedNonce keccak t account) n := by
  refine ⟨h0, rfl, fun _ => rfl, ?_, ?_, ?_⟩
  · intro i c x nf hi _ hpc
    rw [(lookup_init t requests i c hi).1] at hpc
    cases hpc
  · intro i c hi _
    rw [(lookup_init t requests i c hi).1]
    trivial
  · intro i c hi ha
    exact hp _ (lookup_init t requests i c hi).2 ha

/-- C26. Concurrent calls of `Request`, in every interleaving of their steps. At most one
call of an account is between locking and unlocking the account's mutex, so at most one
`consume` of the account runs at any instant. Let `n` be the stored nonce plus one when the
account has a row at the start. When the store writes of the account's calls do not fail,
every answer of the chain to one of its calls is at most `n` plus the number of nonces
issued so far and, while the account has no row, at least `n`, and `n + k ≤ 2 ^ 64` for the
number `k` of its calls whose `consume` succeeded, the nonces those calls passed to
`consume` are `n, n + 1, ..., n + k - 1`, in the order in which they finished. -/
theorem concurrent_nonce_allocation (keccak : Keccak) (t : NonceTable)
    (requests : List (Address × RequestEnv)) (account : Address) (n : Nat)
    (schedule : List Nat) :
    (∀ (i j : Nat) (ci cj : Call),
      (Burst.run keccak (Burst.init t requests) schedule).calls[i]? = some ci →
      (Burst.run keccak (Burst.init t requests) schedule).calls[j]? = some cj →
      ci.account = account → cj.account = account →
      ci.pc.inCriticalSection = true → cj.pc.inCriticalSection = true → i = j) ∧
    ((∀ s, storedNonce keccak t account = some s → s + 1 = n) →
      (∀ r ∈ requests, r.1 = account → r.2.persistFault = none) →
      Burst.chainInRange keccak account n (Burst.init t requests) schedule = true →
      n + ((Burst.run keccak (Burst.init t requests) schedule).issued keccak account).length
        ≤ 2 ^ 64 →
      (Burst.run keccak (Burst.init t requests) schedule).issued keccak account
        = List.range' n
          ((Burst.run keccak (Burst.init t requests) schedule).issued keccak account).length) :=
  ⟨(Excl_run keccak account schedule _ (Excl_init keccak account t requests)).mutex,
    fun h0 hp hchain hwrap =>
      (Inv_run keccak account n schedule _ _ (Excl_init keccak account t requests)
        (Inv_init keccak account n t requests h0 hp) hchain hwrap).issued⟩

/-- Witness for C26: three calls for the sample account and one for another account take
turns, the sample account without a row; all return and the sample account is issued 5, 6
and 7. With the stored nonce 7 and the chain reporting 5, 5 and 8, three calls are issued 8,
9 and 10. -/
theorem concurrent_nonce_allocation_witness :
    (Burst.run sampleKeccak (Burst.init [] sampleRequests) roundRobin).issued sampleKeccak
      sampleAccount = [5, 6, 7] ∧
    ((Burst.run sampleKeccak (Burst.init [] sampleRequests) roundRobin).calls.map
      fun c => c.pc) = [.done none, .done none, .done none, .done none] ∧
    (Burst.run sampleKeccak (Burst.init [] sampleRequests) roundRobin).issued sampleKeccak
        sampleAccount
      = List.range' 5
        ((Burst.run sampleKeccak (Burst.init [] sampleRequests) roundRobin).issued
          sampleKeccak sampleAccount).length ∧
    (Burst.run sampleKeccak (Burst.init (sampleRow 7) laggingRequests) oneByOneThree).issued
      sampleKeccak sampleAccount = [8, 9, 10] ∧
    (Burst.run sampleKeccak (Burst.init (sampleRow 7) laggingRequests) oneByOneThree).issued
        sampleKeccak sampleAccount
      = List.range' 8
        ((Burst.run sampleKeccak (Burst.init (sampleRow 7) laggingRequests)
          oneByOneThree).issued sampleKeccak sampleAccount).length :=
  ⟨by decide, by decide,
    (concurrent_nonce_allocation sampleKeccak [] sampleRequests sampleAccount 5 roundRobin).2
      (by decide) (by decide) (by decide) (by decide),
    by decide,
    (concurrent_nonce_allocation sampleKeccak (sampleRow 7) laggingRequests sampleAccount 8
      oneByOneThree).2 (by decide) (by decide) (by decide) (by decide)⟩

/-- C26, failing inputs; in (1) to (3) every `consume` succeeds and every call returns
without error. (1) No row, the chain reports 5 to both calls and the store write of the
first call fails: both calls pass 5. (2) No row, the chain reports 5 and then 9: the nonces
are 5 and 9. (3) The stored nonce is `2 ^ 64 - 1` and the chain reports 5: the nonce passed
is 0. (4) No row, the chain reports 5 to a first call, whose `consume` fails, and 3 to the
second, whose `consume` succeeds: the nonce issued is 3, below the 5 of the start. -/
theorem concurrent_duplicate_nonce :
    ((Burst.run sampleKeccak
      (Burst.init [] [(sampleAccount, forgetfulEnv 5), (sampleAccount, calmEnv 5)])
      oneByOne).issued sampleKeccak sampleAccount = [5, 5] ∧
    ((Burst.run sampleKeccak
      (Burst.init [] [(sampleAccount, forgetfulEnv 5), (sampleAccount, calmEnv 5)])
      oneByOne).calls.map fun c => c.pc) = [.done none, .done none] ∧
    Burst.chainInRange sampleKeccak sampleAccount 5
      (Burst.init [] [(sampleAccount, forgetfulEnv 5), (sampleAccount, calmEnv 5)])
      oneByOne = true) ∧
    (Burst.run sampleKeccak
      (Burst.init [] [(sampleAccount, calmEnv 5), (sampleAccount, calmEnv 9)])
      oneByOne).issued sampleKeccak sampleAccount = [5, 9] ∧
    ((Burst.run sampleKeccak
      (Burst.init (sampleRow (2 ^ 64 - 1)) [(sampleAccount, calmEnv 5)])
      oneByOne).issued sampleKeccak sampleAccount = [0] ∧
    Burst.chainInRange sampleKeccak sampleAccount (2 ^ 64)
      (Burst.init (sampleRow (2 ^ 64 - 1)) [(sampleAccount, calmEnv 5)]) oneByOne = true) ∧
    (Burst.run sampleKeccak
      (Burst.init [] [(sampleAccount, rejectingEnv 5), (sampleAccount, calmEnv 3)])
      oneByOne).issued sampleKeccak sampleAccount = [3] := by
  decide
end EvmGridBot
